import Mathlib

/-!
# tf-migrate: the state transformation handler

A shallow embedding of `internal/handlers/state_transform.go`
(`StateTransformHandler.Handle`) and of the parts of the `gjson` / `sjson`
libraries the handler calls.

Modelling decisions, all of them visible in the definitions below:

* A JSON text is represented by its parse tree (`Json`).  Object members are an
  ordered association list, so duplicate keys are representable; like `gjson`
  and `sjson`, every lookup and every update addresses the first member with the
  given key.  Insignificant whitespace is not represented.
* A `gjson.Result` is an `Option Json`; `none` is the result that does not exist.
* Path strings are kept as the list of their dot-separated parts.  All parts the
  handler produces are plain names or decimal numbers printed with `%d`.
* `ctx.Content` and `ctx.StateJSON` are a `Document`: either text that is not
  well-formed JSON (the empty text included) or a parsed JSON value.
* A migrator's `TransformState` returns `Except String (Option Json)`:
  `.error msg` is a non-nil `error` with message `msg`, `.ok none` is the empty
  string, `.ok (some j)` is the JSON text of `j`.  Neither migrator of the
  repository reads or writes its `ctx` argument and the model does not pass it.
* Logging (`h.log`) has no effect on the result and is left out.
* Positions in arrays are natural numbers without a machine bound; the integer
  an object key parses to is an `int64`.
-/

namespace TfMigrate

/-! ## JSON values -/

/-- A parsed JSON value.  A number keeps the token as it is written. -/
inductive Json where
  | null
  | bool (b : Bool)
  | num (raw : String)
  | str (s : String)
  | arr (elems : List Json)
  | obj (members : List (String × Json))
  deriving Repr

mutual
/-- Decidable equality of JSON values. -/
def Json.decEq : (a b : Json) → Decidable (a = b)
  | .null, .null => isTrue rfl
  | .bool a, .bool b =>
    if h : a = b then isTrue (by rw [h]) else isFalse (by intro e; cases e; exact h rfl)
  | .num a, .num b =>
    if h : a = b then isTrue (by rw [h]) else isFalse (by intro e; cases e; exact h rfl)
  | .str a, .str b =>
    if h : a = b then isTrue (by rw [h]) else isFalse (by intro e; cases e; exact h rfl)
  | .arr a, .arr b =>
    match Json.decEqList a b with
    | isTrue h => isTrue (by rw [h])
    | isFalse h => isFalse (by intro e; cases e; exact h rfl)
  | .obj a, .obj b =>
    match Json.decEqMembers a b with
    | isTrue h => isTrue (by rw [h])
    | isFalse h => isFalse (by intro e; cases e; exact h rfl)
  | .null, .bool _ => isFalse (by intro e; cases e)
  | .null, .num _ => isFalse (by intro e; cases e)
  | .null, .str _ => isFalse (by intro e; cases e)
  | .null, .arr _ => isFalse (by intro e; cases e)
  | .null, .obj _ => isFalse (by intro e; cases e)
  | .bool _, .null => isFalse (by intro e; cases e)
  | .bool _, .num _ => isFalse (by intro e; cases e)
  | .bool _, .str _ => isFalse (by intro e; cases e)
  | .bool _, .arr _ => isFalse (by intro e; cases e)
  | .bool _, .obj _ => isFalse (by intro e; cases e)
  | .num _, .null => isFalse (by intro e; cases e)
  | .num _, .bool _ => isFalse (by intro e; cases e)
  | .num _, .str _ => isFalse (by intro e; cases e)
  | .num _, .arr _ => isFalse (by intro e; cases e)
  | .num _, .obj _ => isFalse (by intro e; cases e)
  | .str _, .null => isFalse (by intro e; cases e)
  | .str _, .bool _ => isFalse (by intro e; cases e)
  | .str _, .num _ => isFalse (by intro e; cases e)
  | .str _, .arr _ => isFalse (by intro e; cases e)
  | .str _, .obj _ => isFalse (by intro e; cases e)
  | .arr _, .null => isFalse (by intro e; cases e)
  | .arr _, .bool _ => isFalse (by intro e; cases e)
  | .arr _, .num _ => isFalse (by intro e; cases e)
  | .arr _, .str _ => isFalse (by intro e; cases e)
  | .arr _, .obj _ => isFalse (by intro e; cases e)
  | .obj _, .null => isFalse (by intro e; cases e)
  | .obj _, .bool _ => isFalse (by intro e; cases e)
  | .obj _, .num _ => isFalse (by intro e; cases e)
  | .obj _, .str _ => isFalse (by intro e; cases e)
  | .obj _, .arr _ => isFalse (by intro e; cases e)
/-- Decidable equality of lists of JSON values. -/
def Json.decEqList : (a b : List Json) → Decidable (a = b)
  | [], [] => isTrue rfl
  | [], _ :: _ => isFalse (by intro e; cases e)
  | _ :: _, [] => isFalse (by intro e; cases e)
  | x :: xs, y :: ys =>
    match Json.decEq x y, Json.decEqList xs ys with
    | isTrue h1, isTrue h2 => isTrue (by rw [h1, h2])
    | isFalse h1, _ => isFalse (by intro e; cases e; exact h1 rfl)
    | _, isFalse h2 => isFalse (by intro e; cases e; exact h2 rfl)
/-- Decidable equality of member lists. -/
def Json.decEqMembers : (a b : List (String × Json)) → Decidable (a = b)
  | [], [] => isTrue rfl
  | [], _ :: _ => isFalse (by intro e; cases e)
  | _ :: _, [] => isFalse (by intro e; cases e)
  | (k1, x) :: xs, (k2, y) :: ys =>
    if hk : k1 = k2 then
      match Json.decEq x y, Json.decEqMembers xs ys with
      | isTrue h1, isTrue h2 => isTrue (by rw [hk, h1, h2])
      | isFalse h1, _ => isFalse (by intro e; cases e; exact h1 rfl)
      | _, isFalse h2 => isFalse (by intro e; cases e; exact h2 rfl)
    else isFalse (by intro e; cases e; exact hk rfl)
end

instance : DecidableEq Json := Json.decEq

mutual
/-- The text of a value, written without insignificant whitespace and without
escape sequences in strings.  It stands for `Result.Raw` of an array or object,
which the handler reads only when the `mode`, `type` or `name` of an entry is
itself an array or object. -/
def Json.render : Json → String
  | .null => "null"
  | .bool true => "true"
  | .bool false => "false"
  | .num raw => raw
  | .str s => "\"" ++ s ++ "\""
  | .arr xs => "[" ++ Json.renderList xs ++ "]"
  | .obj ms => "\x7b" ++ Json.renderMembers ms ++ "\x7d"
/-- The elements of an array, separated by commas. -/
def Json.renderList : List Json → String
  | [] => ""
  | [x] => Json.render x
  | x :: y :: xs => Json.render x ++ "," ++ Json.renderList (y :: xs)
/-- The members of an object, separated by commas. -/
def Json.renderMembers : List (String × Json) → String
  | [] => ""
  | [(k, x)] => "\"" ++ k ++ "\":" ++ Json.render x
  | (k, x) :: y :: xs =>
    "\"" ++ k ++ "\":" ++ Json.render x ++ "," ++ Json.renderMembers (y :: xs)
end

/-! ## Decimal numbers in path parts and keys -/

/-- One digit more: the accumulated value times ten plus the digit, `none` once a
character is not a decimal digit. -/
def digitStep (acc : Option Nat) (c : Char) : Option Nat :=
  match acc with
  | none => none
  | some n => if '0' ≤ c ∧ c ≤ '9' then some (n * 10 + (c.toNat - 48)) else none

/-- The value of a run of decimal digits, `none` when a character is not a digit.
The empty run has value `0`. -/
def digitsValue (cs : List Char) : Option Nat :=
  cs.foldl digitStep (some 0)

/-- The `parseUint` of gjson: a non-empty run of decimal digits.  Array positions
are not bounded by the machine word in the model. -/
def parseUint (s : String) : Option Nat :=
  if s.data = [] then none else digitsValue s.data

/-- The `atoui` of sjson: a run of decimal digits, the empty one included. -/
def atoui (s : String) : Option Nat :=
  digitsValue s.data

/-- The value of an unbounded integer stored in an `int64`. -/
def wrapInt64 (v : Int) : Int :=
  (v + 2 ^ 63) % 2 ^ 64 - 2 ^ 63

/-- The `parseInt` of gjson followed by the `n, _ :=` of `Result.Int`: an
optional `-` and a non-empty run of digits, accumulated in an `int64`; `0` for
every other text. -/
def parseInt (s : String) : Int :=
  match s.data with
  | '-' :: cs =>
    if cs = [] then 0 else
    match digitsValue cs with
    | some n => wrapInt64 (-(n : Int))
    | none => 0
  | cs =>
    if cs = [] then 0 else
    match digitsValue cs with
    | some n => wrapInt64 (n : Int)
    | none => 0

/-- The text `fmt.Sprintf("%d", n)` prints. -/
def formatInt : Int → String
  | .ofNat m => Nat.repr m
  | .negSucc m => "-" ++ Nat.repr (m + 1)

/-! ## gjson -/

/-- First member of an object with the given key. -/
def lookupMember (key : String) : List (String × Json) → Option Json
  | [] => none
  | (k, v) :: rest => if k = key then some v else lookupMember key rest

/-- One step of `gjson.Get` for a plain path part: the first member with that
key in an object, the element at that position in an array. -/
def Json.child (j : Json) (part : String) : Option Json :=
  match j with
  | .obj ms => lookupMember part ms
  | .arr xs =>
    match parseUint part with
    | some n => xs.get? n
    | none => none
  | _ => none

/-- `Result.Get` with a one-part path. -/
def gjsonGet (r : Option Json) (part : String) : Option Json :=
  r.bind (fun j => j.child part)

/-- `Result.Exists`. -/
def gjsonExists (r : Option Json) : Bool :=
  r.isSome

/-- `Result.String`: the text of a string, the token of a number, `true`,
`false`, the raw text of an array or object, and the empty string for `null`
and for a result that does not exist.  (For a number token with a fraction or
an exponent gjson prints the parsed float; the model keeps the token.) -/
def gjsonString : Option Json → String
  | none => ""
  | some .null => ""
  | some (.bool true) => "true"
  | some (.bool false) => "false"
  | some (.num raw) => raw
  | some (.str s) => s
  | some (.arr xs) => (Json.arr xs).render
  | some (.obj ms) => (Json.obj ms).render

/-- Array elements paired with their position, counted from `start`. -/
def indexed (start : Nat) : List Json → List (Int × Json)
  | [] => []
  | x :: xs => ((start : Int), x) :: indexed (start + 1) xs

/-- The calls `Result.ForEach` makes when the callback always returns `true`,
as pairs of `key.Int()` and the value: the elements of an array with their
position, the members of an object with the integer their key parses to, and a
single call with key `0` for any other existing value. -/
def gjsonForEach : Option Json → List (Int × Json)
  | none => []
  | some (.arr xs) => indexed 0 xs
  | some (.obj ms) => ms.map (fun m => (parseInt m.1, m.2))
  | some v => [(0, v)]

/-! ## sjson -/

/-- Replace the value of the first member with the given key. -/
def replaceMember (key : String) (v : Json) : List (String × Json) → List (String × Json)
  | [] => []
  | (k, x) :: rest => if k = key then (k, v) :: rest else (k, x) :: replaceMember key v rest

/-- Remove the first member with the given key. -/
def eraseMember (key : String) : List (String × Json) → List (String × Json)
  | [] => []
  | (k, x) :: rest => if k = key then rest else (k, x) :: eraseMember key rest

/-- Put `v` in the place of the child `Json.child` finds. -/
def Json.replaceChild (j : Json) (part : String) (v : Json) : Json :=
  match j with
  | .obj ms => .obj (replaceMember part v ms)
  | .arr xs =>
    match parseUint part with
    | some n => .arr (xs.set n v)
    | none => j
  | _ => j

/-- Remove the child `Json.child` finds. -/
def Json.eraseChild (j : Json) (part : String) : Json :=
  match j with
  | .obj ms => .obj (eraseMember part ms)
  | .arr xs =>
    match parseUint part with
    | some n => .arr (xs.eraseIdx n)
    | none => j
  | _ => j

/-- The value sjson builds for a path that does not exist yet (`appendBuild`):
an array for a numeric part (padded with `null`) and for `-1`, an object for
any other part. -/
def buildValue : List String → Json → Json
  | [], raw => raw
  | q :: qs, raw =>
    match atoui q with
    | some n => .arr (List.replicate n .null ++ [buildValue qs raw])
    | none =>
      if q = "-1" then .arr [buildValue qs raw] else .obj [(q, buildValue qs raw)]

/-- The branch of `appendRawPaths` for a child that does not exist: `v`, the
value built for the rest of the path, is appended to an object under the key
`p`; in an array it is appended after padding with `null` up to position `p`; a
value that is neither is first replaced by an empty array (numeric `p`) or an
empty object.  The error is the one sjson returns for a non-numeric part in an
array. -/
def appendMissing (j : Json) (p : String) (v : Json) : Except String Json :=
  match j with
  | .obj ms => .ok (.obj (ms ++ [(p, v)]))
  | .arr xs =>
    match atoui p with
    | some n => .ok (.arr (xs ++ List.replicate (n - xs.length) .null ++ [v]))
    | none =>
      if p = "-1" then .ok (.arr (xs ++ [v]))
      else .error ("cannot set array element for non-numeric key " ++
        String.singleton (Char.ofNat 39) ++ p ++ String.singleton (Char.ofNat 39))
  | _ =>
    match atoui p with
    | some n => .ok (.arr (List.replicate n .null ++ [v]))
    | none => .ok (.obj [(p, v)])

/-- The function `sjson.SetRaw` (`appendRawPaths` without deletion): an existing
child is replaced by the new value at the end of the path and descended into
before it; a missing child is created by `appendMissing`. -/
def sjsonSetRaw : Json → List String → Json → Except String Json
  | _, [], _ => .error "path cannot be empty"
  | j, [p], raw =>
    match j.child p with
    | some _ => .ok (j.replaceChild p raw)
    | none => appendMissing j p raw
  | j, p :: q :: qs, raw =>
    match j.child p with
    | some c =>
      match sjsonSetRaw c (q :: qs) raw with
      | .ok c2 => .ok (j.replaceChild p c2)
      | .error e => .error e
    | none => appendMissing j p (buildValue (q :: qs) raw)

/-- The function `sjson.Set` with a string value. -/
def sjsonSet (j : Json) (path : List String) (value : String) : Except String Json :=
  sjsonSetRaw j path (.str value)

/-- The child a deletion addresses, with the path part that finds it: for the
part `-1` in a non-empty array the last element, otherwise the child
`Json.child` finds.  (On an object sjson would first read a member named `#`
for the part `-1`; the model does not.) -/
def deleteTarget (j : Json) (p : String) : Option (String × Json) :=
  if p = "-1" then
    match j with
    | .arr (x :: xs) => some (Nat.repr xs.length, (x :: xs).getLast (List.cons_ne_nil x xs))
    | _ => (j.child p).map (fun c => (p, c))
  else (j.child p).map (fun c => (p, c))

/-- The function `sjson.Delete` as the handler uses it, with the error
discarded: the addressed value is removed, and a path that addresses nothing
leaves the document as it is. -/
def sjsonDelete : Json → List String → Json
  | j, [] => j
  | j, [p] =>
    match deleteTarget j p with
    | some (q, _) => j.eraseChild q
    | none => j
  | j, p :: p2 :: ps =>
    match deleteTarget j p with
    | some (q, c) => j.replaceChild q (sjsonDelete c (p2 :: ps))
    | none => j

/-- The dotted text of a path. -/
def pathString (parts : List String) : String :=
  String.intercalate "." parts

/-! ## The context and the migrator contract -/

/-- Severity of a diagnostic (`hcl.DiagError`, `hcl.DiagWarning`). -/
inductive DiagSeverity where
  | error
  | warning
  deriving DecidableEq, Repr

/-- The fields of `hcl.Diagnostic` the handler fills in. -/
structure Diagnostic where
  Severity : DiagSeverity
  Summary : String
  Detail : String
  deriving DecidableEq, Repr

/-- The content of `ctx.Content` and of `ctx.StateJSON`: text that is not
well-formed JSON (`gjson.Valid` rejects it; the empty text is one such), or a
well-formed JSON text, given by its value. -/
inductive Document where
  | raw (bytes : String)
  | json (doc : Json)
  deriving DecidableEq, Repr

/-- A value stored in `ctx.Metadata`. -/
inductive MetaValue where
  | int (n : Int)
  | other (shown : String)
  deriving DecidableEq, Repr

/-- The fields of `transform.Context` the handler reads or writes. -/
structure Context where
  Content : Document
  StateJSON : Document
  SourceVersion : String
  TargetVersion : String
  Diagnostics : List Diagnostic
  Metadata : List (String × MetaValue)
  deriving DecidableEq, Repr

/-- The assignment `m[key] = v` on a map kept as an association list. -/
def setMeta (key : String) (v : MetaValue) :
    List (String × MetaValue) → List (String × MetaValue)
  | [] => [(key, v)]
  | (k, x) :: rest => if k = key then (k, v) :: rest else (k, x) :: setMeta key v rest

/-- The lookup `m[key]` on a map kept as an association list. -/
def getMeta (key : String) : List (String × MetaValue) → Option MetaValue
  | [] => none
  | (k, x) :: rest => if k = key then some x else getMeta key rest

/-- The part of the migrator contract the state handler calls. -/
structure Migrator where
  CanHandle : String → Bool
  GetResourceType : String
  TransformState : Json → String → String → Except String (Option Json)

/-- The registry lookup `GetMigrator(resourceType, sourceVersion, targetVersion)`;
`none` is the nil migrator. -/
structure MigrationProvider where
  GetMigrator : String → String → String → Option Migrator

/-- What a handler returns: the context and the error, `none` for `nil`. -/
abbrev HandlerResult := Context × Option String

/-- The handler: its provider and the rest of the chain, `none` when it is the
last handler. -/
structure StateTransformHandler where
  provider : MigrationProvider
  next : Option (Context → HandlerResult)

/-- Modelled from the spec: `BaseHandler.Next` (package `internal/transform`,
not among the sources): the handler hands the context to the next stage, and
the last handler of the chain returns the context with no error. -/
def StateTransformHandler.Next (h : StateTransformHandler) (ctx : Context) : HandlerResult :=
  match h.next with
  | some f => f ctx
  | none => (ctx, none)

/-! ## StateTransformHandler.Handle -/

/-- The variables the loop of `Handle` updates. -/
structure LoopState where
  modifiedState : Json
  transformedCount : Nat
  datasourceIndices : List Int
  diagnostics : List Diagnostic
  deriving DecidableEq, Repr

/-- The path `resources.<key>.instances.<instKey>`. -/
def instancePath (key instKey : Int) : List String :=
  ["resources", formatInt key, "instances", formatInt instKey]

/-- The callback of `instances.ForEach` (lines 91-126). -/
def instanceStep (migrator : Migrator) (resourceType resourceName : String) (key : Int)
    (st : LoopState) (inst : Int × Json) : LoopState :=
  let resourcePath := instancePath key inst.1
  match migrator.TransformState inst.2 (pathString resourcePath) resourceName with
  | .error err =>
    { st with diagnostics := st.diagnostics ++
        [⟨.error, "Failed to transform resource: " ++ resourceType, err⟩] }
  | .ok none => st
  | .ok (some transformedJSON) =>
    match sjsonSetRaw st.modifiedState resourcePath transformedJSON with
    | .error err =>
      { st with diagnostics := st.diagnostics ++
          [⟨.error, "Failed to update state JSON for resource: " ++ resourceType, err⟩] }
    | .ok newState =>
      { st with modifiedState := newState, transformedCount := st.transformedCount + 1 }

/-- The type rename of lines 80-88; the error of `sjson.Set` is discarded and
the document is then the one before the call. -/
def renameStep (migrator : Migrator) (resourceType : String) (key : Int)
    (st : LoopState) : LoopState :=
  if migrator.CanHandle resourceType then
    let newResourceType := migrator.GetResourceType
    if newResourceType ≠ "" ∧ newResourceType ≠ resourceType then
      match sjsonSet st.modifiedState ["resources", formatInt key, "type"] newResourceType with
      | .ok newState => { st with modifiedState := newState }
      | .error _ => st
    else st
  else st

/-- The callback of `resources.ForEach` (lines 48-129). -/
def resourceStep (provider : MigrationProvider) (sourceVersion targetVersion : String)
    (st : LoopState) (entry : Int × Json) : LoopState :=
  let key := entry.1
  let resource := some entry.2
  let mode := gjsonString (gjsonGet resource "mode")
  if mode = "data" then
    { st with datasourceIndices := st.datasourceIndices ++ [key] }
  else
    let resourceType := gjsonString (gjsonGet resource "type")
    if resourceType = "" then st
    else
      match provider.GetMigrator resourceType sourceVersion targetVersion with
      | none =>
        { st with diagnostics := st.diagnostics ++
            [⟨.warning, "Failed to transform resource: " ++ resourceType,
              "No migrator found for state resource: " ++ resourceType ++ " (v" ++
                sourceVersion ++ " -> v" ++ targetVersion ++ ")"⟩] }
      | some migrator =>
        let instances := gjsonGet resource "instances"
        if !gjsonExists instances then st
        else
          let st1 := renameStep migrator resourceType key st
          let resourceName := gjsonString (gjsonGet resource "name")
          (gjsonForEach instances).foldl
            (instanceStep migrator resourceType resourceName key) st1

/-- The removal loop of lines 132-137: the recorded positions, last one first. -/
def removeDatasources (modifiedState : Json) (datasourceIndices : List Int) : Json :=
  datasourceIndices.reverse.foldl
    (fun doc idx => sjsonDelete doc ["resources", formatInt idx]) modifiedState

/-- The method `StateTransformHandler.Handle`. -/
def StateTransformHandler.Handle (h : StateTransformHandler) (ctx : Context) : HandlerResult :=
  match ctx.Content with
  | .raw bytes =>
    if bytes.length = 0 then (ctx, some "state content is empty")
    else (ctx, some "invalid JSON in state file")
  | .json stateJSON =>
    let resources := gjsonGet (some stateJSON) "resources"
    if !gjsonExists resources then h.Next ctx
    else
      let st := (gjsonForEach resources).foldl
        (resourceStep h.provider ctx.SourceVersion ctx.TargetVersion)
        { modifiedState := stateJSON, transformedCount := 0, datasourceIndices := [],
          diagnostics := ctx.Diagnostics }
      let modifiedState := removeDatasources st.modifiedState st.datasourceIndices
      h.Next
        { ctx with
          Content :=
            if st.transformedCount > 0 ∨ st.datasourceIndices.length > 0
            then .json modifiedState else ctx.Content
          StateJSON := .json modifiedState
          Diagnostics := st.diagnostics
          Metadata :=
            setMeta "datasources_removed" (.int st.datasourceIndices.length)
              (setMeta "state_transformations" (.int st.transformedCount) ctx.Metadata) }

/-! ## The loop of `Handle`, entry by entry

The definitions of this section describe what the loop does to one resource
entry taken on its own.  They are compared with the handler in the theorems
below (`resourceStep_eq`, `foldl_resourceStep`, `Handle_resources`). -/

/-- The test of line 52 on a resource entry. -/
def isDatasource (resource : Json) : Bool :=
  decide (gjsonString (gjsonGet (some resource) "mode") = "data")

/-- What the loop produces for one entry: the entry as rewritten, the number of
instances patched, and the diagnostics appended. -/
structure EntryAcc where
  entry : Json
  count : Nat
  diags : List Diagnostic
  deriving DecidableEq, Repr

/-- The callback of `instances.ForEach` acting on the entry alone: the patch is
applied at `instances.<instKey>` of the entry. -/
def entryInstanceStep (migrator : Migrator) (resourceType resourceName : String) (key : Int)
    (acc : EntryAcc) (inst : Int × Json) : EntryAcc :=
  match migrator.TransformState inst.2 (pathString (instancePath key inst.1)) resourceName with
  | .error err =>
    { acc with diags := acc.diags ++
        [⟨.error, "Failed to transform resource: " ++ resourceType, err⟩] }
  | .ok none => acc
  | .ok (some transformedJSON) =>
    match sjsonSetRaw acc.entry ["instances", formatInt inst.1] transformedJSON with
    | .error err =>
      { acc with diags := acc.diags ++
          [⟨.error, "Failed to update state JSON for resource: " ++ resourceType, err⟩] }
    | .ok newEntry => { acc with entry := newEntry, count := acc.count + 1 }

/-- The type rename acting on the entry alone. -/
def entryRename (migrator : Migrator) (resourceType : String) (e : Json) : Json :=
  if migrator.CanHandle resourceType then
    if migrator.GetResourceType ≠ "" ∧ migrator.GetResourceType ≠ resourceType then
      match sjsonSet e ["type"] migrator.GetResourceType with
      | .ok e2 => e2
      | .error _ => e
    else e
  else e

/-- The callback of `resources.ForEach` acting on the entry alone. -/
def entryResult (provider : MigrationProvider) (sourceVersion targetVersion : String)
    (key : Int) (e : Json) : EntryAcc :=
  if isDatasource e then ⟨e, 0, []⟩
  else
    let resourceType := gjsonString (gjsonGet (some e) "type")
    if resourceType = "" then ⟨e, 0, []⟩
    else
      match provider.GetMigrator resourceType sourceVersion targetVersion with
      | none =>
        ⟨e, 0, [⟨.warning, "Failed to transform resource: " ++ resourceType,
          "No migrator found for state resource: " ++ resourceType ++ " (v" ++
            sourceVersion ++ " -> v" ++ targetVersion ++ ")"⟩]⟩
      | some migrator =>
        if !gjsonExists (gjsonGet (some e) "instances") then ⟨e, 0, []⟩
        else
          (gjsonForEach (gjsonGet (some e) "instances")).foldl
            (entryInstanceStep migrator resourceType
              (gjsonString (gjsonGet (some e) "name")) key)
            ⟨entryRename migrator resourceType e, 0, []⟩

/-- The results for the entries of a list whose first element has position `start`. -/
def entryResults (provider : MigrationProvider) (sourceVersion targetVersion : String)
    (start : Nat) (es : List Json) : List EntryAcc :=
  (indexed start es).map (fun p => entryResult provider sourceVersion targetVersion p.1 p.2)

/-- The positions of the data-mode entries, in ascending order. -/
def dataIndices (start : Nat) (es : List Json) : List Int :=
  ((indexed start es).filter (fun p => isDatasource p.2)).map (fun p => p.1)

/-- The document with the value of its first `resources` member replaced by the
array of the given entries. -/
def withResources (ms : List (String × Json)) (es : List Json) : Json :=
  .obj (replaceMember "resources" (.arr es) ms)

/-- The elements of `cur` at the positions where the entry of `es` is not a
data-mode entry. -/
def keepManaged : List Json → List Json → List Json
  | e :: es, c :: cur => if isDatasource e then keepManaged es cur else c :: keepManaged es cur
  | _, _ => []

/-- Two entries agree everywhere except, possibly, in the value of the first
`type` member and in the value of the first `instances` member. -/
def sameFrame (e e2 : Json) : Prop :=
  (e2.replaceChild "instances" .null).replaceChild "type" .null
    = (e.replaceChild "instances" .null).replaceChild "type" .null

instance (e e2 : Json) : Decidable (sameFrame e e2) := by
  unfold sameFrame; infer_instance

/-- The context `Handle` hands to the next handler for a document whose
`resources` member is the array `es`. -/
def handedOver (provider : MigrationProvider) (ctx : Context)
    (ms : List (String × Json)) (es : List Json) : Context :=
  let rs := entryResults provider ctx.SourceVersion ctx.TargetVersion 0 es
  let count : Nat := (rs.map (fun r => r.count)).sum
  let removed : Nat := (dataIndices 0 es).length
  let modifiedState := withResources ms (keepManaged es (rs.map (fun r => r.entry)))
  { ctx with
    Content := if count > 0 ∨ removed > 0 then .json modifiedState else ctx.Content
    StateJSON := .json modifiedState
    Diagnostics := ctx.Diagnostics ++ (rs.map (fun r => r.diags)).flatten
    Metadata :=
      setMeta "datasources_removed" (.int removed)
        (setMeta "state_transformations" (.int count) ctx.Metadata) }

/-! ## The deletion order, as the specification words it -/

/-- The position of the first data-mode entry of the document's resource list,
found by scanning the list as it is now. -/
def firstDatasource (doc : Json) : Option Int :=
  ((gjsonForEach (gjsonGet (some doc) "resources")).find? (fun p => isDatasource p.2)).map
    (fun p => p.1)

/-- Removal with a fresh scan after each deletion: as long as a scan finds a
data-mode entry, that one entry is deleted and the list is scanned again.  The
first argument bounds the number of rounds. -/
def rescanRemoveFuel : Nat → Json → Json
  | 0, doc => doc
  | fuel + 1, doc =>
    match firstDatasource doc with
    | none => doc
    | some idx => rescanRemoveFuel fuel (sjsonDelete doc ["resources", formatInt idx])

/-- Removal with a fresh scan after each deletion, with one round for every
entry of the list. -/
def rescanRemove (doc : Json) : Json :=
  rescanRemoveFuel (gjsonForEach (gjsonGet (some doc) "resources")).length doc

/-- The loop state in which entry `i` of the list `cur` has been replaced by the
entry of `acc`, and the counter and the diagnostics have grown by those of `acc`. -/
def liftState (ms : List (String × Json)) (cur : List Json) (i : Nat) (c0 : Nat)
    (idxs : List Int) (d0 : List Diagnostic) (acc : EntryAcc) : LoopState :=
  ⟨withResources ms (cur.set i acc.entry), c0 + acc.count, idxs, d0 ++ acc.diags⟩

/-! ## Reading the output -/

/-- The entries of the resource list of a document, when it has one. -/
def resourceList : Document → Option (List Json)
  | .json j =>
    match j.child "resources" with
    | some (.arr es) => some es
    | _ => none
  | .raw _ => none

/-- The function `gjson.Get` with a path of plain parts. -/
def getPath : Json → List String → Option Json
  | j, [] => some j
  | j, p :: ps =>
    match j.child p with
    | some v => getPath v ps
    | none => none

/-- The number of data-mode entries among the first `i` entries: the distance by
which the removal of data-mode entries moves entry `i` towards the front. -/
def removedBefore (es : List Json) (i : Nat) : Nat :=
  (es.take i).countP isDatasource

/-- The instance the loop leaves at a position of an instance list: the output of
`TransformState` when it is not empty, and the instance itself when the
migrator fails or returns the empty string. -/
def patchedInstance (migrator : Migrator) (resourceName : String) (key : Int)
    (inst : Int × Json) : Json :=
  match migrator.TransformState inst.2 (pathString (instancePath key inst.1)) resourceName with
  | .ok (some transformedJSON) => transformedJSON
  | _ => inst.2

/-- Whether `TransformState` succeeds on an instance with a non-empty output. -/
def transformSucceeds (migrator : Migrator) (resourceName : String) (key : Int)
    (inst : Int × Json) : Bool :=
  match migrator.TransformState inst.2 (pathString (instancePath key inst.1)) resourceName with
  | .ok (some _) => true
  | _ => false

/-- The number of instances of one entry whose transform succeeds with a
non-empty output: `0` for a data-mode entry, an entry without a type, an entry
without a migrator and an entry without an `instances` member. -/
def successCount (provider : MigrationProvider) (sourceVersion targetVersion : String)
    (entry : Int × Json) : Nat :=
  if isDatasource entry.2 then 0
  else
    let resourceType := gjsonString (gjsonGet (some entry.2) "type")
    if resourceType = "" then 0
    else
      match provider.GetMigrator resourceType sourceVersion targetVersion with
      | none => 0
      | some migrator =>
        (gjsonForEach (gjsonGet (some entry.2) "instances")).countP
          (transformSucceeds migrator (gjsonString (gjsonGet (some entry.2) "name")) entry.1)

/-- The output of a `TransformState` call as far as the document is concerned:
nothing for an error and for the empty string. -/
def outputOf : Except String (Option Json) → Option Json
  | .ok o => o
  | .error _ => none

/-- Two providers return, for every resource type, migrators that agree on
`CanHandle`, on `GetResourceType` and, call by call, on the output of
`TransformState`, where an error counts as no output. -/
def sameOutputs (p1 p2 : MigrationProvider) (sourceVersion targetVersion : String) : Prop :=
  ∀ resourceType : String,
    match p1.GetMigrator resourceType sourceVersion targetVersion,
      p2.GetMigrator resourceType sourceVersion targetVersion with
    | none, none => True
    | some m1, some m2 =>
      m1.CanHandle = m2.CanHandle ∧ m1.GetResourceType = m2.GetResourceType ∧
        ∀ (x : Json) (path name : String),
          outputOf (m1.TransformState x path name) = outputOf (m2.TransformState x path name)
    | _, _ => False

/-- Whether the text `sub` occurs in the text `s`. -/
def occursIn (sub s : String) : Bool :=
  s.data.tails.any (fun t => sub.data.isPrefixOf t)

/-! ## A small state document -/

/-- A migrator in the manner of the DNS record migrator: it renames
`cloudflare_record` and stamps `schema_version` on an object instance; it
returns the empty string for `null` and fails on any other instance. -/
def exampleMigrator : Migrator where
  CanHandle := fun t => decide (t = "cloudflare_record")
  GetResourceType := "cloudflare_dns_record"
  TransformState := fun inst _ _ =>
    match inst with
    | .obj ms => .ok (some (.obj (ms ++ [("schema_version", .num "0")])))
    | .null => .ok none
    | _ => .error "instance is not an object"

/-- A registry with the one migrator, for `cloudflare_record` from `v4` to `v5`. -/
def exampleProvider : MigrationProvider where
  GetMigrator := fun t s g =>
    if t = "cloudflare_record" ∧ s = "v4" ∧ g = "v5" then some exampleMigrator else none

/-- A data-mode entry, a DNS record entry with three instances, and an entry of
a type without migrator. -/
def exampleEntries : List Json :=
  [ .obj [("mode", .str "data"), ("type", .str "cloudflare_zone"), ("name", .str "z"),
      ("instances", .arr [.obj [("attributes", .obj [])]])],
    .obj [("mode", .str "managed"), ("type", .str "cloudflare_record"), ("name", .str "a"),
      ("instances", .arr [.obj [("attributes", .obj [])], .str "broken", .null])],
    .obj [("mode", .str "managed"), ("type", .str "other_type"), ("name", .str "b"),
      ("instances", .arr [.obj [("attributes", .obj [])]])] ]

/-- The members of the example document. -/
def exampleMembers : List (String × Json) :=
  [("version", .num "4"), ("resources", .arr exampleEntries)]

/-- The example context: the example document, migrated from `v4` to `v5`. -/
def exampleCtx : Context :=
  { Content := .json (.obj exampleMembers), StateJSON := .raw "", SourceVersion := "v4",
    TargetVersion := "v5", Diagnostics := [], Metadata := [] }

/-- The example context with a content that is not JSON. -/
def malformedCtx : Context :=
  { exampleCtx with Content := .raw "not json" }

/-- A document without a `resources` member. -/
def noResourcesCtx : Context :=
  { exampleCtx with Content := .json (.obj [("version", .num "4")]) }

/-- A document with an empty resource list. -/
def emptyListCtx : Context :=
  { exampleCtx with Content := .json (.obj [("version", .num "4"), ("resources", .arr [])]) }

/-- The state of the test `State without instances`: one DNS record entry whose
instance list is empty. -/
def renameOnlyEntry : Json :=
  .obj [("mode", .str "managed"), ("type", .str "cloudflare_record"), ("name", .str "empty"),
    ("instances", .arr [])]

/-- The context of the test `State without instances`. -/
def renameOnlyCtx : Context :=
  { exampleCtx with Content := .json (.obj [("resources", .arr [renameOnlyEntry])]) }

/-! ## The Go runtime behind the migrators

The migrators read numbers as `float64` and write Go values back as JSON.  The
model does not compute with floating-point numbers: a `float64` value is named
by the text `strconv.FormatFloat(f, 'f', -1, 64)` prints for it, and the library
functions that produce or print such values are the fields of `GoRuntime`. -/

/-- The functions of Go and its libraries the migrators call and the model takes
as given. -/
structure GoRuntime where
  /-- The `float64` a number token is read as (`Result.Float` of a number),
  named by its printed text. -/
  floatOf : String → String
  /-- The result of `strconv.ParseFloat(s, 64)`: the `float64` returned, named by
  its printed text, and whether the error is nil. -/
  parseFloat : String → String × Bool
  /-- The text the verb `%v` prints for a `float64`. -/
  formatG : String → String
  /-- The JSON text `json.Marshal` writes for `Result.Value()` of an array or
  object. -/
  remarshal : Json → Json
  /-- The text the verb `%v` prints for `Result.Value()` of an array or object. -/
  sprintComposite : Json → String

/-- Facts about the runtime: printing a `float64` and reading the text back
gives the same `float64`; marshalling the value of an array or object gives an
array or object that marshals to itself; and a natural number below `2 ^ 53`
written in decimal is read as itself and printed by `%v` in the same way. -/
structure GoRuntime.Sound (rt : GoRuntime) : Prop where
  float_idem : ∀ raw : String, rt.floatOf (rt.floatOf raw) = rt.floatOf raw
  parse_canonical : ∀ s : String,
    (rt.parseFloat s).2 = true → rt.floatOf (rt.parseFloat s).1 = (rt.parseFloat s).1
  remarshal_idem : ∀ j : Json, rt.remarshal (rt.remarshal j) = rt.remarshal j
  remarshal_arr : ∀ xs : List Json, ∃ ys, rt.remarshal (.arr xs) = .arr ys
  remarshal_obj : ∀ ms : List (String × Json), ∃ ns, rt.remarshal (.obj ms) = .obj ns
  int_exact : ∀ n : Nat, n < 2 ^ 53 →
    rt.floatOf (Nat.repr n) = Nat.repr n ∧ rt.formatG (Nat.repr n) = Nat.repr n

/-! ## More of gjson and sjson -/

/-- The test `Result.String` makes on a number token: after an optional `-`
every byte is a decimal digit. -/
def integerToken (raw : String) : Bool :=
  match raw.data with
  | '-' :: cs => (digitsValue cs).isSome
  | cs => (digitsValue cs).isSome

/-- The text `Result.String` returns for a number: the token when it has the
shape of an integer, and the printed `float64` otherwise. -/
def numberString (rt : GoRuntime) (raw : String) : String :=
  if integerToken raw then raw else rt.floatOf raw

/-- The function `Result.String`, with the exact text of a number. -/
def resultString (rt : GoRuntime) : Option Json → String
  | some (.num raw) => numberString rt raw
  | r => gjsonString r

/-- The function `Result.Float`, the `float64` named by its printed text: the
number itself, `1` for `true`, the value `strconv.ParseFloat` returns for a
string, and `0` for any other value. -/
def resultFloat (rt : GoRuntime) : Option Json → String
  | some (.num raw) => rt.floatOf raw
  | some (.bool true) => "1"
  | some (.str s) => (rt.parseFloat s).1
  | _ => "0"

/-- The function `Result.IsArray`. -/
def gjsonIsArray : Option Json → Bool
  | some (.arr _) => true
  | _ => false

/-- The function `Result.IsObject`. -/
def gjsonIsObject : Option Json → Bool
  | some (.obj _) => true
  | _ => false

/-- The function `Result.Array` of a result that is an array. -/
def gjsonArray : Option Json → List Json
  | some (.arr xs) => xs
  | some .null => []
  | none => []
  | some v => [v]

/-- What `Result.Get` returns for a path of several plain parts. -/
def gjsonGetPath (r : Option Json) (path : List String) : Option Json :=
  r.bind (fun j => getPath j path)

/-- The JSON text `sjson.Set` writes for `Result.Value()`: `null` for a null or
missing result, the boolean, the number read as `float64`, the string, and the
marshalled value of an array or object. -/
def jsonOfValue (rt : GoRuntime) : Option Json → Json
  | none => .null
  | some .null => .null
  | some (.bool b) => .bool b
  | some (.num raw) => .num (rt.floatOf raw)
  | some (.str s) => .str s
  | some j => rt.remarshal j

/-- The text the verb `%v` prints for `Result.Value()`. -/
def sprintValue (rt : GoRuntime) : Option Json → String
  | none => "<nil>"
  | some .null => "<nil>"
  | some (.bool true) => "true"
  | some (.bool false) => "false"
  | some (.num raw) => rt.formatG (rt.floatOf raw)
  | some (.str s) => s
  | some j => rt.sprintComposite j

/-- The functions `sjson.Set` and `sjson.SetRaw` on a well-formed document and
with a well-formed value, the error discarded: on an error the document is the
one before the call. -/
def sjsonSetOr (j : Json) (path : List String) (v : Json) : Json :=
  match sjsonSetRaw j path v with
  | .ok j2 => j2
  | .error _ => j

/-- A text a migrator works on or returns: the text of a JSON value; a bare
text, taken as it stands (the content of a string without its quotes, or the
empty text of `null`); or a text the model does not follow, which arises when a
bare text is put into a document or when a bare text with a brace or bracket is
edited. -/
inductive Text where
  | json (j : Json)
  | bare (s : String)
  | beyond
  deriving DecidableEq, Repr

/-- The text `Result.String` returns, as the text a migrator goes on to edit:
the raw text of an array or object, the token of a boolean or number, the empty
text for `null` and for a missing result, and the content of a string. -/
def stringText (rt : GoRuntime) : Option Json → Text
  | none => .bare ""
  | some .null => .bare ""
  | some (.str s) => .bare s
  | some (.num raw) => .json (.num (numberString rt raw))
  | some j => .json j

/-- Whether a text has a brace or a bracket, where gjson would start to read an
object or array. -/
def hasBracket (s : String) : Bool :=
  s.data.any (fun c => c = Char.ofNat 123 || c = Char.ofNat 91)

/-- The functions `sjson.Set` and `sjson.SetRaw` with a well-formed value, the
error discarded.  A bare text without brace or bracket is no object or array,
and sjson starts from an empty one. -/
def Text.set (t : Text) (path : List String) (v : Json) : Text :=
  match t with
  | .json j => .json (sjsonSetOr j path v)
  | .bare s =>
    if hasBracket s then .beyond
    else
      match sjsonSetRaw .null path v with
      | .ok j2 => .json j2
      | .error _ => .bare s
  | .beyond => .beyond

/-- The function `sjson.SetRaw` with a text as the raw value. -/
def Text.splice (t : Text) (path : List String) (raw : Text) : Text :=
  match raw with
  | .json v => t.set path v
  | _ => .beyond

/-- The function `sjson.Delete`, the error discarded. -/
def Text.delete (t : Text) (path : List String) : Text :=
  match t with
  | .json j => .json (sjsonDelete j path)
  | .bare s => if hasBracket s then .beyond else .bare s
  | .beyond => .beyond

/-- The value of the first member with the key set to `v`; a member is added at
the end when there is none. -/
def setMember (key : String) (v : Json) (ms : List (String × Json)) : List (String × Json) :=
  if (lookupMember key ms).isSome then replaceMember key v ms else ms ++ [(key, v)]


/-! ## The state primitives (package `internal/transform/state`)

The package is not among the sources; its functions are modelled from the
specification (section 4.3), with the arguments the migrators pass. -/

/-- Modelled from the spec: `state.ConvertToFloat64` (package
`internal/transform/state`, not among the sources), given as the JSON text of
the value it returns: a JSON number becomes that number as float, a string that
parses as a number becomes the parsed float, a non-numeric string is returned
unchanged, and `null` stays `null`.  The spec does not speak of other values;
they are returned as they are. -/
def state.ConvertToFloat64 (rt : GoRuntime) : Option Json → Json
  | some (.num raw) => .num (rt.floatOf raw)
  | some (.str s) => if (rt.parseFloat s).2 then .num (rt.parseFloat s).1 else .str s
  | some .null => .null
  | none => .null
  | some j => j

/-- Modelled from the spec: `state.EnsureField` (not among the sources): inserts
`name = default` only if absent in the value passed; otherwise no-op. -/
def state.EnsureField (result : Text) (path : List String) (instanceValue : Option Json)
    (name : String) (defaultValue : Json) : Text :=
  if gjsonExists (gjsonGet instanceValue name) then result
  else result.set (path ++ [name]) defaultValue

/-- Modelled from the spec: `state.RemoveFields` (not among the sources): deletes
each named field if present; absence of a field is not an error. -/
def state.RemoveFields (result : Text) (path : List String) (instanceValue : Option Json)
    (names : List String) : Text :=
  names.foldl
    (fun r name =>
      if gjsonExists (gjsonGet instanceValue name) then r.delete (path ++ [name]) else r)
    result

/-- A value that is `null`, an empty object or an empty array. -/
def isEmptyStructure : Json → Bool
  | .null => true
  | .obj [] => true
  | .arr [] => true
  | _ => false

/-- Modelled from the spec: `state.CleanupEmptyField` (not among the sources):
deletes `fieldPath` if its value is absent or is a degenerate/empty structure
(taken to be `null`, `{}` and `[]`); leaves it alone otherwise. -/
def state.CleanupEmptyField (result : Text) (fieldPath : List String)
    (fieldValue : Option Json) : Text :=
  match fieldValue with
  | none => result.delete fieldPath
  | some v => if isEmptyStructure v then result.delete fieldPath else result

/-- Whether a subfield is absent or present and `null`. -/
def nullOrAbsent (fieldValue : Option Json) (name : String) : Bool :=
  match gjsonGet fieldValue name with
  | none => true
  | some .null => true
  | some _ => false

/-- Modelled from the spec: `state.RemoveObjectIfAllNull` (not among the
sources): deletes the entire object at `fieldPath` only if every one of
`subfieldNames` is present-and-null (or absent) within it; if even one subfield
holds a non-null value, the object is preserved as-is. -/
def state.RemoveObjectIfAllNull (result : Text) (fieldPath : List String)
    (fieldValue : Option Json) (subfieldNames : List String) : Text :=
  if subfieldNames.all (nullOrAbsent fieldValue) then result.delete fieldPath else result

/-- Modelled from the spec: `state.EnsureTimestamps` (not among the sources):
guarantees both a creation and a last-modified timestamp exist.  If a creation
timestamp exists but modification does not, the modification timestamp takes
the existing creation value; if neither exists, both take `defaultTimestamp`.
(A missing creation timestamp next to an existing modification timestamp takes
`defaultTimestamp`.) -/
def state.EnsureTimestamps (result : Text) (path : List String) (attributesValue : Option Json)
    (defaultTimestamp : String) : Text :=
  match gjsonGet attributesValue "created_on", gjsonGet attributesValue "modified_on" with
  | some _, some _ => result
  | some created, none => result.set (path ++ ["modified_on"]) created
  | none, some _ => result.set (path ++ ["created_on"]) (.str defaultTimestamp)
  | none, none =>
    (result.set (path ++ ["created_on"]) (.str defaultTimestamp)).set
      (path ++ ["modified_on"]) (.str defaultTimestamp)

/-- Modelled from the spec: the per-invocation options of
`state.TransformDataFieldArrayToObject` (the type is not among the sources; the
migrator names these four fields); the Go maps are association lists, and a
transform function returns the JSON text of its Go result. -/
structure state.ArrayToObjectOptions where
  SkipFields : List String
  FieldTransforms : List (String × (Option Json → Json))
  RenameFields : List (String × String)
  DefaultFields : List (String × Json)

/-- The transform function registered for a subfield name. -/
def lookupTransform (name : String) :
    List (String × (Option Json → Json)) → Option (Option Json → Json)
  | [] => none
  | (k, f) :: rest => if k = name then some f else lookupTransform name rest

/-- The members of a value that is an object. -/
def membersOf : Json → List (String × Json)
  | .obj ms => ms
  | _ => []

/-- Modelled from the spec: one subfield of the element in
`state.TransformDataFieldArrayToObject` (not among the sources): dropped when
its name is listed in `SkipFields`, transformed when a function is registered
for its name, carried through unchanged otherwise. -/
def state.transformSubfield (options : state.ArrayToObjectOptions) (m : String × Json) :
    Option (String × Json) :=
  if m.1 ∈ options.SkipFields then none
  else
    match lookupTransform m.1 options.FieldTransforms with
    | some f => some (m.1, f (some m.2))
    | none => some m

/-- Modelled from the spec: one pair of `RenameFields` in
`state.TransformDataFieldArrayToObject` (not among the sources): the value moves
from the old to the new key and the old key is deleted. -/
def state.renameSubfield (ms : List (String × Json)) (pair : String × String) :
    List (String × Json) :=
  match lookupMember pair.1 ms with
  | some v => setMember pair.2 v (eraseMember pair.1 ms)
  | none => ms

/-- Modelled from the spec: one entry of `DefaultFields` in
`state.TransformDataFieldArrayToObject` (not among the sources): the default is
inserted when the field is entirely absent from the element. -/
def state.defaultSubfield (element : List (String × Json)) (ms : List (String × Json))
    (d : String × Json) : List (String × Json) :=
  if (lookupMember d.1 element).isSome then ms else setMember d.1 d.2 ms

/-- Modelled from the spec: the object `state.TransformDataFieldArrayToObject`
(not among the sources) builds from the first element of the array: the
subfields that are kept, then the renames, then the defaults. -/
def state.buildDataObject (options : state.ArrayToObjectOptions) (element : Json) :
    List (String × Json) :=
  let kept := (membersOf element).filterMap (state.transformSubfield options)
  let renamed := options.RenameFields.foldl state.renameSubfield kept
  options.DefaultFields.foldl (state.defaultSubfield (membersOf element)) renamed

/-- Modelled from the spec: `state.TransformDataFieldArrayToObject` (not among
the sources), for the target field `data`: if the field is absent, no-op; if
present but an empty array, the field is deleted; otherwise the first element
only is taken, every subfield not listed in `SkipFields` is transformed or
carried through, `RenameFields` and `DefaultFields` are applied, and the
resulting object is written back in place of the array.  The spec speaks of
arrays only; a `data` that is no array is left as it is. -/
def state.TransformDataFieldArrayToObject (result : Text) (path : List String)
    (attributesValue : Option Json) (typeDiscriminator : String)
    (options : state.ArrayToObjectOptions) : Text :=
  match gjsonGet attributesValue "data" with
  | some (.arr []) => result.delete (path ++ ["data"])
  | some (.arr (first :: _)) =>
    result.set (path ++ ["data"]) (.obj (state.buildDataObject options first))
  | _ => result

/-! ## The DNS record migrator (`internal/resources/dns_record/v4_to_v5.go`) -/

/-- The method `transformNumericValue`, given as the JSON text of the Go value it
returns. -/
def dns_record.transformNumericValue (rt : GoRuntime) : Option Json → Json
  | some (.num raw) => .num (rt.floatOf raw)
  | some (.str s) => if (rt.parseFloat s).2 then .num (rt.parseFloat s).1 else .str s
  | some .null => .null
  | none => .null
  | some (.bool b) => .bool b
  | some j => rt.remarshal j

/-- The map `{"type": "string", "value": s}` as `json.Marshal` writes it. -/
def dns_record.dynamicString (s : String) : Json :=
  .obj [("type", .str "string"), ("value", .str s)]

/-- The method `transformFlagsValue`, given as the JSON text of the Go value it
returns. -/
def dns_record.transformFlagsValue (rt : GoRuntime) : Option Json → Json
  | some (.num raw) => dns_record.dynamicString (numberString rt raw)
  | some (.str s) => if s = "" then .null else dns_record.dynamicString s
  | _ => .null

/-- The method `isSimpleRecordType`. -/
def dns_record.isSimpleRecordType (recordType : String) : Bool :=
  recordType ∈ ["A", "AAAA", "CNAME", "MX", "NS", "PTR", "TXT", "OPENPGPKEY"]

/-- The names for which `transformDataFieldForInstance` registers
`transformNumericValue`. -/
def dns_record.numericFields : List String :=
  ["algorithm", "key_tag", "type", "usage", "selector", "matching_type", "weight", "priority",
   "port", "protocol", "digest_type", "order", "preference", "altitude", "lat_degrees",
   "lat_minutes", "lat_seconds", "long_degrees", "long_minutes", "long_seconds",
   "precision_horz", "precision_vert", "size"]

/-- The options `transformDataFieldForInstance` sets up (lines 269-311). -/
def dns_record.dataOptions (rt : GoRuntime) (recordType : String) :
    state.ArrayToObjectOptions :=
  { SkipFields :=
      ["name", "proto"] ++ (if recordType = "MX" ∨ recordType = "URI" then ["priority"] else [])
    FieldTransforms :=
      ("flags", dns_record.transformFlagsValue rt) ::
        dns_record.numericFields.map (fun n => (n, dns_record.transformNumericValue rt))
    RenameFields := if recordType = "CAA" then [("content", "value")] else []
    DefaultFields := if recordType = "CAA" then [("flags", .null)] else [] }

/-- The text of the flags in the generated content (lines 327-337). -/
def dns_record.flagsStr (flags : Option Json) : String :=
  match flags with
  | some (.num raw) => raw
  | some (.str s) => if s ≠ "" then s else "0"
  | _ => "0"

/-- The content generated for a CAA record (lines 316-345). -/
def dns_record.caaContent (rt : GoRuntime) (result : Text) (instanceValue : Option Json) : Text :=
  let dataArray := gjsonGetPath instanceValue ["attributes", "data"]
  if gjsonIsArray dataArray then
    match gjsonArray dataArray with
    | [] => result
    | first :: _ =>
      let flags := gjsonGet (some first) "flags"
      let tag := gjsonGet (some first) "tag"
      let value := gjsonGet (some first) "content"
      if gjsonExists tag ∧ gjsonExists value then
        result.set ["attributes", "content"]
          (.str (dns_record.flagsStr flags ++ " " ++ resultString rt tag ++ " " ++
            resultString rt value))
      else result
  else result

/-- The priority at root level for SRV, MX and URI records (lines 349-368). -/
def dns_record.rootPriority (rt : GoRuntime) (result : Text) (instanceValue : Option Json) : Text :=
  let originalPriority := gjsonGetPath instanceValue ["attributes", "priority"]
  if gjsonExists originalPriority then
    result.set ["attributes", "priority"] (.num (resultFloat rt originalPriority))
  else
    let dataArray := gjsonGetPath instanceValue ["attributes", "data"]
    if gjsonIsArray dataArray then
      match gjsonArray dataArray with
      | [] => result
      | first :: _ =>
        let priority := gjsonGet (some first) "priority"
        if gjsonExists priority then
          result.set ["attributes", "priority"] (.num (resultFloat rt priority))
        else result
    else result

/-- The content generated for MX and URI records (lines 371-394). -/
def dns_record.mxUriContent (rt : GoRuntime) (result : Text) (instanceValue : Option Json)
    (recordType : String) : Text :=
  let dataArray := gjsonGetPath instanceValue ["attributes", "data"]
  if gjsonIsArray dataArray then
    match gjsonArray dataArray with
    | [] => result
    | first :: _ =>
      let priority := gjsonGet (some first) "priority"
      if recordType = "MX" then
        let target := gjsonGet (some first) "target"
        if gjsonExists priority ∧ gjsonExists target then
          result.set ["attributes", "content"]
            (.str (sprintValue rt priority ++ " " ++ resultString rt target))
        else result
      else if recordType = "URI" then
        let weight := gjsonGet (some first) "weight"
        let target := gjsonGet (some first) "target"
        if gjsonExists priority ∧ gjsonExists weight ∧ gjsonExists target then
          result.set ["attributes", "content"]
            (.str (sprintValue rt priority ++ " " ++ sprintValue rt weight ++ " " ++
              resultString rt target))
        else result
      else result
  else result

/-- The method `transformDataFieldForInstance`. -/
def dns_record.transformDataFieldForInstance (rt : GoRuntime) (result : Text)
    (instanceValue : Option Json) (recordType : String) : Text :=
  let data := gjsonGetPath instanceValue ["attributes", "data"]
  let isDataArray := gjsonIsArray data
  if dns_record.isSimpleRecordType recordType ∧ (¬ isDataArray ∨ recordType ≠ "MX") then
    if gjsonExists data then result.delete ["attributes", "data"] else result
  else
    let options := dns_record.dataOptions rt recordType
    let result1 := state.TransformDataFieldArrayToObject result ["attributes"]
      (gjsonGet instanceValue "attributes") recordType options
    let result2 := if recordType = "CAA" then dns_record.caaContent rt result1 instanceValue
      else result1
    if recordType = "SRV" ∨ recordType = "MX" ∨ recordType = "URI" then
      let result3 := dns_record.rootPriority rt result2 instanceValue
      if recordType = "MX" ∨ recordType = "URI" then
        dns_record.mxUriContent rt result3 instanceValue recordType
      else result3
    else result2

/-- The test `usesDataField` (lines 211-215). -/
def dns_record.usesDataField (recordType : String) : Bool :=
  recordType ∈ ["SRV", "CAA", "CERT", "DNSKEY", "DS", "LOC", "NAPTR", "SMIMEA", "SSHFP", "SVCB",
    "HTTPS", "TLSA", "URI"]

/-- The renaming of `value` to `content` (lines 204-232). -/
def dns_record.renameValue (rt : GoRuntime) (result : Text) (attrs : Option Json)
    (recordType : String) : Text :=
  let valueField := gjsonGet attrs "value"
  let contentField := gjsonGet attrs "content"
  if ¬ dns_record.usesDataField recordType then
    let hasContent := gjsonExists contentField ∧ contentField ≠ some .null
    if gjsonExists valueField ∧ ¬ hasContent then
      (result.set ["attributes", "content"] (jsonOfValue rt valueField)).delete
        ["attributes", "value"]
    else if gjsonExists valueField ∧ hasContent then
      result.delete ["attributes", "value"]
    else result
  else
    (result.delete ["attributes", "value"]).delete ["attributes", "content"]

/-- The method `transformSingleDNSInstance`. -/
def dns_record.transformSingleDNSInstance (rt : GoRuntime) (result : Text)
    (instanceValue : Option Json) : Text :=
  let attrs := gjsonGet instanceValue "attributes"
  let result1 := state.CleanupEmptyField result ["attributes", "meta"]
    (gjsonGetPath instanceValue ["attributes", "meta"])
  let result2 := state.RemoveObjectIfAllNull result1 ["attributes", "settings"]
    (gjsonGetPath instanceValue ["attributes", "settings"])
    ["flatten_cname", "ipv4_only", "ipv6_only"]
  let result3 := state.EnsureTimestamps result2 ["attributes"] attrs "2024-01-01T00:00:00Z"
  let recordType := resultString rt (gjsonGetPath instanceValue ["attributes", "type"])
  let result4 := dns_record.renameValue rt result3 attrs recordType
  let result5 := state.EnsureField result4 ["attributes"] attrs "ttl" (.num "1")
  let result6 := state.RemoveFields result5 ["attributes"] attrs
    ["hostname", "allow_overwrite", "timeouts", "metadata"]
  let result7 := dns_record.transformDataFieldForInstance rt result6 instanceValue recordType
  let rootPriority := gjsonGetPath instanceValue ["attributes", "priority"]
  match rootPriority with
  | some (.num raw) =>
    result7.set ["attributes", "priority"] (state.ConvertToFloat64 rt (some (.num raw)))
  | _ => result7

/-- The method `TransformState` of the DNS record migrator: the returned text
with the returned error, which is always nil. -/
def dns_record.TransformState (rt : GoRuntime) (stateJSON : Option Json)
    (resourcePath resourceName : String) : Except String Text :=
  let result := stringText rt stateJSON
  if ¬ gjsonExists stateJSON ∨ ¬ gjsonExists (gjsonGet stateJSON "attributes") then .ok result
  else
    let attrs := gjsonGet stateJSON "attributes"
    if ¬ gjsonExists (gjsonGet attrs "name") ∨ ¬ gjsonExists (gjsonGet attrs "type") ∨
        ¬ gjsonExists (gjsonGet attrs "zone_id") then
      .ok (result.set ["schema_version"] (.num "0"))
    else
      .ok ((dns_record.transformSingleDNSInstance rt result stateJSON).set
        ["schema_version"] (.num "0"))

/-! ## The gateway policy migrator
(`internal/resources/zero_trust_gateway_policy/v4_to_v5.go`) -/

/-- The structures `transformRuleSettingsObject` goes through, in its order. -/
def zero_trust_gateway_policy.nestedStructures : List String :=
  ["audit_ssh", "l4override", "biso_admin_controls", "check_session", "egress",
   "untrusted_cert", "payload_log", "notification_settings", "dns_resolvers",
   "resolve_dns_internally"]

/-- The loop of `transformDnsResolvers` over the array `ipv4` or `ipv6`: the
port of each element is converted in place.  The key of an element is its
position. -/
def zero_trust_gateway_policy.resolverPorts (rt : GoRuntime) (resolversResult : Text)
    (dnsResolvers : Option Json) (family : String) : Text :=
  let addresses := gjsonGet dnsResolvers family
  if gjsonExists addresses ∧ gjsonIsArray addresses then
    (indexed 0 (gjsonArray addresses)).foldl
      (fun r kv =>
        let port := gjsonGet (some kv.2) "port"
        if gjsonExists port then
          r.set [family, formatInt kv.1, "port"] (state.ConvertToFloat64 rt port)
        else r)
      resolversResult
  else resolversResult

/-- The method `transformDnsResolvers`. -/
def zero_trust_gateway_policy.transformDnsResolvers (rt : GoRuntime) (result : Text)
    (dnsResolvers : Option Json) : Text :=
  let resolversResult := stringText rt dnsResolvers
  let resolversResult1 :=
    zero_trust_gateway_policy.resolverPorts rt resolversResult dnsResolvers "ipv4"
  let resolversResult2 :=
    zero_trust_gateway_policy.resolverPorts rt resolversResult1 dnsResolvers "ipv6"
  result.splice ["dns_resolvers"] resolversResult2

/-- The names `transformRuleSettingsObject` deletes from `biso_admin_controls`. -/
def zero_trust_gateway_policy.disableFields : List String :=
  ["disable_clipboard_redirection", "disable_printing", "disable_copy_paste",
   "disable_download", "disable_keyboard", "disable_upload"]

/-- One round of the loop of `transformRuleSettingsObject`. -/
def zero_trust_gateway_policy.transformNested (rt : GoRuntime) (settings : Option Json)
    (result : Text) (structName : String) : Text :=
  let nested := gjsonGet settings structName
  if ¬ gjsonExists nested ∨ ¬ gjsonIsArray nested then result
  else
    match gjsonArray nested with
    | [] => result.delete [structName]
    | first :: _ =>
      let nestedObj := some first
      if structName = "notification_settings" then
        let nestedResult := stringText rt nestedObj
        let nestedResult1 :=
          if gjsonExists (gjsonGet nestedObj "message") then
            (nestedResult.set ["msg"] (jsonOfValue rt (gjsonGet nestedObj "message"))).delete
              ["message"]
          else nestedResult
        result.splice [structName] nestedResult1
      else if structName = "l4override" then
        let nestedResult := stringText rt nestedObj
        let port := gjsonGet nestedObj "port"
        let nestedResult1 :=
          if gjsonExists port then nestedResult.set ["port"] (state.ConvertToFloat64 rt port)
          else nestedResult
        result.splice [structName] nestedResult1
      else if structName = "dns_resolvers" then
        zero_trust_gateway_policy.transformDnsResolvers rt result nestedObj
      else if structName = "biso_admin_controls" then
        let nestedResult := zero_trust_gateway_policy.disableFields.foldl
          (fun r name => r.delete [name]) (stringText rt nestedObj)
        result.splice [structName] nestedResult
      else result.splice [structName] (stringText rt nestedObj)

/-- The method `transformRuleSettingsObject`. -/
def zero_trust_gateway_policy.transformRuleSettingsObject (rt : GoRuntime)
    (settings : Option Json) : Text :=
  let result := stringText rt settings
  let result1 :=
    if gjsonExists (gjsonGet settings "block_page_reason") then
      (result.set ["block_reason"]
        (jsonOfValue rt (gjsonGet settings "block_page_reason"))).delete ["block_page_reason"]
    else result
  zero_trust_gateway_policy.nestedStructures.foldl
    (zero_trust_gateway_policy.transformNested rt settings) result1

/-- The method `transformRuleSettings`. -/
def zero_trust_gateway_policy.transformRuleSettings (rt : GoRuntime) (result : Text)
    (ruleSettings : Option Json) : Text :=
  if gjsonIsArray ruleSettings then
    match gjsonArray ruleSettings with
    | [] => result
    | settingsObj :: _ =>
      result.splice ["attributes", "rule_settings"]
        (zero_trust_gateway_policy.transformRuleSettingsObject rt (some settingsObj))
  else if gjsonIsObject ruleSettings then
    result.splice ["attributes", "rule_settings"]
      (zero_trust_gateway_policy.transformRuleSettingsObject rt ruleSettings)
  else result

/-- The method `TransformState` of the gateway policy migrator: the returned
text with the returned error, which is always nil. -/
def zero_trust_gateway_policy.TransformState (rt : GoRuntime) (stateJSON : Option Json)
    (resourcePath resourceName : String) : Except String Text :=
  let result := stringText rt stateJSON
  let attrs := gjsonGet stateJSON "attributes"
  if ¬ gjsonExists attrs then .ok (result.set ["schema_version"] (.num "0"))
  else
    let precedence := gjsonGet attrs "precedence"
    let result1 :=
      if gjsonExists precedence then
        result.set ["attributes", "precedence"] (state.ConvertToFloat64 rt precedence)
      else result
    let version := gjsonGet attrs "version"
    let result2 :=
      if gjsonExists version then
        result1.set ["attributes", "version"] (state.ConvertToFloat64 rt version)
      else result1
    let ruleSettings := gjsonGet attrs "rule_settings"
    let result3 :=
      if gjsonExists ruleSettings then
        zero_trust_gateway_policy.transformRuleSettings rt result2 ruleSettings
      else result2
    .ok (result3.set ["schema_version"] (.num "0"))

/-! ## Example runtime and instances -/

/-- A runtime for the examples.  It agrees with Go on runs of decimal digits: such
a token or string is read as the natural number it writes, which is printed in
decimal; any other string does not parse, and an array or object is marshalled
as it stands. -/
def exampleRuntime : GoRuntime where
  floatOf raw :=
    match parseUint raw with
    | some n => Nat.repr n
    | none => raw
  parseFloat s :=
    match parseUint s with
    | some n => (Nat.repr n, true)
    | none => ("0", false)
  formatG f := f
  remarshal j := j
  sprintComposite j := j.render

/-- The members of an instance with the given attributes and schema version 3. -/
def dnsMembers (attributes : List (String × Json)) : List (String × Json) :=
  [("attributes", .obj attributes), ("schema_version", .num "3")]

/-- The members every complete DNS record has, for the given type. -/
def dnsIdentity (recordType : String) : List (String × Json) :=
  [("name", .str "example.com"), ("type", .str recordType), ("zone_id", .str "abc123")]

/-- The attributes of the CAA instance of scenario A. -/
def caaAttributes : List (String × Json) :=
  dnsIdentity "CAA" ++
    [("data", .arr [.obj [("flags", .num "0"), ("tag", .str "issue"),
      ("content", .str "letsencrypt.org")]])]

/-- The attributes of the SRV instance of scenario C. -/
def srvAttributes : List (String × Json) :=
  dnsIdentity "SRV" ++
    [("data", .arr [.obj [("priority", .num "10"), ("weight", .num "60"),
      ("port", .num "5060"), ("target", .str "sip.example.com")]])]

/-- The attributes of an MX instance with a data array. -/
def mxAttributes : List (String × Json) :=
  dnsIdentity "MX" ++
    [("data", .arr [.obj [("priority", .num "10"), ("target", .str "mail.example.com")]])]

/-- The attributes of a URI instance with a data array. -/
def uriAttributes : List (String × Json) :=
  dnsIdentity "URI" ++
    [("data", .arr [.obj [("priority", .num "10"), ("weight", .num "1"),
      ("target", .str "http://example.com")]])]

/-- The attributes of an A record that keeps its address under `value`. -/
def addressAttributes : List (String × Json) :=
  dnsIdentity "A" ++ [("value", .str "192.0.2.1")]

/-- The attributes of a TXT record with both a content and a value. -/
def textAttributes : List (String × Json) :=
  dnsIdentity "TXT" ++ [("content", .str "v=spf1 -all"), ("value", .str "old")]

/-- An instance without an `attributes` member. -/
def bareInstance : Json :=
  .obj [("schema_version", .num "3")]

/-- The members of a gateway policy instance with a precedence and rule settings
in a list. -/
def policyMembers : List (String × Json) :=
  [("attributes", .obj [("precedence", .num "100"),
    ("rule_settings", .arr [.obj [("block_page_reason", .str "blocked"),
      ("l4override", .arr [.obj [("ip", .str "192.0.2.1"), ("port", .num "8080")]]),
      ("egress", .arr [])]])]),
    ("schema_version", .num "1")]

/-- A gateway policy instance. -/
def policyInstance : Json :=
  .obj policyMembers

/-! ## Instances seen through their attributes -/

/-- The instance with members `ims` whose `attributes` member is the object with
members `ams`. -/
def withAttributes (ims ams : List (String × Json)) : Json :=
  .obj (replaceMember "attributes" (.obj ams) ims)

/-- The keys of an object are pairwise different. -/
def uniqueKeys (ms : List (String × Json)) : Prop :=
  (ms.map Prod.fst).Nodup

instance (ms : List (String × Json)) : Decidable (uniqueKeys ms) :=
  inferInstanceAs (Decidable (ms.map Prod.fst).Nodup)

/-- A value whose `Result.String` is its JSON text: any value but a string and
`null`. -/
def rawJson : Json → Bool
  | .str _ => false
  | .null => false
  | _ => true

/-- The first element of a nested structure kept as a non-empty array is a value
whose `Result.String` is its JSON text. -/
def cleanNested (settings : Option Json) (structName : String) : Bool :=
  match gjsonGet settings structName with
  | some (.arr (first :: _)) => rawJson first
  | _ => true

/-- The settings and the first elements of their nested structures are values
whose `Result.String` is their JSON text. -/
def cleanSettings (settings : Json) : Bool :=
  rawJson settings && zero_trust_gateway_policy.nestedStructures.all (cleanNested (some settings))

/-- Rule settings that `transformRuleSettings` unwraps to JSON text. -/
def cleanRuleSettings : Option Json → Bool
  | some (.arr (settingsObj :: _)) => cleanSettings settingsObj
  | some (.obj ms) => cleanSettings (.obj ms)
  | _ => true

/-- A text that is the text of a JSON value. -/
def Text.isJson : Text → Bool
  | .json _ => true
  | _ => false

/-- The members `b` come from the members `a` by edits of the keys in `keys`
only: every other key is looked up as before, and keys that were pairwise
different still are. -/
def editedOnly (keys : List String) (a b : List (String × Json)) : Prop :=
  (∀ k, k ∉ keys → lookupMember k b = lookupMember k a) ∧ (uniqueKeys a → uniqueKeys b)

/-- The attributes `transformSingleDNSInstance` edits before it turns to the data
field. -/
def touchedBeforeData : List String :=
  ["meta", "settings", "created_on", "modified_on", "content", "value", "ttl", "hostname",
   "allow_overwrite", "timeouts", "metadata"]

/-- A text that is the text of a JSON object. -/
def Text.isObject : Text → Bool
  | .json (.obj _) => true
  | _ => false

/-! ## hclwrite and hclsyntax

A configuration block as `hclwrite` keeps it: a type, labels and a body, the body
a sequence of attributes and nested blocks.  An attribute is kept by its name
and the tokens of its expression. -/

/-- The token type `hclsyntax.TokenIdent` (a rune). -/
def hclsyntax.TokenIdent : Char := 'I'

/-- The token type `hclsyntax.TokenEqual`. -/
def hclsyntax.TokenEqual : Char := '='

/-- The token type `hclsyntax.TokenOBrace`. -/
def hclsyntax.TokenOBrace : Char := Char.ofNat 123

/-- The token type `hclsyntax.TokenCBrace`. -/
def hclsyntax.TokenCBrace : Char := Char.ofNat 125

/-- The token type `hclsyntax.TokenNewline`. -/
def hclsyntax.TokenNewline : Char := Char.ofNat 10

/-- The token type `hclsyntax.TokenNumberLit`. -/
def hclsyntax.TokenNumberLit : Char := 'N'

/-- The token type `hclsyntax.TokenOQuote`. -/
def hclsyntax.TokenOQuote : Char := Char.ofNat 171

/-- The token type `hclsyntax.TokenCQuote`. -/
def hclsyntax.TokenCQuote : Char := Char.ofNat 187

/-- The token type `hclsyntax.TokenQuotedLit`. -/
def hclsyntax.TokenQuotedLit : Char := 'Q'

/-- The struct `hclwrite.Token`; the field `Type` is `tokenType` here. -/
structure hclwrite.Token where
  tokenType : Char
  Bytes : String
  SpacesBefore : Int
  deriving DecidableEq, Repr

/-- A node of a body: an attribute with its name and expression tokens, or a
nested block with its type, labels and body. -/
inductive hclwrite.Node where
  | attr (name : String) (expr : List hclwrite.Token)
  | block (typeName : String) (labels : List String) (body : List hclwrite.Node)

/-- The struct `hclwrite.Block`: `Type()`, `Labels()` and `Body()`. -/
structure hclwrite.Block where
  typeName : String
  labels : List String
  body : List hclwrite.Node

/-- The method `Body.GetAttribute` followed by `Expr().BuildTokens(nil)`: the
expression tokens of the attribute with the given name, `none` for `nil`. -/
def hclwrite.Body.GetAttribute : List hclwrite.Node → String → Option (List hclwrite.Token)
  | [], _ => none
  | .attr n e :: rest, name =>
    if n = name then some e else hclwrite.Body.GetAttribute rest name
  | .block _ _ _ :: rest, name => hclwrite.Body.GetAttribute rest name

/-- The expression of the attribute with the given name replaced. -/
def hclwrite.Body.replaceExpr (name : String) (tokens : List hclwrite.Token) :
    List hclwrite.Node → List hclwrite.Node
  | [] => []
  | .attr n e :: rest =>
    if n = name then .attr n tokens :: rest
    else .attr n e :: hclwrite.Body.replaceExpr name tokens rest
  | .block t l b :: rest => .block t l b :: hclwrite.Body.replaceExpr name tokens rest

/-- The method `Body.SetAttributeRaw`: the expression of an existing attribute is
replaced in its place, a new attribute is appended to the body. -/
def hclwrite.Body.SetAttributeRaw (body : List hclwrite.Node) (name : String)
    (tokens : List hclwrite.Token) : List hclwrite.Node :=
  if (hclwrite.Body.GetAttribute body name).isSome then
    hclwrite.Body.replaceExpr name tokens body
  else body ++ [.attr name tokens]

/-- The method `Body.RemoveAttribute`. -/
def hclwrite.Body.RemoveAttribute : List hclwrite.Node → String → List hclwrite.Node
  | [], _ => []
  | .attr n e :: rest, name =>
    if n = name then rest else .attr n e :: hclwrite.Body.RemoveAttribute rest name
  | .block t l b :: rest, name => .block t l b :: hclwrite.Body.RemoveAttribute rest name

/-- The body of the first nested block of the given type. -/
def hclwrite.Body.firstBlock : List hclwrite.Node → String → Option (List hclwrite.Node)
  | [], _ => none
  | .attr _ _ :: rest, blockType => hclwrite.Body.firstBlock rest blockType
  | .block t _ b :: rest, blockType =>
    if t = blockType then some b else hclwrite.Body.firstBlock rest blockType

/-- The body without its nested blocks of the given type (`Body.RemoveBlock` for
each of them). -/
def hclwrite.Body.removeBlocks : List hclwrite.Node → String → List hclwrite.Node
  | [], _ => []
  | .attr n e :: rest, blockType =>
    .attr n e :: hclwrite.Body.removeBlocks rest blockType
  | .block t l b :: rest, blockType =>
    if t = blockType then hclwrite.Body.removeBlocks rest blockType
    else .block t l b :: hclwrite.Body.removeBlocks rest blockType

/-- The attributes of a body, in order, as pairs of name and expression. -/
def hclwrite.Body.attributes : List hclwrite.Node → List (String × List hclwrite.Token)
  | [] => []
  | .attr n e :: rest => (n, e) :: hclwrite.Body.attributes rest
  | .block _ _ _ :: rest => hclwrite.Body.attributes rest

/-! ## The configuration primitives (package `internal/transform/hcl`)

The package is not among the sources; its functions are modelled from the
specification (section 4.4). -/

/-- Modelled from the spec: `tfhcl.RenameResourceType` (package
`internal/transform/hcl`, not among the sources): changes only the type label of
the block, when it is the old name. -/
def tfhcl.RenameResourceType (block : hclwrite.Block) (oldType newType : String) :
    hclwrite.Block :=
  match block.labels with
  | first :: rest =>
    if first = oldType then { block with labels := newType :: rest } else block
  | [] => block

/-- Modelled from the spec: `tfhcl.RenameAttribute` (not among the sources):
changes only the name of an attribute; the tokens of its expression are left
untouched. -/
def tfhcl.RenameAttribute : List hclwrite.Node → String → String → List hclwrite.Node
  | [], _, _ => []
  | .attr n e :: rest, oldName, newName =>
    if n = oldName then .attr newName e :: rest
    else .attr n e :: tfhcl.RenameAttribute rest oldName newName
  | .block t l b :: rest, oldName, newName =>
    .block t l b :: tfhcl.RenameAttribute rest oldName newName

/-- Modelled from the spec: `tfhcl.EnsureAttribute` (not among the sources), for
an integer default: appends the attribute with the literal default if the body
has no attribute of that name. -/
def tfhcl.EnsureAttribute (body : List hclwrite.Node) (name : String) (defaultValue : Int) :
    List hclwrite.Node :=
  if (hclwrite.Body.GetAttribute body name).isSome then body
  else body ++ [.attr name [⟨ hclsyntax.TokenNumberLit, formatInt defaultValue, 0⟩]]

/-- Modelled from the spec: `tfhcl.RemoveAttributes` (not among the sources):
deletes matching attributes; absence is not an error. -/
def tfhcl.RemoveAttributes (body : List hclwrite.Node) (names : List String) :
    List hclwrite.Node :=
  names.foldl hclwrite.Body.RemoveAttribute body

/-- Modelled from the spec: `tfhcl.HoistAttributeFromBlock` (not among the
sources): copies, and does not remove, the expression of a named attribute from
inside the first nested block of the given type up to the parent body. -/
def tfhcl.HoistAttributeFromBlock (body : List hclwrite.Node) (blockType attrName : String) :
    List hclwrite.Node :=
  match hclwrite.Body.firstBlock body blockType with
  | some inner =>
    match hclwrite.Body.GetAttribute inner attrName with
    | some tokens => hclwrite.Body.SetAttributeRaw body attrName tokens
    | none => body
  | none => body

/-- Modelled from the spec: the tokens of one entry of the object literal that
`tfhcl.ConvertBlocksToAttribute` (not among the sources) writes: the name, an
assignment token, the tokens of the expression as they are, and a newline. -/
def tfhcl.entryTokens (entry : String × List hclwrite.Token) : List hclwrite.Token :=
  [⟨ hclsyntax.TokenIdent, entry.1, 0⟩, ⟨ hclsyntax.TokenEqual, "=", 0⟩] ++ entry.2 ++
    [⟨ hclsyntax.TokenNewline, "\n", 0⟩]

/-- Modelled from the spec: the object literal `tfhcl.ConvertBlocksToAttribute`
(not among the sources) writes for a list of entries: an opening brace, the
entries, one on a line, and a closing brace. -/
def tfhcl.literalTokens (entries : List (String × List hclwrite.Token)) :
    List hclwrite.Token :=
  [⟨ hclsyntax.TokenOBrace, "\x7b", 0⟩, ⟨ hclsyntax.TokenNewline, "\n", 0⟩] ++
    (entries.map tfhcl.entryTokens).flatten ++
    [⟨ hclsyntax.TokenCBrace, "\x7d", 0⟩]

/-- Modelled from the spec: the object literal `tfhcl.ConvertBlocksToAttribute`
(not among the sources) writes for the body of a block: one entry for each of
its attributes. -/
def tfhcl.objectTokens (body : List hclwrite.Node) : List hclwrite.Token :=
  tfhcl.literalTokens (hclwrite.Body.attributes body)

/-- Modelled from the spec: `tfhcl.ConvertBlocksToAttribute` (not among the
sources): for a nested block of the given type, the callback edits the body of
the block, the body is re-emitted as an object literal assigned under
`attrName`, and the block nodes of that type are removed; the first block wins.
Without such a block the body is left as it is. -/
def tfhcl.ConvertBlocksToAttribute (body : List hclwrite.Node) (blockType attrName : String)
    (perBlockCallback : List hclwrite.Node → List hclwrite.Node) : List hclwrite.Node :=
  match hclwrite.Body.firstBlock body blockType with
  | some inner =>
    hclwrite.Body.SetAttributeRaw (hclwrite.Body.removeBlocks body blockType) attrName
      (tfhcl.objectTokens (perBlockCallback inner))
  | none => body

/-! ## The configuration transform of the DNS record migrator -/

/-- The struct `transform.TransformResult`. -/
structure transform.TransformResult where
  Blocks : List hclwrite.Block
  RemoveOriginal : Bool

/-- The map `complexDataTypes` of `TransformConfig` (lines 69-73). -/
def dns_record.complexDataTypes (recordType : String) : Bool :=
  recordType ∈ ["SRV", "CAA", "CERT", "DNSKEY", "DS", "LOC", "NAPTR", "SMIMEA", "SSHFP", "SVCB",
    "HTTPS", "TLSA", "URI"]

/-- The callback `processDataBlocks` passes to `tfhcl.ConvertBlocksToAttribute`,
on the body of the data block. -/
def dns_record.dataBlockCallback (recordType : String) (dataBody : List hclwrite.Node) :
    List hclwrite.Node :=
  let dataBody1 :=
    if recordType = "CAA" then tfhcl.RenameAttribute dataBody "content" "value" else dataBody
  if recordType = "MX" ∨ recordType = "URI" then
    hclwrite.Body.RemoveAttribute dataBody1 "priority"
  else dataBody1

/-- The method `processDataBlocks`. -/
def dns_record.processDataBlocks (block : hclwrite.Block) (recordType : String) :
    hclwrite.Block :=
  let body := block.body
  let body1 :=
    if recordType = "SRV" ∨ recordType = "MX" ∨ recordType = "URI" then
      tfhcl.HoistAttributeFromBlock body "data" "priority"
    else body
  { block with
    body := tfhcl.ConvertBlocksToAttribute body1 "data" "data"
      (dns_record.dataBlockCallback recordType) }

/-- Whether the token at position `i` is followed by an assignment token,
directly or after a token whose bytes are a single space (lines 145-146). -/
def dns_record.followedByEqual (tokens : List hclwrite.Token) (i : Nat) : Bool :=
  match tokens.get? (i + 1) with
  | some next =>
    next.tokenType = hclsyntax.TokenEqual ||
      (next.Bytes = " " &&
        match tokens.get? (i + 2) with
        | some after => after.tokenType = hclsyntax.TokenEqual
        | none => false)
  | none => false

/-- One round of the loop of `processDataAttribute`: the token appended to
`newTokens` for the token at position `i`. -/
def dns_record.substituteToken (tokens : List hclwrite.Token) (i : Nat)
    (token : hclwrite.Token) : hclwrite.Token :=
  if token.tokenType = hclsyntax.TokenIdent ∧ token.Bytes = "content" then
    if dns_record.followedByEqual tokens i then
      { tokenType := hclsyntax.TokenIdent, Bytes := "value", SpacesBefore := 0 }
    else token
  else token

/-- The loop of `processDataAttribute` (lines 138-159): `newTokens`. -/
def dns_record.substituteTokens (tokens : List hclwrite.Token) : List hclwrite.Token :=
  tokens.enum.map (fun it => dns_record.substituteToken tokens it.1 it.2)

/-- The method `processDataAttribute`. -/
def dns_record.processDataAttribute (block : hclwrite.Block) (recordType : String) :
    hclwrite.Block :=
  match hclwrite.Body.GetAttribute block.body "data" with
  | some tokens =>
    if recordType = "CAA" then
      { block with
        body := hclwrite.Body.SetAttributeRaw block.body "data"
          (dns_record.substituteTokens tokens) }
    else block
  | none => block

/-- The record type `TransformConfig` works with (lines 60-66): what the
extraction finds in the `type` attribute, and the empty string without one.
Modelled from the spec: `tfhcl.ExtractStringFromAttribute` (package
`internal/transform/hcl`, not among the sources) is not described by the
specification; it is the parameter `extractString`, from the expression tokens
of the attribute to the string it finds there. -/
def dns_record.configRecordType (extractString : List hclwrite.Token → String)
    (body : List hclwrite.Node) : String :=
  match hclwrite.Body.GetAttribute body "type" with
  | some typeAttr => extractString typeAttr
  | none => ""

/-- The renaming of the attribute `value` to `content` in `TransformConfig`
(lines 75-89). -/
def dns_record.renameValueAttribute (body : List hclwrite.Node) (recordType : String) :
    List hclwrite.Node :=
  if ¬ dns_record.complexDataTypes recordType then
    match hclwrite.Body.GetAttribute body "value" with
    | some tokens =>
      hclwrite.Body.RemoveAttribute (hclwrite.Body.SetAttributeRaw body "content" tokens) "value"
    | none => body
  else body

/-- The method `TransformConfig` of the DNS record migrator, with the extraction
of a string from an attribute as a parameter. -/
def dns_record.TransformConfig (extractString : List hclwrite.Token → String)
    (block : hclwrite.Block) : Except String transform.TransformResult :=
  let block1 := tfhcl.RenameResourceType block "cloudflare_record" "cloudflare_dns_record"
  let body := block1.body
  let body1 := tfhcl.EnsureAttribute body "ttl" 1
  let recordType := dns_record.configRecordType extractString body1
  let body2 := dns_record.renameValueAttribute body1 recordType
  let body3 := tfhcl.RemoveAttributes body2 ["allow_overwrite", "hostname"]
  let block2 := dns_record.processDataBlocks { block1 with body := body3 } recordType
  let block3 := dns_record.processDataAttribute block2 recordType
  .ok { Blocks := [block3], RemoveOriginal := false }

/-! ## Example configuration blocks -/

/-- The tokens of a quoted string literal, one space before it. -/
def quotedTokens (s : String) : List hclwrite.Token :=
  [⟨ hclsyntax.TokenOQuote, String.singleton (Char.ofNat 34), 1⟩,
   ⟨ hclsyntax.TokenQuotedLit, s, 0⟩,
   ⟨ hclsyntax.TokenCQuote, String.singleton (Char.ofNat 34), 0⟩]

/-- The tokens of a number literal, one space before it. -/
def numberTokens (s : String) : List hclwrite.Token :=
  [⟨ hclsyntax.TokenNumberLit, s, 1⟩]

/-- An extraction for the examples: the text of an expression that is a single
quoted literal, and the empty string for any other expression. -/
def exampleExtract (tokens : List hclwrite.Token) : String :=
  match tokens with
  | [open_, lit, close] =>
    if open_.tokenType = hclsyntax.TokenOQuote ∧ lit.tokenType = hclsyntax.TokenQuotedLit ∧
        close.tokenType = hclsyntax.TokenCQuote then lit.Bytes
    else ""
  | _ => ""

/-- The attributes every example record block starts with, for the given type. -/
def recordHead (recordType : String) : List hclwrite.Node :=
  [.attr "zone_id" (quotedTokens "abc123"), .attr "name" (quotedTokens "test"),
   .attr "type" (quotedTokens recordType)]

/-- The body of the data block of the CAA example. -/
def caaDataBody : List hclwrite.Node :=
  [.attr "flags" (numberTokens "0"), .attr "tag" (quotedTokens "issue"),
   .attr "content" (quotedTokens "letsencrypt.org")]

/-- A CAA record block with a nested data block. -/
def caaBlock : hclwrite.Block :=
  { typeName := "resource", labels := ["cloudflare_record", "caa_test"],
    body := recordHead "CAA" ++ [.block "data" [] caaDataBody] }

/-- The body of the data block of the MX example. -/
def mxDataBody : List hclwrite.Node :=
  [.attr "priority" (numberTokens "10"),
   .attr "target" (quotedTokens "mail.example.com")]

/-- An MX record block with a nested data block. -/
def mxBlock : hclwrite.Block :=
  { typeName := "resource", labels := ["cloudflare_record", "mx"],
    body := recordHead "MX" ++ [.block "data" [] mxDataBody] }

/-- An A record block that keeps its address under `value`. -/
def addressBlock : hclwrite.Block :=
  { typeName := "resource", labels := ["cloudflare_record", "a_test"],
    body := recordHead "A" ++ [.attr "value" (quotedTokens "192.0.2.1")] }

/-- The tokens of the object `{ tag = "issue", content = "ca.example.com" }` on
three lines, with the indentation of the keys in `SpacesBefore`. -/
def dataObjectTokens : List hclwrite.Token :=
  [⟨ hclsyntax.TokenOBrace, "\x7b", 1⟩, ⟨ hclsyntax.TokenNewline, "\n", 0⟩,
   ⟨ hclsyntax.TokenIdent, "tag", 4⟩, ⟨ hclsyntax.TokenEqual, "=", 1⟩] ++
    quotedTokens "issue" ++
  [⟨ hclsyntax.TokenNewline, "\n", 0⟩,
   ⟨ hclsyntax.TokenIdent, "content", 4⟩, ⟨ hclsyntax.TokenEqual, "=", 1⟩] ++
    quotedTokens "ca.example.com" ++
  [⟨ hclsyntax.TokenNewline, "\n", 0⟩, ⟨ hclsyntax.TokenCBrace, "\x7d", 2⟩]

/-! ## The nested structures of the rule settings, one by one -/

/-- The text `transformRuleSettingsObject` puts in the place of a nested
structure that is a non-empty array: what lines 202-238 make of the first
element `nestedObj`, by the name of the structure. -/
def nestedForm (rt : GoRuntime) (structName : String) (nestedObj : Option Json) : Text :=
  if structName = "notification_settings" then
    if gjsonExists (gjsonGet nestedObj "message") then
      ((stringText rt nestedObj).set ["msg"]
        (jsonOfValue rt (gjsonGet nestedObj "message"))).delete ["message"]
    else stringText rt nestedObj
  else if structName = "l4override" then
    if gjsonExists (gjsonGet nestedObj "port") then
      (stringText rt nestedObj).set ["port"]
        (state.ConvertToFloat64 rt (gjsonGet nestedObj "port"))
    else stringText rt nestedObj
  else if structName = "dns_resolvers" then
    zero_trust_gateway_policy.resolverPorts rt
      (zero_trust_gateway_policy.resolverPorts rt (stringText rt nestedObj) nestedObj "ipv4")
      nestedObj "ipv6"
  else if structName = "biso_admin_controls" then
    zero_trust_gateway_policy.disableFields.foldl (fun r name => r.delete [name])
      (stringText rt nestedObj)
  else stringText rt nestedObj

/-- The nested structures `transformRuleSettingsObject` unwraps without a further
change. -/
def plainStructures : List String :=
  ["audit_ssh", "check_session", "egress", "untrusted_cert", "payload_log",
   "resolve_dns_internally"]

/-- Rule settings with a block page reason and a block reason of their own. -/
def reasonSettings : List (String × Json) :=
  [("block_page_reason", .str "a"), ("block_reason", .str "b")]

/-- Rule settings with nested structures in arrays. -/
def nestedSettings : List (String × Json) :=
  [("block_page_reason", .str "blocked"),
   ("l4override", .arr [.obj [("ip", .str "192.0.2.1"), ("port", .num "8080")]]),
   ("egress", .arr []),
   ("audit_ssh", .arr [.obj [("command_logging", .bool true)], .obj []]),
   ("add_headers", .obj [("X-Test", .str "1")])]

/-- The members of a gateway policy instance whose rule settings are the empty
array. -/
def emptySettingsMembers : List (String × Json) :=
  [("attributes", .obj [("name", .str "policy"), ("rule_settings", .arr [])]),
   ("schema_version", .num "1")]

/-! ## Bodies seen through their attributes and blocks -/

/-- The names of the attributes of a body are pairwise different. -/
def uniqueAttributes (body : List hclwrite.Node) : Prop :=
  ((hclwrite.Body.attributes body).map Prod.fst).Nodup

instance (body : List hclwrite.Node) : Decidable (uniqueAttributes body) :=
  inferInstanceAs (Decidable ((hclwrite.Body.attributes body).map Prod.fst).Nodup)

/-- The body `b2` comes from the body `b` by edits of the attributes named in
`keys` only: every other attribute is found as before, the nested blocks are
found as before, and attribute names that were pairwise different still are. -/
def attributesEditedOnly (keys : List String) (b b2 : List hclwrite.Node) : Prop :=
  (∀ k, k ∉ keys → hclwrite.Body.GetAttribute b2 k = hclwrite.Body.GetAttribute b k) ∧
  (∀ t, hclwrite.Body.firstBlock b2 t = hclwrite.Body.firstBlock b t) ∧
  (uniqueAttributes b → uniqueAttributes b2)

/-- An identifier token `content`. -/
def isContentIdent (token : hclwrite.Token) : Bool :=
  token.tokenType = hclsyntax.TokenIdent && token.Bytes = "content"

/-- An entry of a data block with its key `content` renamed to `value`; the
expression is carried over. -/
def renameEntry (entry : String × List hclwrite.Token) : String × List hclwrite.Token :=
  (if entry.1 = "content" then "value" else entry.1, entry.2)

/-- No expression of the body holds an identifier token `content`. -/
def expressionsContentFree (body : List hclwrite.Node) : Prop :=
  ∀ entry, entry ∈ hclwrite.Body.attributes body → ∀ t, t ∈ entry.2 → isContentIdent t = false

instance (body : List hclwrite.Node) : Decidable (expressionsContentFree body) :=
  inferInstanceAs (Decidable (∀ entry, entry ∈ hclwrite.Body.attributes body →
    ∀ t, t ∈ entry.2 → isContentIdent t = false))

/-- The body of the data block of a CAA record whose tag is an object with a key
`content`. -/
def nestedContentBody : List hclwrite.Node :=
  [.attr "tag"
    [⟨ hclsyntax.TokenOBrace, "\x7b", 1⟩, ⟨ hclsyntax.TokenIdent, "content", 1⟩,
     ⟨ hclsyntax.TokenEqual, "=", 1⟩, ⟨ hclsyntax.TokenNumberLit, "1", 1⟩,
     ⟨ hclsyntax.TokenCBrace, "\x7d", 1⟩]]

/-- A CAA record block with that data block. -/
def nestedContentBlock : hclwrite.Block :=
  { typeName := "resource", labels := ["cloudflare_record", "caa"],
    body := recordHead "CAA" ++ [.block "data" [] nestedContentBody] }

/-- The block of a transform result that holds exactly one block. -/
def resultBlock : Except String transform.TransformResult → Option hclwrite.Block
  | .ok ⟨[block], _⟩ => some block
  | _ => none

/-- The attributes `TransformConfig` edits before it turns to the data blocks. -/
def touchedBeforeBlocks : List String :=
  ["ttl", "content", "value", "allow_overwrite", "hostname"]

/-! ## Where diagnostics arise, resolver ports, and the legacy shape -/

/-- The diagnostics the instance loop appends for one entry, each with the key of
the instance at whose step it is appended: what a step appends is what its
diagnostics hold beyond those it started with. -/
def placedInstanceDiags (migrator : Migrator) (resourceType resourceName : String) (key : Int) :
    EntryAcc → List (Int × Json) → List (Int × Diagnostic)
  | _, [] => []
  | acc, inst :: rest =>
    ((entryInstanceStep migrator resourceType resourceName key acc inst).diags.drop
        acc.diags.length).map (fun d => (inst.1, d)) ++
      placedInstanceDiags migrator resourceType resourceName key
        (entryInstanceStep migrator resourceType resourceName key acc inst) rest

/-- The diagnostics the loop appends for one entry, each with the position of
the entry and the key of the instance at which it is appended; the warning for a
missing migrator belongs to the entry and has no instance. -/
def placedEntryDiags (provider : MigrationProvider) (sourceVersion targetVersion : String)
    (key : Int) (e : Json) : List ((Int × Option Int) × Diagnostic) :=
  if isDatasource e then []
  else
    let resourceType := gjsonString (gjsonGet (some e) "type")
    if resourceType = "" then []
    else
      match provider.GetMigrator resourceType sourceVersion targetVersion with
      | none =>
        [((key, none), ⟨.warning, "Failed to transform resource: " ++ resourceType,
          "No migrator found for state resource: " ++ resourceType ++ " (v" ++
            sourceVersion ++ " -> v" ++ targetVersion ++ ")"⟩)]
      | some migrator =>
        if !gjsonExists (gjsonGet (some e) "instances") then []
        else
          (placedInstanceDiags migrator resourceType (gjsonString (gjsonGet (some e) "name")) key
            ⟨entryRename migrator resourceType e, 0, []⟩
            (gjsonForEach (gjsonGet (some e) "instances"))).map
            (fun p => ((key, some p.1), p.2))

/-- The diagnostics the loop appends for the entries of a list whose first
element has position `start`, in the order in which they are appended. -/
def placedDiags (provider : MigrationProvider) (sourceVersion targetVersion : String)
    (start : Nat) (es : List Json) : List ((Int × Option Int) × Diagnostic) :=
  ((indexed start es).map
    (fun p => placedEntryDiags provider sourceVersion targetVersion p.1 p.2)).flatten

/-- The place `a` comes before the place `b`: its entry comes first, or the
entry is the same and its instance comes first. -/
def placedBefore (a b : Int × Option Int) : Prop :=
  a.1 < b.1 ∨ (a.1 = b.1 ∧ ∃ i j, a.2 = some i ∧ b.2 = some j ∧ i < j)

/-- The `instances` member of every entry that has one is an array. -/
def instanceArrays (es : List Json) : Prop :=
  ∀ e, e ∈ es → (e.child "instances").all (fun v => gjsonIsArray (some v)) = true

instance (es : List Json) : Decidable (instanceArrays es) := by
  unfold instanceArrays; infer_instance

/-- An element of a resolver list with its port converted: in an object with a
`port` member the value of the first such member is replaced by its conversion;
any other element is as it was. -/
def portFix (rt : GoRuntime) : Json → Json
  | .obj es =>
    match lookupMember "port" es with
    | some port => .obj (replaceMember "port" (state.ConvertToFloat64 rt (some port)) es)
    | none => .obj es
  | x => x

/-- A nested structure of the settings in a legacy shape: absent, not an array,
an empty array, or an array whose first element is an object. -/
def legacyNested (settings : Option Json) (structName : String) : Bool :=
  match gjsonGet settings structName with
  | some (.arr (first :: _)) => gjsonIsObject (some first)
  | _ => true

/-- The JSON value of the text a migrator returns: nothing for an error and for a
text that is not the text of a JSON value. -/
def returnedJson : Except String Text → Option Json
  | .ok (.json j) => some j
  | _ => none

/-! ## More examples -/

/-- Rule settings with notification settings, an override and resolvers, each in
a list. -/
def resolverSettings : List (String × Json) :=
  [("notification_settings", .arr [.obj [("enabled", .bool true),
      ("message", .str "blocked by policy"), ("support_url", .str "https://example.com")]]),
   ("l4override", .arr [.obj [("ip", .str "192.0.2.1"), ("port", .num "8080")]]),
   ("dns_resolvers", .arr [.obj [
      ("ipv4", .arr [.obj [("ip", .str "192.0.2.53"), ("port", .str "5353")],
        .obj [("ip", .str "192.0.2.54")]]),
      ("ipv6", .arr [.obj [("ip", .str "2001:db8::53"), ("port", .num "53")]]),
      ("note", .str "internal")]])]

/-- The attributes of a gateway policy instance with these rule settings. -/
def resolverAttributes : List (String × Json) :=
  [("name", .str "policy"), ("rule_settings", .arr [.obj resolverSettings])]

/-- The members of that instance. -/
def resolverMembers : List (String × Json) :=
  [("attributes", .obj resolverAttributes), ("schema_version", .num "1")]

/-- The attributes of an SRV instance whose priority at root level is `null`, as
the state holds an unset attribute, with the priority 10 in its data array. -/
def nullPriorityAttributes : List (String × Json) :=
  dnsIdentity "SRV" ++
    [("priority", .null),
     ("data", .arr [.obj [("priority", .num "10"), ("weight", .num "60"),
      ("port", .num "5060"), ("target", .str "sip.example.com")]])]

/-- The attributes of an A record with both a content and a value. -/
def bothAttributes : List (String × Json) :=
  dnsIdentity "A" ++ [("content", .str "198.51.100.7"), ("value", .str "192.0.2.1")]

/-- An A record block with both a content and a value. -/
def bothBlock : hclwrite.Block :=
  { typeName := "resource", labels := ["cloudflare_record", "both"],
    body := recordHead "A" ++
      [.attr "content" (quotedTokens "198.51.100.7"), .attr "value" (quotedTokens "192.0.2.1")] }

/-! ## The token loop by recursion, and examples in other shapes -/

/-- The token type `hclsyntax.TokenDot`. -/
def hclsyntax.TokenDot : Char := '.'

/-- The loop of `processDataAttribute` read from the tokens still to come: the
token appended for the first of them, which looks only at the two tokens after
it, and then the tokens appended for the rest. -/
def dns_record.substituteFrom : List hclwrite.Token → List hclwrite.Token
  | [] => []
  | token :: rest =>
    dns_record.substituteToken (token :: rest) 0 token :: dns_record.substituteFrom rest

/-- An entry of a data block as it stands in the `data` attribute of a CAA
record: the key `content` renamed to `value`, and the expression as the loop of
`processDataAttribute` leaves it. -/
def convertedEntry (entry : String × List hclwrite.Token) : String × List hclwrite.Token :=
  (if entry.1 = "content" then "value" else entry.1, dns_record.substituteTokens entry.2)

/-- The body of the data block of a CAA record whose tag is the reference
`local.content`. -/
def localContentBody : List hclwrite.Node :=
  [.attr "flags" (numberTokens "0"),
   .attr "tag" [⟨ hclsyntax.TokenIdent, "local", 1⟩, ⟨ hclsyntax.TokenDot, ".", 0⟩,
     ⟨ hclsyntax.TokenIdent, "content", 0⟩],
   .attr "content" (quotedTokens "letsencrypt.org")]

/-- A CAA record block with that data block. -/
def localContentBlock : hclwrite.Block :=
  { typeName := "resource", labels := ["cloudflare_record", "caa_local"],
    body := recordHead "CAA" ++ [.block "data" [] localContentBody] }

/-- Rule settings whose notification settings are an object, not a list. -/
def objectNotificationSettings : List (String × Json) :=
  [("notification_settings", .obj [("enabled", .bool true),
      ("message", .str "blocked by policy")])]

/-- Rule settings whose override is an object, not a list, with its port as a
string. -/
def objectOverrideSettings : List (String × Json) :=
  [("l4override", .obj [("ip", .str "192.0.2.1"), ("port", .str "8080")])]

/-- The members of a gateway policy instance with these rule settings in a
list. -/
def objectOverrideMembers : List (String × Json) :=
  [("attributes", .obj [("name", .str "policy"),
      ("rule_settings", .arr [.obj objectOverrideSettings])]),
   ("schema_version", .num "1")]

/-- The members of a gateway policy instance whose rule settings are an object,
with an override and resolvers in lists. -/
def objectRuleMembers : List (String × Json) :=
  [("attributes", .obj [("name", .str "policy"), ("rule_settings", .obj resolverSettings)]),
   ("schema_version", .num "1")]

/-- An array that holds the example policy instance. -/
def arrayInstance : Json :=
  .arr [policyInstance]

/-! ## Decimal path parts -/

theorem digitStep_digitChar (n d : Nat) (hd : d < 10) :
    digitStep (some n) (Nat.digitChar d) = some (n * 10 + d) := by
  interval_cases d <;> rfl

theorem foldl_toDigitsCore (fuel : Nat) : ∀ (n : Nat) (ds : List Char), n < fuel →
    (Nat.toDigitsCore 10 fuel n ds).foldl digitStep (some 0) = ds.foldl digitStep (some n) := by
  induction fuel with
  | zero => intro n ds h; omega
  | succ fuel ih =>
    intro n ds h
    unfold Nat.toDigitsCore
    by_cases h0 : n / 10 = 0
    · simp only [h0, if_true, List.foldl_cons]
      have hn : n < 10 := by omega
      rw [Nat.mod_eq_of_lt hn, digitStep_digitChar 0 n hn]
      simp
    · simp only [h0, if_false]
      rw [ih (n / 10) _ (by omega), List.foldl_cons,
        digitStep_digitChar _ _ (Nat.mod_lt _ (by norm_num))]
      congr 2
      omega

theorem digitsValue_repr (n : Nat) : digitsValue (Nat.repr n).data = some n := by
  show (Nat.toDigitsCore 10 (n + 1) n []).foldl digitStep (some 0) = some n
  rw [foldl_toDigitsCore _ _ _ (Nat.lt_succ_self n)]
  rfl

theorem toDigitsCore_ne_nil (fuel : Nat) : ∀ (n : Nat) (ds : List Char), 0 < fuel →
    Nat.toDigitsCore 10 fuel n ds ≠ [] := by
  induction fuel with
  | zero => intro n ds h; omega
  | succ fuel ih =>
    intro n ds _
    unfold Nat.toDigitsCore
    by_cases h0 : n / 10 = 0
    · simp [h0]
    · simp only [h0, if_false]
      cases fuel with
      | zero => simp [Nat.toDigitsCore]
      | succ f => exact ih _ _ (Nat.succ_pos f)

theorem atoui_repr (n : Nat) : atoui (Nat.repr n) = some n := digitsValue_repr n

theorem parseUint_repr (n : Nat) : parseUint (Nat.repr n) = some n := by
  unfold parseUint
  have h : (Nat.repr n).data ≠ [] := toDigitsCore_ne_nil _ _ _ (Nat.succ_pos n)
  rw [if_neg h]
  exact digitsValue_repr n

theorem repr_ne_minus_one (n : Nat) : Nat.repr n ≠ "-1" := by
  intro h
  have h1 := atoui_repr n
  rw [h] at h1
  have h2 : atoui "-1" = none := by decide
  rw [h2] at h1
  cases h1

theorem formatInt_natCast (n : Nat) : formatInt (n : Int) = Nat.repr n := rfl

theorem parseUint_name (s : String) (h : parseUint s = none) (xs : List Json) :
    (Json.arr xs).child s = none := by
  simp [Json.child, h]

/-! ## Member lists -/

theorem lookup_replace_same (k : String) (v : Json) (ms : List (String × Json))
    (h : (lookupMember k ms).isSome) : lookupMember k (replaceMember k v ms) = some v := by
  induction ms with
  | nil => simp [lookupMember] at h
  | cons m ms ih =>
    obtain ⟨k2, x⟩ := m
    by_cases hk : k2 = k
    · simp [replaceMember, lookupMember, hk]
    · simp only [lookupMember, hk, if_false] at h
      simp [replaceMember, lookupMember, hk, ih h]

theorem lookup_replace_ne (k k2 : String) (v : Json) (ms : List (String × Json))
    (hne : k ≠ k2) : lookupMember k (replaceMember k2 v ms) = lookupMember k ms := by
  induction ms with
  | nil => rfl
  | cons m ms ih =>
    obtain ⟨k3, x⟩ := m
    simp only [replaceMember, lookupMember]
    split_ifs with h1 h2 h2
    · exact absurd (h2.symm.trans h1) hne
    · simp [lookupMember, h2]
    · simp [lookupMember, h2]
    · simp [lookupMember, h2, ih]

theorem lookup_replace_isSome (k k2 : String) (v : Json) (ms : List (String × Json)) :
    (lookupMember k (replaceMember k2 v ms)).isSome = (lookupMember k ms).isSome := by
  by_cases hne : k = k2
  · subst hne
    cases h : (lookupMember k ms).isSome
    · induction ms with
      | nil => rfl
      | cons m ms ih =>
        obtain ⟨k3, x⟩ := m
        by_cases hk : k3 = k
        · simp [lookupMember, hk] at h
        · simp only [lookupMember, hk, if_false] at h
          simp [replaceMember, lookupMember, hk, ih h]
    · rw [lookup_replace_same k v ms h]; rfl
  · rw [lookup_replace_ne k k2 v ms hne]

theorem replace_replace_same (k : String) (a b : Json) (ms : List (String × Json)) :
    replaceMember k a (replaceMember k b ms) = replaceMember k a ms := by
  induction ms with
  | nil => rfl
  | cons m ms ih =>
    obtain ⟨k3, x⟩ := m
    by_cases hk : k3 = k
    · simp [replaceMember, hk]
    · simp [replaceMember, hk, ih]

theorem replace_comm (k k2 : String) (a b : Json) (ms : List (String × Json)) (hne : k ≠ k2) :
    replaceMember k a (replaceMember k2 b ms) = replaceMember k2 b (replaceMember k a ms) := by
  induction ms with
  | nil => rfl
  | cons m ms ih =>
    obtain ⟨k3, x⟩ := m
    by_cases h1 : k3 = k2
    · subst h1
      have h2 : ¬ k3 = k := fun h => hne h.symm
      simp [replaceMember, h2]
    · by_cases h2 : k3 = k
      · subst h2
        simp [replaceMember, h1]
      · simp [replaceMember, h1, h2, ih]

theorem replace_lookup_self (k : String) (v : Json) (ms : List (String × Json))
    (h : lookupMember k ms = some v) : replaceMember k v ms = ms := by
  induction ms with
  | nil => rfl
  | cons m ms ih =>
    obtain ⟨k3, x⟩ := m
    by_cases hk : k3 = k
    · simp [lookupMember, hk] at h
      simp [replaceMember, hk, h]
    · simp only [lookupMember, hk, if_false] at h
      simp [replaceMember, hk, ih h]

/-! ## Updates below `resources.<i>` -/

theorem child_withResources (ms : List (String × Json)) (cur : List Json)
    (h : (lookupMember "resources" ms).isSome) :
    (withResources ms cur).child "resources" = some (.arr cur) := by
  simp [withResources, Json.child, lookup_replace_same _ _ _ h]

theorem withResources_replace (ms : List (String × Json)) (cur : List Json) (r : Json) :
    (withResources ms cur).replaceChild "resources" r
      = .obj (replaceMember "resources" r ms) := by
  simp [withResources, Json.replaceChild, replace_replace_same]

theorem child_arr_repr (cur : List Json) (i : Nat) :
    (Json.arr cur).child (Nat.repr i) = cur.get? i := by
  simp [Json.child, parseUint_repr]

theorem replaceChild_arr_repr (cur : List Json) (i : Nat) (v : Json) :
    (Json.arr cur).replaceChild (Nat.repr i) v = .arr (cur.set i v) := by
  simp [Json.replaceChild, parseUint_repr]

theorem setRaw_found_last (j c : Json) (p : String) (v : Json) (h : j.child p = some c) :
    sjsonSetRaw j [p] v = .ok (j.replaceChild p v) := by
  rw [sjsonSetRaw, h]

theorem setRaw_found_more (j c : Json) (p q : String) (qs : List String) (v : Json)
    (h : j.child p = some c) :
    sjsonSetRaw j (p :: q :: qs) v
      = match sjsonSetRaw c (q :: qs) v with
        | .ok c2 => .ok (j.replaceChild p c2)
        | .error e => .error e := by
  rw [sjsonSetRaw, h]

/-- A patch below `resources.<i>` of the document is the patch of entry `i`. -/
theorem setRaw_doc (ms : List (String × Json)) (cur : List Json) (i : Nat) (x : Json)
    (q : String) (qs : List String) (v : Json)
    (h : (lookupMember "resources" ms).isSome) (hx : cur.get? i = some x) :
    sjsonSetRaw (withResources ms cur) ("resources" :: Nat.repr i :: q :: qs) v
      = match sjsonSetRaw x (q :: qs) v with
        | .ok x2 => .ok (withResources ms (cur.set i x2))
        | .error e => .error e := by
  rw [setRaw_found_more _ _ _ _ _ _ (child_withResources ms cur h),
    setRaw_found_more (Json.arr cur) x _ _ _ _ (by rw [child_arr_repr, hx])]
  cases hres : sjsonSetRaw x (q :: qs) v with
  | error e => rfl
  | ok x2 =>
    simp only [replaceChild_arr_repr, withResources_replace]
    rfl

theorem set_set_same (cur : List Json) (i : Nat) (a b : Json) :
    (cur.set i a).set i b = cur.set i b := by
  simp

theorem get?_set_same (cur : List Json) (i : Nat) (a : Json) (hi : i < cur.length) :
    (cur.set i a).get? i = some a := by
  simp [hi]

theorem set_get?_self (cur : List Json) (i : Nat) (e : Json) (he : cur.get? i = some e) :
    cur.set i e = cur := by
  rw [List.get?_eq_some] at he
  obtain ⟨hi, he⟩ := he
  subst he
  apply List.ext_getElem
  · simp
  · intro n h1 h2
    by_cases hn : i = n
    · subst hn; simp
    · simp [List.getElem_set, hn]

theorem instanceStep_lift (migrator : Migrator) (rt rn : String)
    (ms : List (String × Json)) (cur : List Json) (i : Nat) (c0 : Nat) (idxs : List Int)
    (d0 : List Diagnostic) (acc : EntryAcc) (inst : Int × Json)
    (h : (lookupMember "resources" ms).isSome) (hi : i < cur.length) :
    instanceStep migrator rt rn (i : Int) (liftState ms cur i c0 idxs d0 acc) inst
      = liftState ms cur i c0 idxs d0 (entryInstanceStep migrator rt rn (i : Int) acc inst) := by
  unfold instanceStep entryInstanceStep
  cases hT : migrator.TransformState inst.2 (pathString (instancePath (i : Int) inst.1)) rn with
  | error err => simp only [hT, liftState, List.append_assoc]
  | ok o =>
    cases o with
    | none => simp only [hT]
    | some t =>
      simp only [hT, liftState]
      have hp : instancePath (i : Int) inst.1
          = ["resources", Nat.repr i, "instances", formatInt inst.1] := rfl
      rw [hp, setRaw_doc ms (cur.set i acc.entry) i acc.entry "instances" [formatInt inst.1] t h
        (get?_set_same cur i acc.entry hi)]
      cases hS : sjsonSetRaw acc.entry ["instances", formatInt inst.1] t with
      | error e => simp only [List.append_assoc]
      | ok x2 => simp only [set_set_same, Nat.add_assoc]

theorem foldl_instanceStep_lift (migrator : Migrator) (rt rn : String)
    (ms : List (String × Json)) (cur : List Json) (i : Nat) (c0 : Nat) (idxs : List Int)
    (d0 : List Diagnostic) (insts : List (Int × Json))
    (h : (lookupMember "resources" ms).isSome) (hi : i < cur.length) :
    ∀ acc : EntryAcc,
    insts.foldl (instanceStep migrator rt rn (i : Int)) (liftState ms cur i c0 idxs d0 acc)
      = liftState ms cur i c0 idxs d0
          (insts.foldl (entryInstanceStep migrator rt rn (i : Int)) acc) := by
  induction insts with
  | nil => intro acc; rfl
  | cons inst rest ih =>
    intro acc
    rw [List.foldl_cons, List.foldl_cons, instanceStep_lift _ _ _ _ _ _ _ _ _ _ _ h hi, ih]

theorem renameStep_lift (migrator : Migrator) (rt : String)
    (ms : List (String × Json)) (cur : List Json) (i : Nat) (c0 : Nat) (idxs : List Int)
    (d0 : List Diagnostic) (e : Json)
    (h : (lookupMember "resources" ms).isSome) (he : cur.get? i = some e) :
    renameStep migrator rt (i : Int) ⟨withResources ms cur, c0, idxs, d0⟩
      = liftState ms cur i c0 idxs d0 ⟨entryRename migrator rt e, 0, []⟩ := by
  have hself : cur.set i e = cur := set_get?_self cur i e he
  unfold renameStep entryRename liftState
  by_cases h1 : migrator.CanHandle rt = true
  · by_cases h2 : migrator.GetResourceType ≠ "" ∧ migrator.GetResourceType ≠ rt
    · simp only [h1, h2, if_true, and_self, not_false_eq_true, ne_eq, formatInt_natCast]
      unfold sjsonSet
      rw [setRaw_doc ms cur i e "type" [] _ h he]
      cases hS : sjsonSetRaw e ["type"] (Json.str migrator.GetResourceType) with
      | error err => simp [hself]
      | ok x2 => simp
    · simp [h1, h2, hself]
  · simp [h1, hself]

/-! ## The loop, one entry at a time -/

theorem indexed_cons (n : Nat) (e : Json) (es : List Json) :
    indexed n (e :: es) = ((n : Int), e) :: indexed (n + 1) es := rfl

theorem resourceStep_eq (provider : MigrationProvider) (src tgt : String)
    (ms : List (String × Json)) (cur : List Json) (i : Nat) (c0 : Nat) (idxs : List Int)
    (d0 : List Diagnostic) (e : Json)
    (h : (lookupMember "resources" ms).isSome) (he : cur.get? i = some e) :
    resourceStep provider src tgt ⟨withResources ms cur, c0, idxs, d0⟩ ((i : Int), e)
      = ⟨withResources ms (cur.set i (entryResult provider src tgt (i : Int) e).entry),
          c0 + (entryResult provider src tgt (i : Int) e).count,
          idxs ++ (if isDatasource e then [(i : Int)] else []),
          d0 ++ (entryResult provider src tgt (i : Int) e).diags⟩ := by
  have hself : cur.set i e = cur := set_get?_self cur i e he
  have hi : i < cur.length := by
    rw [List.get?_eq_some] at he
    exact he.1
  unfold resourceStep entryResult isDatasource
  by_cases hm : gjsonString (gjsonGet (some e) "mode") = "data"
  · simp [hm, hself]
  · by_cases ht : gjsonString (gjsonGet (some e) "type") = ""
    · simp [hm, ht, hself]
    · cases hg : provider.GetMigrator (gjsonString (gjsonGet (some e) "type")) src tgt with
      | none => simp [hm, ht, hg, hself]
      | some migrator =>
        by_cases hx : gjsonExists (gjsonGet (some e) "instances") = true
        · simp only [hm, ht, hg, hx, if_false, decide_False, Bool.not_true, Bool.false_eq_true,
            List.append_nil]
          rw [renameStep_lift migrator _ ms cur i c0 idxs d0 e h he,
            foldl_instanceStep_lift migrator _ _ ms cur i c0 idxs d0 _ h hi]
          rfl
        · simp [hm, ht, hg, hx, hself]

theorem set_append_length (pre suf : List Json) (e r : Json) :
    (pre ++ e :: suf).set pre.length r = (pre ++ [r]) ++ suf := by
  induction pre with
  | nil => simp
  | cons p pre ih => simp [ih]

theorem get?_append_length (pre suf : List Json) (e : Json) :
    (pre ++ e :: suf).get? pre.length = some e := by
  induction pre with
  | nil => simp
  | cons p pre ih => simpa using ih

theorem entryResults_cons (provider : MigrationProvider) (src tgt : String) (n : Nat)
    (e : Json) (es : List Json) :
    entryResults provider src tgt n (e :: es)
      = entryResult provider src tgt (n : Int) e :: entryResults provider src tgt (n + 1) es :=
  rfl

theorem dataIndices_cons (n : Nat) (e : Json) (es : List Json) :
    dataIndices n (e :: es)
      = (if isDatasource e then [(n : Int)] else []) ++ dataIndices (n + 1) es := by
  unfold dataIndices
  rw [indexed_cons]
  by_cases hd : isDatasource e = true
  · simp [List.filter_cons, hd]
  · simp [List.filter_cons, hd]

/-- The loop over the entries `suf` that follow the already rewritten entries `pre`. -/
theorem foldl_resourceStep (provider : MigrationProvider) (src tgt : String)
    (ms : List (String × Json)) (h : (lookupMember "resources" ms).isSome) :
    ∀ (suf pre : List Json) (c0 : Nat) (idxs : List Int) (d0 : List Diagnostic),
    (indexed pre.length suf).foldl (resourceStep provider src tgt)
        ⟨withResources ms (pre ++ suf), c0, idxs, d0⟩
      = ⟨withResources ms
            (pre ++ (entryResults provider src tgt pre.length suf).map (fun r => r.entry)),
          c0 + ((entryResults provider src tgt pre.length suf).map (fun r => r.count)).sum,
          idxs ++ dataIndices pre.length suf,
          d0 ++ ((entryResults provider src tgt pre.length suf).map (fun r => r.diags)).flatten⟩ := by
  intro suf
  induction suf with
  | nil => intro pre c0 idxs d0; simp [indexed, entryResults, dataIndices]
  | cons e rest ih =>
    intro pre c0 idxs d0
    rw [indexed_cons, List.foldl_cons,
      resourceStep_eq provider src tgt ms _ _ c0 idxs d0 e h (get?_append_length pre rest e),
      set_append_length]
    have hlen : (pre ++ [(entryResult provider src tgt (pre.length : Int) e).entry]).length
        = pre.length + 1 := by simp
    have := ih (pre ++ [(entryResult provider src tgt (pre.length : Int) e).entry])
      (c0 + (entryResult provider src tgt (pre.length : Int) e).count)
      (idxs ++ (if isDatasource e then [(pre.length : Int)] else []))
      (d0 ++ (entryResult provider src tgt (pre.length : Int) e).diags)
    rw [hlen] at this
    rw [this, entryResults_cons, dataIndices_cons]
    simp [Nat.add_assoc]

/-! ## Removal of the recorded positions -/

theorem deleteTarget_of_ne (j : Json) (p : String) (hp : p ≠ "-1") :
    deleteTarget j p = (j.child p).map (fun c => (p, c)) := by
  unfold deleteTarget
  rw [if_neg hp]

theorem eraseChild_arr_repr (cur : List Json) (i : Nat) :
    (Json.arr cur).eraseChild (Nat.repr i) = .arr (cur.eraseIdx i) := by
  simp [Json.eraseChild, parseUint_repr]

theorem delete_doc (ms : List (String × Json)) (cur : List Json) (i : Nat)
    (h : (lookupMember "resources" ms).isSome) :
    sjsonDelete (withResources ms cur) ["resources", Nat.repr i]
      = withResources ms (cur.eraseIdx i) := by
  have h1 : deleteTarget (withResources ms cur) "resources"
      = some ("resources", .arr cur) := by
    rw [deleteTarget_of_ne _ _ (by decide), child_withResources ms cur h]; rfl
  have h2 : sjsonDelete (.arr cur) [Nat.repr i] = .arr (cur.eraseIdx i) := by
    rw [sjsonDelete, deleteTarget_of_ne _ _ (repr_ne_minus_one i), child_arr_repr]
    cases hg : cur.get? i with
    | none =>
      have : cur.length ≤ i := by
        rw [List.get?_eq_none] at hg; exact hg
      simp [List.eraseIdx_of_length_le this]
    | some x => simp [eraseChild_arr_repr]
  rw [sjsonDelete, h1]
  simp only [h2, withResources_replace]
  rfl

theorem eraseIdx_append_length (pre suf : List Json) (c : Json) :
    ((pre ++ [c]) ++ suf).eraseIdx pre.length = pre ++ suf := by
  induction pre with
  | nil => simp
  | cons p pre ih => simpa using ih

theorem removeDatasources_append (doc : Json) (a b : List Int) :
    removeDatasources doc (a ++ b) = removeDatasources (removeDatasources doc b) a := by
  simp [removeDatasources, List.reverse_append, List.foldl_append]

theorem removeDatasources_nil (doc : Json) : removeDatasources doc [] = doc := rfl

theorem removeDatasources_single (doc : Json) (i : Int) :
    removeDatasources doc [i] = sjsonDelete doc ["resources", formatInt i] := rfl

theorem removeDatasources_doc (ms : List (String × Json))
    (h : (lookupMember "resources" ms).isSome) :
    ∀ (es cur pre : List Json), es.length = cur.length →
    removeDatasources (withResources ms (pre ++ cur)) (dataIndices pre.length es)
      = withResources ms (pre ++ keepManaged es cur) := by
  intro es
  induction es with
  | nil =>
    intro cur pre hl
    cases cur with
    | nil => simp [dataIndices, indexed, keepManaged, removeDatasources]
    | cons c cur => simp at hl
  | cons e es ih =>
    intro cur pre hl
    cases cur with
    | nil => simp at hl
    | cons c cur =>
      have hl2 : es.length = cur.length := by simpa using hl
      have hih := ih cur (pre ++ [c]) hl2
      have hlen : (pre ++ [c]).length = pre.length + 1 := by simp
      rw [hlen] at hih
      have happ : pre ++ c :: cur = (pre ++ [c]) ++ cur := by simp
      rw [dataIndices_cons, removeDatasources_append, happ, hih]
      by_cases hd : isDatasource e = true
      · simp only [hd, if_true, keepManaged]
        rw [removeDatasources_single, formatInt_natCast, delete_doc ms _ _ h,
          eraseIdx_append_length]
      · rw [if_neg hd, removeDatasources_nil]
        simp [keepManaged, hd]

theorem length_entryResults (provider : MigrationProvider) (src tgt : String) :
    ∀ (es : List Json) (n : Nat), (entryResults provider src tgt n es).length = es.length := by
  intro es
  induction es with
  | nil => intro n; rfl
  | cons e es ih => intro n; rw [entryResults_cons, List.length_cons, ih, List.length_cons]

/-! ## The handler on a document with a resource list -/

theorem withResources_self (ms : List (String × Json)) (es : List Json)
    (hr : lookupMember "resources" ms = some (.arr es)) : withResources ms es = .obj ms := by
  unfold withResources
  rw [replace_lookup_self _ _ _ hr]

/-- On a document whose `resources` member is an array, `Handle` hands the
context `handedOver` to the next handler. -/
theorem Handle_resources (provider : MigrationProvider) (next : Option (Context → HandlerResult))
    (ctx : Context) (ms : List (String × Json)) (es : List Json)
    (hc : ctx.Content = .json (.obj ms)) (hr : lookupMember "resources" ms = some (.arr es)) :
    StateTransformHandler.Handle ⟨provider, next⟩ ctx
      = StateTransformHandler.Next ⟨provider, next⟩ (handedOver provider ctx ms es) := by
  have h : (lookupMember "resources" ms).isSome := by rw [hr]; rfl
  have hloop := foldl_resourceStep provider ctx.SourceVersion ctx.TargetVersion ms h es []
    0 [] ctx.Diagnostics
  simp only [List.length_nil, List.nil_append, withResources_self ms es hr, Nat.zero_add] at hloop
  have hrem := removeDatasources_doc ms h es
    ((entryResults provider ctx.SourceVersion ctx.TargetVersion 0 es).map (fun r => r.entry)) []
    (by rw [List.length_map, length_entryResults])
  simp only [List.length_nil, List.nil_append] at hrem
  unfold StateTransformHandler.Handle handedOver
  simp only [hc, gjsonGet, Option.bind, Json.child, hr, gjsonExists, Option.isSome, gjsonForEach,
    Bool.not_true, Bool.false_eq_true, if_false]
  rw [hloop]
  simp only [hrem]

/-! ## What a rewritten entry keeps -/

theorem parseUint_type : parseUint "type" = none := by decide

theorem parseUint_instances : parseUint "instances" = none := by decide

theorem child_replaceChild_same (j : Json) (p : String) (v : Json) (h : (j.child p).isSome) :
    (j.replaceChild p v).child p = some v := by
  cases j with
  | obj ms => exact lookup_replace_same p v ms h
  | arr xs =>
    simp only [Json.child, Json.replaceChild] at h ⊢
    cases hp : parseUint p with
    | none => simp [hp] at h
    | some n =>
      simp only [hp] at h ⊢
      have hn : n < xs.length := by
        by_contra hcon
        have : xs.get? n = none := by rw [List.get?_eq_none]; omega
        rw [this] at h; cases h
      simp [hn]
  | null => cases h
  | bool b => cases h
  | num r => cases h
  | str s => cases h

/-- Replacing the value under a name that is not a number leaves the children
under every other part as they are. -/
theorem child_replaceChild_name (j : Json) (p q : String) (v : Json) (hq : parseUint q = none)
    (hne : p ≠ q) : (j.replaceChild q v).child p = j.child p := by
  cases j with
  | obj ms => exact lookup_replace_ne p q v ms hne
  | arr xs => simp [Json.replaceChild, hq]
  | null => rfl
  | bool b => rfl
  | num r => rfl
  | str s => rfl

theorem replaceChild_twice (j : Json) (p : String) (a b : Json) :
    (j.replaceChild p b).replaceChild p a = j.replaceChild p a := by
  cases j with
  | obj ms => simp [Json.replaceChild, replace_replace_same]
  | arr xs =>
    simp only [Json.replaceChild]
    cases hp : parseUint p with
    | none => simp [hp]
    | some n => simp [hp]
  | null => rfl
  | bool b => rfl
  | num r => rfl
  | str s => rfl

theorem replaceChild_comm_name (j : Json) (p q : String) (a b : Json)
    (hp : parseUint p = none) (hq : parseUint q = none) (hne : p ≠ q) :
    (j.replaceChild q b).replaceChild p a = (j.replaceChild p a).replaceChild q b := by
  cases j with
  | obj ms => simp [Json.replaceChild, replace_comm p q a b ms hne]
  | arr xs => simp [Json.replaceChild, hp, hq]
  | null => rfl
  | bool b => rfl
  | num r => rfl
  | str s => rfl

theorem sameFrame_refl (e : Json) : sameFrame e e := rfl

theorem sameFrame_replace_type (e x : Json) (v : Json) (h : sameFrame e x) :
    sameFrame e (x.replaceChild "type" v) := by
  unfold sameFrame at h ⊢
  rw [← h, replaceChild_comm_name x "instances" "type" .null v parseUint_instances
    parseUint_type (by decide), replaceChild_twice]

theorem sameFrame_replace_instances (e x : Json) (v : Json) (h : sameFrame e x) :
    sameFrame e (x.replaceChild "instances" v) := by
  unfold sameFrame at h ⊢
  rw [← h, replaceChild_twice]

/-- Entries with the same frame have the same children under every name other
than `type` and `instances`. -/
theorem sameFrame_child (e x : Json) (k : String) (h : sameFrame e x)
    (h1 : k ≠ "type") (h2 : k ≠ "instances") : x.child k = e.child k := by
  unfold sameFrame at h
  have hx : ((x.replaceChild "instances" .null).replaceChild "type" .null).child k = x.child k := by
    rw [child_replaceChild_name _ k "type" _ parseUint_type h1,
      child_replaceChild_name _ k "instances" _ parseUint_instances h2]
  have he : ((e.replaceChild "instances" .null).replaceChild "type" .null).child k = e.child k := by
    rw [child_replaceChild_name _ k "type" _ parseUint_type h1,
      child_replaceChild_name _ k "instances" _ parseUint_instances h2]
  rw [← hx, h, he]

theorem sameFrame_isDatasource (e x : Json) (h : sameFrame e x) :
    isDatasource x = isDatasource e := by
  have hm := sameFrame_child e x "mode" h (by decide) (by decide)
  simp only [isDatasource, gjsonGet, Option.bind, hm]

theorem gjsonString_ne_empty (r : Option Json) (h : gjsonString r ≠ "") : r.isSome := by
  cases r with
  | none => exact absurd rfl h
  | some j => rfl

/-- The rename leaves the frame and the presence of an `instances` member. -/
theorem entryRename_spec (migrator : Migrator) (rt : String) (e : Json)
    (ht : (e.child "type").isSome) :
    entryRename migrator rt e = e ∨
      entryRename migrator rt e = e.replaceChild "type" (.str migrator.GetResourceType) := by
  unfold entryRename
  by_cases h1 : migrator.CanHandle rt = true
  · by_cases h2 : migrator.GetResourceType ≠ "" ∧ migrator.GetResourceType ≠ rt
    · right
      obtain ⟨c, hc⟩ := Option.isSome_iff_exists.mp ht
      simp only [h1, h2, if_true, and_self, not_false_eq_true, ne_eq, sjsonSet]
      rw [setRaw_found_last e c "type" _ hc]
    · left; simp [h1, h2]
  · left; simp [h1]

theorem entryRename_frame (migrator : Migrator) (rt : String) (e : Json)
    (ht : (e.child "type").isSome) (hi : (e.child "instances").isSome) :
    sameFrame e (entryRename migrator rt e) ∧
      ((entryRename migrator rt e).child "instances").isSome := by
  rcases entryRename_spec migrator rt e ht with h | h
  · rw [h]; exact ⟨sameFrame_refl e, hi⟩
  · rw [h]
    refine ⟨sameFrame_replace_type e e _ (sameFrame_refl e), ?_⟩
    rw [child_replaceChild_name e "instances" "type" _ parseUint_type (by decide)]
    exact hi

/-- A patch at `instances.<q>` of an entry that has an `instances` member
replaces the value of that member, when it succeeds. -/
theorem setRaw_instances (x c : Json) (q : String) (t : Json)
    (hc : x.child "instances" = some c) :
    sjsonSetRaw x ["instances", q] t
      = match sjsonSetRaw c [q] t with
        | .ok c2 => .ok (x.replaceChild "instances" c2)
        | .error err => .error err :=
  setRaw_found_more x c "instances" q [] t hc

theorem entryInstanceStep_frame (migrator : Migrator) (rt rn : String) (key : Int)
    (e : Json) (acc : EntryAcc) (inst : Int × Json)
    (h : sameFrame e acc.entry ∧ (acc.entry.child "instances").isSome) :
    sameFrame e (entryInstanceStep migrator rt rn key acc inst).entry ∧
      ((entryInstanceStep migrator rt rn key acc inst).entry.child "instances").isSome := by
  unfold entryInstanceStep
  cases hT : migrator.TransformState inst.2 (pathString (instancePath key inst.1)) rn with
  | error err => exact h
  | ok o =>
    cases o with
    | none => exact h
    | some t =>
      obtain ⟨c, hc⟩ := Option.isSome_iff_exists.mp h.2
      simp only []
      rw [setRaw_instances acc.entry c _ t hc]
      cases hS : sjsonSetRaw c [formatInt inst.1] t with
      | error err => exact h
      | ok c2 =>
        refine ⟨sameFrame_replace_instances e acc.entry c2 h.1, ?_⟩
        simp only []
        rw [child_replaceChild_same acc.entry "instances" c2 h.2]
        rfl

theorem foldl_entryInstanceStep_frame (migrator : Migrator) (rt rn : String) (key : Int)
    (e : Json) (insts : List (Int × Json)) :
    ∀ acc : EntryAcc, (sameFrame e acc.entry ∧ (acc.entry.child "instances").isSome) →
    sameFrame e (insts.foldl (entryInstanceStep migrator rt rn key) acc).entry ∧
      ((insts.foldl (entryInstanceStep migrator rt rn key) acc).entry.child "instances").isSome := by
  induction insts with
  | nil => intro acc h; exact h
  | cons inst rest ih =>
    intro acc h
    rw [List.foldl_cons]
    exact ih _ (entryInstanceStep_frame migrator rt rn key e acc inst h)

/-- The loop changes an entry at most in the value of its `type` member and in
the value of its `instances` member. -/
theorem entryResult_frame (provider : MigrationProvider) (src tgt : String) (key : Int)
    (e : Json) : sameFrame e (entryResult provider src tgt key e).entry := by
  unfold entryResult
  by_cases hd : isDatasource e = true
  · simp [hd, sameFrame_refl]
  · by_cases ht : gjsonString (gjsonGet (some e) "type") = ""
    · simp [hd, ht, sameFrame_refl]
    · cases hg : provider.GetMigrator (gjsonString (gjsonGet (some e) "type")) src tgt with
      | none => simp [hd, ht, hg, sameFrame_refl]
      | some migrator =>
        by_cases hx : gjsonExists (gjsonGet (some e) "instances") = true
        · simp only [hd, ht, hg, hx, if_false, Bool.not_true, Bool.false_eq_true]
          have htype : (e.child "type").isSome := gjsonString_ne_empty _ ht
          have hinst : (e.child "instances").isSome := hx
          exact (foldl_entryInstanceStep_frame migrator _ _ key e _ _
            (entryRename_frame migrator _ e htype hinst)).1
        · simp [hd, ht, hg, hx, sameFrame_refl]

theorem forall₂_entryResults (provider : MigrationProvider) (src tgt : String) :
    ∀ (es : List Json) (n : Nat),
    List.Forall₂ sameFrame es ((entryResults provider src tgt n es).map (fun r => r.entry)) := by
  intro es
  induction es with
  | nil => intro n; exact List.Forall₂.nil
  | cons e es ih =>
    intro n
    rw [entryResults_cons, List.map_cons]
    exact List.Forall₂.cons (entryResult_frame provider src tgt n e) (ih (n + 1))

theorem keepManaged_cons_data (e c : Json) (es cur : List Json) (hd : isDatasource e = true) :
    keepManaged (e :: es) (c :: cur) = keepManaged es cur := by
  simp [keepManaged, hd]

theorem keepManaged_cons_managed (e c : Json) (es cur : List Json)
    (hd : isDatasource e = false) :
    keepManaged (e :: es) (c :: cur) = c :: keepManaged es cur := by
  simp [keepManaged, hd]

theorem forall₂_keepManaged (es cur : List Json) (h : List.Forall₂ sameFrame es cur) :
    List.Forall₂ sameFrame (es.filter (fun e => !isDatasource e)) (keepManaged es cur) := by
  induction h with
  | nil => exact List.Forall₂.nil
  | @cons a b l1 l2 hab _ ih =>
    cases hd : isDatasource a with
    | true =>
      rw [keepManaged_cons_data a b l1 l2 hd, List.filter_cons]
      simpa [hd] using ih
    | false =>
      rw [keepManaged_cons_managed a b l1 l2 hd, List.filter_cons]
      simp only [hd, Bool.not_false, if_true]
      exact List.Forall₂.cons hab ih

theorem keepManaged_no_datasource (es cur : List Json) (h : List.Forall₂ sameFrame es cur) :
    ∀ x ∈ keepManaged es cur, isDatasource x = false := by
  induction h with
  | nil => intro x hx; simp [keepManaged] at hx
  | @cons a b l1 l2 hab _ ih =>
    intro x hx
    cases hd : isDatasource a with
    | true =>
      rw [keepManaged_cons_data a b l1 l2 hd] at hx
      exact ih x hx
    | false =>
      rw [keepManaged_cons_managed a b l1 l2 hd, List.mem_cons] at hx
      rcases hx with hx | hx
      · rw [hx, sameFrame_isDatasource a b hab, hd]
      · exact ih x hx

theorem length_dataIndices : ∀ (es : List Json) (n : Nat),
    (dataIndices n es).length = es.countP isDatasource := by
  intro es
  induction es with
  | nil => intro n; rfl
  | cons e es ih =>
    intro n
    rw [dataIndices_cons, List.length_append, ih, List.countP_cons]
    by_cases hd : isDatasource e = true
    · simp [hd]; omega
    · simp [hd]

theorem length_keepManaged : ∀ (es cur : List Json), es.length = cur.length →
    (keepManaged es cur).length = es.length - es.countP isDatasource := by
  intro es
  induction es with
  | nil => intro cur _; cases cur <;> rfl
  | cons e es ih =>
    intro cur hl
    cases cur with
    | nil => simp at hl
    | cons c cur =>
      have hl2 : es.length = cur.length := by simpa using hl
      have hle : es.countP isDatasource ≤ es.length := List.countP_le_length _
      cases hd : isDatasource e with
      | true =>
        rw [keepManaged_cons_data e c es cur hd, ih cur hl2, List.countP_cons]
        simp [hd]
      | false =>
        rw [keepManaged_cons_managed e c es cur hd, List.length_cons, ih cur hl2,
          List.countP_cons]
        simp only [hd, Bool.false_eq_true, if_false, List.length_cons]
        omega

/-! ## Removal with a fresh scan -/

theorem find_indexed : ∀ (es : List Json) (n : Nat),
    ((∀ e ∈ es, isDatasource e = false) ∧
      (indexed n es).find? (fun p => isDatasource p.2) = none) ∨
    ∃ pre e suf, es = pre ++ e :: suf ∧ (∀ x ∈ pre, isDatasource x = false) ∧
      isDatasource e = true ∧
      (indexed n es).find? (fun p => isDatasource p.2) = some (((n + pre.length : Nat) : Int), e) := by
  intro es
  induction es with
  | nil => intro n; left; exact ⟨by simp, rfl⟩
  | cons e es ih =>
    intro n
    cases hd : isDatasource e with
    | true =>
      right
      refine ⟨[], e, es, rfl, by simp, hd, ?_⟩
      simp [indexed_cons, List.find?_cons, hd]
    | false =>
      rcases ih (n + 1) with ⟨hall, hnone⟩ | ⟨pre, e2, suf, hes, hpre, he2, hfind⟩
      · left
        refine ⟨?_, ?_⟩
        · intro x hx
          rcases List.mem_cons.mp hx with hx | hx
          · rw [hx]; exact hd
          · exact hall x hx
        · simp [indexed_cons, List.find?_cons, hd, hnone]
      · right
        refine ⟨e :: pre, e2, suf, by rw [hes]; rfl, ?_, he2, ?_⟩
        · intro x hx
          rcases List.mem_cons.mp hx with hx | hx
          · rw [hx]; exact hd
          · exact hpre x hx
        · simp only [indexed_cons, List.find?_cons, hd, hfind, List.length_cons]
          congr 3
          omega

theorem filter_managed_self (es : List Json) (h : ∀ e ∈ es, isDatasource e = false) :
    es.filter (fun e => !isDatasource e) = es := by
  rw [List.filter_eq_self]
  intro e he
  simp [h e he]

theorem firstDatasource_doc (ms : List (String × Json)) (es : List Json)
    (h : (lookupMember "resources" ms).isSome) :
    firstDatasource (withResources ms es)
      = ((indexed 0 es).find? (fun p => isDatasource p.2)).map (fun p => p.1) := by
  unfold firstDatasource gjsonGet
  simp only [Option.bind, child_withResources ms es h, gjsonForEach]

theorem eraseIdx_append_cons (pre suf : List Json) (e : Json) :
    (pre ++ e :: suf).eraseIdx pre.length = pre ++ suf := by
  induction pre with
  | nil => simp
  | cons p pre ih => simpa using ih

theorem rescan_doc (ms : List (String × Json)) (h : (lookupMember "resources" ms).isSome) :
    ∀ (fuel : Nat) (es : List Json), es.countP isDatasource ≤ fuel →
    rescanRemoveFuel fuel (withResources ms es)
      = withResources ms (es.filter (fun e => !isDatasource e)) := by
  intro fuel
  induction fuel with
  | zero =>
    intro es hle
    have hall : ∀ e ∈ es, isDatasource e = false := by
      intro e he
      have h0 : es.countP isDatasource = 0 := by omega
      rw [List.countP_eq_zero] at h0
      simpa using h0 e he
    rw [filter_managed_self es hall]
    rfl
  | succ fuel ih =>
    intro es hle
    rw [rescanRemoveFuel, firstDatasource_doc ms es h]
    rcases find_indexed es 0 with ⟨hall, hnone⟩ | ⟨pre, e, suf, hes, hpre, he, hfind⟩
    · rw [hnone, filter_managed_self es hall]
      rfl
    · rw [hfind]
      simp only [Option.map, Nat.zero_add, formatInt_natCast]
      rw [delete_doc ms es pre.length h, hes, eraseIdx_append_cons]
      have hcount : (pre ++ suf).countP isDatasource ≤ fuel := by
        rw [hes, List.countP_append, List.countP_cons] at hle
        rw [List.countP_append]
        simp only [he, if_true] at hle
        omega
      rw [ih (pre ++ suf) hcount]
      simp [List.filter_append, List.filter_cons, he]

theorem filter_eq_keepManaged : ∀ es : List Json,
    es.filter (fun e => !isDatasource e) = keepManaged es es := by
  intro es
  induction es with
  | nil => rfl
  | cons e es ih =>
    cases hd : isDatasource e with
    | true => rw [keepManaged_cons_data e e es es hd, List.filter_cons]; simpa [hd] using ih
    | false =>
      rw [keepManaged_cons_managed e e es es hd, List.filter_cons]
      simp only [hd, Bool.not_false, if_true]
      rw [ih]

theorem length_indexed : ∀ (es : List Json) (n : Nat), (indexed n es).length = es.length := by
  intro es
  induction es with
  | nil => intro n; rfl
  | cons e es ih => intro n; rw [indexed_cons, List.length_cons, ih, List.length_cons]

/-! ## The resource list of a document -/

theorem resourceList_withResources (ms : List (String × Json)) (es : List Json)
    (h : (lookupMember "resources" ms).isSome) :
    resourceList (.json (withResources ms es)) = some es := by
  simp [resourceList, child_withResources ms es h]

theorem resourceList_doc (ms : List (String × Json)) (es : List Json)
    (hr : lookupMember "resources" ms = some (.arr es)) :
    resourceList (.json (.obj ms)) = some es := by
  simp [resourceList, Json.child, hr]

theorem forall₂_sameFrame_self : ∀ es : List Json, List.Forall₂ sameFrame es es := by
  intro es
  induction es with
  | nil => exact List.Forall₂.nil
  | cons e es ih => exact List.Forall₂.cons (sameFrame_refl e) ih

theorem no_datasource_of_dataIndices (es : List Json) (h : ¬ (dataIndices 0 es).length > 0) :
    ∀ e ∈ es, isDatasource e = false := by
  intro e he
  rw [length_dataIndices] at h
  have h0 : es.countP isDatasource = 0 := by omega
  rw [List.countP_eq_zero] at h0
  simpa using h0 e he


/-! ## Instance lists -/

theorem entryInstanceStep_arr (migrator : Migrator) (rt rn : String) (key : Int)
    (pre suf : List Json) (x : Json) (acc : EntryAcc)
    (h : acc.entry.child "instances" = some (.arr (pre ++ x :: suf))) :
    (entryInstanceStep migrator rt rn key acc ((pre.length : Int), x)).entry
      = acc.entry.replaceChild "instances"
          (.arr ((pre ++ [patchedInstance migrator rn key ((pre.length : Int), x)]) ++ suf)) := by
  have hself : acc.entry.replaceChild "instances" (.arr ((pre ++ [x]) ++ suf)) = acc.entry := by
    have happ : (pre ++ [x]) ++ suf = pre ++ x :: suf := by simp
    rw [happ]
    cases hj : acc.entry with
    | obj ms =>
      rw [hj] at h
      simp only [Json.replaceChild]
      rw [replace_lookup_self "instances" _ ms h]
    | arr xs => simp [Json.replaceChild, parseUint_instances]
    | null => rfl
    | bool b => rfl
    | num r => rfl
    | str s => rfl
  unfold entryInstanceStep patchedInstance
  cases hT : migrator.TransformState x (pathString (instancePath key (pre.length : Int))) rn with
  | error err => simp only [hT]; exact hself.symm
  | ok o =>
    cases o with
    | none => simp only [hT]; exact hself.symm
    | some t =>
      simp only [hT, formatInt_natCast]
      rw [setRaw_instances acc.entry _ _ t h,
        setRaw_found_last (.arr (pre ++ x :: suf)) x (Nat.repr pre.length) t
          (by rw [child_arr_repr, get?_append_length])]
      simp only [replaceChild_arr_repr, set_append_length]

theorem foldl_entryInstanceStep_arr (migrator : Migrator) (rt rn : String) (key : Int) :
    ∀ (suf pre : List Json) (acc : EntryAcc),
    acc.entry.child "instances" = some (.arr (pre ++ suf)) →
    ((indexed pre.length suf).foldl (entryInstanceStep migrator rt rn key) acc).entry
      = acc.entry.replaceChild "instances"
          (.arr (pre ++ (indexed pre.length suf).map (patchedInstance migrator rn key))) := by
  intro suf
  induction suf with
  | nil =>
    intro pre acc h
    simp only [indexed, List.foldl_nil, List.map_nil]
    cases hj : acc.entry with
    | obj ms =>
      rw [hj] at h
      simp only [Json.replaceChild]
      rw [replace_lookup_self "instances" _ ms h]
    | arr xs => simp [Json.replaceChild, parseUint_instances]
    | null => rfl
    | bool b => rfl
    | num r => rfl
    | str s => rfl
  | cons x suf ih =>
    intro pre acc h
    have hsome : (acc.entry.child "instances").isSome := by rw [h]; rfl
    have hstep := entryInstanceStep_arr migrator rt rn key pre suf x acc h
    have hchild : (entryInstanceStep migrator rt rn key acc ((pre.length : Int), x)).entry.child
        "instances" = some (.arr ((pre ++ [patchedInstance migrator rn key
          ((pre.length : Int), x)]) ++ suf)) := by
      rw [hstep, child_replaceChild_same _ _ _ hsome]
    have hlen : (pre ++ [patchedInstance migrator rn key ((pre.length : Int), x)]).length
        = pre.length + 1 := by simp
    have := ih (pre ++ [patchedInstance migrator rn key ((pre.length : Int), x)]) _ hchild
    rw [hlen] at this
    rw [indexed_cons, List.foldl_cons, this, hstep, replaceChild_twice]
    simp

theorem get?_map_indexed (f : Int × Json → Json) : ∀ (xs : List Json) (n j : Nat),
    ((indexed n xs).map f).get? j = (xs.get? j).map (fun x => f (((n + j : Nat) : Int), x)) := by
  intro xs
  induction xs with
  | nil => intro n j; simp [indexed]
  | cons x xs ih =>
    intro n j
    cases j with
    | zero => simp [indexed_cons]
    | succ j =>
      simp only [indexed_cons, List.map_cons, List.get?_cons_succ, ih]
      congr 2
      funext y
      congr 3
      omega

theorem get?_entryResults (provider : MigrationProvider) (src tgt : String) :
    ∀ (es : List Json) (n i : Nat),
    ((entryResults provider src tgt n es).map (fun r => r.entry)).get? i
      = (es.get? i).map (fun e => (entryResult provider src tgt ((n + i : Nat) : Int) e).entry) := by
  intro es
  induction es with
  | nil => intro n i; simp [entryResults, indexed]
  | cons e es ih =>
    intro n i
    cases i with
    | zero => simp [entryResults_cons]
    | succ i =>
      simp only [entryResults_cons, List.map_cons, List.get?_cons_succ, ih]
      congr 2
      funext y
      congr 3
      omega

theorem keepManaged_get? : ∀ (es cur : List Json) (i : Nat) (e : Json),
    es.length = cur.length → es.get? i = some e → isDatasource e = false →
    (keepManaged es cur).get? (i - removedBefore es i) = cur.get? i := by
  intro es
  induction es with
  | nil => intro cur i e _ he; simp at he
  | cons a es ih =>
    intro cur i e hl he hd
    cases cur with
    | nil => simp at hl
    | cons c cur =>
      have hl2 : es.length = cur.length := by simpa using hl
      cases i with
      | zero =>
        simp only [List.get?_cons_zero, Option.some.injEq] at he
        subst he
        rw [keepManaged_cons_managed a c es cur hd]
        simp [removedBefore]
      | succ i =>
        simp only [List.get?_cons_succ] at he
        have hle : removedBefore es i ≤ i := by
          unfold removedBefore
          exact le_trans (List.countP_le_length _) (by simp)
        have hih := ih cur i e hl2 he hd
        cases hda : isDatasource a with
        | true =>
          rw [keepManaged_cons_data a c es cur hda]
          have : removedBefore (a :: es) (i + 1) = removedBefore es i + 1 := by
            simp [removedBefore, List.countP_cons, hda]
          rw [this, List.get?_cons_succ, ← hih]
          congr 1
          omega
        | false =>
          rw [keepManaged_cons_managed a c es cur hda]
          have : removedBefore (a :: es) (i + 1) = removedBefore es i := by
            simp [removedBefore, List.countP_cons, hda]
          rw [this, List.get?_cons_succ, ← hih]
          have : i + 1 - removedBefore es i = (i - removedBefore es i) + 1 := by omega
          rw [this, List.get?_cons_succ]

/-! ## Providers that differ only in their failures -/

theorem entryInstanceStep_sameOutputs (m1 m2 : Migrator) (rt rn : String) (key : Int)
    (hT : ∀ (x : Json) (path name : String),
      outputOf (m1.TransformState x path name) = outputOf (m2.TransformState x path name))
    (a1 a2 : EntryAcc) (inst : Int × Json) (h : a1.entry = a2.entry ∧ a1.count = a2.count) :
    (entryInstanceStep m1 rt rn key a1 inst).entry = (entryInstanceStep m2 rt rn key a2 inst).entry ∧
    (entryInstanceStep m1 rt rn key a1 inst).count
      = (entryInstanceStep m2 rt rn key a2 inst).count := by
  have hT2 := hT inst.2 (pathString (instancePath key inst.1)) rn
  unfold entryInstanceStep
  cases h1 : m1.TransformState inst.2 (pathString (instancePath key inst.1)) rn with
  | error e1 =>
    cases h2 : m2.TransformState inst.2 (pathString (instancePath key inst.1)) rn with
    | error e2 => exact h
    | ok o2 =>
      rw [h1, h2] at hT2
      simp only [outputOf] at hT2
      subst hT2
      exact h
  | ok o1 =>
    cases h2 : m2.TransformState inst.2 (pathString (instancePath key inst.1)) rn with
    | error e2 =>
      rw [h1, h2] at hT2
      simp only [outputOf] at hT2
      subst hT2
      exact h
    | ok o2 =>
      rw [h1, h2] at hT2
      simp only [outputOf] at hT2
      subst hT2
      cases o1 with
      | none => exact h
      | some t =>
        simp only [h.1]
        cases hS : sjsonSetRaw a2.entry ["instances", formatInt inst.1] t with
        | error err => exact ⟨rfl, h.2⟩
        | ok x2 => exact ⟨rfl, congrArg (fun n => n + 1) h.2⟩

theorem foldl_entryInstanceStep_sameOutputs (m1 m2 : Migrator) (rt rn : String) (key : Int)
    (hT : ∀ (x : Json) (path name : String),
      outputOf (m1.TransformState x path name) = outputOf (m2.TransformState x path name))
    (insts : List (Int × Json)) :
    ∀ (a1 a2 : EntryAcc), (a1.entry = a2.entry ∧ a1.count = a2.count) →
    (insts.foldl (entryInstanceStep m1 rt rn key) a1).entry
        = (insts.foldl (entryInstanceStep m2 rt rn key) a2).entry ∧
    (insts.foldl (entryInstanceStep m1 rt rn key) a1).count
        = (insts.foldl (entryInstanceStep m2 rt rn key) a2).count := by
  induction insts with
  | nil => intro a1 a2 h; exact h
  | cons inst rest ih =>
    intro a1 a2 h
    rw [List.foldl_cons, List.foldl_cons]
    exact ih _ _ (entryInstanceStep_sameOutputs m1 m2 rt rn key hT a1 a2 inst h)

theorem entryResult_sameOutputs (p1 p2 : MigrationProvider) (src tgt : String)
    (h : sameOutputs p1 p2 src tgt) (key : Int) (e : Json) :
    (entryResult p1 src tgt key e).entry = (entryResult p2 src tgt key e).entry ∧
    (entryResult p1 src tgt key e).count = (entryResult p2 src tgt key e).count := by
  unfold entryResult
  by_cases hd : isDatasource e = true
  · simp [hd]
  · by_cases ht : gjsonString (gjsonGet (some e) "type") = ""
    · simp [hd, ht]
    · have hs := h (gjsonString (gjsonGet (some e) "type"))
      cases hg1 : p1.GetMigrator (gjsonString (gjsonGet (some e) "type")) src tgt with
      | none =>
        cases hg2 : p2.GetMigrator (gjsonString (gjsonGet (some e) "type")) src tgt with
        | none => simp [hd, ht, hg1, hg2]
        | some m2 => rw [hg1, hg2] at hs; exact absurd hs id
      | some m1 =>
        cases hg2 : p2.GetMigrator (gjsonString (gjsonGet (some e) "type")) src tgt with
        | none => rw [hg1, hg2] at hs; exact absurd hs id
        | some m2 =>
          rw [hg1, hg2] at hs
          obtain ⟨hcan, hty, hT⟩ := hs
          by_cases hx : gjsonExists (gjsonGet (some e) "instances") = true
          · simp only [hd, ht, hx, hg1, hg2, if_false, Bool.not_true, Bool.false_eq_true]
            apply foldl_entryInstanceStep_sameOutputs m1 m2 _ _ key hT
            refine ⟨?_, rfl⟩
            simp only [entryRename, hcan, hty]
          · simp [hd, ht, hx, hg1, hg2]

theorem entryResults_sameOutputs (p1 p2 : MigrationProvider) (src tgt : String)
    (h : sameOutputs p1 p2 src tgt) : ∀ (es : List Json) (n : Nat),
    (entryResults p1 src tgt n es).map (fun r => r.entry)
        = (entryResults p2 src tgt n es).map (fun r => r.entry) ∧
    (entryResults p1 src tgt n es).map (fun r => r.count)
        = (entryResults p2 src tgt n es).map (fun r => r.count) := by
  intro es
  induction es with
  | nil => intro n; exact ⟨rfl, rfl⟩
  | cons e es ih =>
    intro n
    have he := entryResult_sameOutputs p1 p2 src tgt h (n : Int) e
    have hes := ih (n + 1)
    simp only [entryResults_cons, List.map_cons, he.1, he.2, hes.1, hes.2, and_self]

/-! ## The counter -/

theorem setRaw_single_numeric (c t : Json) (q : String) (n : Nat) (hq : atoui q = some n) :
    ∃ c2, sjsonSetRaw c [q] t = .ok c2 := by
  rw [sjsonSetRaw]
  cases hch : c.child q with
  | some x => exact ⟨_, rfl⟩
  | none =>
    cases c with
    | obj ms => exact ⟨_, rfl⟩
    | arr xs => simp only [appendMissing, hq]; exact ⟨_, rfl⟩
    | null => simp only [appendMissing, hq]; exact ⟨_, rfl⟩
    | bool b => simp only [appendMissing, hq]; exact ⟨_, rfl⟩
    | num r => simp only [appendMissing, hq]; exact ⟨_, rfl⟩
    | str s => simp only [appendMissing, hq]; exact ⟨_, rfl⟩

theorem setRaw_single_obj (ms : List (String × Json)) (t : Json) (q : String) :
    ∃ ms2, sjsonSetRaw (.obj ms) [q] t = .ok (.obj ms2) := by
  rw [sjsonSetRaw]
  cases hch : (Json.obj ms).child q with
  | some x => exact ⟨_, rfl⟩
  | none => exact ⟨_, rfl⟩

theorem entryInstanceStep_count (migrator : Migrator) (rt rn : String) (key : Int)
    (acc : EntryAcc) (inst : Int × Json) (c : Json) (I : Json → Prop)
    (hc : acc.entry.child "instances" = some c) (hI : I c)
    (hok : ∀ c t, I c → ∃ c2, sjsonSetRaw c [formatInt inst.1] t = .ok c2 ∧ I c2) :
    (entryInstanceStep migrator rt rn key acc inst).count
        = acc.count + (if transformSucceeds migrator rn key inst then 1 else 0) ∧
    ∃ c2, (entryInstanceStep migrator rt rn key acc inst).entry.child "instances" = some c2 ∧
      I c2 := by
  unfold entryInstanceStep transformSucceeds
  cases hT : migrator.TransformState inst.2 (pathString (instancePath key inst.1)) rn with
  | error err => exact ⟨rfl, c, hc, hI⟩
  | ok o =>
    cases o with
    | none => exact ⟨rfl, c, hc, hI⟩
    | some t =>
      obtain ⟨c2, hset, hI2⟩ := hok c t hI
      simp only []
      rw [setRaw_instances acc.entry c _ t hc, hset]
      refine ⟨rfl, c2, ?_, hI2⟩
      exact child_replaceChild_same acc.entry "instances" c2 (by rw [hc]; rfl)

theorem foldl_entryInstanceStep_count (migrator : Migrator) (rt rn : String) (key : Int)
    (I : Json → Prop) (insts : List (Int × Json))
    (hok : ∀ inst ∈ insts, ∀ c t, I c → ∃ c2, sjsonSetRaw c [formatInt inst.1] t = .ok c2 ∧ I c2) :
    ∀ (acc : EntryAcc) (c : Json), acc.entry.child "instances" = some c → I c →
    (insts.foldl (entryInstanceStep migrator rt rn key) acc).count
      = acc.count + insts.countP (transformSucceeds migrator rn key) := by
  induction insts with
  | nil => intro acc c _ _; rfl
  | cons inst rest ih =>
    intro acc c hc hI
    obtain ⟨hcount, c2, hc2, hI2⟩ := entryInstanceStep_count migrator rt rn key acc inst c I hc hI
      (hok inst (List.mem_cons_self _ _))
    rw [List.foldl_cons,
      ih (fun i hi => hok i (List.mem_cons_of_mem _ hi)) _ c2 hc2 hI2, hcount, List.countP_cons]
    omega

theorem indexed_key_nat : ∀ (xs : List Json) (n : Nat), ∀ p ∈ indexed n xs, ∃ k : Nat, p.1 = (k : Int) := by
  intro xs
  induction xs with
  | nil => intro n p hp; simp [indexed] at hp
  | cons x xs ih =>
    intro n p hp
    rw [indexed_cons, List.mem_cons] at hp
    rcases hp with hp | hp
    · exact ⟨n, by rw [hp]⟩
    · exact ih (n + 1) p hp

/-- Every patch the loop attempts on the instances of an entry succeeds. -/
theorem forEach_patch_ok (v : Json) :
    ∃ I : Json → Prop, I v ∧
      ∀ inst ∈ gjsonForEach (some v), ∀ c t, I c →
        ∃ c2, sjsonSetRaw c [formatInt inst.1] t = .ok c2 ∧ I c2 := by
  have hnum : ∀ inst : Int × Json, (∃ k : Nat, inst.1 = (k : Int)) → ∀ c t, True →
      ∃ c2, sjsonSetRaw c [formatInt inst.1] t = .ok c2 ∧ True := by
    intro inst ⟨k, hk⟩ c t _
    rw [hk, formatInt_natCast]
    obtain ⟨c2, h2⟩ := setRaw_single_numeric c t (Nat.repr k) k (atoui_repr k)
    exact ⟨c2, h2, trivial⟩
  have hzero : ∀ w : Json, ∀ inst ∈ [((0 : Int), w)], ∃ k : Nat, inst.1 = (k : Int) := by
    intro w inst hi
    rw [List.mem_singleton] at hi
    exact ⟨0, by rw [hi]; rfl⟩
  cases v with
  | arr xs =>
    exact ⟨fun _ => True, trivial, fun inst hi => hnum inst (indexed_key_nat xs 0 inst hi)⟩
  | obj ms =>
    refine ⟨fun c => ∃ ms2, c = .obj ms2, ⟨ms, rfl⟩, ?_⟩
    intro inst _ c t ⟨ms2, hms2⟩
    obtain ⟨ms3, h3⟩ := setRaw_single_obj ms2 t (formatInt inst.1)
    exact ⟨.obj ms3, by rw [hms2, h3], ms3, rfl⟩
  | null => exact ⟨fun _ => True, trivial, fun inst hi => hnum inst (hzero _ inst hi)⟩
  | bool b => exact ⟨fun _ => True, trivial, fun inst hi => hnum inst (hzero _ inst hi)⟩
  | num r => exact ⟨fun _ => True, trivial, fun inst hi => hnum inst (hzero _ inst hi)⟩
  | str s => exact ⟨fun _ => True, trivial, fun inst hi => hnum inst (hzero _ inst hi)⟩

/-- The counter grows, for each entry, by the number of its instances whose
transform succeeds with a non-empty output. -/
theorem entryResult_count (provider : MigrationProvider) (src tgt : String) (key : Int)
    (e : Json) :
    (entryResult provider src tgt key e).count = successCount provider src tgt (key, e) := by
  unfold entryResult successCount
  by_cases hd : isDatasource e = true
  · simp [hd]
  · by_cases ht : gjsonString (gjsonGet (some e) "type") = ""
    · simp [hd, ht]
    · cases hg : provider.GetMigrator (gjsonString (gjsonGet (some e) "type")) src tgt with
      | none => simp [hd, ht, hg]
      | some migrator =>
        by_cases hx : gjsonExists (gjsonGet (some e) "instances") = true
        · simp only [hd, ht, hg, hx, if_false, Bool.not_true, Bool.false_eq_true]
          have htype : (e.child "type").isSome := gjsonString_ne_empty _ ht
          obtain ⟨v, hv⟩ := Option.isSome_iff_exists.mp hx
          have hv2 : e.child "instances" = some v := hv
          have hchild : (entryRename migrator (gjsonString (gjsonGet (some e) "type")) e).child
              "instances" = some v := by
            rcases entryRename_spec migrator (gjsonString (gjsonGet (some e) "type")) e htype
              with h | h
            · rw [h]; exact hv2
            · rw [h, child_replaceChild_name e "instances" "type" _ parseUint_type (by decide)]
              exact hv2
          obtain ⟨I, hI, hok⟩ := forEach_patch_ok v
          rw [hv]
          have := foldl_entryInstanceStep_count migrator
            (gjsonString (gjsonGet (some e) "type")) (gjsonString (gjsonGet (some e) "name"))
            key I (gjsonForEach (some v)) hok
            ⟨entryRename migrator (gjsonString (gjsonGet (some e) "type")) e, 0, []⟩ v hchild hI
          rw [this]
          simp
        · have hnone : gjsonGet (some e) "instances" = none := by
            cases hch : gjsonGet (some e) "instances" with
            | none => rfl
            | some x => rw [hch] at hx; exact absurd rfl hx
          simp [hd, ht, hg, hnone, gjsonExists, gjsonForEach]

theorem map_count_entryResults (provider : MigrationProvider) (src tgt : String) :
    ∀ (es : List Json) (n : Nat),
    (entryResults provider src tgt n es).map (fun r => r.count)
      = (indexed n es).map (successCount provider src tgt) := by
  intro es n
  unfold entryResults
  rw [List.map_map]
  apply List.map_congr_left
  intro p _
  exact entryResult_count provider src tgt p.1 p.2

/-! ## The diagnostics -/

theorem entryInstanceStep_diags_mono (migrator : Migrator) (rt rn : String) (key : Int)
    (acc : EntryAcc) (inst : Int × Json) (d : Diagnostic) (h : d ∈ acc.diags) :
    d ∈ (entryInstanceStep migrator rt rn key acc inst).diags := by
  unfold entryInstanceStep
  cases hT : migrator.TransformState inst.2 (pathString (instancePath key inst.1)) rn with
  | error err => exact List.mem_append_left _ h
  | ok o =>
    cases o with
    | none => exact h
    | some t =>
      simp only []
      cases hS : sjsonSetRaw acc.entry ["instances", formatInt inst.1] t with
      | error err => exact List.mem_append_left _ h
      | ok x2 => exact h

theorem foldl_entryInstanceStep_diags_mono (migrator : Migrator) (rt rn : String) (key : Int)
    (insts : List (Int × Json)) (d : Diagnostic) :
    ∀ acc : EntryAcc, d ∈ acc.diags →
    d ∈ (insts.foldl (entryInstanceStep migrator rt rn key) acc).diags := by
  induction insts with
  | nil => intro acc h; exact h
  | cons inst rest ih =>
    intro acc h
    rw [List.foldl_cons]
    exact ih _ (entryInstanceStep_diags_mono migrator rt rn key acc inst d h)

theorem foldl_entryInstanceStep_error_mem (migrator : Migrator) (rt rn : String) (key : Int)
    (insts : List (Int × Json)) (inst : Int × Json) (err : String) (hmem : inst ∈ insts)
    (herr : migrator.TransformState inst.2 (pathString (instancePath key inst.1)) rn
      = .error err) :
    ∀ acc : EntryAcc,
    (⟨.error, "Failed to transform resource: " ++ rt, err⟩ : Diagnostic)
      ∈ (insts.foldl (entryInstanceStep migrator rt rn key) acc).diags := by
  induction insts with
  | nil => simp at hmem
  | cons x rest ih =>
    intro acc
    rw [List.foldl_cons]
    rcases List.mem_cons.mp hmem with hx | hx
    · apply foldl_entryInstanceStep_diags_mono
      rw [← hx]
      unfold entryInstanceStep
      rw [herr]
      simp
    · exact ih hx _

theorem mem_indexed : ∀ (xs : List Json) (n j : Nat) (x : Json), xs.get? j = some x →
    (((n + j : Nat) : Int), x) ∈ indexed n xs := by
  intro xs
  induction xs with
  | nil => intro n j x h; simp at h
  | cons y xs ih =>
    intro n j x h
    cases j with
    | zero =>
      simp only [List.get?_cons_zero, Option.some.injEq] at h
      subst h
      rw [indexed_cons]
      simp
    | succ j =>
      simp only [List.get?_cons_succ] at h
      rw [indexed_cons]
      apply List.mem_cons_of_mem
      have := ih (n + 1) j x h
      have hnj : n + 1 + j = n + (j + 1) := by omega
      rw [hnj] at this
      exact this

theorem mem_entryResults (provider : MigrationProvider) (src tgt : String) (es : List Json)
    (i : Nat) (e : Json) (he : es.get? i = some e) :
    entryResult provider src tgt (i : Int) e ∈ entryResults provider src tgt 0 es := by
  unfold entryResults
  rw [List.mem_map]
  refine ⟨((i : Int), e), ?_, rfl⟩
  have := mem_indexed es 0 i e he
  rw [Nat.zero_add] at this
  exact this

theorem mem_handedOver_diags (provider : MigrationProvider) (ctx : Context)
    (ms : List (String × Json)) (es : List Json) (i : Nat) (e : Json) (d : Diagnostic)
    (he : es.get? i = some e)
    (hd : d ∈ (entryResult provider ctx.SourceVersion ctx.TargetVersion (i : Int) e).diags) :
    d ∈ (handedOver provider ctx ms es).Diagnostics := by
  simp only [handedOver]
  apply List.mem_append_right
  rw [List.mem_flatten]
  exact ⟨_, List.mem_map.mpr ⟨_, mem_entryResults provider _ _ es i e he, rfl⟩, hd⟩

/-! ## Reading the context handed over -/

theorem getPath_doc (ms : List (String × Json)) (es : List Json) (k : Nat) (ps : List String)
    (h : (lookupMember "resources" ms).isSome) :
    getPath (withResources ms es) ("resources" :: Nat.repr k :: ps)
      = match es.get? k with
        | some x => getPath x ps
        | none => none := by
  simp only [getPath, child_withResources ms es h, child_arr_repr]

/-- The document in `Content` after `Handle`: the entries that are not data-mode
entries, taken from the rewritten list or, when nothing was patched and nothing
removed, from the original list. -/
theorem handedOver_content (provider : MigrationProvider) (ctx : Context)
    (ms : List (String × Json)) (es : List Json)
    (hc : ctx.Content = .json (.obj ms)) (hr : lookupMember "resources" ms = some (.arr es)) :
    (handedOver provider ctx ms es).Content = .json (withResources ms (keepManaged es
        ((entryResults provider ctx.SourceVersion ctx.TargetVersion 0 es).map (fun r => r.entry))))
    ∨ (handedOver provider ctx ms es).Content = .json (withResources ms (keepManaged es es)) := by
  by_cases hcond :
      ((entryResults provider ctx.SourceVersion ctx.TargetVersion 0 es).map
        (fun r => r.count)).sum > 0 ∨ (dataIndices 0 es).length > 0
  · left
    simp only [handedOver, hcond, if_true]
  · right
    have hnone : ∀ e ∈ es, isDatasource e = false :=
      no_datasource_of_dataIndices es (fun hgt => hcond (Or.inr hgt))
    simp only [handedOver, hcond, if_false, hc]
    rw [← filter_eq_keepManaged, filter_managed_self es hnone, withResources_self ms es hr]

theorem handedOver_stateJSON (provider : MigrationProvider) (ctx : Context)
    (ms : List (String × Json)) (es : List Json) :
    (handedOver provider ctx ms es).StateJSON = .json (withResources ms (keepManaged es
        ((entryResults provider ctx.SourceVersion ctx.TargetVersion 0 es).map
          (fun r => r.entry)))) := rfl

theorem get?_entryResults_zero (provider : MigrationProvider) (src tgt : String)
    (es : List Json) (i : Nat) (e : Json) (he : es.get? i = some e) :
    ((entryResults provider src tgt 0 es).map (fun r => r.entry)).get? i
      = some (entryResult provider src tgt (i : Int) e).entry := by
  rw [get?_entryResults, he]
  simp

/-- The instance list of a rewritten entry whose instances are an array. -/
theorem entryResult_instances (provider : MigrationProvider) (src tgt : String) (key : Int)
    (e : Json) (migrator : Migrator) (insts : List Json)
    (hd : isDatasource e = false) (ht : gjsonString (gjsonGet (some e) "type") ≠ "")
    (hm : provider.GetMigrator (gjsonString (gjsonGet (some e) "type")) src tgt = some migrator)
    (hi : e.child "instances" = some (.arr insts)) :
    (entryResult provider src tgt key e).entry.child "instances"
      = some (.arr ((indexed 0 insts).map
          (patchedInstance migrator (gjsonString (gjsonGet (some e) "name")) key))) := by
  have htype : (e.child "type").isSome := gjsonString_ne_empty _ ht
  have hchild : (entryRename migrator (gjsonString (gjsonGet (some e) "type")) e).child
      "instances" = some (.arr insts) := by
    rcases entryRename_spec migrator (gjsonString (gjsonGet (some e) "type")) e htype with h | h
    · rw [h]; exact hi
    · rw [h, child_replaceChild_name e "instances" "type" _ parseUint_type (by decide)]
      exact hi
  have hfold := foldl_entryInstanceStep_arr migrator (gjsonString (gjsonGet (some e) "type"))
    (gjsonString (gjsonGet (some e) "name")) key insts []
    ⟨entryRename migrator (gjsonString (gjsonGet (some e) "type")) e, 0, []⟩ hchild
  simp only [List.length_nil, List.nil_append] at hfold
  have hx : gjsonGet (some e) "instances" = some (.arr insts) := hi
  unfold entryResult
  simp only [hd, ht, hm, hx, gjsonExists, gjsonForEach, Option.isSome, if_false, Bool.not_true,
    Bool.false_eq_true]
  rw [hfold, child_replaceChild_same _ _ _ (by rw [hchild]; rfl)]

theorem patchedInstance_error (migrator : Migrator) (rn : String) (key : Int)
    (inst : Int × Json) (err : String)
    (herr : migrator.TransformState inst.2 (pathString (instancePath key inst.1)) rn
      = .error err) :
    patchedInstance migrator rn key inst = inst.2 := by
  unfold patchedInstance
  rw [herr]

theorem handedOver_sameOutputs (p1 p2 : MigrationProvider) (ctx : Context)
    (ms : List (String × Json)) (es : List Json)
    (h : sameOutputs p1 p2 ctx.SourceVersion ctx.TargetVersion) :
    (handedOver p2 ctx ms es).Content = (handedOver p1 ctx ms es).Content ∧
    (handedOver p2 ctx ms es).StateJSON = (handedOver p1 ctx ms es).StateJSON ∧
    (handedOver p2 ctx ms es).Metadata = (handedOver p1 ctx ms es).Metadata := by
  obtain ⟨he, hn⟩ := entryResults_sameOutputs p1 p2 ctx.SourceVersion ctx.TargetVersion h es 0
  simp only [handedOver, he, hn, and_self]

theorem handle_last (provider : MigrationProvider) (ctx : Context)
    (ms : List (String × Json)) (es : List Json)
    (hc : ctx.Content = .json (.obj ms)) (hr : lookupMember "resources" ms = some (.arr es)) :
    (StateTransformHandler.Handle ⟨provider, none⟩ ctx).1 = handedOver provider ctx ms es := by
  rw [Handle_resources provider none ctx ms es hc hr]
  rfl

theorem getMeta_setMeta_same (k : String) (v : MetaValue) :
    ∀ m : List (String × MetaValue), getMeta k (setMeta k v m) = some v := by
  intro m
  induction m with
  | nil => simp [setMeta, getMeta]
  | cons p m ih =>
    obtain ⟨k2, x⟩ := p
    by_cases hk : k2 = k
    · simp [setMeta, getMeta, hk]
    · simp [setMeta, getMeta, hk, ih]

theorem getMeta_setMeta_ne (k k2 : String) (v : MetaValue) (hne : k ≠ k2) :
    ∀ m : List (String × MetaValue), getMeta k (setMeta k2 v m) = getMeta k m := by
  intro m
  induction m with
  | nil =>
    have : ¬ k2 = k := fun h => hne h.symm
    simp [setMeta, getMeta, this]
  | cons p m ih =>
    obtain ⟨k3, x⟩ := p
    by_cases hk : k3 = k2
    · subst hk
      have : ¬ k3 = k := fun h => hne h.symm
      simp [setMeta, getMeta, this]
    · by_cases hk3 : k3 = k
      · subst hk3
        simp [setMeta, getMeta, hk]
      · simp [setMeta, getMeta, hk, hk3, ih]

/-! ## The type of a renamed entry -/

theorem entryInstanceStep_type (migrator : Migrator) (rt rn : String) (key : Int)
    (acc : EntryAcc) (inst : Int × Json) (v : Json)
    (h : acc.entry.child "type" = some v ∧ (acc.entry.child "instances").isSome) :
    (entryInstanceStep migrator rt rn key acc inst).entry.child "type" = some v ∧
      ((entryInstanceStep migrator rt rn key acc inst).entry.child "instances").isSome := by
  unfold entryInstanceStep
  cases hT : migrator.TransformState inst.2 (pathString (instancePath key inst.1)) rn with
  | error err => exact h
  | ok o =>
    cases o with
    | none => exact h
    | some t =>
      obtain ⟨c, hc⟩ := Option.isSome_iff_exists.mp h.2
      simp only []
      rw [setRaw_instances acc.entry c _ t hc]
      cases hS : sjsonSetRaw c [formatInt inst.1] t with
      | error err => exact h
      | ok c2 =>
        simp only []
        refine ⟨?_, ?_⟩
        · rw [child_replaceChild_name acc.entry "type" "instances" c2 parseUint_instances
            (by decide)]
          exact h.1
        · rw [child_replaceChild_same acc.entry "instances" c2 h.2]
          rfl

theorem foldl_entryInstanceStep_type (migrator : Migrator) (rt rn : String) (key : Int)
    (insts : List (Int × Json)) (v : Json) :
    ∀ acc : EntryAcc, (acc.entry.child "type" = some v ∧ (acc.entry.child "instances").isSome) →
    (insts.foldl (entryInstanceStep migrator rt rn key) acc).entry.child "type" = some v := by
  induction insts with
  | nil => intro acc h; exact h.1
  | cons inst rest ih =>
    intro acc h
    rw [List.foldl_cons]
    exact ih _ (entryInstanceStep_type migrator rt rn key acc inst v h)

/-- The loop gives an entry the new type name whenever the entry is not a
data-mode entry, has an `instances` member, and its migrator accepts its type
and names a different, non-empty type. -/
theorem entryResult_type (provider : MigrationProvider) (src tgt : String) (key : Int)
    (e : Json) (migrator : Migrator)
    (hd : isDatasource e = false) (ht : gjsonString (gjsonGet (some e) "type") ≠ "")
    (hm : provider.GetMigrator (gjsonString (gjsonGet (some e) "type")) src tgt = some migrator)
    (hx : (e.child "instances").isSome)
    (hcan : migrator.CanHandle (gjsonString (gjsonGet (some e) "type")) = true)
    (hnew : migrator.GetResourceType ≠ "" ∧
      migrator.GetResourceType ≠ gjsonString (gjsonGet (some e) "type")) :
    (entryResult provider src tgt key e).entry.child "type"
      = some (.str migrator.GetResourceType) := by
  have htype : (e.child "type").isSome := gjsonString_ne_empty _ ht
  obtain ⟨c, hc⟩ := Option.isSome_iff_exists.mp htype
  have hren : entryRename migrator (gjsonString (gjsonGet (some e) "type")) e
      = e.replaceChild "type" (.str migrator.GetResourceType) := by
    unfold entryRename
    simp only [hcan, hnew, if_true, and_self, not_false_eq_true, ne_eq, sjsonSet]
    rw [setRaw_found_last e c "type" _ hc]
  have hx2 : gjsonExists (gjsonGet (some e) "instances") = true := hx
  unfold entryResult
  simp only [hd, ht, hm, hx2, if_false, Bool.not_true, Bool.false_eq_true]
  apply foldl_entryInstanceStep_type
  rw [hren]
  refine ⟨child_replaceChild_same e "type" _ htype, ?_⟩
  rw [child_replaceChild_name e "instances" "type" _ parseUint_type (by decide)]
  exact hx

/-- The scratch copy `StateJSON` always carries the rename: the entry, at its
position less the data-mode entries before it, has the new type name. -/
theorem stateJSON_type_renamed (provider : MigrationProvider) (ctx : Context)
    (ms : List (String × Json)) (es : List Json) (i : Nat) (e : Json) (migrator : Migrator)
    (hr : lookupMember "resources" ms = some (.arr es))
    (he : es.get? i = some e) (hd : isDatasource e = false)
    (ht : gjsonString (gjsonGet (some e) "type") ≠ "")
    (hm : provider.GetMigrator (gjsonString (gjsonGet (some e) "type")) ctx.SourceVersion
      ctx.TargetVersion = some migrator)
    (hx : (e.child "instances").isSome)
    (hcan : migrator.CanHandle (gjsonString (gjsonGet (some e) "type")) = true)
    (hnew : migrator.GetResourceType ≠ "" ∧
      migrator.GetResourceType ≠ gjsonString (gjsonGet (some e) "type")) :
    ∃ doc, (handedOver provider ctx ms es).StateJSON = .json doc ∧
      getPath doc ["resources", Nat.repr (i - removedBefore es i), "type"]
        = some (.str migrator.GetResourceType) := by
  have h : (lookupMember "resources" ms).isSome := by rw [hr]; rfl
  have hlen : es.length = ((entryResults provider ctx.SourceVersion ctx.TargetVersion 0 es).map
      (fun r => r.entry)).length := by rw [List.length_map, length_entryResults]
  refine ⟨_, handedOver_stateJSON provider ctx ms es, ?_⟩
  rw [getPath_doc ms _ _ _ h, keepManaged_get? es _ i e hlen he hd,
    get?_entryResults_zero provider _ _ es i e he]
  simp only [getPath,
    entryResult_type provider _ _ (i : Int) e migrator hd ht hm hx hcan hnew]

/-! ## Claims -/

/-- C1: for a state document whose `resources` member is the array `es`, the
context `Handle` hands to the next handler holds, both in `Content` and in
`StateJSON`, a resource list without any data-mode entry, and that list
consists of the entries of `es` that are not data-mode entries, in their
original order, each one unchanged except possibly for the values of its `type`
and `instances` members. -/
theorem handle_removes_datasources (provider : MigrationProvider) (ctx : Context)
    (ms : List (String × Json)) (es : List Json)
    (hc : ctx.Content = .json (.obj ms)) (hr : lookupMember "resources" ms = some (.arr es)) :
    ∃ out : Context,
      (∀ next, StateTransformHandler.Handle ⟨provider, next⟩ ctx
        = StateTransformHandler.Next ⟨provider, next⟩ out) ∧
      ∃ kept scratch : List Json,
        resourceList out.Content = some kept ∧ resourceList out.StateJSON = some scratch ∧
        (∀ x ∈ kept, isDatasource x = false) ∧ (∀ x ∈ scratch, isDatasource x = false) ∧
        List.Forall₂ sameFrame (es.filter (fun e => !isDatasource e)) kept ∧
        List.Forall₂ sameFrame (es.filter (fun e => !isDatasource e)) scratch := by
  have h : (lookupMember "resources" ms).isSome := by rw [hr]; rfl
  have hf := forall₂_entryResults provider ctx.SourceVersion ctx.TargetVersion es 0
  refine ⟨handedOver provider ctx ms es,
    fun next => Handle_resources provider next ctx ms es hc hr, ?_⟩
  by_cases hcond :
      ((entryResults provider ctx.SourceVersion ctx.TargetVersion 0 es).map
        (fun r => r.count)).sum > 0 ∨ (dataIndices 0 es).length > 0
  · refine ⟨_, _, ?_, resourceList_withResources ms _ h,
      keepManaged_no_datasource es _ hf, keepManaged_no_datasource es _ hf,
      forall₂_keepManaged es _ hf, forall₂_keepManaged es _ hf⟩
    simp only [handedOver, hcond, if_true]
    exact resourceList_withResources ms _ h
  · have hnone : ∀ e ∈ es, isDatasource e = false :=
      no_datasource_of_dataIndices es (fun hgt => hcond (Or.inr hgt))
    refine ⟨es, _, ?_, resourceList_withResources ms _ h, hnone,
      keepManaged_no_datasource es _ hf, ?_, forall₂_keepManaged es _ hf⟩
    · simp only [handedOver, hcond, if_false, hc]
      exact resourceList_doc ms es hr
    · rw [filter_managed_self es hnone]
      exact forall₂_sameFrame_self es

/-- C1, on the example document. -/
theorem handle_removes_datasources_witness :
    exampleCtx.Content = .json (.obj exampleMembers) ∧
    lookupMember "resources" exampleMembers = some (.arr exampleEntries) ∧
    ∃ out : Context,
      (∀ next, StateTransformHandler.Handle ⟨exampleProvider, next⟩ exampleCtx
        = StateTransformHandler.Next ⟨exampleProvider, next⟩ out) ∧
      ∃ kept scratch : List Json,
        resourceList out.Content = some kept ∧ resourceList out.StateJSON = some scratch ∧
        (∀ x ∈ kept, isDatasource x = false) ∧ (∀ x ∈ scratch, isDatasource x = false) ∧
        List.Forall₂ sameFrame (exampleEntries.filter (fun e => !isDatasource e)) kept ∧
        List.Forall₂ sameFrame (exampleEntries.filter (fun e => !isDatasource e)) scratch :=
  ⟨rfl, rfl, handle_removes_datasources exampleProvider exampleCtx exampleMembers
    exampleEntries rfl rfl⟩

/-- C2: for a document whose `resources` member is the array `es`, the loop of
`Handle` records the positions of the data-mode entries of `es` in ascending
order; deleting these positions last one first (`removeDatasources`) gives the
same document as scanning the list afresh after each removal and deleting one
data-mode entry at a time (`rescanRemove`), and both give the document whose
resource list is `es` without its data-mode entries. -/
theorem deletion_order (provider : MigrationProvider) (src tgt : String)
    (ms : List (String × Json)) (es : List Json) (count : Nat) (diags : List Diagnostic)
    (hr : lookupMember "resources" ms = some (.arr es)) :
    ((gjsonForEach (gjsonGet (some (.obj ms)) "resources")).foldl
        (resourceStep provider src tgt) ⟨.obj ms, count, [], diags⟩).datasourceIndices
      = dataIndices 0 es ∧
    removeDatasources (.obj ms) (dataIndices 0 es) = rescanRemove (.obj ms) ∧
    removeDatasources (.obj ms) (dataIndices 0 es)
      = withResources ms (es.filter (fun e => !isDatasource e)) := by
  have h : (lookupMember "resources" ms).isSome := by rw [hr]; rfl
  have hself := withResources_self ms es hr
  have hrem : removeDatasources (.obj ms) (dataIndices 0 es)
      = withResources ms (es.filter (fun e => !isDatasource e)) := by
    have := removeDatasources_doc ms h es es [] rfl
    simp only [List.length_nil, List.nil_append, hself] at this
    rw [this, filter_eq_keepManaged]
  refine ⟨?_, ?_, hrem⟩
  · have hloop := foldl_resourceStep provider src tgt ms h es [] count [] diags
    simp only [List.length_nil, List.nil_append, hself] at hloop
    simp only [gjsonGet, Option.bind, Json.child, hr, gjsonForEach]
    rw [hloop]
  · rw [hrem]
    unfold rescanRemove
    simp only [gjsonGet, Option.bind, Json.child, hr, gjsonForEach, length_indexed]
    rw [← hself, rescan_doc ms h es.length es (List.countP_le_length _)]

/-- C2, on the example document. -/
theorem deletion_order_witness :
    lookupMember "resources" exampleMembers = some (.arr exampleEntries) ∧
    ((gjsonForEach (gjsonGet (some (.obj exampleMembers)) "resources")).foldl
        (resourceStep exampleProvider "v4" "v5")
        ⟨.obj exampleMembers, 0, [], []⟩).datasourceIndices
      = dataIndices 0 exampleEntries ∧
    removeDatasources (.obj exampleMembers) (dataIndices 0 exampleEntries)
      = rescanRemove (.obj exampleMembers) ∧
    removeDatasources (.obj exampleMembers) (dataIndices 0 exampleEntries)
      = withResources exampleMembers (exampleEntries.filter (fun e => !isDatasource e)) :=
  ⟨rfl, deletion_order exampleProvider "v4" "v5" exampleMembers exampleEntries 0 [] rfl⟩

theorem getPath_instances (x : Json) (insts : List Json) (j : Nat) (inst : Json)
    (hx : x.child "instances" = some (.arr insts)) (hj : insts.get? j = some inst) :
    getPath x ["instances", Nat.repr j] = some inst := by
  simp only [getPath, hx, child_arr_repr, hj]

theorem getPath_kept (ms : List (String × Json)) (es cur : List Json) (i j : Nat)
    (e x inst : Json) (insts : List Json)
    (h : (lookupMember "resources" ms).isSome) (hl : es.length = cur.length)
    (he : es.get? i = some e) (hd : isDatasource e = false) (hx : cur.get? i = some x)
    (hi : x.child "instances" = some (.arr insts)) (hj : insts.get? j = some inst) :
    getPath (withResources ms (keepManaged es cur))
      ["resources", Nat.repr (i - removedBefore es i), "instances", Nat.repr j] = some inst := by
  rw [getPath_doc ms _ _ _ h, keepManaged_get? es cur i e hl he hd, hx]
  exact getPath_instances x insts j inst hi hj

/-- C3 (amended): when `TransformState` fails on instance `j` of entry `i` (an
entry that is not a data-mode entry, has a migrator and an instance array), the
callback appends one error diagnostic and changes nothing else, `Handle` does
not abort and the diagnostic is in the context it hands over; the instance is
found unchanged in the output, in `Content` and in `StateJSON`, at
`resources.<i - r>.instances.<j>`, where `r` is the number of data-mode entries
before entry `i`; and the documents and the counters are the ones any provider
gives that differs only in returning no output where this one fails. -/
theorem transform_error_keeps_instance (provider : MigrationProvider) (ctx : Context)
    (ms : List (String × Json)) (es : List Json) (i j : Nat) (e : Json) (migrator : Migrator)
    (insts : List Json) (inst : Json) (err : String)
    (hc : ctx.Content = .json (.obj ms)) (hr : lookupMember "resources" ms = some (.arr es))
    (he : es.get? i = some e) (hd : isDatasource e = false)
    (ht : gjsonString (gjsonGet (some e) "type") ≠ "")
    (hm : provider.GetMigrator (gjsonString (gjsonGet (some e) "type")) ctx.SourceVersion
      ctx.TargetVersion = some migrator)
    (hi : e.child "instances" = some (.arr insts)) (hj : insts.get? j = some inst)
    (herr : migrator.TransformState inst (pathString (instancePath (i : Int) (j : Int)))
      (gjsonString (gjsonGet (some e) "name")) = .error err) :
    (∀ st : LoopState,
      instanceStep migrator (gjsonString (gjsonGet (some e) "type"))
          (gjsonString (gjsonGet (some e) "name")) (i : Int) st ((j : Int), inst)
        = { st with diagnostics := st.diagnostics ++
              [⟨.error, "Failed to transform resource: " ++
                gjsonString (gjsonGet (some e) "type"), err⟩] }) ∧
    ∃ out : Context,
      (∀ next, StateTransformHandler.Handle ⟨provider, next⟩ ctx
        = StateTransformHandler.Next ⟨provider, next⟩ out) ∧
      (⟨.error, "Failed to transform resource: " ++ gjsonString (gjsonGet (some e) "type"),
          err⟩ : Diagnostic) ∈ out.Diagnostics ∧
      (∃ doc, out.Content = .json doc ∧
        getPath doc ["resources", Nat.repr (i - removedBefore es i), "instances", Nat.repr j]
          = some inst) ∧
      (∃ doc, out.StateJSON = .json doc ∧
        getPath doc ["resources", Nat.repr (i - removedBefore es i), "instances", Nat.repr j]
          = some inst) ∧
      ∀ provider2 : MigrationProvider,
        sameOutputs provider provider2 ctx.SourceVersion ctx.TargetVersion →
        (StateTransformHandler.Handle ⟨provider2, none⟩ ctx).1.Content = out.Content ∧
        (StateTransformHandler.Handle ⟨provider2, none⟩ ctx).1.StateJSON = out.StateJSON ∧
        (StateTransformHandler.Handle ⟨provider2, none⟩ ctx).1.Metadata = out.Metadata := by
  have h : (lookupMember "resources" ms).isSome := by rw [hr]; rfl
  have hlen : es.length = ((entryResults provider ctx.SourceVersion ctx.TargetVersion 0 es).map
      (fun r => r.entry)).length := by rw [List.length_map, length_entryResults]
  have hpatched : ((indexed 0 insts).map (patchedInstance migrator
      (gjsonString (gjsonGet (some e) "name")) (i : Int))).get? j = some inst := by
    rw [get?_map_indexed, hj]
    simp only [Option.map, Nat.zero_add]
    rw [patchedInstance_error migrator _ _ ((j : Int), inst) err herr]
  have hscratch := getPath_kept ms es _ i j e _ inst _ h hlen he hd
    (get?_entryResults_zero provider _ _ es i e he)
    (entryResult_instances provider _ _ (i : Int) e migrator insts hd ht hm hi) hpatched
  refine ⟨?_, handedOver provider ctx ms es,
    fun next => Handle_resources provider next ctx ms es hc hr, ?_, ?_, ?_, ?_⟩
  · intro st
    unfold instanceStep
    simp only [herr]
  · apply mem_handedOver_diags provider ctx ms es i e _ he
    have hx : gjsonGet (some e) "instances" = some (.arr insts) := hi
    have hmem := mem_indexed insts 0 j inst hj
    rw [Nat.zero_add] at hmem
    unfold entryResult
    simp only [hd, ht, hm, hx, gjsonExists, gjsonForEach, Option.isSome, if_false, Bool.not_true,
      Bool.false_eq_true]
    exact foldl_entryInstanceStep_error_mem migrator _ _ (i : Int) _ ((j : Int), inst) err
      hmem herr _
  · rcases handedOver_content provider ctx ms es hc hr with hcase | hcase
    · exact ⟨_, hcase, hscratch⟩
    · exact ⟨_, hcase, getPath_kept ms es es i j e e inst insts h rfl he hd he hi hj⟩
  · exact ⟨_, handedOver_stateJSON provider ctx ms es, hscratch⟩
  · intro provider2 hsame
    rw [handle_last provider2 ctx ms es hc hr]
    exact handedOver_sameOutputs provider provider2 ctx ms es hsame

/-- C3 (amended), on the example document: instance 1 of entry 1 fails. -/
theorem transform_error_keeps_instance_witness :
    exampleCtx.Content = .json (.obj exampleMembers) ∧
    (∀ st : LoopState,
      instanceStep exampleMigrator "cloudflare_record" "a" 1 st (1, .str "broken")
        = { st with diagnostics := st.diagnostics ++
              [⟨.error, "Failed to transform resource: cloudflare_record",
                "instance is not an object"⟩] }) ∧
    ∃ out : Context,
      (∀ next, StateTransformHandler.Handle ⟨exampleProvider, next⟩ exampleCtx
        = StateTransformHandler.Next ⟨exampleProvider, next⟩ out) ∧
      (⟨.error, "Failed to transform resource: cloudflare_record",
          "instance is not an object"⟩ : Diagnostic) ∈ out.Diagnostics ∧
      (∃ doc, out.Content = .json doc ∧
        getPath doc ["resources", Nat.repr (1 - removedBefore exampleEntries 1), "instances",
          Nat.repr 1] = some (.str "broken")) ∧
      (∃ doc, out.StateJSON = .json doc ∧
        getPath doc ["resources", Nat.repr (1 - removedBefore exampleEntries 1), "instances",
          Nat.repr 1] = some (.str "broken")) ∧
      ∀ provider2 : MigrationProvider,
        sameOutputs exampleProvider provider2 exampleCtx.SourceVersion
          exampleCtx.TargetVersion →
        (StateTransformHandler.Handle ⟨provider2, none⟩ exampleCtx).1.Content = out.Content ∧
        (StateTransformHandler.Handle ⟨provider2, none⟩ exampleCtx).1.StateJSON
          = out.StateJSON ∧
        (StateTransformHandler.Handle ⟨provider2, none⟩ exampleCtx).1.Metadata
          = out.Metadata :=
  ⟨rfl, transform_error_keeps_instance exampleProvider exampleCtx exampleMembers exampleEntries
    1 1 (.obj [("mode", .str "managed"), ("type", .str "cloudflare_record"), ("name", .str "a"),
      ("instances", .arr [.obj [("attributes", .obj [])], .str "broken", .null])])
    exampleMigrator [.obj [("attributes", .obj [])], .str "broken", .null] (.str "broken")
    "instance is not an object" rfl rfl rfl rfl (by decide) rfl rfl rfl rfl⟩

/-- C3 as stated fails on the example document: instance 1 of entry 1 fails,
and after the removal of the data-mode entry 0 the path
`resources.1.instances.1` of the output addresses nothing, while in the input
it addresses the failing instance. -/
theorem transform_error_path_moves :
    exampleMigrator.TransformState (.str "broken") (pathString (instancePath 1 1)) "a"
      = .error "instance is not an object" ∧
    pathString (instancePath 1 1) = "resources.1.instances.1" ∧
    getPath (.obj exampleMembers) ["resources", "1", "instances", "1"] = some (.str "broken") ∧
    (StateTransformHandler.Handle ⟨exampleProvider, none⟩ exampleCtx).1.Content
      = .json (.obj [("version", .num "4"), ("resources", .arr [
          .obj [("mode", .str "managed"), ("type", .str "cloudflare_dns_record"),
            ("name", .str "a"),
            ("instances", .arr [
              .obj [("attributes", .obj []), ("schema_version", .num "0")],
              .str "broken", .null])],
          .obj [("mode", .str "managed"), ("type", .str "other_type"), ("name", .str "b"),
            ("instances", .arr [.obj [("attributes", .obj [])]])]])]) ∧
    (StateTransformHandler.Handle ⟨exampleProvider, none⟩ exampleCtx).1.StateJSON
      = (StateTransformHandler.Handle ⟨exampleProvider, none⟩ exampleCtx).1.Content ∧
    getPath (.obj [("version", .num "4"), ("resources", .arr [
          .obj [("mode", .str "managed"), ("type", .str "cloudflare_dns_record"),
            ("name", .str "a"),
            ("instances", .arr [
              .obj [("attributes", .obj []), ("schema_version", .num "0")],
              .str "broken", .null])],
          .obj [("mode", .str "managed"), ("type", .str "other_type"), ("name", .str "b"),
            ("instances", .arr [.obj [("attributes", .obj [])]])]])])
      ["resources", "1", "instances", "1"] = none := by
  refine ⟨rfl, by decide, by decide, by decide, by decide, by decide⟩

theorem get?_kept (es cur : List Json) (i : Nat) (e x : Json)
    (hl : es.length = cur.length) (he : es.get? i = some e) (hd : isDatasource e = false)
    (hx : cur.get? i = some x) :
    (keepManaged es cur).get? (i - removedBefore es i) = some x := by
  rw [keepManaged_get? es cur i e hl he hd, hx]

theorem entryResult_no_migrator (provider : MigrationProvider) (src tgt : String) (key : Int)
    (e : Json) (hd : isDatasource e = false) (ht : gjsonString (gjsonGet (some e) "type") ≠ "")
    (hm : provider.GetMigrator (gjsonString (gjsonGet (some e) "type")) src tgt = none) :
    entryResult provider src tgt key e
      = ⟨e, 0, [⟨.warning, "Failed to transform resource: " ++
          gjsonString (gjsonGet (some e) "type"),
          "No migrator found for state resource: " ++ gjsonString (gjsonGet (some e) "type") ++
            " (v" ++ src ++ " -> v" ++ tgt ++ ")"⟩]⟩ := by
  unfold entryResult
  simp only [hd, ht, hm, if_false, Bool.false_eq_true]

/-- C4: for an entry that is not a data-mode entry, has a non-empty type and no
migrator for the context's versions, the callback appends exactly one warning
diagnostic, whose summary names the type and whose detail names the type and
the two versions, and changes nothing else in the loop state; `Handle` goes on
and hands over a context that has this diagnostic and whose resource list, in
`Content` and in `StateJSON`, has the entry as it was in the input (at its
position less the number of data-mode entries before it). -/
theorem missing_migrator_warns (provider : MigrationProvider) (ctx : Context)
    (ms : List (String × Json)) (es : List Json) (i : Nat) (e : Json)
    (hc : ctx.Content = .json (.obj ms)) (hr : lookupMember "resources" ms = some (.arr es))
    (he : es.get? i = some e) (hd : isDatasource e = false)
    (ht : gjsonString (gjsonGet (some e) "type") ≠ "")
    (hm : provider.GetMigrator (gjsonString (gjsonGet (some e) "type")) ctx.SourceVersion
      ctx.TargetVersion = none) :
    (∀ st : LoopState,
      resourceStep provider ctx.SourceVersion ctx.TargetVersion st ((i : Int), e)
        = { st with diagnostics := st.diagnostics ++
              [⟨.warning, "Failed to transform resource: " ++
                  gjsonString (gjsonGet (some e) "type"),
                "No migrator found for state resource: " ++
                  gjsonString (gjsonGet (some e) "type") ++ " (v" ++ ctx.SourceVersion ++
                  " -> v" ++ ctx.TargetVersion ++ ")"⟩] }) ∧
    ∃ out : Context,
      (∀ next, StateTransformHandler.Handle ⟨provider, next⟩ ctx
        = StateTransformHandler.Next ⟨provider, next⟩ out) ∧
      (⟨.warning, "Failed to transform resource: " ++ gjsonString (gjsonGet (some e) "type"),
          "No migrator found for state resource: " ++ gjsonString (gjsonGet (some e) "type") ++
            " (v" ++ ctx.SourceVersion ++ " -> v" ++ ctx.TargetVersion ++ ")"⟩ : Diagnostic)
        ∈ out.Diagnostics ∧
      ∃ kept scratch : List Json,
        resourceList out.Content = some kept ∧ resourceList out.StateJSON = some scratch ∧
        kept.get? (i - removedBefore es i) = some e ∧
        scratch.get? (i - removedBefore es i) = some e := by
  have h : (lookupMember "resources" ms).isSome := by rw [hr]; rfl
  have hres := entryResult_no_migrator provider ctx.SourceVersion ctx.TargetVersion (i : Int) e
    hd ht hm
  have hlen : es.length = ((entryResults provider ctx.SourceVersion ctx.TargetVersion 0 es).map
      (fun r => r.entry)).length := by rw [List.length_map, length_entryResults]
  have hget : ((entryResults provider ctx.SourceVersion ctx.TargetVersion 0 es).map
      (fun r => r.entry)).get? i = some e := by
    rw [get?_entryResults_zero provider _ _ es i e he, hres]
  have hscratch := get?_kept es _ i e e hlen he hd hget
  refine ⟨?_, handedOver provider ctx ms es,
    fun next => Handle_resources provider next ctx ms es hc hr, ?_, ?_⟩
  · intro st
    have hd2 : ¬ gjsonString (gjsonGet (some e) "mode") = "data" := by
      intro hmode
      simp [isDatasource, hmode] at hd
    unfold resourceStep
    simp only [hd2, ht, hm, if_false]
  · apply mem_handedOver_diags provider ctx ms es i e _ he
    rw [hres]
    exact List.mem_singleton.mpr rfl
  · rcases handedOver_content provider ctx ms es hc hr with hcase | hcase
    · exact ⟨_, _, by rw [hcase]; exact resourceList_withResources ms _ h,
        by rw [handedOver_stateJSON]; exact resourceList_withResources ms _ h,
        hscratch, hscratch⟩
    · exact ⟨_, _, by rw [hcase]; exact resourceList_withResources ms _ h,
        by rw [handedOver_stateJSON]; exact resourceList_withResources ms _ h,
        get?_kept es es i e e rfl he hd he, hscratch⟩

/-- C4, on the example document: entry 2 has the type `other_type`, for which
the registry has no migrator. -/
theorem missing_migrator_warns_witness :
    exampleCtx.Content = .json (.obj exampleMembers) ∧
    exampleProvider.GetMigrator "other_type" "v4" "v5" = none ∧
    (∀ st : LoopState,
      resourceStep exampleProvider "v4" "v5" st
          (2, .obj [("mode", .str "managed"), ("type", .str "other_type"), ("name", .str "b"),
            ("instances", .arr [.obj [("attributes", .obj [])]])])
        = { st with diagnostics := st.diagnostics ++
              [⟨.warning, "Failed to transform resource: other_type",
                "No migrator found for state resource: other_type (vv4 -> vv5)"⟩] }) ∧
    ∃ out : Context,
      (∀ next, StateTransformHandler.Handle ⟨exampleProvider, next⟩ exampleCtx
        = StateTransformHandler.Next ⟨exampleProvider, next⟩ out) ∧
      (⟨.warning, "Failed to transform resource: other_type",
          "No migrator found for state resource: other_type (vv4 -> vv5)"⟩ : Diagnostic)
        ∈ out.Diagnostics ∧
      ∃ kept scratch : List Json,
        resourceList out.Content = some kept ∧ resourceList out.StateJSON = some scratch ∧
        kept.get? (2 - removedBefore exampleEntries 2)
          = some (.obj [("mode", .str "managed"), ("type", .str "other_type"),
              ("name", .str "b"), ("instances", .arr [.obj [("attributes", .obj [])]])]) ∧
        scratch.get? (2 - removedBefore exampleEntries 2)
          = some (.obj [("mode", .str "managed"), ("type", .str "other_type"),
              ("name", .str "b"), ("instances", .arr [.obj [("attributes", .obj [])]])]) :=
  ⟨rfl, rfl, missing_migrator_warns exampleProvider exampleCtx exampleMembers exampleEntries 2
    (.obj [("mode", .str "managed"), ("type", .str "other_type"), ("name", .str "b"),
      ("instances", .arr [.obj [("attributes", .obj [])]])])
    rfl rfl rfl rfl (by decide) rfl⟩

/-- C5, the code at the state of the test `State without instances`: the
migrator is found, accepts `cloudflare_record` and names the new type
`cloudflare_dns_record`; the scratch copy `StateJSON` gets the new type, but
`Content` is left as it was, with the old type, because no instance was patched
and no data-mode entry removed. -/
theorem rename_only_not_in_content :
    exampleProvider.GetMigrator "cloudflare_record" "v4" "v5" = some exampleMigrator ∧
    exampleMigrator.CanHandle "cloudflare_record" = true ∧
    exampleMigrator.GetResourceType = "cloudflare_dns_record" ∧
    (StateTransformHandler.Handle ⟨exampleProvider, none⟩ renameOnlyCtx).1.StateJSON
      = .json (.obj [("resources", .arr [
          .obj [("mode", .str "managed"), ("type", .str "cloudflare_dns_record"),
            ("name", .str "empty"), ("instances", .arr [])]])]) ∧
    (StateTransformHandler.Handle ⟨exampleProvider, none⟩ renameOnlyCtx).1.Content
      = .json (.obj [("resources", .arr [
          .obj [("mode", .str "managed"), ("type", .str "cloudflare_record"),
            ("name", .str "empty"), ("instances", .arr [])]])]) ∧
    (StateTransformHandler.Handle ⟨exampleProvider, none⟩ renameOnlyCtx).1.Metadata
      = [("state_transformations", .int 0), ("datasources_removed", .int 0)] := by
  refine ⟨rfl, rfl, rfl, by decide, by decide, by decide⟩

/-- C6: when the content is not well-formed JSON (the empty content included),
`Handle` returns an error together with the context it was given, whatever the
next handler is: the next handler is not invoked and nothing of the context
changes. -/
theorem malformed_input_aborts (provider : MigrationProvider)
    (next : Option (Context → HandlerResult)) (ctx : Context) (bytes : String)
    (hc : ctx.Content = .raw bytes) :
    StateTransformHandler.Handle ⟨provider, next⟩ ctx
      = (ctx, some (if bytes.length = 0 then "state content is empty"
          else "invalid JSON in state file")) := by
  unfold StateTransformHandler.Handle
  rw [hc]
  by_cases hb : bytes.length = 0
  · simp [hb]
  · simp [hb]

/-- C6, on a content that is not JSON, with a next handler that would empty the
diagnostics and return no error. -/
theorem malformed_input_aborts_witness :
    malformedCtx.Content = .raw "not json" ∧
    StateTransformHandler.Handle
        ⟨exampleProvider, some (fun c => ({ c with Diagnostics := [] }, none))⟩ malformedCtx
      = (malformedCtx, some (if "not json".length = 0 then "state content is empty"
          else "invalid JSON in state file")) :=
  ⟨rfl, malformed_input_aborts exampleProvider _ malformedCtx "not json" rfl⟩

/-- C7: when the document is well-formed JSON without a `resources` member,
`Handle` returns what the next handler returns for the context as it was on
entry. -/
theorem no_resources_passes_through (h : StateTransformHandler) (ctx : Context) (doc : Json)
    (hc : ctx.Content = .json doc) (hr : doc.child "resources" = none) :
    h.Handle ctx = h.Next ctx := by
  unfold StateTransformHandler.Handle
  rw [hc]
  simp [gjsonGet, hr, gjsonExists]

/-- C7, on a document with a `version` member only. -/
theorem no_resources_passes_through_witness :
    noResourcesCtx.Content = .json (.obj [("version", .num "4")]) ∧
    (Json.obj [("version", .num "4")]).child "resources" = none ∧
    StateTransformHandler.Handle ⟨exampleProvider, none⟩ noResourcesCtx
      = StateTransformHandler.Next ⟨exampleProvider, none⟩ noResourcesCtx :=
  ⟨rfl, rfl, no_resources_passes_through ⟨exampleProvider, none⟩ noResourcesCtx
    (.obj [("version", .num "4")]) rfl rfl⟩

/-- C8: for a document whose resource list is empty, `Handle` hands over the
context with `Content` and `Diagnostics` as they were; the scratch copy
`StateJSON` holds the input document and the two counters are `0`. -/
theorem empty_resource_list_unchanged (provider : MigrationProvider)
    (next : Option (Context → HandlerResult)) (ctx : Context) (ms : List (String × Json))
    (hc : ctx.Content = .json (.obj ms)) (hr : lookupMember "resources" ms = some (.arr [])) :
    StateTransformHandler.Handle ⟨provider, next⟩ ctx
      = StateTransformHandler.Next ⟨provider, next⟩
          { ctx with
            StateJSON := .json (.obj ms)
            Metadata := setMeta "datasources_removed" (.int 0)
              (setMeta "state_transformations" (.int 0) ctx.Metadata) } := by
  rw [Handle_resources provider next ctx ms [] hc hr]
  congr 1
  simp [handedOver, entryResults, indexed, dataIndices, keepManaged, withResources_self ms [] hr]

/-- C8, on a document with an empty resource list. -/
theorem empty_resource_list_unchanged_witness :
    emptyListCtx.Content = .json (.obj [("version", .num "4"), ("resources", .arr [])]) ∧
    lookupMember "resources" [("version", .num "4"), ("resources", .arr [])] = some (.arr []) ∧
    StateTransformHandler.Handle ⟨exampleProvider, none⟩ emptyListCtx
      = StateTransformHandler.Next ⟨exampleProvider, none⟩
          { emptyListCtx with
            StateJSON := .json (.obj [("version", .num "4"), ("resources", .arr [])])
            Metadata := setMeta "datasources_removed" (.int 0)
              (setMeta "state_transformations" (.int 0) emptyListCtx.Metadata) } :=
  ⟨rfl, rfl, empty_resource_list_unchanged exampleProvider none emptyListCtx
    [("version", .num "4"), ("resources", .arr [])] rfl rfl⟩

theorem pathString_instancePath (key instKey : Int) :
    pathString (instancePath key instKey)
      = "resources." ++ formatInt key ++ ".instances." ++ formatInt instKey := by
  have h1 : ("resources." : String) = "resources" ++ "." := by decide
  have h2 : (".instances." : String) = "." ++ "instances" ++ "." := by decide
  rw [h1, h2]
  simp [pathString, instancePath, String.intercalate, String.intercalate.go, String.append_assoc]

/-- C9 (amended): the diagnostic the callback appends when `TransformState`
fails has error severity, the summary `Failed to transform resource: <type>`
and, as detail, the message of the migrator's error and nothing else; the path
`resources.<entry index>.instances.<instance index>` is what the migrator is
called with. -/
theorem error_diagnostic_content (migrator : Migrator) (resourceType resourceName : String)
    (key instKey : Int) (inst : Json) (err : String) (st : LoopState)
    (herr : migrator.TransformState inst
      ("resources." ++ formatInt key ++ ".instances." ++ formatInt instKey) resourceName
        = .error err) :
    instanceStep migrator resourceType resourceName key st (instKey, inst)
      = { st with diagnostics := st.diagnostics ++
            [{ Severity := .error,
               Summary := "Failed to transform resource: " ++ resourceType,
               Detail := err }] } := by
  rw [← pathString_instancePath] at herr
  unfold instanceStep
  simp only [herr]

/-- C9 (amended), on the failing instance of the example document. -/
theorem error_diagnostic_content_witness :
    exampleMigrator.TransformState (.str "broken")
        ("resources." ++ formatInt 1 ++ ".instances." ++ formatInt 1) "a"
      = .error "instance is not an object" ∧
    instanceStep exampleMigrator "cloudflare_record" "a" 1 ⟨.obj exampleMembers, 0, [], []⟩
        (1, .str "broken")
      = { (⟨.obj exampleMembers, 0, [], []⟩ : LoopState) with
          diagnostics := [] ++
            [{ Severity := .error,
               Summary := "Failed to transform resource: " ++ "cloudflare_record",
               Detail := "instance is not an object" }] } :=
  ⟨rfl, error_diagnostic_content exampleMigrator "cloudflare_record" "a" 1 1 (.str "broken")
    "instance is not an object" ⟨.obj exampleMembers, 0, [], []⟩ rfl⟩

/-- C9 as stated fails on the example document: the transform of the instance at
`resources.1.instances.1` fails, and neither the summary nor the detail of the
error diagnostic `Handle` appends contains that path. -/
theorem error_diagnostic_lacks_path :
    exampleMigrator.TransformState (.str "broken") (pathString (instancePath 1 1)) "a"
      = .error "instance is not an object" ∧
    pathString (instancePath 1 1) = "resources.1.instances.1" ∧
    (StateTransformHandler.Handle ⟨exampleProvider, none⟩ exampleCtx).1.Diagnostics
      = [⟨.error, "Failed to transform resource: cloudflare_record",
            "instance is not an object"⟩,
          ⟨.warning, "Failed to transform resource: other_type",
            "No migrator found for state resource: other_type (vv4 -> vv5)"⟩] ∧
    occursIn "resources.1.instances.1" "Failed to transform resource: cloudflare_record"
      = false ∧
    occursIn "resources.1.instances.1" "instance is not an object" = false := by
  refine ⟨rfl, by decide, by decide, by decide, by decide⟩

/-- C10: for a document whose `resources` member is the array `es`, the context
`Handle` hands over has `state_transformations` equal to the number of
instances whose transform succeeded with a non-empty output (each of them was
patched into the document) and `datasources_removed` equal to the number of
data-mode entries of `es`; the resource list of the output, in `Content` and in
`StateJSON`, has as many entries as `es` less the data-mode entries. -/
theorem metadata_counters (provider : MigrationProvider) (ctx : Context)
    (ms : List (String × Json)) (es : List Json)
    (hc : ctx.Content = .json (.obj ms)) (hr : lookupMember "resources" ms = some (.arr es)) :
    ∃ out : Context,
      (∀ next, StateTransformHandler.Handle ⟨provider, next⟩ ctx
        = StateTransformHandler.Next ⟨provider, next⟩ out) ∧
      getMeta "state_transformations" out.Metadata
        = some (.int (((indexed 0 es).map
            (successCount provider ctx.SourceVersion ctx.TargetVersion)).sum : Nat)) ∧
      getMeta "datasources_removed" out.Metadata = some (.int (es.countP isDatasource : Nat)) ∧
      ∃ kept scratch : List Json,
        resourceList out.Content = some kept ∧ resourceList out.StateJSON = some scratch ∧
        kept.length = es.length - es.countP isDatasource ∧
        scratch.length = es.length - es.countP isDatasource := by
  have h : (lookupMember "resources" ms).isSome := by rw [hr]; rfl
  have hlen : es.length = ((entryResults provider ctx.SourceVersion ctx.TargetVersion 0 es).map
      (fun r => r.entry)).length := by rw [List.length_map, length_entryResults]
  refine ⟨handedOver provider ctx ms es,
    fun next => Handle_resources provider next ctx ms es hc hr, ?_, ?_, ?_⟩
  · simp only [handedOver]
    rw [getMeta_setMeta_ne _ _ _ (by decide), getMeta_setMeta_same, map_count_entryResults]
  · simp only [handedOver]
    rw [getMeta_setMeta_same, length_dataIndices]
  · rcases handedOver_content provider ctx ms es hc hr with hcase | hcase
    · exact ⟨_, _, by rw [hcase]; exact resourceList_withResources ms _ h,
        by rw [handedOver_stateJSON]; exact resourceList_withResources ms _ h,
        length_keepManaged es _ hlen, length_keepManaged es _ hlen⟩
    · exact ⟨_, _, by rw [hcase]; exact resourceList_withResources ms _ h,
        by rw [handedOver_stateJSON]; exact resourceList_withResources ms _ h,
        length_keepManaged es es rfl, length_keepManaged es _ hlen⟩

/-- C10, on the example document: one instance is patched and one data-mode
entry is removed. -/
theorem metadata_counters_witness :
    exampleCtx.Content = .json (.obj exampleMembers) ∧
    lookupMember "resources" exampleMembers = some (.arr exampleEntries) ∧
    ((indexed 0 exampleEntries).map (successCount exampleProvider "v4" "v5")).sum = 1 ∧
    exampleEntries.countP isDatasource = 1 ∧
    ∃ out : Context,
      (∀ next, StateTransformHandler.Handle ⟨exampleProvider, next⟩ exampleCtx
        = StateTransformHandler.Next ⟨exampleProvider, next⟩ out) ∧
      getMeta "state_transformations" out.Metadata
        = some (.int (((indexed 0 exampleEntries).map
            (successCount exampleProvider exampleCtx.SourceVersion
              exampleCtx.TargetVersion)).sum : Nat)) ∧
      getMeta "datasources_removed" out.Metadata
        = some (.int (exampleEntries.countP isDatasource : Nat)) ∧
      ∃ kept scratch : List Json,
        resourceList out.Content = some kept ∧ resourceList out.StateJSON = some scratch ∧
        kept.length = exampleEntries.length - exampleEntries.countP isDatasource ∧
        scratch.length = exampleEntries.length - exampleEntries.countP isDatasource :=
  ⟨rfl, rfl, by decide, by decide,
    metadata_counters exampleProvider exampleCtx exampleMembers exampleEntries rfl rfl⟩

/-! ## Members of an object: lookup after set and erase -/

theorem lookup_append_single (k k2 : String) (v : Json) (ms : List (String × Json)) :
    lookupMember k (ms ++ [(k2, v)])
      = match lookupMember k ms with
        | some x => some x
        | none => if k2 = k then some v else none := by
  induction ms with
  | nil => simp [lookupMember]
  | cons m rest ih =>
    obtain ⟨a, b⟩ := m
    by_cases h : a = k
    · simp [lookupMember, h]
    · simp [lookupMember, h, ih]

theorem lookup_setMember_same (k : String) (v : Json) (ms : List (String × Json)) :
    lookupMember k (setMember k v ms) = some v := by
  unfold setMember
  cases h : lookupMember k ms with
  | none => simp [lookup_append_single, h]
  | some x =>
    have h2 : (lookupMember k ms).isSome := by simp [h]
    simp [lookup_replace_same k v ms h2]

theorem lookup_setMember_ne (k k2 : String) (v : Json) (ms : List (String × Json))
    (hne : k ≠ k2) : lookupMember k (setMember k2 v ms) = lookupMember k ms := by
  unfold setMember
  split
  · exact lookup_replace_ne k k2 v ms hne
  · rw [lookup_append_single]
    have h2 : ¬ k2 = k := fun h => hne h.symm
    cases lookupMember k ms <;> simp [h2]

theorem lookup_erase_ne (k k2 : String) (ms : List (String × Json)) (hne : k ≠ k2) :
    lookupMember k (eraseMember k2 ms) = lookupMember k ms := by
  induction ms with
  | nil => rfl
  | cons m rest ih =>
    obtain ⟨a, b⟩ := m
    by_cases h : a = k2
    · subst h
      have h3 : ¬ a = k := fun h => hne h.symm
      simp [eraseMember, lookupMember, h3]
    · by_cases h4 : a = k
      · subst h4
        simp [eraseMember, lookupMember, h]
      · simp [eraseMember, lookupMember, h, h4, ih]

theorem erase_absent (k : String) (ms : List (String × Json)) (h : lookupMember k ms = none) :
    eraseMember k ms = ms := by
  induction ms with
  | nil => rfl
  | cons m rest ih =>
    obtain ⟨a, b⟩ := m
    by_cases h2 : a = k
    · simp [lookupMember, h2] at h
    · simp only [lookupMember, if_neg h2] at h
      simp [eraseMember, h2, ih h]

theorem lookup_none_of_not_mem (k : String) (ms : List (String × Json))
    (h : k ∉ ms.map Prod.fst) : lookupMember k ms = none := by
  induction ms with
  | nil => rfl
  | cons m rest ih =>
    obtain ⟨a, b⟩ := m
    simp only [List.map_cons, List.mem_cons, not_or] at h
    have h2 : ¬ a = k := fun e => h.1 e.symm
    simp [lookupMember, h2, ih h.2]

theorem lookup_erase_same (k : String) (ms : List (String × Json)) (h : uniqueKeys ms) :
    lookupMember k (eraseMember k ms) = none := by
  induction ms with
  | nil => rfl
  | cons m rest ih =>
    obtain ⟨a, b⟩ := m
    have hn : a ∉ rest.map Prod.fst ∧ (rest.map Prod.fst).Nodup := by
      simpa [uniqueKeys] using h
    by_cases h2 : a = k
    · subst h2
      simp only [eraseMember, if_true]
      exact lookup_none_of_not_mem a rest hn.1
    · simp [eraseMember, lookupMember, h2, ih hn.2]

theorem keys_replaceMember (k : String) (v : Json) (ms : List (String × Json)) :
    (replaceMember k v ms).map Prod.fst = ms.map Prod.fst := by
  induction ms with
  | nil => rfl
  | cons m rest ih =>
    obtain ⟨a, b⟩ := m
    by_cases h : a = k
    · simp [replaceMember, h]
    · simp [replaceMember, h, ih]

theorem mem_keys_of_lookup (k : String) (ms : List (String × Json))
    (h : k ∉ ms.map Prod.fst) : ¬ (lookupMember k ms).isSome := by
  rw [lookup_none_of_not_mem k ms h]
  simp

theorem uniqueKeys_setMember (k : String) (v : Json) (ms : List (String × Json))
    (h : uniqueKeys ms) : uniqueKeys (setMember k v ms) := by
  unfold setMember
  split
  · simpa [uniqueKeys, keys_replaceMember] using h
  · rename_i hk
    have hnot : k ∉ ms.map Prod.fst := by
      intro hmem
      apply hk
      clear hk h
      induction ms with
      | nil => simp at hmem
      | cons m rest ih =>
        obtain ⟨a, b⟩ := m
        by_cases h2 : a = k
        · simp [lookupMember, h2]
        · simp only [List.map_cons, List.mem_cons] at hmem
          rcases hmem with e | e
          · exact absurd e.symm h2
          · simp only [lookupMember, if_neg h2]
            exact ih e
    unfold uniqueKeys at *
    rw [List.map_append, List.nodup_append]
    refine ⟨h, by simp, ?_⟩
    intro a ha hb
    simp at hb
    subst hb
    exact hnot ha

theorem keys_erase_sublist (k : String) (ms : List (String × Json)) :
    ((eraseMember k ms).map Prod.fst).Sublist (ms.map Prod.fst) := by
  induction ms with
  | nil => exact List.Sublist.slnil
  | cons m rest ih =>
    obtain ⟨a, b⟩ := m
    by_cases h : a = k
    · simp [eraseMember, h]
    · simp only [eraseMember, if_neg h, List.map_cons]
      exact ih.cons₂ a

theorem uniqueKeys_eraseMember (k : String) (ms : List (String × Json))
    (h : uniqueKeys ms) : uniqueKeys (eraseMember k ms) :=
  List.Nodup.sublist (keys_erase_sublist k ms) h

/-! ## Edits below `attributes` -/

theorem deleteTarget_obj (ms : List (String × Json)) (p : String) :
    deleteTarget (.obj ms) p = (lookupMember p ms).map (fun c => (p, c)) := by
  unfold deleteTarget
  split <;> rfl

theorem setRaw_obj_single (ms : List (String × Json)) (k : String) (v : Json) :
    sjsonSetRaw (.obj ms) [k] v = .ok (.obj (setMember k v ms)) := by
  rw [sjsonSetRaw]
  unfold setMember
  cases h : lookupMember k ms with
  | none => simp [Json.child, h, appendMissing]
  | some x => simp [Json.child, h, Json.replaceChild]

theorem setOr_obj_single (ms : List (String × Json)) (k : String) (v : Json) :
    sjsonSetOr (.obj ms) [k] v = .obj (setMember k v ms) := by
  simp [sjsonSetOr, setRaw_obj_single]

theorem delete_obj_single (ms : List (String × Json)) (k : String) :
    sjsonDelete (.obj ms) [k] = .obj (eraseMember k ms) := by
  rw [sjsonDelete, deleteTarget_obj]
  cases h : lookupMember k ms with
  | none => simp [erase_absent k ms h]
  | some x => simp [Json.eraseChild]

theorem child_withAttributes (ims ams : List (String × Json))
    (h : (lookupMember "attributes" ims).isSome) :
    (withAttributes ims ams).child "attributes" = some (.obj ams) := by
  simp [withAttributes, Json.child, lookup_replace_same _ _ _ h]

theorem withAttributes_self (ims ams : List (String × Json))
    (h : lookupMember "attributes" ims = some (.obj ams)) :
    withAttributes ims ams = .obj ims := by
  simp [withAttributes, replace_lookup_self _ _ _ h]

theorem withAttributes_replace (ims ams : List (String × Json)) (v : Json) :
    (withAttributes ims ams).replaceChild "attributes" v
      = .obj (replaceMember "attributes" v ims) := by
  simp [withAttributes, Json.replaceChild, replace_replace_same]

theorem setOr_attr (ims ams : List (String × Json)) (k : String) (v : Json)
    (h : (lookupMember "attributes" ims).isSome) :
    sjsonSetOr (withAttributes ims ams) ["attributes", k] v
      = withAttributes ims (setMember k v ams) := by
  unfold sjsonSetOr
  rw [setRaw_found_more _ _ _ _ _ _ (child_withAttributes ims ams h), setRaw_obj_single]
  simp only [withAttributes_replace]
  rfl

theorem delete_attr (ims ams : List (String × Json)) (k : String)
    (h : (lookupMember "attributes" ims).isSome) :
    sjsonDelete (withAttributes ims ams) ["attributes", k]
      = withAttributes ims (eraseMember k ams) := by
  have hd : deleteTarget (withAttributes ims ams) "attributes"
      = some ("attributes", .obj ams) := by
    rw [deleteTarget_of_ne _ _ (by decide), child_withAttributes ims ams h]
    rfl
  rw [sjsonDelete, hd]
  simp only [delete_obj_single, withAttributes_replace]
  rfl

theorem set_top (ims ams : List (String × Json)) (k : String) (v : Json) :
    sjsonSetOr (withAttributes ims ams) [k] v
      = .obj (setMember k v (replaceMember "attributes" (.obj ams) ims)) := by
  simp [withAttributes, setOr_obj_single]

theorem get_attributes (ims ams0 : List (String × Json))
    (h : lookupMember "attributes" ims = some (.obj ams0)) :
    gjsonGet (some (.obj ims)) "attributes" = some (.obj ams0) := by
  simp [gjsonGet, Json.child, h]

theorem get_member (ms : List (String × Json)) (k : String) :
    gjsonGet (some (.obj ms)) k = lookupMember k ms := by
  simp [gjsonGet, Json.child]

theorem getPath_attr (ims ams0 : List (String × Json)) (k : String)
    (h : lookupMember "attributes" ims = some (.obj ams0)) :
    gjsonGetPath (some (.obj ims)) ["attributes", k] = lookupMember k ams0 := by
  simp only [gjsonGetPath, Option.bind, getPath, Json.child, h]
  cases lookupMember k ams0 <;> rfl

theorem isSome_of_lookup (k : String) (ms : List (String × Json)) (v : Json)
    (h : lookupMember k ms = some v) : (lookupMember k ms).isSome := by
  simp [h]

theorem text_set_attr (ims ams : List (String × Json)) (k : String) (v : Json)
    (h : (lookupMember "attributes" ims).isSome) :
    (Text.json (withAttributes ims ams)).set ["attributes", k] v
      = .json (withAttributes ims (setMember k v ams)) := by
  simp [Text.set, setOr_attr ims ams k v h]

theorem text_delete_attr (ims ams : List (String × Json)) (k : String)
    (h : (lookupMember "attributes" ims).isSome) :
    (Text.json (withAttributes ims ams)).delete ["attributes", k]
      = .json (withAttributes ims (eraseMember k ams)) := by
  simp [Text.delete, delete_attr ims ams k h]

theorem text_set_top (ims ams : List (String × Json)) (k : String) (v : Json) :
    (Text.json (withAttributes ims ams)).set [k] v
      = .json (.obj (setMember k v (replaceMember "attributes" (.obj ams) ims))) := by
  simp [Text.set, set_top]

theorem lookup_attributes_top (ims ams : List (String × Json)) (k : String) (v : Json)
    (h : (lookupMember "attributes" ims).isSome) (hk : k ≠ "attributes") :
    lookupMember "attributes" (setMember k v (replaceMember "attributes" (.obj ams) ims))
      = some (.obj ams) := by
  rw [lookup_setMember_ne _ _ _ _ (Ne.symm hk), lookup_replace_same _ _ _ h]

/-! ## The gateway policy migrator keeps an object an object -/

theorem setOr_obj (ms : List (String × Json)) (path : List String) (v : Json) :
    ∃ ms2, sjsonSetOr (.obj ms) path v = .obj ms2 := by
  match path with
  | [] => exact ⟨ms, by simp [sjsonSetOr, sjsonSetRaw]⟩
  | [p] => exact ⟨_, setOr_obj_single ms p v⟩
  | p :: q :: qs =>
    unfold sjsonSetOr
    rw [sjsonSetRaw]
    cases hc : (Json.obj ms).child p with
    | none => exact ⟨_, by simp [appendMissing]; rfl⟩
    | some c =>
      cases hs : sjsonSetRaw c (q :: qs) v with
      | error e => exact ⟨ms, by simp [hs]⟩
      | ok c2 => exact ⟨replaceMember p c2 ms, by simp [hs, Json.replaceChild]⟩

theorem text_set_obj (ms : List (String × Json)) (path : List String) (v : Json) :
    ∃ ms2, (Text.json (.obj ms)).set path v = .json (.obj ms2) := by
  obtain ⟨ms2, h⟩ := setOr_obj ms path v
  exact ⟨ms2, by simp [Text.set, h]⟩

theorem text_splice_obj (ms : List (String × Json)) (path : List String) (raw : Text) :
    (Text.json (.obj ms)).splice path raw = .beyond ∨
      ∃ ms2, (Text.json (.obj ms)).splice path raw = .json (.obj ms2) := by
  cases raw with
  | json v => exact Or.inr (text_set_obj ms path v)
  | bare s => exact Or.inl rfl
  | beyond => exact Or.inl rfl

theorem text_splice_json (ms : List (String × Json)) (path : List String) (v : Json) :
    ∃ ms2, (Text.json (.obj ms)).splice path (.json v) = .json (.obj ms2) :=
  text_set_obj ms path v

theorem text_set_schema (ms : List (String × Json)) :
    (Text.json (.obj ms)).set ["schema_version"] (.num "0")
      = .json (.obj (setMember "schema_version" (.num "0") ms)) := by
  simp [Text.set, setOr_obj_single]

theorem set_isJson (t : Text) (path : List String) (v : Json) (h : t.isJson = true) :
    (t.set path v).isJson = true := by
  cases t with
  | json j => rfl
  | bare s => simp [Text.isJson] at h
  | beyond => simp [Text.isJson] at h

theorem delete_isJson (t : Text) (path : List String) (h : t.isJson = true) :
    (t.delete path).isJson = true := by
  cases t with
  | json j => rfl
  | bare s => simp [Text.isJson] at h
  | beyond => simp [Text.isJson] at h

theorem splice_isJson (t raw : Text) (path : List String) (h : t.isJson = true)
    (hr : raw.isJson = true) : (t.splice path raw).isJson = true := by
  cases raw with
  | json v => exact set_isJson t path v h
  | bare s => simp [Text.isJson] at hr
  | beyond => simp [Text.isJson] at hr

theorem stringText_isJson (rt : GoRuntime) (j : Json) (h : rawJson j = true) :
    (stringText rt (some j)).isJson = true := by
  cases j <;> simp_all [rawJson, stringText, Text.isJson]

theorem foldl_isJson {α : Type} (f : Text → α → Text) (xs : List α)
    (hf : ∀ t x, t.isJson = true → (f t x).isJson = true) (t : Text) (h : t.isJson = true) :
    (xs.foldl f t).isJson = true := by
  induction xs generalizing t with
  | nil => exact h
  | cons x rest ih => exact ih (f t x) (hf t x h)

theorem resolverPorts_isJson (rt : GoRuntime) (t : Text) (dnsResolvers : Option Json)
    (family : String) (h : t.isJson = true) :
    (zero_trust_gateway_policy.resolverPorts rt t dnsResolvers family).isJson = true := by
  unfold zero_trust_gateway_policy.resolverPorts
  simp only
  split
  · apply foldl_isJson _ _ _ t h
    intro t2 kv h2
    show (if gjsonExists (gjsonGet (some kv.2) "port") = true then _ else t2).isJson = true
    split
    · exact set_isJson _ _ _ h2
    · exact h2
  · exact h

theorem transformNested_isJson (rt : GoRuntime) (settings : Option Json) (result : Text)
    (structName : String) (hc : cleanNested settings structName = true)
    (h : result.isJson = true) :
    (zero_trust_gateway_policy.transformNested rt settings result structName).isJson = true := by
  unfold zero_trust_gateway_policy.transformNested
  unfold cleanNested at hc
  simp only
  split
  · exact h
  · rename_i hex
    cases hn : gjsonGet settings structName with
    | none => simp [hn, gjsonExists] at hex
    | some nested =>
      cases nested with
      | arr xs =>
        cases xs with
        | nil => simpa [gjsonArray] using delete_isJson _ _ h
        | cons first rest =>
          rw [hn] at hc
          have hf : (stringText rt (some first)).isJson = true := stringText_isJson rt first hc
          simp only [gjsonArray]
          split
          · apply splice_isJson _ _ _ h
            split
            · exact delete_isJson _ _ (set_isJson _ _ _ hf)
            · exact hf
          · split
            · apply splice_isJson _ _ _ h
              split
              · exact set_isJson _ _ _ hf
              · exact hf
            · split
              · unfold zero_trust_gateway_policy.transformDnsResolvers
                apply splice_isJson _ _ _ h
                exact resolverPorts_isJson _ _ _ _ (resolverPorts_isJson _ _ _ _ hf)
              · split
                · apply splice_isJson _ _ _ h
                  apply foldl_isJson _ _ _ _ hf
                  intro t2 name h2
                  exact delete_isJson _ _ h2
                · exact splice_isJson _ _ _ h hf
      | null => simp [hn, gjsonIsArray] at hex
      | bool b => simp [hn, gjsonIsArray] at hex
      | num r => simp [hn, gjsonIsArray] at hex
      | str s => simp [hn, gjsonIsArray] at hex
      | obj ms => simp [hn, gjsonIsArray] at hex

theorem foldl_nested_isJson (rt : GoRuntime) (settings : Option Json) (names : List String)
    (hc : names.all (cleanNested settings) = true) (t : Text) (h : t.isJson = true) :
    (names.foldl (zero_trust_gateway_policy.transformNested rt settings) t).isJson = true := by
  induction names generalizing t with
  | nil => exact h
  | cons name rest ih =>
    simp only [List.all_cons, Bool.and_eq_true] at hc
    exact ih hc.2 _ (transformNested_isJson rt settings t name hc.1 h)

theorem transformRuleSettingsObject_isJson (rt : GoRuntime) (settings : Json)
    (hc : cleanSettings settings = true) :
    (zero_trust_gateway_policy.transformRuleSettingsObject rt (some settings)).isJson = true := by
  unfold zero_trust_gateway_policy.transformRuleSettingsObject
  unfold cleanSettings at hc
  simp only [Bool.and_eq_true] at hc
  have hs := stringText_isJson rt settings hc.1
  apply foldl_nested_isJson rt (some settings) _ hc.2
  split
  · exact delete_isJson _ _ (set_isJson _ _ _ hs)
  · exact hs

theorem transformRuleSettings_isJson (rt : GoRuntime) (result : Text) (ruleSettings : Option Json)
    (hc : cleanRuleSettings ruleSettings = true) (h : result.isJson = true) :
    (zero_trust_gateway_policy.transformRuleSettings rt result ruleSettings).isJson = true := by
  unfold zero_trust_gateway_policy.transformRuleSettings
  split
  · split
    · exact h
    · rename_i hia settingsObj rest harr
      apply splice_isJson _ _ _ h
      apply transformRuleSettingsObject_isJson
      match ruleSettings, hia, harr, hc with
      | some (.arr (x :: xs)), _, harr, hc =>
        simp only [gjsonArray, List.cons.injEq] at harr
        rw [← harr.1]
        exact hc
  · split
    · rename_i hio
      apply splice_isJson _ _ _ h
      match ruleSettings, hio, hc with
      | some (.obj ms), _, hc => exact transformRuleSettingsObject_isJson rt _ hc
    · exact h

theorem transformRuleSettings_obj (rt : GoRuntime) (ms : List (String × Json))
    (ruleSettings : Option Json) :
    zero_trust_gateway_policy.transformRuleSettings rt (.json (.obj ms)) ruleSettings = .beyond ∨
      ∃ ms2, zero_trust_gateway_policy.transformRuleSettings rt (.json (.obj ms)) ruleSettings
        = .json (.obj ms2) := by
  unfold zero_trust_gateway_policy.transformRuleSettings
  split
  · split
    · exact Or.inr ⟨ms, rfl⟩
    · exact text_splice_obj ms _ _
  · split
    · exact text_splice_obj ms _ _
    · exact Or.inr ⟨ms, rfl⟩

theorem getPath_two (r : Option Json) (a b : String) :
    gjsonGetPath r [a, b] = gjsonGet (gjsonGet r a) b := by
  cases r with
  | none => rfl
  | some j =>
    simp only [gjsonGetPath, gjsonGet, Option.bind, getPath]
    cases h1 : j.child a with
    | none => rfl
    | some c => cases h2 : c.child b <;> simp [h2]

theorem optional_set_obj (c : Prop) [Decidable c] (ms : List (String × Json))
    (path : List String) (v : Json) :
    ∃ ms2, (if c then (Text.json (.obj ms)).set path v else .json (.obj ms))
      = .json (.obj ms2) := by
  split
  · exact text_set_obj ms path v
  · exact ⟨ms, rfl⟩

theorem schema_of_obj (ms : List (String × Json)) :
    ∃ ms2, (Text.json (.obj ms)).set ["schema_version"] (.num "0") = .json (.obj ms2) ∧
      lookupMember "schema_version" ms2 = some (.num "0") :=
  ⟨_, text_set_schema ms, lookup_setMember_same _ _ _⟩

theorem exampleRuntime_sound : exampleRuntime.Sound where
  float_idem raw := by
    simp only [exampleRuntime]
    cases h : parseUint raw with
    | none => simp [h]
    | some n => simp [parseUint_repr]
  parse_canonical s := by
    intro hp
    simp only [exampleRuntime] at hp ⊢
    cases h : parseUint s with
    | none => simp [h] at hp
    | some n => simp [parseUint_repr]
  remarshal_idem _ := rfl
  remarshal_arr xs := ⟨xs, rfl⟩
  remarshal_obj ms := ⟨ms, rfl⟩
  int_exact n _ := by
    simp [exampleRuntime, parseUint_repr]

theorem gateway_result (rt : GoRuntime) (ims : List (String × Json))
    (resourcePath resourceName : String) :
    ∃ t, zero_trust_gateway_policy.TransformState rt (some (.obj ims)) resourcePath resourceName
        = .ok t ∧
      (t = .beyond ∨
        ∃ ms2, t = .json (.obj ms2) ∧ lookupMember "schema_version" ms2 = some (.num "0")) ∧
      (lookupMember "attributes" ims = none →
        t = .json (.obj (setMember "schema_version" (.num "0") ims))) ∧
      (cleanRuleSettings (gjsonGetPath (some (.obj ims)) ["attributes", "rule_settings"]) = true →
        t.isJson = true) := by
  unfold zero_trust_gateway_policy.TransformState
  simp only [stringText, get_member, getPath_two]
  cases ha : lookupMember "attributes" ims with
  | none =>
    refine ⟨_, by simp [gjsonExists]; rfl, ?_, ?_, ?_⟩
    · exact Or.inr ⟨_, text_set_schema ims, lookup_setMember_same _ _ _⟩
    · intro _
      exact text_set_schema ims
    · intro _
      rw [text_set_schema]
      rfl
  | some attrs =>
    obtain ⟨ms1, h1⟩ := optional_set_obj (gjsonExists (gjsonGet (some attrs) "precedence") = true)
      ims ["attributes", "precedence"]
      (state.ConvertToFloat64 rt (gjsonGet (some attrs) "precedence"))
    obtain ⟨ms2, h2⟩ := optional_set_obj (gjsonExists (gjsonGet (some attrs) "version") = true)
      ms1 ["attributes", "version"]
      (state.ConvertToFloat64 rt (gjsonGet (some attrs) "version"))
    simp only [gjsonExists, Option.isSome_some, not_true_eq_false, if_false] at *
    simp only [h1, h2]
    cases hr : gjsonGet (some attrs) "rule_settings" with
    | none =>
      simp only [Option.isSome_none, Bool.false_eq_true, if_false]
      refine ⟨_, rfl, ?_, ?_, ?_⟩
      · exact Or.inr ⟨_, text_set_schema ms2, lookup_setMember_same _ _ _⟩
      · intro h
        exact absurd h (by simp)
      · intro _
        rw [text_set_schema]
        rfl
    | some rs =>
      simp only [Option.isSome_some, if_true]
      refine ⟨_, rfl, ?_, ?_, ?_⟩
      · rcases transformRuleSettings_obj rt ms2 (some rs) with hb | ⟨ms3, h3⟩
        · rw [hb]
          exact Or.inl rfl
        · rw [h3]
          exact Or.inr ⟨_, text_set_schema ms3, lookup_setMember_same _ _ _⟩
      · intro h
        exact absurd h (by simp)
      · intro hc
        apply set_isJson
        exact transformRuleSettings_isJson rt _ _ hc rfl

/-! ## The steps of `transformSingleDNSInstance` on the attributes -/

theorem editedOnly_refl (keys : List String) (a : List (String × Json)) :
    editedOnly keys a a :=
  ⟨fun _ _ => rfl, fun h => h⟩

theorem editedOnly_trans (keys : List String) (a b c : List (String × Json))
    (h1 : editedOnly keys a b) (h2 : editedOnly keys b c) : editedOnly keys a c :=
  ⟨fun k hk => (h2.1 k hk).trans (h1.1 k hk), fun h => h2.2 (h1.2 h)⟩

theorem editedOnly_mono (keys keys2 : List String) (a b : List (String × Json))
    (h : editedOnly keys a b) (hsub : ∀ k, k ∈ keys → k ∈ keys2) : editedOnly keys2 a b :=
  ⟨fun k hk => h.1 k (fun hm => hk (hsub k hm)), h.2⟩

theorem editedOnly_set (keys : List String) (k : String) (v : Json) (a : List (String × Json))
    (hk : k ∈ keys) : editedOnly keys a (setMember k v a) :=
  ⟨fun k2 h2 => lookup_setMember_ne k2 k v a (fun e => h2 (e ▸ hk)),
    uniqueKeys_setMember k v a⟩

theorem editedOnly_erase (keys : List String) (k : String) (a : List (String × Json))
    (hk : k ∈ keys) : editedOnly keys a (eraseMember k a) :=
  ⟨fun k2 h2 => lookup_erase_ne k2 k a (fun e => h2 (e ▸ hk)),
    uniqueKeys_eraseMember k a⟩

theorem cleanup_step (ims ams : List (String × Json)) (k : String) (fv : Option Json)
    (keys : List String) (hs : (lookupMember "attributes" ims).isSome) (hk : k ∈ keys) :
    ∃ a2, state.CleanupEmptyField (.json (withAttributes ims ams)) ["attributes", k] fv
        = .json (withAttributes ims a2) ∧ editedOnly keys ams a2 := by
  unfold state.CleanupEmptyField
  split
  · exact ⟨_, text_delete_attr ims ams k hs, editedOnly_erase keys k ams hk⟩
  · split
    · exact ⟨_, text_delete_attr ims ams k hs, editedOnly_erase keys k ams hk⟩
    · exact ⟨ams, rfl, editedOnly_refl keys ams⟩

theorem removeObject_step (ims ams : List (String × Json)) (k : String) (fv : Option Json)
    (names keys : List String) (hs : (lookupMember "attributes" ims).isSome) (hk : k ∈ keys) :
    ∃ a2, state.RemoveObjectIfAllNull (.json (withAttributes ims ams)) ["attributes", k] fv names
        = .json (withAttributes ims a2) ∧ editedOnly keys ams a2 := by
  unfold state.RemoveObjectIfAllNull
  split
  · exact ⟨_, text_delete_attr ims ams k hs, editedOnly_erase keys k ams hk⟩
  · exact ⟨ams, rfl, editedOnly_refl keys ams⟩

/-- The timestamp `state.EnsureTimestamps` leaves under `created_on`. -/
theorem timestamps_step (ims ams ams0 : List (String × Json)) (d : String) (keys : List String)
    (hs : (lookupMember "attributes" ims).isSome)
    (hc : "created_on" ∈ keys) (hm : "modified_on" ∈ keys)
    (hcr : lookupMember "created_on" ams = lookupMember "created_on" ams0)
    (hmo : lookupMember "modified_on" ams = lookupMember "modified_on" ams0) :
    ∃ a2, state.EnsureTimestamps (.json (withAttributes ims ams)) ["attributes"]
          (some (.obj ams0)) d
        = .json (withAttributes ims a2) ∧ editedOnly keys ams a2 ∧
      lookupMember "created_on" a2
        = some ((lookupMember "created_on" ams0).getD (.str d)) ∧
      lookupMember "modified_on" a2
        = some ((lookupMember "modified_on" ams0).getD
            ((lookupMember "created_on" ams0).getD (.str d))) := by
  unfold state.EnsureTimestamps
  simp only [get_member, List.singleton_append, List.nil_append, List.cons_append]
  cases h1 : lookupMember "created_on" ams0 with
  | none =>
    cases h2 : lookupMember "modified_on" ams0 with
    | none =>
      refine ⟨setMember "modified_on" (.str d) (setMember "created_on" (.str d) ams),
        ?_, ?_, ?_, ?_⟩
      · simp only [text_set_attr _ _ _ _ hs]
      · exact editedOnly_trans keys _ _ _ (editedOnly_set keys _ _ _ hc)
          (editedOnly_set keys _ _ _ hm)
      · rw [lookup_setMember_ne _ _ _ _ (by decide), lookup_setMember_same]
        rfl
      · rw [lookup_setMember_same]
        rfl
    | some m =>
      refine ⟨setMember "created_on" (.str d) ams, ?_, ?_, ?_, ?_⟩
      · simp only [text_set_attr _ _ _ _ hs]
      · exact editedOnly_set keys _ _ _ hc
      · rw [lookup_setMember_same]
        rfl
      · rw [lookup_setMember_ne _ _ _ _ (by decide), hmo, h2]
        rfl
  | some c =>
    cases h2 : lookupMember "modified_on" ams0 with
    | none =>
      refine ⟨setMember "modified_on" c ams, ?_, ?_, ?_, ?_⟩
      · simp only [text_set_attr _ _ _ _ hs]
      · exact editedOnly_set keys _ _ _ hm
      · rw [lookup_setMember_ne _ _ _ _ (by decide), hcr, h1]
        rfl
      · rw [lookup_setMember_same]
        rfl
    | some m =>
      exact ⟨ams, rfl, editedOnly_refl keys ams, by rw [hcr, h1]; rfl, by rw [hmo, h2]; rfl⟩

theorem ensureField_step (ims ams ams0 : List (String × Json)) (name : String) (d : Json)
    (keys : List String) (hs : (lookupMember "attributes" ims).isSome) (hk : name ∈ keys)
    (hsame : lookupMember name ams = lookupMember name ams0) :
    ∃ a2, state.EnsureField (.json (withAttributes ims ams)) ["attributes"] (some (.obj ams0))
          name d
        = .json (withAttributes ims a2) ∧ editedOnly keys ams a2 ∧
      lookupMember name a2 = some ((lookupMember name ams0).getD d) := by
  unfold state.EnsureField
  simp only [get_member, gjsonExists, List.singleton_append]
  cases h1 : lookupMember name ams0 with
  | none =>
    refine ⟨setMember name d ams, ?_, editedOnly_set keys name d ams hk, ?_⟩
    · simp [text_set_attr _ _ _ _ hs]
    · rw [lookup_setMember_same]
      rfl
  | some x =>
    exact ⟨ams, by simp, editedOnly_refl keys ams, by rw [hsame, h1]; rfl⟩

theorem removeFields_step (ims ams : List (String × Json)) (inst : Option Json)
    (names keys : List String) (hs : (lookupMember "attributes" ims).isSome)
    (hk : ∀ k, k ∈ names → k ∈ keys) :
    ∃ a2, state.RemoveFields (.json (withAttributes ims ams)) ["attributes"] inst names
        = .json (withAttributes ims a2) ∧ editedOnly keys ams a2 := by
  unfold state.RemoveFields
  induction names generalizing ams with
  | nil => exact ⟨ams, rfl, editedOnly_refl keys ams⟩
  | cons name rest ih =>
    simp only [List.foldl_cons, List.singleton_append]
    have hrest : ∀ k, k ∈ rest → k ∈ keys := fun k hm => hk k (List.mem_cons_of_mem _ hm)
    split
    · rw [text_delete_attr ims ams name hs]
      obtain ⟨a2, e2, f2⟩ := ih (eraseMember name ams) hrest
      exact ⟨a2, e2, editedOnly_trans keys _ _ _
        (editedOnly_erase keys name ams (hk name (List.mem_cons_self _ _))) f2⟩
    · exact ih ams hrest

/-! ## The renaming of `value` and the steps before the data field -/

theorem renameValue_step (rt : GoRuntime) (ims ams ams0 : List (String × Json))
    (recordType : String) (keys : List String)
    (hs : (lookupMember "attributes" ims).isSome)
    (hkc : "content" ∈ keys) (hkv : "value" ∈ keys)
    (hv : lookupMember "value" ams = lookupMember "value" ams0)
    (hc : lookupMember "content" ams = lookupMember "content" ams0) :
    ∃ a2, dns_record.renameValue rt (.json (withAttributes ims ams)) (some (.obj ams0)) recordType
        = .json (withAttributes ims a2) ∧ editedOnly keys ams a2 ∧
      (dns_record.usesDataField recordType = false →
        (∀ c, lookupMember "content" ams0 = some c → c ≠ .null →
          lookupMember "content" a2 = some c) ∧
        (∀ v, lookupMember "value" ams0 = some v →
          (lookupMember "content" ams0 = none ∨ lookupMember "content" ams0 = some .null) →
          lookupMember "content" a2 = some (jsonOfValue rt (some v))) ∧
        (uniqueKeys ams → lookupMember "value" a2 = none)) := by
  unfold dns_record.renameValue
  simp only [get_member, gjsonExists]
  cases hu : dns_record.usesDataField recordType with
  | true =>
    refine ⟨eraseMember "content" (eraseMember "value" ams), ?_, ?_, ?_⟩
    · simp [text_delete_attr _ _ _ hs]
    · exact editedOnly_trans keys _ _ _ (editedOnly_erase keys _ _ hkv)
        (editedOnly_erase keys _ _ hkc)
    · intro hf
      exact absurd hf (by simp)
  | false =>
    simp only [Bool.false_eq_true, not_false_eq_true, if_true]
    cases hval : lookupMember "value" ams0 with
    | none =>
      refine ⟨ams, by simp, editedOnly_refl keys ams, fun _ => ⟨?_, ?_, ?_⟩⟩
      · intro c h1 _
        rw [hc, h1]
      · intro v h1
        exact absurd h1 (by simp)
      · intro _
        rw [hv, hval]
    | some v =>
      by_cases hcon : (lookupMember "content" ams0).isSome = true ∧
          lookupMember "content" ams0 ≠ some .null
      · refine ⟨eraseMember "value" ams, by simp [hcon, text_delete_attr _ _ _ hs],
          editedOnly_erase keys _ _ hkv, fun _ => ⟨?_, ?_, ?_⟩⟩
        · intro c h1 _
          rw [lookup_erase_ne _ _ _ (by decide), hc, h1]
        · intro v2 _ h2
          rcases h2 with h2 | h2
          · rw [h2] at hcon
            exact absurd hcon.1 (by simp)
          · exact absurd h2 hcon.2
        · intro hu2
          exact lookup_erase_same "value" ams hu2
      · refine ⟨eraseMember "value" (setMember "content" (jsonOfValue rt (some v)) ams),
          by simp [hcon, text_set_attr _ _ _ _ hs, text_delete_attr _ _ _ hs],
          editedOnly_trans keys _ _ _ (editedOnly_set keys _ _ _ hkc)
            (editedOnly_erase keys _ _ hkv), fun _ => ⟨?_, ?_, ?_⟩⟩
        · intro c h1 h2
          exfalso
          apply hcon
          rw [h1]
          exact ⟨rfl, fun e => h2 (by injection e)⟩
        · intro v2 h1 _
          rw [lookup_erase_ne _ _ _ (by decide), lookup_setMember_same]
          injection h1 with h1
          rw [h1]
        · intro hu2
          exact lookup_erase_same "value" _ (uniqueKeys_setMember _ _ _ hu2)

theorem single_instance_form (rt : GoRuntime) (ims ams0 : List (String × Json))
    (inst : Option Json) (hs : (lookupMember "attributes" ims).isSome)
    (hget : gjsonGet inst "attributes" = some (.obj ams0)) :
    ∃ a6,
      (∀ a7, dns_record.transformDataFieldForInstance rt (.json (withAttributes ims a6)) inst
            (resultString rt (lookupMember "type" ams0)) = .json (withAttributes ims a7) →
        ∃ a8, dns_record.transformSingleDNSInstance rt (.json (withAttributes ims ams0)) inst
            = .json (withAttributes ims a8) ∧
          editedOnly ["priority"] a7 a8 ∧ (lookupMember "priority" ams0 = none → a8 = a7)) ∧
      editedOnly touchedBeforeData ams0 a6 ∧
      lookupMember "created_on" a6
        = some ((lookupMember "created_on" ams0).getD (.str "2024-01-01T00:00:00Z")) ∧
      lookupMember "modified_on" a6
        = some ((lookupMember "modified_on" ams0).getD
            ((lookupMember "created_on" ams0).getD (.str "2024-01-01T00:00:00Z"))) ∧
      lookupMember "ttl" a6 = some ((lookupMember "ttl" ams0).getD (.num "1")) ∧
      (dns_record.usesDataField (resultString rt (lookupMember "type" ams0)) = false →
        (∀ c, lookupMember "content" ams0 = some c → c ≠ .null →
          lookupMember "content" a6 = some c) ∧
        (∀ v, lookupMember "value" ams0 = some v →
          (lookupMember "content" ams0 = none ∨ lookupMember "content" ams0 = some .null) →
          lookupMember "content" a6 = some (jsonOfValue rt (some v))) ∧
        (uniqueKeys ams0 → lookupMember "value" a6 = none)) := by
  unfold dns_record.transformSingleDNSInstance
  simp only [getPath_two, hget, get_member]
  obtain ⟨a1, e1, f1⟩ := cleanup_step ims ams0 "meta" (lookupMember "meta" ams0) ["meta"] hs
    (by simp)
  obtain ⟨a2, e2, f2⟩ := removeObject_step ims a1 "settings" (lookupMember "settings" ams0)
    ["flatten_cname", "ipv4_only", "ipv6_only"] ["settings"] hs (by simp)
  have f12 : editedOnly ["meta", "settings"] ams0 a2 :=
    editedOnly_trans _ _ _ _ (editedOnly_mono _ _ _ _ f1 (by simp))
      (editedOnly_mono _ _ _ _ f2 (by simp))
  obtain ⟨a3, e3, f3, hcr, hmo⟩ := timestamps_step ims a2 ams0 "2024-01-01T00:00:00Z"
    ["created_on", "modified_on"] hs (by simp) (by simp)
    (f12.1 _ (by decide)) (f12.1 _ (by decide))
  have f13 : editedOnly ["meta", "settings", "created_on", "modified_on"] ams0 a3 :=
    editedOnly_trans _ _ _ _ (editedOnly_mono _ _ _ _ f12 (by simp))
      (editedOnly_mono _ _ _ _ f3 (by simp))
  obtain ⟨a4, e4, f4, hren⟩ := renameValue_step rt ims a3 ams0
    (resultString rt (lookupMember "type" ams0)) ["content", "value"] hs (by simp) (by simp)
    (f13.1 _ (by decide)) (f13.1 _ (by decide))
  have f14 : editedOnly ["meta", "settings", "created_on", "modified_on", "content", "value"]
      ams0 a4 :=
    editedOnly_trans _ _ _ _ (editedOnly_mono _ _ _ _ f13 (by simp))
      (editedOnly_mono _ _ _ _ f4 (by simp))
  obtain ⟨a5, e5, f5, httl⟩ := ensureField_step ims a4 ams0 "ttl" (.num "1") ["ttl"] hs
    (by simp) (f14.1 _ (by decide))
  obtain ⟨a6, e6, f6⟩ := removeFields_step ims a5 (some (.obj ams0))
    ["hostname", "allow_overwrite", "timeouts", "metadata"]
    ["hostname", "allow_overwrite", "timeouts", "metadata"] hs (fun _ hk => hk)
  have f56 : editedOnly ["ttl", "hostname", "allow_overwrite", "timeouts", "metadata"] a4 a6 :=
    editedOnly_trans _ _ _ _ (editedOnly_mono _ _ _ _ f5 (by simp))
      (editedOnly_mono _ _ _ _ f6 (by simp))
  have f46 : editedOnly ["content", "value", "ttl", "hostname", "allow_overwrite", "timeouts",
      "metadata"] a3 a6 :=
    editedOnly_trans _ _ _ _ (editedOnly_mono _ _ _ _ f4 (by simp))
      (editedOnly_mono _ _ _ _ f56 (by simp))
  refine ⟨a6, ?_, ?_, ?_, ?_, ?_, ?_⟩
  · intro a7 h7
    rw [e1, e2, e3, e4, e5, e6, h7]
    split
    · rename_i raw heq
      exact ⟨_, text_set_attr ims a7 _ _ hs, editedOnly_set _ _ _ _ (by simp),
        fun hnone => absurd (heq.symm.trans hnone) (by simp)⟩
    · exact ⟨a7, rfl, editedOnly_refl _ a7, fun _ => rfl⟩
  · unfold touchedBeforeData
    exact editedOnly_trans _ _ _ _ (editedOnly_mono _ _ _ _ f14 (by simp))
      (editedOnly_mono _ _ _ _ f56 (by simp))
  · rw [f46.1 _ (by decide)]
    exact hcr
  · rw [f46.1 _ (by decide)]
    exact hmo
  · rw [f6.1 _ (by decide)]
    exact httl
  · intro hu
    obtain ⟨r1, r2, r3⟩ := hren hu
    refine ⟨?_, ?_, ?_⟩
    · intro c h1 h2
      rw [f56.1 _ (by decide)]
      exact r1 c h1 h2
    · intro v h1 h2
      rw [f56.1 _ (by decide)]
      exact r2 v h1 h2
    · intro hu2
      rw [f56.1 _ (by decide)]
      exact r3 (f13.2 hu2)

/-! ## The data field, by record type -/

theorem caa_data_form (rt : GoRuntime) (ims ams0 a : List (String × Json)) (inst : Option Json)
    (first tg cv : Json) (rest : List Json)
    (hs : (lookupMember "attributes" ims).isSome)
    (hget : gjsonGet inst "attributes" = some (.obj ams0))
    (hdata : lookupMember "data" ams0 = some (.arr (first :: rest)))
    (htag : gjsonGet (some first) "tag" = some tg)
    (hcon : gjsonGet (some first) "content" = some cv) :
    dns_record.transformDataFieldForInstance rt (.json (withAttributes ims a)) inst "CAA"
      = .json (withAttributes ims
          (setMember "content"
            (.str (dns_record.flagsStr (gjsonGet (some first) "flags") ++ " " ++
              resultString rt (some tg) ++ " " ++ resultString rt (some cv)))
            (setMember "data"
              (.obj (state.buildDataObject (dns_record.dataOptions rt "CAA") first)) a))) := by
  unfold dns_record.transformDataFieldForInstance
  simp [getPath_two, hget, get_member, hdata, gjsonIsArray, gjsonArray, gjsonExists,
    dns_record.isSimpleRecordType, state.TransformDataFieldArrayToObject,
    dns_record.caaContent, text_set_attr _ _ _ _ hs, htag, hcon]

theorem srv_data_form (rt : GoRuntime) (ims ams0 a : List (String × Json)) (inst : Option Json)
    (first pv : Json) (rest : List Json)
    (hs : (lookupMember "attributes" ims).isSome)
    (hget : gjsonGet inst "attributes" = some (.obj ams0))
    (hdata : lookupMember "data" ams0 = some (.arr (first :: rest)))
    (hroot : lookupMember "priority" ams0 = none)
    (hprio : gjsonGet (some first) "priority" = some pv) :
    dns_record.transformDataFieldForInstance rt (.json (withAttributes ims a)) inst "SRV"
      = .json (withAttributes ims
          (setMember "priority" (.num (resultFloat rt (some pv)))
            (setMember "data"
              (.obj (state.buildDataObject (dns_record.dataOptions rt "SRV") first)) a))) := by
  unfold dns_record.transformDataFieldForInstance
  simp [getPath_two, hget, get_member, hdata, gjsonIsArray, gjsonArray, gjsonExists,
    dns_record.isSimpleRecordType, state.TransformDataFieldArrayToObject,
    dns_record.rootPriority, text_set_attr _ _ _ _ hs, hroot, hprio]

theorem mx_data_form (rt : GoRuntime) (ims ams0 a : List (String × Json)) (inst : Option Json)
    (first pv tv : Json) (rest : List Json)
    (hs : (lookupMember "attributes" ims).isSome)
    (hget : gjsonGet inst "attributes" = some (.obj ams0))
    (hdata : lookupMember "data" ams0 = some (.arr (first :: rest)))
    (hroot : lookupMember "priority" ams0 = none)
    (hprio : gjsonGet (some first) "priority" = some pv)
    (htarget : gjsonGet (some first) "target" = some tv) :
    dns_record.transformDataFieldForInstance rt (.json (withAttributes ims a)) inst "MX"
      = .json (withAttributes ims
          (setMember "content"
            (.str (sprintValue rt (some pv) ++ " " ++ resultString rt (some tv)))
            (setMember "priority" (.num (resultFloat rt (some pv)))
              (setMember "data"
                (.obj (state.buildDataObject (dns_record.dataOptions rt "MX") first)) a)))) := by
  unfold dns_record.transformDataFieldForInstance
  simp [getPath_two, hget, get_member, hdata, gjsonIsArray, gjsonArray, gjsonExists,
    dns_record.isSimpleRecordType, state.TransformDataFieldArrayToObject,
    dns_record.rootPriority, dns_record.mxUriContent, text_set_attr _ _ _ _ hs, hroot, hprio,
    htarget]

theorem uri_data_form (rt : GoRuntime) (ims ams0 a : List (String × Json)) (inst : Option Json)
    (first pv wv tv : Json) (rest : List Json)
    (hs : (lookupMember "attributes" ims).isSome)
    (hget : gjsonGet inst "attributes" = some (.obj ams0))
    (hdata : lookupMember "data" ams0 = some (.arr (first :: rest)))
    (hroot : lookupMember "priority" ams0 = none)
    (hprio : gjsonGet (some first) "priority" = some pv)
    (hweight : gjsonGet (some first) "weight" = some wv)
    (htarget : gjsonGet (some first) "target" = some tv) :
    dns_record.transformDataFieldForInstance rt (.json (withAttributes ims a)) inst "URI"
      = .json (withAttributes ims
          (setMember "content"
            (.str (sprintValue rt (some pv) ++ " " ++ sprintValue rt (some wv) ++ " " ++
              resultString rt (some tv)))
            (setMember "priority" (.num (resultFloat rt (some pv)))
              (setMember "data"
                (.obj (state.buildDataObject (dns_record.dataOptions rt "URI") first)) a)))) := by
  unfold dns_record.transformDataFieldForInstance
  simp [getPath_two, hget, get_member, hdata, gjsonIsArray, gjsonArray, gjsonExists,
    dns_record.isSimpleRecordType, state.TransformDataFieldArrayToObject,
    dns_record.rootPriority, dns_record.mxUriContent, text_set_attr _ _ _ _ hs, hroot, hprio,
    hweight, htarget]

theorem arrayToObject_step (ims a : List (String × Json)) (attrs : Option Json)
    (recordType : String) (options : state.ArrayToObjectOptions) (keys : List String)
    (hs : (lookupMember "attributes" ims).isSome) (hk : "data" ∈ keys) :
    ∃ a2, state.TransformDataFieldArrayToObject (.json (withAttributes ims a)) ["attributes"]
          attrs recordType options
        = .json (withAttributes ims a2) ∧ editedOnly keys a a2 := by
  unfold state.TransformDataFieldArrayToObject
  split
  · exact ⟨_, text_delete_attr ims a "data" hs, editedOnly_erase keys _ _ hk⟩
  · exact ⟨_, text_set_attr ims a "data" _ hs, editedOnly_set keys _ _ _ hk⟩
  · exact ⟨a, rfl, editedOnly_refl keys a⟩

theorem other_data_form (rt : GoRuntime) (ims a : List (String × Json)) (inst : Option Json)
    (recordType : String) (hs : (lookupMember "attributes" ims).isSome)
    (hu : dns_record.usesDataField recordType = false)
    (hmx : ¬ (recordType = "MX" ∧
      gjsonIsArray (gjsonGetPath inst ["attributes", "data"]) = true)) :
    ∃ a2, dns_record.transformDataFieldForInstance rt (.json (withAttributes ims a)) inst
          recordType
        = .json (withAttributes ims a2) ∧ editedOnly ["data"] a a2 := by
  have hcaa : recordType ≠ "CAA" := by
    intro e
    rw [e] at hu
    exact absurd hu (by decide)
  have hsrv : recordType ≠ "SRV" := by
    intro e
    rw [e] at hu
    exact absurd hu (by decide)
  have huri : recordType ≠ "URI" := by
    intro e
    rw [e] at hu
    exact absurd hu (by decide)
  unfold dns_record.transformDataFieldForInstance
  simp only
  split
  · split
    · exact ⟨_, text_delete_attr ims a "data" hs, editedOnly_erase _ _ _ (by simp)⟩
    · exact ⟨a, rfl, editedOnly_refl _ a⟩
  · rename_i hcond
    have hnmx : recordType ≠ "MX" := by
      intro e
      apply hcond
      subst e
      refine ⟨by decide, ?_⟩
      by_cases harr : gjsonIsArray (gjsonGetPath inst ["attributes", "data"]) = true
      · exact absurd ⟨rfl, harr⟩ hmx
      · exact Or.inl harr
    simp only [hcaa, hsrv, huri, hnmx, if_false, false_or]
    exact arrayToObject_step ims a _ recordType _ ["data"] hs (by simp)

/-! ## The output of the DNS record migrator for a complete record -/

theorem dns_complete_form (rt : GoRuntime) (ims ams0 : List (String × Json))
    (resourcePath resourceName : String)
    (h : lookupMember "attributes" ims = some (.obj ams0))
    (hn : (lookupMember "name" ams0).isSome) (ht : (lookupMember "type" ams0).isSome)
    (hz : (lookupMember "zone_id" ams0).isSome) :
    dns_record.TransformState rt (some (.obj ims)) resourcePath resourceName
      = .ok ((dns_record.transformSingleDNSInstance rt (.json (withAttributes ims ams0))
          (some (.obj ims))).set ["schema_version"] (.num "0")) := by
  unfold dns_record.TransformState
  simp [gjsonExists, get_member, h, hn, ht, hz, stringText, withAttributes_self ims ams0 h]

theorem dns_output_form (rt : GoRuntime) (ims ams0 a8 : List (String × Json))
    (resourcePath resourceName : String)
    (h : lookupMember "attributes" ims = some (.obj ams0))
    (hn : (lookupMember "name" ams0).isSome) (ht : (lookupMember "type" ams0).isSome)
    (hz : (lookupMember "zone_id" ams0).isSome)
    (h8 : dns_record.transformSingleDNSInstance rt (.json (withAttributes ims ams0))
      (some (.obj ims)) = .json (withAttributes ims a8)) :
    ∃ out, dns_record.TransformState rt (some (.obj ims)) resourcePath resourceName
        = .ok (.json (.obj out)) ∧
      lookupMember "schema_version" out = some (.num "0") ∧
      lookupMember "attributes" out = some (.obj a8) := by
  refine ⟨setMember "schema_version" (.num "0") (replaceMember "attributes" (.obj a8) ims),
    ?_, lookup_setMember_same _ _ _, ?_⟩
  · rw [dns_complete_form rt ims ams0 _ _ h hn ht hz, h8, text_set_top]
  · exact lookup_attributes_top ims a8 _ _ (isSome_of_lookup _ _ _ h) (by decide)

theorem foldl_digitStep_none (cs : List Char) : cs.foldl digitStep none = none := by
  induction cs with
  | nil => rfl
  | cons c rest ih => simpa [List.foldl_cons, digitStep] using ih

theorem integerToken_repr (n : Nat) : integerToken (Nat.repr n) = true := by
  unfold integerToken
  split
  · rename_i cs hd
    have h := digitsValue_repr n
    rw [hd] at h
    simp [digitsValue, digitStep, foldl_digitStep_none] at h
  · simp [digitsValue_repr]

theorem numberString_repr (rt : GoRuntime) (n : Nat) :
    numberString rt (Nat.repr n) = Nat.repr n := by
  simp [numberString, integerToken_repr]

theorem integerToken_formatInt (z : Int) : integerToken (formatInt z) = true := by
  cases z with
  | ofNat m => exact integerToken_repr m
  | negSucc m =>
    have hd : (formatInt (Int.negSucc m)).data = '-' :: (Nat.repr (m + 1)).data := by
      simp [formatInt, String.data_append]
    unfold integerToken
    rw [hd]
    simp [digitsValue_repr]

theorem numberString_formatInt (rt : GoRuntime) (z : Int) :
    numberString rt (formatInt z) = formatInt z := by
  simp [numberString, integerToken_formatInt]

theorem getPath_out (out a8 : List (String × Json)) (k : String)
    (h : lookupMember "attributes" out = some (.obj a8)) :
    gjsonGetPath (some (.obj out)) ["attributes", k] = lookupMember k a8 :=
  getPath_attr out a8 k h

theorem resultString_str (rt : GoRuntime) (s : String) :
    resultString rt (some (.str s)) = s := rfl

/-! ## The DNS record migrator keeps an object an object -/

theorem isObject_iff (t : Text) : t.isObject = true ↔ ∃ ms, t = .json (.obj ms) := by
  constructor
  · intro h
    match t, h with
    | .json (.obj ms), _ => exact ⟨ms, rfl⟩
  · rintro ⟨ms, rfl⟩
    rfl

theorem set_isObject (t : Text) (path : List String) (v : Json) (h : t.isObject = true) :
    (t.set path v).isObject = true := by
  obtain ⟨ms, rfl⟩ := (isObject_iff t).1 h
  obtain ⟨ms2, h2⟩ := text_set_obj ms path v
  rw [h2]
  rfl

theorem sjsonDelete_obj (ms : List (String × Json)) (path : List String) :
    ∃ ms2, sjsonDelete (.obj ms) path = .obj ms2 := by
  match path with
  | [] => exact ⟨ms, by simp [sjsonDelete]⟩
  | [p] => exact ⟨_, delete_obj_single ms p⟩
  | p :: q :: qs =>
    rw [sjsonDelete, deleteTarget_obj]
    cases lookupMember p ms with
    | none => exact ⟨ms, rfl⟩
    | some c => exact ⟨replaceMember p (sjsonDelete c (q :: qs)) ms, rfl⟩

theorem delete_isObject (t : Text) (path : List String) (h : t.isObject = true) :
    (t.delete path).isObject = true := by
  obtain ⟨ms, rfl⟩ := (isObject_iff t).1 h
  obtain ⟨ms2, h2⟩ := sjsonDelete_obj ms path
  simp [Text.delete, h2, Text.isObject]

theorem foldl_isObject {α : Type} (f : Text → α → Text) (xs : List α)
    (hf : ∀ t x, t.isObject = true → (f t x).isObject = true) (t : Text)
    (h : t.isObject = true) : (xs.foldl f t).isObject = true := by
  induction xs generalizing t with
  | nil => exact h
  | cons x rest ih => exact ih (f t x) (hf t x h)

theorem single_instance_isObject (rt : GoRuntime) (t : Text) (inst : Option Json)
    (h : t.isObject = true) :
    (dns_record.transformSingleDNSInstance rt t inst).isObject = true := by
  have h1 : (state.CleanupEmptyField t ["attributes", "meta"]
      (gjsonGetPath inst ["attributes", "meta"])).isObject = true := by
    unfold state.CleanupEmptyField
    split
    · exact delete_isObject _ _ h
    · split
      · exact delete_isObject _ _ h
      · exact h
  have h2 : ∀ t : Text, t.isObject = true →
      (state.RemoveObjectIfAllNull t ["attributes", "settings"]
        (gjsonGetPath inst ["attributes", "settings"])
        ["flatten_cname", "ipv4_only", "ipv6_only"]).isObject = true := by
    intro t ht
    unfold state.RemoveObjectIfAllNull
    split
    · exact delete_isObject _ _ ht
    · exact ht
  have h3 : ∀ t : Text, t.isObject = true →
      (state.EnsureTimestamps t ["attributes"] (gjsonGet inst "attributes")
        "2024-01-01T00:00:00Z").isObject = true := by
    intro t ht
    unfold state.EnsureTimestamps
    split
    · exact ht
    · exact set_isObject _ _ _ ht
    · exact set_isObject _ _ _ ht
    · exact set_isObject _ _ _ (set_isObject _ _ _ ht)
  have h4 : ∀ (t : Text) (recordType : String), t.isObject = true →
      (dns_record.renameValue rt t (gjsonGet inst "attributes") recordType).isObject = true := by
    intro t recordType ht
    unfold dns_record.renameValue
    simp only
    split
    · split
      · exact delete_isObject _ _ (set_isObject _ _ _ ht)
      · split
        · exact delete_isObject _ _ ht
        · exact ht
    · exact delete_isObject _ _ (delete_isObject _ _ ht)
  have h5 : ∀ t : Text, t.isObject = true →
      (state.EnsureField t ["attributes"] (gjsonGet inst "attributes") "ttl"
        (.num "1")).isObject = true := by
    intro t ht
    unfold state.EnsureField
    split
    · exact ht
    · exact set_isObject _ _ _ ht
  have h6 : ∀ t : Text, t.isObject = true →
      (state.RemoveFields t ["attributes"] (gjsonGet inst "attributes")
        ["hostname", "allow_overwrite", "timeouts", "metadata"]).isObject = true := by
    intro t ht
    unfold state.RemoveFields
    apply foldl_isObject _ _ _ t ht
    intro t2 name h2
    show (if gjsonExists (gjsonGet (gjsonGet inst "attributes") name) = true then _
      else t2).isObject = true
    split
    · exact delete_isObject _ _ h2
    · exact h2
  have h7 : ∀ (t : Text) (recordType : String), t.isObject = true →
      (dns_record.transformDataFieldForInstance rt t inst recordType).isObject = true := by
    intro t recordType ht
    have hA : (state.TransformDataFieldArrayToObject t ["attributes"]
        (gjsonGet inst "attributes") recordType
        (dns_record.dataOptions rt recordType)).isObject = true := by
      unfold state.TransformDataFieldArrayToObject
      split
      · exact delete_isObject _ _ ht
      · exact set_isObject _ _ _ ht
      · exact ht
    have hB : ∀ t : Text, t.isObject = true →
        (dns_record.caaContent rt t inst).isObject = true := by
      intro t ht
      unfold dns_record.caaContent
      simp only
      split
      · split
        · exact ht
        · split
          · exact set_isObject _ _ _ ht
          · exact ht
      · exact ht
    have hC : ∀ t : Text, t.isObject = true →
        (dns_record.rootPriority rt t inst).isObject = true := by
      intro t ht
      unfold dns_record.rootPriority
      simp only
      split
      · exact set_isObject _ _ _ ht
      · split
        · split
          · exact ht
          · split
            · exact set_isObject _ _ _ ht
            · exact ht
        · exact ht
    have hD : ∀ t : Text, t.isObject = true →
        (dns_record.mxUriContent rt t inst recordType).isObject = true := by
      intro t ht
      unfold dns_record.mxUriContent
      simp only
      split
      · split
        · exact ht
        · split
          · split
            · exact set_isObject _ _ _ ht
            · exact ht
          · split
            · split
              · exact set_isObject _ _ _ ht
              · exact ht
            · exact ht
      · exact ht
    unfold dns_record.transformDataFieldForInstance
    simp only
    split
    · split
      · exact delete_isObject _ _ ht
      · exact ht
    · have hE : (if recordType = "CAA" then
          dns_record.caaContent rt (state.TransformDataFieldArrayToObject t ["attributes"]
            (gjsonGet inst "attributes") recordType (dns_record.dataOptions rt recordType)) inst
          else state.TransformDataFieldArrayToObject t ["attributes"]
            (gjsonGet inst "attributes") recordType
            (dns_record.dataOptions rt recordType)).isObject = true := by
        split
        · exact hB _ hA
        · exact hA
      split
      · split
        · exact hD _ (hC _ hE)
        · exact hC _ hE
      · exact hE
  unfold dns_record.transformSingleDNSInstance
  simp only
  have h8 := h7 _ (resultString rt (gjsonGetPath inst ["attributes", "type"]))
    (h6 _ (h5 _ (h4 _ (resultString rt (gjsonGetPath inst ["attributes", "type"]))
      (h3 _ (h2 _ h1)))))
  split
  · exact set_isObject _ _ _ h8
  · exact h8

theorem dns_schema_version_with_attributes (rt : GoRuntime) (ims : List (String × Json))
    (resourcePath resourceName : String) (h : (lookupMember "attributes" ims).isSome) :
    ∃ out, dns_record.TransformState rt (some (.obj ims)) resourcePath resourceName
        = .ok (.json (.obj out)) ∧
      lookupMember "schema_version" out = some (.num "0") := by
  have hfinal : ∀ t : Text, t.isObject = true →
      ∃ out, t.set ["schema_version"] (.num "0") = .json (.obj out) ∧
        lookupMember "schema_version" out = some (.num "0") := by
    intro t ht
    obtain ⟨ms, rfl⟩ := (isObject_iff t).1 ht
    exact schema_of_obj ms
  unfold dns_record.TransformState
  simp only [gjsonExists, get_member, h, stringText, Option.isSome_some, not_true_eq_false,
    false_or, if_false]
  split
  · obtain ⟨out, e, l⟩ := hfinal (.json (.obj ims)) rfl
    exact ⟨out, by rw [e], l⟩
  · obtain ⟨out, e, l⟩ := hfinal _ (single_instance_isObject rt (.json (.obj ims))
      (some (.obj ims)) rfl)
    exact ⟨out, by rw [e], l⟩

/-! ## Schema version and numeric normalisation -/

/-- C11 (failing input): the DNS record migrator returns an instance without an
`attributes` member as it came, so its `schema_version` is still `3` and not
`0`. -/
theorem dns_missing_attributes_keeps_schema_version (rt : GoRuntime)
    (resourcePath resourceName : String) :
    dns_record.TransformState rt (some bareInstance) resourcePath resourceName
        = .ok (.json bareInstance) ∧
      gjsonGet (some bareInstance) "schema_version" = some (.num "3") := by
  constructor
  · simp [dns_record.TransformState, bareInstance, stringText, gjsonExists, gjsonGet,
      Json.child, lookupMember]
  · decide

/-- C12 (counterexample): for an instance value that is an array, here an array
that holds the example policy instance, no member `attributes` is found and
`sjson.Set` cannot set a member of an array: the migrator returns the array as
it came, a text without a `schema_version` member. -/
theorem array_instance_unchanged :
    zero_trust_gateway_policy.TransformState exampleRuntime (some arrayInstance) "" ""
        = .ok (.json arrayInstance) ∧
      gjsonIsArray (some arrayInstance) = true ∧
      gjsonGet (some arrayInstance) "schema_version" = none := by
  have hp : parseUint "attributes" = none := by decide
  have hq : parseUint "schema_version" = none := by decide
  have ha : atoui "schema_version" = none := by decide
  refine ⟨?_, rfl, by decide⟩
  simp [zero_trust_gateway_policy.TransformState, arrayInstance, stringText, gjsonExists,
    gjsonGet, Json.child, hp, hq, ha, Text.set, sjsonSetOr, sjsonSetRaw, appendMissing]

/-- C12 (amended): for every instance value that is not an array (an object
with or without an `attributes` member, a number, a boolean, `null`, a string
without a brace or bracket, or a missing value) and whose rule settings unwrap
to JSON text (no string or `null` in the place of a settings object), the
gateway policy migrator returns without error the text of a JSON object whose
`schema_version` is `0`.  For an object without an `attributes` member it is
the instance with `schema_version` set to `0`; for a value that is not an
object it is the object with this one member. -/
theorem gateway_schema_version (rt : GoRuntime) (stateJSON : Option Json)
    (resourcePath resourceName : String)
    (harr : gjsonIsArray stateJSON = false)
    (hbare : ∀ s, stateJSON = some (.str s) → hasBracket s = false)
    (hclean : cleanRuleSettings (gjsonGetPath stateJSON ["attributes", "rule_settings"])
      = true) :
    ∃ ms2, zero_trust_gateway_policy.TransformState rt stateJSON resourcePath resourceName
        = .ok (.json (.obj ms2)) ∧
      lookupMember "schema_version" ms2 = some (.num "0") ∧
      (∀ ims, stateJSON = some (.obj ims) → lookupMember "attributes" ims = none →
        ms2 = setMember "schema_version" (.num "0") ims) ∧
      (gjsonIsObject stateJSON = false → ms2 = [("schema_version", .num "0")]) := by
  have ha : atoui "schema_version" = none := by decide
  have hset : ∀ j : Json, (∀ ms, j ≠ .obj ms) → (∀ xs, j ≠ .arr xs) →
      sjsonSetOr j ["schema_version"] (.num "0") = .obj [("schema_version", .num "0")] := by
    intro j h1 h2
    cases j with
    | obj ms => exact absurd rfl (h1 ms)
    | arr xs => exact absurd rfl (h2 xs)
    | null => simp [sjsonSetOr, sjsonSetRaw, Json.child, appendMissing, ha]
    | bool b => simp [sjsonSetOr, sjsonSetRaw, Json.child, appendMissing, ha]
    | num n => simp [sjsonSetOr, sjsonSetRaw, Json.child, appendMissing, ha]
    | str s => simp [sjsonSetOr, sjsonSetRaw, Json.child, appendMissing, ha]
  have hnull : (Text.bare "").set ["schema_version"] (.num "0")
      = .json (.obj [("schema_version", .num "0")]) := by
    simp [Text.set, hasBracket, sjsonSetRaw, Json.child, appendMissing, ha]
  match stateJSON, harr, hbare, hclean with
  | none, _, _, _ =>
    refine ⟨[("schema_version", .num "0")], ?_, by decide, fun ims h => absurd h (by simp),
      fun _ => rfl⟩
    simp [zero_trust_gateway_policy.TransformState, stringText, gjsonExists, gjsonGet, hnull]
  | some .null, _, _, _ =>
    refine ⟨[("schema_version", .num "0")], ?_, by decide, fun ims h => absurd h (by simp),
      fun _ => rfl⟩
    simp [zero_trust_gateway_policy.TransformState, stringText, gjsonExists, gjsonGet,
      Json.child, hnull]
  | some (.bool b), _, _, _ =>
    refine ⟨[("schema_version", .num "0")], ?_, by decide, fun ims h => absurd h (by simp),
      fun _ => rfl⟩
    simp [zero_trust_gateway_policy.TransformState, stringText, gjsonExists, gjsonGet,
      Json.child, Text.set, hset]
  | some (.num n), _, _, _ =>
    refine ⟨[("schema_version", .num "0")], ?_, by decide, fun ims h => absurd h (by simp),
      fun _ => rfl⟩
    simp [zero_trust_gateway_policy.TransformState, stringText, gjsonExists, gjsonGet,
      Json.child, Text.set, hset]
  | some (.str s), _, hb, _ =>
    refine ⟨[("schema_version", .num "0")], ?_, by decide, fun ims h => absurd h (by simp),
      fun _ => rfl⟩
    simp [zero_trust_gateway_policy.TransformState, stringText, gjsonExists, gjsonGet,
      Json.child, Text.set, hb s rfl, sjsonSetRaw, appendMissing, ha]
  | some (.arr xs), ha, _, _ => exact absurd ha (by simp [gjsonIsArray])
  | some (.obj ims), _, _, hc =>
    obtain ⟨t, e, hcase, hno, hjson⟩ := gateway_result rt ims resourcePath resourceName
    have hj := hjson hc
    rcases hcase with hbeyond | ⟨ms2, e2, hv⟩
    · rw [hbeyond] at hj
      exact absurd hj (by decide)
    · refine ⟨ms2, by rw [e, e2], hv, ?_, fun h => absurd h (by simp [gjsonIsObject])⟩
      intro ims2 h2 hnone
      injection h2 with h2
      injection h2 with h2
      subst h2
      have := hno hnone
      rw [e2] at this
      injection this with this
      injection this with this

/-- C12 (amended), on the example policy instance, an object with attributes
and rule settings in a list. -/
theorem gateway_schema_version_witness :
    ∃ ms2, zero_trust_gateway_policy.TransformState exampleRuntime (some (.obj policyMembers))
          "" "" = .ok (.json (.obj ms2)) ∧
      lookupMember "schema_version" ms2 = some (.num "0") ∧
      (∀ ims, some (Json.obj policyMembers) = some (.obj ims) →
        lookupMember "attributes" ims = none →
        ms2 = setMember "schema_version" (.num "0") ims) ∧
      (gjsonIsObject (some (Json.obj policyMembers)) = false →
        ms2 = [("schema_version", .num "0")]) :=
  gateway_schema_version exampleRuntime (some (.obj policyMembers)) "" "" rfl
    (fun _ h => nomatch h) (by decide)

/-- C18: `transformFlagsValue` gives the map `{"type": "string", "value": text}`
for a number, with the text `Result.String` returns for it (the token itself
when it is a run of digits with an optional sign), and for a non-empty string,
with the string; it gives `null` for the empty string, for `null`, for a
missing value and for a boolean, array or object.  The result is always `null`
or such a map, never a bare number or string. -/
theorem transformFlagsValue_cases (rt : GoRuntime) :
    (∀ raw, dns_record.transformFlagsValue rt (some (.num raw))
        = .obj [("type", .str "string"), ("value", .str (numberString rt raw))]) ∧
    (∀ raw, integerToken raw = true → numberString rt raw = raw) ∧
    (∀ s, s ≠ "" → dns_record.transformFlagsValue rt (some (.str s))
        = .obj [("type", .str "string"), ("value", .str s)]) ∧
    dns_record.transformFlagsValue rt (some (.str "")) = .null ∧
    dns_record.transformFlagsValue rt (some .null) = .null ∧
    dns_record.transformFlagsValue rt none = .null ∧
    (∀ b, dns_record.transformFlagsValue rt (some (.bool b)) = .null) ∧
    (∀ xs, dns_record.transformFlagsValue rt (some (.arr xs)) = .null) ∧
    (∀ ms, dns_record.transformFlagsValue rt (some (.obj ms)) = .null) ∧
    (∀ v, dns_record.transformFlagsValue rt v = .null ∨
      ∃ s, dns_record.transformFlagsValue rt v
        = .obj [("type", .str "string"), ("value", .str s)]) := by
  refine ⟨fun _ => rfl, ?_, ?_, ?_, rfl, rfl, fun _ => rfl, fun _ => rfl, fun _ => rfl, ?_⟩
  · intro raw h
    simp [numberString, h]
  · intro s hs
    simp [dns_record.transformFlagsValue, hs, dns_record.dynamicString]
  · simp [dns_record.transformFlagsValue]
  · intro v
    match v with
    | none => exact Or.inl rfl
    | some .null => exact Or.inl rfl
    | some (.bool _) => exact Or.inl rfl
    | some (.arr _) => exact Or.inl rfl
    | some (.obj _) => exact Or.inl rfl
    | some (.num raw) => exact Or.inr ⟨_, rfl⟩
    | some (.str s) =>
      by_cases hs : s = ""
      · exact Or.inl (by simp [dns_record.transformFlagsValue, hs])
      · exact Or.inr ⟨s, by simp [dns_record.transformFlagsValue, hs, dns_record.dynamicString]⟩

theorem transformFlagsValue_cases_witness :
    dns_record.transformFlagsValue exampleRuntime (some (.str "128"))
        = .obj [("type", .str "string"), ("value", .str "128")] ∧
      dns_record.transformFlagsValue exampleRuntime (some (.num "0"))
        = .obj [("type", .str "string"), ("value", .str "0")] :=
  ⟨(transformFlagsValue_cases exampleRuntime).2.2.1 "128" (by decide),
    by
      have h := (transformFlagsValue_cases exampleRuntime).1 "0"
      rw [(transformFlagsValue_cases exampleRuntime).2.1 "0" (by decide)] at h
      exact h⟩

/-- C19: `transformNumericValue` maps a JSON number to that number read as a
float, a string that `strconv.ParseFloat` accepts to the parsed float, any
other string to itself, and `null` to `null`. -/
theorem transformNumericValue_cases (rt : GoRuntime) :
    (∀ raw, dns_record.transformNumericValue rt (some (.num raw)) = .num (rt.floatOf raw)) ∧
    (∀ s, (rt.parseFloat s).2 = true →
      dns_record.transformNumericValue rt (some (.str s)) = .num (rt.parseFloat s).1) ∧
    (∀ s, (rt.parseFloat s).2 = false →
      dns_record.transformNumericValue rt (some (.str s)) = .str s) ∧
    dns_record.transformNumericValue rt (some .null) = .null := by
  refine ⟨fun _ => rfl, ?_, ?_, rfl⟩
  · intro s h
    simp [dns_record.transformNumericValue, h]
  · intro s h
    simp [dns_record.transformNumericValue, h]

theorem transformNumericValue_cases_witness :
    dns_record.transformNumericValue exampleRuntime (some (.str "128")) = .num "128" ∧
      dns_record.transformNumericValue exampleRuntime (some (.str "critical"))
        = .str "critical" :=
  ⟨(transformNumericValue_cases exampleRuntime).2.1 "128" (by decide),
    (transformNumericValue_cases exampleRuntime).2.2.1 "critical" (by decide)⟩

/-- C20: `transformNumericValue` is idempotent: for every JSON value, also a
missing one, normalising the result of the normalisation gives that result
again.  The runtime is taken to print a float so that it reads back as the same
float, and to marshal a marshalled array or object to itself. -/
theorem transformNumericValue_idempotent (rt : GoRuntime) (h : rt.Sound) (v : Option Json) :
    dns_record.transformNumericValue rt (some (dns_record.transformNumericValue rt v))
      = dns_record.transformNumericValue rt v := by
  match v with
  | none => rfl
  | some .null => rfl
  | some (.bool _) => rfl
  | some (.num raw) => simp [dns_record.transformNumericValue, h.float_idem]
  | some (.str s) =>
    cases hp : (rt.parseFloat s).2 with
    | false => simp [dns_record.transformNumericValue, hp]
    | true => simp [dns_record.transformNumericValue, hp, h.parse_canonical s hp]
  | some (.arr xs) =>
    obtain ⟨ys, hy⟩ := h.remarshal_arr xs
    have h2 := h.remarshal_idem (.arr xs)
    simp only [dns_record.transformNumericValue, hy] at h2 ⊢
    exact h2
  | some (.obj ms) =>
    obtain ⟨ns, hn⟩ := h.remarshal_obj ms
    have h2 := h.remarshal_idem (.obj ms)
    simp only [dns_record.transformNumericValue, hn] at h2 ⊢
    exact h2

theorem transformNumericValue_idempotent_witness :
    dns_record.transformNumericValue exampleRuntime
        (some (dns_record.transformNumericValue exampleRuntime (some (.str "128"))))
      = dns_record.transformNumericValue exampleRuntime (some (.str "128")) :=
  transformNumericValue_idempotent exampleRuntime exampleRuntime_sound (some (.str "128"))

/-! ## Scenarios of the DNS record migrator -/

/-- C13 (scenario A): for every instance whose attributes have a name, the type
`CAA` and a zone, a `data` array whose first element is
`{flags: n, tag: t, content: c}` with an integer `n`, and no `ttl`,
`created_on` or `modified_on`, the DNS record migrator returns a JSON object in
which `attributes.data` is the object with `flags` wrapped as a string-typed
value holding the decimal text of `n`, `tag` as it was and the old content under
`value` (and nothing else, so no `content`), `attributes.ttl` is `1`, both
timestamps are the default timestamp, and `schema_version` is `0`. -/
theorem caa_scenario (rt : GoRuntime) (ims ams : List (String × Json)) (n : Int) (t c : Json)
    (rest : List Json) (resourcePath resourceName : String)
    (hattrs : lookupMember "attributes" ims = some (.obj ams))
    (hname : (lookupMember "name" ams).isSome)
    (htype : lookupMember "type" ams = some (.str "CAA"))
    (hzone : (lookupMember "zone_id" ams).isSome)
    (hdata : lookupMember "data" ams = some (.arr
      (.obj [("flags", .num (formatInt n)), ("tag", t), ("content", c)] :: rest)))
    (httl : lookupMember "ttl" ams = none)
    (hcreated : lookupMember "created_on" ams = none)
    (hmodified : lookupMember "modified_on" ams = none) :
    ∃ out, dns_record.TransformState rt (some (.obj ims)) resourcePath resourceName
        = .ok (.json out) ∧
      gjsonGetPath (some out) ["attributes", "data"]
        = some (.obj [("flags", .obj [("type", .str "string"), ("value", .str (formatInt n))]),
            ("tag", t), ("value", c)]) ∧
      gjsonGetPath (some out) ["attributes", "ttl"] = some (.num "1") ∧
      gjsonGetPath (some out) ["attributes", "created_on"]
        = some (.str "2024-01-01T00:00:00Z") ∧
      gjsonGetPath (some out) ["attributes", "modified_on"]
        = some (.str "2024-01-01T00:00:00Z") ∧
      gjsonGet (some out) "schema_version" = some (.num "0") := by
  have hs := isSome_of_lookup _ _ _ hattrs
  have hget := get_attributes ims ams hattrs
  obtain ⟨a6, hfin, _, hcr, hmo, ht6, _⟩ := single_instance_form rt ims ams _ hs hget
  have hrt : resultString rt (lookupMember "type" ams) = "CAA" := by rw [htype]; rfl
  rw [hrt] at hfin
  obtain ⟨a8, e8, f8, _⟩ := hfin _
    (caa_data_form rt ims ams a6 _ _ t c rest hs hget hdata (by simp [get_member, lookupMember])
      (by simp [get_member, lookupMember]))
  obtain ⟨out, eo, hsv, hat⟩ := dns_output_form rt ims ams a8 resourcePath resourceName hattrs
    hname (by simp [htype]) hzone e8
  refine ⟨.obj out, eo, ?_, ?_, ?_, ?_, ?_⟩
  · rw [getPath_out out a8 _ hat, f8.1 _ (by decide), lookup_setMember_ne _ _ _ _ (by decide),
      lookup_setMember_same]
    simp [state.buildDataObject, state.transformSubfield, dns_record.dataOptions, membersOf,
      lookupTransform, state.renameSubfield, state.defaultSubfield, lookupMember, eraseMember,
      setMember, dns_record.transformFlagsValue, dns_record.dynamicString,
      numberString_formatInt, dns_record.numericFields]
  · rw [getPath_out out a8 _ hat, f8.1 _ (by decide), lookup_setMember_ne _ _ _ _ (by decide),
      lookup_setMember_ne _ _ _ _ (by decide), ht6, httl]
    rfl
  · rw [getPath_out out a8 _ hat, f8.1 _ (by decide), lookup_setMember_ne _ _ _ _ (by decide),
      lookup_setMember_ne _ _ _ _ (by decide), hcr, hcreated]
    rfl
  · rw [getPath_out out a8 _ hat, f8.1 _ (by decide), lookup_setMember_ne _ _ _ _ (by decide),
      lookup_setMember_ne _ _ _ _ (by decide), hmo, hmodified, hcreated]
    rfl
  · rw [get_member]
    exact hsv

theorem caa_scenario_witness :
    ∃ out, dns_record.TransformState exampleRuntime (some (.obj (dnsMembers caaAttributes))) "" ""
        = .ok (.json out) ∧
      gjsonGetPath (some out) ["attributes", "data"]
        = some (.obj [("flags", .obj [("type", .str "string"), ("value", .str (formatInt 0))]),
            ("tag", .str "issue"), ("value", .str "letsencrypt.org")]) ∧
      gjsonGetPath (some out) ["attributes", "ttl"] = some (.num "1") ∧
      gjsonGetPath (some out) ["attributes", "created_on"]
        = some (.str "2024-01-01T00:00:00Z") ∧
      gjsonGetPath (some out) ["attributes", "modified_on"]
        = some (.str "2024-01-01T00:00:00Z") ∧
      gjsonGet (some out) "schema_version" = some (.num "0") :=
  caa_scenario exampleRuntime (dnsMembers caaAttributes) caaAttributes 0 (.str "issue")
    (.str "letsencrypt.org") [] "" "" (by decide) (by decide) (by decide) (by decide)
    (by decide) (by decide) (by decide) (by decide)

/-- C14 (scenario C): for every instance whose attributes have a name, the type
`SRV` and a zone, a `data` array whose first element is
`{priority: p, weight: w, port: q, target: t}` with JSON numbers `p`, `w`, `q`,
and no `priority` of their own, the DNS record migrator returns a JSON object
in which `attributes.priority` is `p` read as a float and `attributes.data` is
the object with `priority`, `weight` and `port` read as floats and `target` as
it was: the priority is in both places. -/
theorem srv_scenario (rt : GoRuntime) (ims ams : List (String × Json)) (p w q : String)
    (t : Json) (rest : List Json) (resourcePath resourceName : String)
    (hattrs : lookupMember "attributes" ims = some (.obj ams))
    (hname : (lookupMember "name" ams).isSome)
    (htype : lookupMember "type" ams = some (.str "SRV"))
    (hzone : (lookupMember "zone_id" ams).isSome)
    (hdata : lookupMember "data" ams = some (.arr
      (.obj [("priority", .num p), ("weight", .num w), ("port", .num q), ("target", t)]
        :: rest)))
    (hroot : lookupMember "priority" ams = none) :
    ∃ out, dns_record.TransformState rt (some (.obj ims)) resourcePath resourceName
        = .ok (.json out) ∧
      gjsonGetPath (some out) ["attributes", "priority"] = some (.num (rt.floatOf p)) ∧
      gjsonGetPath (some out) ["attributes", "data"]
        = some (.obj [("priority", .num (rt.floatOf p)), ("weight", .num (rt.floatOf w)),
            ("port", .num (rt.floatOf q)), ("target", t)]) := by
  have hs := isSome_of_lookup _ _ _ hattrs
  have hget := get_attributes ims ams hattrs
  obtain ⟨a6, hfin, _⟩ := single_instance_form rt ims ams _ hs hget
  have hrt : resultString rt (lookupMember "type" ams) = "SRV" := by rw [htype]; rfl
  rw [hrt] at hfin
  obtain ⟨a8, e8, _, f8⟩ := hfin _
    (srv_data_form rt ims ams a6 _ _ (.num p) rest hs hget hdata hroot
      (by simp [get_member, lookupMember]))
  obtain ⟨out, eo, _, hat⟩ := dns_output_form rt ims ams a8 resourcePath resourceName hattrs
    hname (by simp [htype]) hzone e8
  rw [f8 hroot] at hat
  refine ⟨.obj out, eo, ?_, ?_⟩
  · rw [getPath_out out _ _ hat, lookup_setMember_same]
    rfl
  · rw [getPath_out out _ _ hat, lookup_setMember_ne _ _ _ _ (by decide), lookup_setMember_same]
    simp [state.buildDataObject, state.transformSubfield, dns_record.dataOptions, membersOf,
      lookupTransform, dns_record.transformNumericValue, dns_record.numericFields]

theorem srv_scenario_witness :
    ∃ out, dns_record.TransformState exampleRuntime (some (.obj (dnsMembers srvAttributes))) "" ""
        = .ok (.json out) ∧
      gjsonGetPath (some out) ["attributes", "priority"]
        = some (.num (exampleRuntime.floatOf "10")) ∧
      gjsonGetPath (some out) ["attributes", "data"]
        = some (.obj [("priority", .num (exampleRuntime.floatOf "10")),
            ("weight", .num (exampleRuntime.floatOf "60")),
            ("port", .num (exampleRuntime.floatOf "5060")),
            ("target", .str "sip.example.com")]) :=
  srv_scenario exampleRuntime (dnsMembers srvAttributes) srvAttributes "10" "60" "5060"
    (.str "sip.example.com") [] "" "" (by decide) (by decide) (by decide) (by decide)
    (by decide) (by decide)

theorem mx_form (rt : GoRuntime) (hrt : rt.Sound) (ims ams : List (String × Json)) (p : Nat)
    (t : String) (rest : List Json) (resourcePath resourceName : String)
    (hp : p ≤ 65535)
    (hattrs : lookupMember "attributes" ims = some (.obj ams))
    (hname : (lookupMember "name" ams).isSome)
    (htype : lookupMember "type" ams = some (.str "MX"))
    (hzone : (lookupMember "zone_id" ams).isSome)
    (hdata : lookupMember "data" ams = some (.arr
      (.obj [("priority", .num (Nat.repr p)), ("target", .str t)] :: rest)))
    (hroot : lookupMember "priority" ams = none) :
    ∃ out, dns_record.TransformState rt (some (.obj ims)) resourcePath resourceName
        = .ok (.json out) ∧
      gjsonGetPath (some out) ["attributes", "priority"] = some (.num (Nat.repr p)) ∧
      gjsonGetPath (some out) ["attributes", "data"] = some (.obj [("target", .str t)]) ∧
      gjsonGetPath (some out) ["attributes", "content"]
        = some (.str (Nat.repr p ++ " " ++ t)) := by
  have hs := isSome_of_lookup _ _ _ hattrs
  have hget := get_attributes ims ams hattrs
  have hexact := hrt.int_exact p (by omega)
  obtain ⟨a6, hfin, _⟩ := single_instance_form rt ims ams _ hs hget
  have hty : resultString rt (lookupMember "type" ams) = "MX" := by rw [htype]; rfl
  rw [hty] at hfin
  obtain ⟨a8, e8, _, f8⟩ := hfin _
    (mx_data_form rt ims ams a6 _ _ (.num (Nat.repr p)) (.str t) rest hs hget hdata hroot
      (by simp [get_member, lookupMember]) (by simp [get_member, lookupMember]))
  obtain ⟨out, eo, _, hat⟩ := dns_output_form rt ims ams a8 resourcePath resourceName hattrs
    hname (by simp [htype]) hzone e8
  rw [f8 hroot] at hat
  refine ⟨.obj out, eo, ?_, ?_, ?_⟩
  · rw [getPath_out out _ _ hat, lookup_setMember_ne _ _ _ _ (by decide), lookup_setMember_same]
    simp [resultFloat, hexact.1]
  · rw [getPath_out out _ _ hat, lookup_setMember_ne _ _ _ _ (by decide),
      lookup_setMember_ne _ _ _ _ (by decide), lookup_setMember_same]
    simp [state.buildDataObject, state.transformSubfield, dns_record.dataOptions, membersOf,
      lookupTransform, dns_record.numericFields]
  · rw [getPath_out out _ _ hat, lookup_setMember_same]
    simp [sprintValue, resultString, gjsonString, hexact.1, hexact.2]

theorem uri_form (rt : GoRuntime) (hrt : rt.Sound) (ims ams : List (String × Json)) (p w : Nat)
    (t : String) (rest : List Json) (resourcePath resourceName : String)
    (hp : p ≤ 65535) (hw : w ≤ 65535)
    (hattrs : lookupMember "attributes" ims = some (.obj ams))
    (hname : (lookupMember "name" ams).isSome)
    (htype : lookupMember "type" ams = some (.str "URI"))
    (hzone : (lookupMember "zone_id" ams).isSome)
    (hdata : lookupMember "data" ams = some (.arr
      (.obj [("priority", .num (Nat.repr p)), ("weight", .num (Nat.repr w)),
        ("target", .str t)] :: rest)))
    (hroot : lookupMember "priority" ams = none) :
    ∃ out, dns_record.TransformState rt (some (.obj ims)) resourcePath resourceName
        = .ok (.json out) ∧
      gjsonGetPath (some out) ["attributes", "priority"] = some (.num (Nat.repr p)) ∧
      gjsonGetPath (some out) ["attributes", "data"]
        = some (.obj [("weight", .num (Nat.repr w)), ("target", .str t)]) ∧
      gjsonGetPath (some out) ["attributes", "content"]
        = some (.str (Nat.repr p ++ " " ++ Nat.repr w ++ " " ++ t)) := by
  have hs := isSome_of_lookup _ _ _ hattrs
  have hget := get_attributes ims ams hattrs
  have hexact := hrt.int_exact p (by omega)
  have hexactw := hrt.int_exact w (by omega)
  obtain ⟨a6, hfin, _⟩ := single_instance_form rt ims ams _ hs hget
  have hty : resultString rt (lookupMember "type" ams) = "URI" := by rw [htype]; rfl
  rw [hty] at hfin
  obtain ⟨a8, e8, _, f8⟩ := hfin _
    (uri_data_form rt ims ams a6 _ _ (.num (Nat.repr p)) (.num (Nat.repr w)) (.str t) rest hs
      hget hdata hroot (by simp [get_member, lookupMember]) (by simp [get_member, lookupMember])
      (by simp [get_member, lookupMember]))
  obtain ⟨out, eo, _, hat⟩ := dns_output_form rt ims ams a8 resourcePath resourceName hattrs
    hname (by simp [htype]) hzone e8
  rw [f8 hroot] at hat
  refine ⟨.obj out, eo, ?_, ?_, ?_⟩
  · rw [getPath_out out _ _ hat, lookup_setMember_ne _ _ _ _ (by decide), lookup_setMember_same]
    simp [resultFloat, hexact.1]
  · rw [getPath_out out _ _ hat, lookup_setMember_ne _ _ _ _ (by decide),
      lookup_setMember_ne _ _ _ _ (by decide), lookup_setMember_same]
    simp [state.buildDataObject, state.transformSubfield, dns_record.dataOptions, membersOf,
      lookupTransform, dns_record.numericFields, dns_record.transformNumericValue, hexactw.1]
  · rw [getPath_out out _ _ hat, lookup_setMember_same]
    simp [sprintValue, resultString, gjsonString, hexact.1, hexact.2, hexactw.1, hexactw.2]

/-- C15: with a runtime that reads and prints the integers below `2 ^ 53`
exactly, for every complete MX instance whose `data` array starts with
`{priority: p, target: t}` and every complete URI instance whose `data` array
starts with `{priority: p, weight: w, target: t}` (`p`, `w` integers from `0` to
`65535`, `t` a string, no priority at root level), the DNS record migrator
returns a JSON object in which `attributes.priority` is `p`, `attributes.data`
is the object of the other subfields, without `priority`, and
`attributes.content` is the text `p t` for MX and `p w t` for URI. -/
theorem mx_uri_priority_hoisted (rt : GoRuntime) (hrt : rt.Sound) :
    (∀ (ims ams : List (String × Json)) (p : Nat) (t : String) (rest : List Json)
        (resourcePath resourceName : String),
      p ≤ 65535 →
      lookupMember "attributes" ims = some (.obj ams) →
      (lookupMember "name" ams).isSome →
      lookupMember "type" ams = some (.str "MX") →
      (lookupMember "zone_id" ams).isSome →
      lookupMember "data" ams = some (.arr
        (.obj [("priority", .num (Nat.repr p)), ("target", .str t)] :: rest)) →
      lookupMember "priority" ams = none →
      ∃ out, dns_record.TransformState rt (some (.obj ims)) resourcePath resourceName
          = .ok (.json out) ∧
        gjsonGetPath (some out) ["attributes", "priority"] = some (.num (Nat.repr p)) ∧
        gjsonGetPath (some out) ["attributes", "data"] = some (.obj [("target", .str t)]) ∧
        gjsonGetPath (some out) ["attributes", "content"]
          = some (.str (Nat.repr p ++ " " ++ t))) ∧
    (∀ (ims ams : List (String × Json)) (p w : Nat) (t : String) (rest : List Json)
        (resourcePath resourceName : String),
      p ≤ 65535 → w ≤ 65535 →
      lookupMember "attributes" ims = some (.obj ams) →
      (lookupMember "name" ams).isSome →
      lookupMember "type" ams = some (.str "URI") →
      (lookupMember "zone_id" ams).isSome →
      lookupMember "data" ams = some (.arr
        (.obj [("priority", .num (Nat.repr p)), ("weight", .num (Nat.repr w)),
          ("target", .str t)] :: rest)) →
      lookupMember "priority" ams = none →
      ∃ out, dns_record.TransformState rt (some (.obj ims)) resourcePath resourceName
          = .ok (.json out) ∧
        gjsonGetPath (some out) ["attributes", "priority"] = some (.num (Nat.repr p)) ∧
        gjsonGetPath (some out) ["attributes", "data"]
          = some (.obj [("weight", .num (Nat.repr w)), ("target", .str t)]) ∧
        gjsonGetPath (some out) ["attributes", "content"]
          = some (.str (Nat.repr p ++ " " ++ Nat.repr w ++ " " ++ t))) :=
  ⟨fun ims ams p t rest rp rn hp ha hn ht hz hd hr =>
      mx_form rt hrt ims ams p t rest rp rn hp ha hn ht hz hd hr,
    fun ims ams p w t rest rp rn hp hw ha hn ht hz hd hr =>
      uri_form rt hrt ims ams p w t rest rp rn hp hw ha hn ht hz hd hr⟩

theorem mx_uri_priority_hoisted_witness :
    (∃ out, dns_record.TransformState exampleRuntime (some (.obj (dnsMembers mxAttributes))) "" ""
        = .ok (.json out) ∧
      gjsonGetPath (some out) ["attributes", "priority"] = some (.num (Nat.repr 10)) ∧
      gjsonGetPath (some out) ["attributes", "data"]
        = some (.obj [("target", .str "mail.example.com")]) ∧
      gjsonGetPath (some out) ["attributes", "content"]
        = some (.str (Nat.repr 10 ++ " " ++ "mail.example.com"))) ∧
    (∃ out, dns_record.TransformState exampleRuntime (some (.obj (dnsMembers uriAttributes))) ""
          ""
        = .ok (.json out) ∧
      gjsonGetPath (some out) ["attributes", "priority"] = some (.num (Nat.repr 10)) ∧
      gjsonGetPath (some out) ["attributes", "data"]
        = some (.obj [("weight", .num (Nat.repr 1)), ("target", .str "http://example.com")]) ∧
      gjsonGetPath (some out) ["attributes", "content"]
        = some (.str (Nat.repr 10 ++ " " ++ Nat.repr 1 ++ " " ++ "http://example.com"))) :=
  ⟨(mx_uri_priority_hoisted exampleRuntime exampleRuntime_sound).1 (dnsMembers mxAttributes)
      mxAttributes 10 "mail.example.com" [] "" "" (by decide) (by decide) (by decide)
      (by decide) (by decide) (by decide) (by decide),
    (mx_uri_priority_hoisted exampleRuntime exampleRuntime_sound).2 (dnsMembers uriAttributes)
      uriAttributes 10 1 "http://example.com" [] "" "" (by decide) (by decide) (by decide)
      (by decide) (by decide) (by decide) (by decide) (by decide)⟩

/-- C16: for every instance whose attributes have a name, a type and a zone,
with pairwise different keys, whose record type is none of the thirteen types
that use the data field and which is not an MX record with a data array, the
DNS record migrator returns a JSON object without `attributes.value`; its
`attributes.content` is the content of the input when that exists and is not
`null`, and otherwise the value of the input as `sjson.Set` writes it (a string
as it is) when a value exists. -/
theorem value_renamed_to_content (rt : GoRuntime) (ims ams : List (String × Json))
    (resourcePath resourceName : String)
    (hattrs : lookupMember "attributes" ims = some (.obj ams))
    (hname : (lookupMember "name" ams).isSome)
    (htype : (lookupMember "type" ams).isSome)
    (hzone : (lookupMember "zone_id" ams).isSome)
    (hkeys : uniqueKeys ams)
    (huses : dns_record.usesDataField (resultString rt (lookupMember "type" ams)) = false)
    (hmx : ¬ (resultString rt (lookupMember "type" ams) = "MX" ∧
      gjsonIsArray (lookupMember "data" ams) = true)) :
    ∃ out, dns_record.TransformState rt (some (.obj ims)) resourcePath resourceName
        = .ok (.json out) ∧
      gjsonGetPath (some out) ["attributes", "value"] = none ∧
      (∀ c, lookupMember "content" ams = some c → c ≠ .null →
        gjsonGetPath (some out) ["attributes", "content"] = some c) ∧
      (∀ v, lookupMember "value" ams = some v →
        (lookupMember "content" ams = none ∨ lookupMember "content" ams = some .null) →
        gjsonGetPath (some out) ["attributes", "content"] = some (jsonOfValue rt (some v))) ∧
      (∀ s, jsonOfValue rt (some (.str s)) = .str s) := by
  have hs := isSome_of_lookup _ _ _ hattrs
  have hget := get_attributes ims ams hattrs
  obtain ⟨a6, hfin, _, _, _, _, hren⟩ := single_instance_form rt ims ams _ hs hget
  obtain ⟨r1, r2, r3⟩ := hren huses
  obtain ⟨a7, e7, f7⟩ := other_data_form rt ims a6 (some (.obj ims))
    (resultString rt (lookupMember "type" ams)) hs huses
    (by rw [getPath_attr ims ams "data" hattrs]; exact hmx)
  obtain ⟨a8, e8, f8, _⟩ := hfin a7 e7
  obtain ⟨out, eo, _, hat⟩ := dns_output_form rt ims ams a8 resourcePath resourceName hattrs
    hname htype hzone e8
  refine ⟨.obj out, eo, ?_, ?_, ?_, fun _ => rfl⟩
  · rw [getPath_out out _ _ hat, f8.1 _ (by decide), f7.1 _ (by decide)]
    exact r3 hkeys
  · intro c h1 h2
    rw [getPath_out out _ _ hat, f8.1 _ (by decide), f7.1 _ (by decide)]
    exact r1 c h1 h2
  · intro v h1 h2
    rw [getPath_out out _ _ hat, f8.1 _ (by decide), f7.1 _ (by decide)]
    exact r2 v h1 h2

theorem value_renamed_to_content_witness :
    ∃ out, dns_record.TransformState exampleRuntime (some (.obj (dnsMembers addressAttributes)))
          "" ""
        = .ok (.json out) ∧
      gjsonGetPath (some out) ["attributes", "value"] = none ∧
      (∀ c, lookupMember "content" addressAttributes = some c → c ≠ .null →
        gjsonGetPath (some out) ["attributes", "content"] = some c) ∧
      (∀ v, lookupMember "value" addressAttributes = some v →
        (lookupMember "content" addressAttributes = none ∨
          lookupMember "content" addressAttributes = some .null) →
        gjsonGetPath (some out) ["attributes", "content"]
          = some (jsonOfValue exampleRuntime (some v))) ∧
      (∀ s, jsonOfValue exampleRuntime (some (.str s)) = .str s) :=
  value_renamed_to_content exampleRuntime (dnsMembers addressAttributes) addressAttributes "" ""
    (by decide) (by decide) (by decide) (by decide) (by decide) (by decide) (by decide)

/-- C17: for every instance whose attributes have a name, the type `CAA` and a
zone and whose `data` array starts with an element that has a `tag` and a
`content`, the DNS record migrator returns a JSON object whose
`attributes.content` is the text of the flags, the tag and the content, joined
by single spaces, whatever content the instance carried before.  The text of
the flags is the number token as written for a JSON number, the string for a
non-empty string, and `0` for flags that are absent, `null` or the empty
string; the text of a tag or content that is a string is that string. -/
theorem caa_content_generated (rt : GoRuntime) (ims ams : List (String × Json))
    (first tg cv : Json) (rest : List Json) (resourcePath resourceName : String)
    (hattrs : lookupMember "attributes" ims = some (.obj ams))
    (hname : (lookupMember "name" ams).isSome)
    (htype : lookupMember "type" ams = some (.str "CAA"))
    (hzone : (lookupMember "zone_id" ams).isSome)
    (hdata : lookupMember "data" ams = some (.arr (first :: rest)))
    (htag : gjsonGet (some first) "tag" = some tg)
    (hcon : gjsonGet (some first) "content" = some cv) :
    (∃ out, dns_record.TransformState rt (some (.obj ims)) resourcePath resourceName
        = .ok (.json out) ∧
      gjsonGetPath (some out) ["attributes", "content"]
        = some (.str (dns_record.flagsStr (gjsonGet (some first) "flags") ++ " " ++
            resultString rt (some tg) ++ " " ++ resultString rt (some cv)))) ∧
    (∀ raw, dns_record.flagsStr (some (.num raw)) = raw) ∧
    (∀ s, s ≠ "" → dns_record.flagsStr (some (.str s)) = s) ∧
    dns_record.flagsStr none = "0" ∧
    dns_record.flagsStr (some .null) = "0" ∧
    dns_record.flagsStr (some (.str "")) = "0" ∧
    (∀ s, resultString rt (some (.str s)) = s) := by
  refine ⟨?_, fun _ => rfl, ?_, rfl, rfl, ?_, fun _ => rfl⟩
  · have hs := isSome_of_lookup _ _ _ hattrs
    have hget := get_attributes ims ams hattrs
    obtain ⟨a6, hfin, _⟩ := single_instance_form rt ims ams _ hs hget
    have hrt : resultString rt (lookupMember "type" ams) = "CAA" := by rw [htype]; rfl
    rw [hrt] at hfin
    obtain ⟨a8, e8, f8, _⟩ := hfin _
      (caa_data_form rt ims ams a6 _ first tg cv rest hs hget hdata htag hcon)
    obtain ⟨out, eo, _, hat⟩ := dns_output_form rt ims ams a8 resourcePath resourceName hattrs
      hname (by simp [htype]) hzone e8
    refine ⟨.obj out, eo, ?_⟩
    rw [getPath_out out a8 _ hat, f8.1 _ (by decide), lookup_setMember_same]
  · intro s hs
    simp [dns_record.flagsStr, hs]
  · simp [dns_record.flagsStr]

theorem caa_content_generated_witness :
    (∃ out, dns_record.TransformState exampleRuntime (some (.obj (dnsMembers caaAttributes))) ""
          ""
        = .ok (.json out) ∧
      gjsonGetPath (some out) ["attributes", "content"]
        = some (.str (dns_record.flagsStr (gjsonGet (some (.obj [("flags", .num "0"),
              ("tag", .str "issue"), ("content", .str "letsencrypt.org")])) "flags") ++ " " ++
            resultString exampleRuntime (some (.str "issue")) ++ " " ++
            resultString exampleRuntime (some (.str "letsencrypt.org"))))) ∧
    (∀ raw, dns_record.flagsStr (some (.num raw)) = raw) ∧
    (∀ s, s ≠ "" → dns_record.flagsStr (some (.str s)) = s) ∧
    dns_record.flagsStr none = "0" ∧
    dns_record.flagsStr (some .null) = "0" ∧
    dns_record.flagsStr (some (.str "")) = "0" ∧
    (∀ s, resultString exampleRuntime (some (.str s)) = s) :=
  caa_content_generated exampleRuntime (dnsMembers caaAttributes) caaAttributes
    (.obj [("flags", .num "0"), ("tag", .str "issue"), ("content", .str "letsencrypt.org")])
    (.str "issue") (.str "letsencrypt.org") [] "" "" (by decide) (by decide) (by decide)
    (by decide) (by decide) (by decide) (by decide)

/-! ## Simple record types and incomplete instances -/

theorem simple_data_form (rt : GoRuntime) (ims ams0 a : List (String × Json))
    (inst : Option Json) (recordType : String)
    (hs : (lookupMember "attributes" ims).isSome)
    (hget : gjsonGet inst "attributes" = some (.obj ams0))
    (hsimple : dns_record.isSimpleRecordType recordType = true)
    (hmx : ¬ (recordType = "MX" ∧ gjsonIsArray (lookupMember "data" ams0) = true)) :
    dns_record.transformDataFieldForInstance rt (.json (withAttributes ims a)) inst recordType
      = if (lookupMember "data" ams0).isSome then .json (withAttributes ims (eraseMember "data" a))
        else .json (withAttributes ims a) := by
  have hcond : dns_record.isSimpleRecordType recordType = true ∧
      (¬ gjsonIsArray (lookupMember "data" ams0) = true ∨ recordType ≠ "MX") := by
    refine ⟨hsimple, ?_⟩
    by_cases harr : gjsonIsArray (lookupMember "data" ams0) = true
    · exact Or.inr (fun e => hmx ⟨e, harr⟩)
    · exact Or.inl harr
  unfold dns_record.transformDataFieldForInstance
  simp only [getPath_two, hget, get_member, gjsonExists, hcond, and_self, if_true,
    text_delete_attr ims a "data" hs]

theorem incomplete_form (rt : GoRuntime) (ims : List (String × Json)) (attrs : Json)
    (resourcePath resourceName : String)
    (hattrs : lookupMember "attributes" ims = some attrs)
    (hmissing : gjsonGet (some attrs) "name" = none ∨ gjsonGet (some attrs) "type" = none ∨
      gjsonGet (some attrs) "zone_id" = none) :
    dns_record.TransformState rt (some (.obj ims)) resourcePath resourceName
      = .ok (.json (.obj (setMember "schema_version" (.num "0") ims))) := by
  unfold dns_record.TransformState
  have hcond : ¬ gjsonExists (gjsonGet (some attrs) "name") = true ∨
      ¬ gjsonExists (gjsonGet (some attrs) "type") = true ∨
      ¬ gjsonExists (gjsonGet (some attrs) "zone_id") = true := by
    rcases hmissing with h | h | h
    · exact Or.inl (by simp [h, gjsonExists])
    · exact Or.inr (Or.inl (by simp [h, gjsonExists]))
    · exact Or.inr (Or.inr (by simp [h, gjsonExists]))
  simp only [get_member, hattrs, stringText, text_set_schema]
  rw [if_neg (by simp [gjsonExists]), if_pos hcond]

/-! ## `transformRuleSettingsObject` on the members of the settings -/

theorem text_set_single (ms : List (String × Json)) (k : String) (v : Json) :
    (Text.json (.obj ms)).set [k] v = .json (.obj (setMember k v ms)) := by
  simp [Text.set, setOr_obj_single]

theorem text_delete_single (ms : List (String × Json)) (k : String) :
    (Text.json (.obj ms)).delete [k] = .json (.obj (eraseMember k ms)) := by
  simp [Text.delete, delete_obj_single]

theorem text_splice_single (ms : List (String × Json)) (k : String) (v : Json) :
    (Text.json (.obj ms)).splice [k] (.json v) = .json (.obj (setMember k v ms)) :=
  text_set_single ms k v

theorem isJson_iff (t : Text) : t.isJson = true ↔ ∃ v, t = .json v := by
  constructor
  · intro h
    match t, h with
    | .json v, _ => exact ⟨v, rfl⟩
  · rintro ⟨v, rfl⟩
    rfl

theorem nestedForm_isJson (rt : GoRuntime) (structName : String) (first : Json)
    (h : rawJson first = true) : (nestedForm rt structName (some first)).isJson = true := by
  have hf := stringText_isJson rt first h
  unfold nestedForm
  split
  · split
    · exact delete_isJson _ _ (set_isJson _ _ _ hf)
    · exact hf
  · split
    · split
      · exact set_isJson _ _ _ hf
      · exact hf
    · split
      · exact resolverPorts_isJson _ _ _ _ (resolverPorts_isJson _ _ _ _ hf)
      · split
        · apply foldl_isJson _ _ _ _ hf
          intro t2 name h2
          exact delete_isJson _ _ h2
        · exact hf

theorem transformNested_empty (rt : GoRuntime) (ms : List (String × Json)) (result : Text)
    (structName : String) (h : lookupMember structName ms = some (.arr [])) :
    zero_trust_gateway_policy.transformNested rt (some (.obj ms)) result structName
      = result.delete [structName] := by
  unfold zero_trust_gateway_policy.transformNested
  simp [get_member, h, gjsonExists, gjsonIsArray, gjsonArray]

theorem transformNested_first (rt : GoRuntime) (ms : List (String × Json)) (result : Text)
    (structName : String) (first : Json) (rest : List Json)
    (h : lookupMember structName ms = some (.arr (first :: rest))) :
    zero_trust_gateway_policy.transformNested rt (some (.obj ms)) result structName
      = result.splice [structName] (nestedForm rt structName (some first)) := by
  unfold zero_trust_gateway_policy.transformNested nestedForm
    zero_trust_gateway_policy.transformDnsResolvers
  simp only [get_member, h, gjsonExists, gjsonIsArray, gjsonArray, Option.isSome_some,
    not_true_eq_false, or_self, if_false]
  split
  · rfl
  · split
    · rfl
    · split
      · rename_i hd
        rw [hd]
      · split <;> rfl

theorem transformNested_other (rt : GoRuntime) (ms : List (String × Json)) (result : Text)
    (structName : String) (h : gjsonIsArray (lookupMember structName ms) = false) :
    zero_trust_gateway_policy.transformNested rt (some (.obj ms)) result structName
      = result := by
  unfold zero_trust_gateway_policy.transformNested
  simp [get_member, h]

theorem transformNested_members (rt : GoRuntime) (ms cur : List (String × Json))
    (name : String) (hclean : cleanNested (some (.obj ms)) name = true) :
    ∃ cur1, zero_trust_gateway_policy.transformNested rt (some (.obj ms)) (.json (.obj cur)) name
        = .json (.obj cur1) ∧ editedOnly [name] cur cur1 ∧
      (lookupMember name ms = some (.arr []) → uniqueKeys cur → lookupMember name cur1 = none) ∧
      (∀ first rest v, lookupMember name ms = some (.arr (first :: rest)) →
        nestedForm rt name (some first) = .json v → lookupMember name cur1 = some v) ∧
      (gjsonIsArray (lookupMember name ms) = false →
        lookupMember name cur1 = lookupMember name cur) := by
  cases hl : lookupMember name ms with
  | none =>
    refine ⟨cur, transformNested_other rt ms _ name (by rw [hl]; rfl), editedOnly_refl _ _,
      fun h => absurd h (by simp), fun _ _ _ h => absurd h (by simp), fun _ => rfl⟩
  | some x =>
    match x, hl with
    | .arr [], hl =>
      refine ⟨eraseMember name cur, ?_, editedOnly_erase _ _ _ (by simp),
        fun _ hu => lookup_erase_same name cur hu, fun _ _ _ h => absurd h (by simp),
        fun h => absurd h (by simp [gjsonIsArray])⟩
      rw [transformNested_empty rt ms _ name hl, text_delete_single]
    | .arr (first :: rest), hl =>
      have hraw : rawJson first = true := by
        unfold cleanNested at hclean
        rw [get_member, hl] at hclean
        exact hclean
      obtain ⟨v, hv⟩ := (isJson_iff _).1 (nestedForm_isJson rt name first hraw)
      refine ⟨setMember name v cur, ?_, editedOnly_set _ _ _ _ (by simp),
        fun h => absurd h (by simp), ?_, fun h => absurd h (by simp [gjsonIsArray])⟩
      · rw [transformNested_first rt ms _ name first rest hl, hv, text_splice_single]
      · intro first2 rest2 v2 h1 h2
        have e : first2 = first := by
          injection h1 with h1
          injection h1 with h1
          injection h1 with h1
          exact h1.symm
        rw [e, hv] at h2
        injection h2 with h2
        rw [← h2]
        exact lookup_setMember_same _ _ _
    | .null, hl =>
      exact ⟨cur, transformNested_other rt ms _ name (by rw [hl]; rfl), editedOnly_refl _ _,
        fun h => absurd h (by simp), fun _ _ _ h => absurd h (by simp), fun _ => rfl⟩
    | .bool _, hl =>
      exact ⟨cur, transformNested_other rt ms _ name (by rw [hl]; rfl), editedOnly_refl _ _,
        fun h => absurd h (by simp), fun _ _ _ h => absurd h (by simp), fun _ => rfl⟩
    | .num _, hl =>
      exact ⟨cur, transformNested_other rt ms _ name (by rw [hl]; rfl), editedOnly_refl _ _,
        fun h => absurd h (by simp), fun _ _ _ h => absurd h (by simp), fun _ => rfl⟩
    | .str _, hl =>
      exact ⟨cur, transformNested_other rt ms _ name (by rw [hl]; rfl), editedOnly_refl _ _,
        fun h => absurd h (by simp), fun _ _ _ h => absurd h (by simp), fun _ => rfl⟩
    | .obj _, hl =>
      exact ⟨cur, transformNested_other rt ms _ name (by rw [hl]; rfl), editedOnly_refl _ _,
        fun h => absurd h (by simp), fun _ _ _ h => absurd h (by simp), fun _ => rfl⟩

theorem foldl_nested_members (rt : GoRuntime) (ms : List (String × Json)) (names : List String)
    (hnodup : names.Nodup) (hclean : names.all (cleanNested (some (.obj ms))) = true)
    (cur : List (String × Json)) :
    ∃ out, names.foldl (zero_trust_gateway_policy.transformNested rt (some (.obj ms)))
          (.json (.obj cur)) = .json (.obj out) ∧
      editedOnly names cur out ∧
      ∀ name, name ∈ names →
        (lookupMember name ms = some (.arr []) → uniqueKeys cur → lookupMember name out = none) ∧
        (∀ first rest v, lookupMember name ms = some (.arr (first :: rest)) →
          nestedForm rt name (some first) = .json v → lookupMember name out = some v) ∧
        (gjsonIsArray (lookupMember name ms) = false →
          lookupMember name out = lookupMember name cur) := by
  induction names generalizing cur with
  | nil => exact ⟨cur, rfl, editedOnly_refl _ _, fun _ h => absurd h (by simp)⟩
  | cons n rest ih =>
    simp only [List.all_cons, Bool.and_eq_true] at hclean
    obtain ⟨hn, hrest⟩ := List.nodup_cons.1 hnodup
    obtain ⟨cur1, e1, f1, p1, p2, p3⟩ := transformNested_members rt ms cur n hclean.1
    obtain ⟨out, e2, f2, q⟩ := ih hrest hclean.2 cur1
    have hkeep : lookupMember n out = lookupMember n cur1 := f2.1 n hn
    refine ⟨out, ?_, ?_, ?_⟩
    · rw [List.foldl_cons, e1, e2]
    · exact editedOnly_trans _ _ _ _ (editedOnly_mono _ _ _ _ f1 (by simp))
        (editedOnly_mono _ _ _ _ f2 (fun k hk => List.mem_cons_of_mem _ hk))
    · intro name hmem
      rcases List.mem_cons.1 hmem with e | hin
      · subst e
        exact ⟨fun h hu => hkeep.trans (p1 h hu), fun first r v h hv => hkeep.trans (p2 first r v h hv),
          fun h => hkeep.trans (p3 h)⟩
      · obtain ⟨q1, q2, q3⟩ := q name hin
        have hne : name ∉ [n] := by
          intro hm
          simp only [List.mem_singleton] at hm
          subst hm
          exact hn hin
        exact ⟨fun h hu => q1 h (f1.2 hu), q2, fun h => (q3 h).trans (f1.1 name hne)⟩

theorem reason_members (rt : GoRuntime) (ms : List (String × Json)) :
    ∃ cur, (if gjsonExists (gjsonGet (some (.obj ms)) "block_page_reason") = true then
          ((Text.json (.obj ms)).set ["block_reason"]
            (jsonOfValue rt (gjsonGet (some (.obj ms)) "block_page_reason"))).delete
            ["block_page_reason"]
        else Text.json (.obj ms)) = .json (.obj cur) ∧
      editedOnly ["block_reason", "block_page_reason"] ms cur ∧
      (∀ v, lookupMember "block_page_reason" ms = some v →
        lookupMember "block_reason" cur = some (jsonOfValue rt (some v)) ∧
        (uniqueKeys ms → lookupMember "block_page_reason" cur = none)) ∧
      (lookupMember "block_page_reason" ms = none → cur = ms) := by
  rw [get_member]
  cases h : lookupMember "block_page_reason" ms with
  | none => exact ⟨ms, by simp [gjsonExists], editedOnly_refl _ _,
      fun v hv => absurd hv (by simp), fun _ => rfl⟩
  | some v =>
    refine ⟨eraseMember "block_page_reason" (setMember "block_reason" (jsonOfValue rt (some v)) ms),
      ?_, ?_, ?_, fun hn => absurd hn (by simp)⟩
    · simp [gjsonExists, text_set_single, text_delete_single]
    · exact editedOnly_trans _ _ _ _ (editedOnly_set _ _ _ _ (by simp))
        (editedOnly_erase _ _ _ (by simp))
    · intro v2 hv
      injection hv with hv
      subst hv
      refine ⟨?_, fun hu => lookup_erase_same _ _ (uniqueKeys_setMember _ _ _ hu)⟩
      rw [lookup_erase_ne _ _ _ (by decide), lookup_setMember_same]

theorem settings_object_form (rt : GoRuntime) (ms : List (String × Json))
    (hclean : zero_trust_gateway_policy.nestedStructures.all (cleanNested (some (.obj ms)))
      = true) :
    ∃ cur out, zero_trust_gateway_policy.transformRuleSettingsObject rt (some (.obj ms))
        = .json (.obj out) ∧
      editedOnly ["block_reason", "block_page_reason"] ms cur ∧
      (∀ v, lookupMember "block_page_reason" ms = some v →
        lookupMember "block_reason" cur = some (jsonOfValue rt (some v)) ∧
        (uniqueKeys ms → lookupMember "block_page_reason" cur = none)) ∧
      (lookupMember "block_page_reason" ms = none → cur = ms) ∧
      editedOnly zero_trust_gateway_policy.nestedStructures cur out ∧
      ∀ name, name ∈ zero_trust_gateway_policy.nestedStructures →
        (lookupMember name ms = some (.arr []) → uniqueKeys ms → lookupMember name out = none) ∧
        (∀ first rest v, lookupMember name ms = some (.arr (first :: rest)) →
          nestedForm rt name (some first) = .json v → lookupMember name out = some v) ∧
        (gjsonIsArray (lookupMember name ms) = false →
          lookupMember name out = lookupMember name ms) := by
  obtain ⟨cur, e1, f1, r1, r2⟩ := reason_members rt ms
  obtain ⟨out, e2, f2, q⟩ := foldl_nested_members rt ms zero_trust_gateway_policy.nestedStructures
    (by decide) hclean cur
  refine ⟨cur, out, ?_, f1, r1, r2, f2, ?_⟩
  · unfold zero_trust_gateway_policy.transformRuleSettingsObject
    simp only [stringText]
    rw [e1, e2]
  · intro name hmem
    obtain ⟨q1, q2, q3⟩ := q name hmem
    have hne : name ∉ ["block_reason", "block_page_reason"] := by
      intro hm
      simp only [List.mem_cons, List.mem_singleton, List.not_mem_nil, or_false] at hm
      rcases hm with e | e <;> subst e <;> exact absurd hmem (by decide)
    exact ⟨fun h hu => q1 h (f1.2 hu), q2, fun h => (q3 h).trans (f1.1 name hne)⟩

theorem optional_set_attr (c : Prop) [Decidable c] (ims a : List (String × Json)) (k : String)
    (v : Json) (hs : (lookupMember "attributes" ims).isSome) :
    ∃ a2, (if c then (Text.json (withAttributes ims a)).set ["attributes", k] v
        else .json (withAttributes ims a)) = .json (withAttributes ims a2) ∧
      editedOnly [k] a a2 := by
  split
  · exact ⟨_, text_set_attr ims a k v hs, editedOnly_set _ _ _ _ (by simp)⟩
  · exact ⟨a, rfl, editedOnly_refl _ _⟩

theorem gateway_rule_settings_unwrapped (rt : GoRuntime) (ims ams fs : List (String × Json))
    (rest : List Json) (resourcePath resourceName : String)
    (hattrs : lookupMember "attributes" ims = some (.obj ams))
    (hrule : lookupMember "rule_settings" ams = some (.arr (.obj fs :: rest)))
    (hclean : zero_trust_gateway_policy.nestedStructures.all (cleanNested (some (.obj fs)))
      = true) :
    ∃ out o, zero_trust_gateway_policy.TransformState rt (some (.obj ims)) resourcePath
          resourceName = .ok (.json (.obj out)) ∧
      zero_trust_gateway_policy.transformRuleSettingsObject rt (some (.obj fs))
        = .json (.obj o) ∧
      gjsonGetPath (some (.obj out)) ["attributes", "rule_settings"] = some (.obj o) := by
  have hs := isSome_of_lookup _ _ _ hattrs
  obtain ⟨_, o, ho, _⟩ := settings_object_form rt fs hclean
  obtain ⟨a1, e1, _⟩ := optional_set_attr
    (gjsonExists (gjsonGet (some (.obj ams)) "precedence") = true) ims ams "precedence"
    (state.ConvertToFloat64 rt (gjsonGet (some (.obj ams)) "precedence")) hs
  obtain ⟨a2, e2, _⟩ := optional_set_attr
    (gjsonExists (gjsonGet (some (.obj ams)) "version") = true) ims a1 "version"
    (state.ConvertToFloat64 rt (gjsonGet (some (.obj ams)) "version")) hs
  refine ⟨setMember "schema_version" (.num "0")
    (replaceMember "attributes" (.obj (setMember "rule_settings" (.obj o) a2)) ims), o, ?_, ho, ?_⟩
  · unfold zero_trust_gateway_policy.TransformState
    simp only [stringText, get_member, hattrs, gjsonExists, Option.isSome_some,
      not_true_eq_false, if_false]
    rw [← withAttributes_self ims ams hattrs]
    simp only [gjsonExists, get_member] at e1 e2
    rw [e1, e2, hrule]
    simp only [Option.isSome_some, if_true, zero_trust_gateway_policy.transformRuleSettings,
      gjsonIsArray, gjsonArray, ho, Text.splice, text_set_attr ims a2 _ _ hs, text_set_top]
  · rw [getPath_out _ _ _ (lookup_attributes_top ims _ _ _ hs (by decide)),
      lookup_setMember_same]

/-! ## The token loop of `processDataAttribute` -/

theorem get?_map_enumFrom {α β : Type} (f : Nat × α → β) (l : List α) (n i : Nat) :
    ((l.enumFrom n).map f).get? i = (l.get? i).map (fun x => f (n + i, x)) := by
  induction l generalizing n i with
  | nil => simp
  | cons x rest ih =>
    cases i with
    | zero => simp [List.enumFrom]
    | succ j =>
      simp only [List.enumFrom, List.map_cons, List.get?_cons_succ]
      rw [ih (n + 1) j]
      congr 1
      funext y
      congr 2
      omega

theorem get?_substituteTokens (tokens : List hclwrite.Token) (i : Nat) :
    (dns_record.substituteTokens tokens).get? i
      = (tokens.get? i).map (dns_record.substituteToken tokens i) := by
  unfold dns_record.substituteTokens List.enum
  rw [get?_map_enumFrom]
  simp

theorem length_substituteTokens (tokens : List hclwrite.Token) :
    (dns_record.substituteTokens tokens).length = tokens.length := by
  simp [dns_record.substituteTokens]

theorem substituteToken_kept (tokens : List hclwrite.Token) (i : Nat) (token : hclwrite.Token)
    (h : ¬ (token.tokenType = hclsyntax.TokenIdent ∧ token.Bytes = "content" ∧
      dns_record.followedByEqual tokens i = true)) :
    dns_record.substituteToken tokens i token = token := by
  unfold dns_record.substituteToken
  split
  · rename_i hc
    split
    · rename_i hf
      exact absurd ⟨hc.1, hc.2, hf⟩ h
    · rfl
  · rfl

theorem substituteTokens_free (tokens : List hclwrite.Token)
    (h : ∀ t, t ∈ tokens → isContentIdent t = false) :
    dns_record.substituteTokens tokens = tokens := by
  apply List.ext_get?
  intro i
  rw [get?_substituteTokens]
  cases hg : tokens.get? i with
  | none => rfl
  | some t =>
    have hm : t ∈ tokens := List.get?_mem hg
    have hc := h t hm
    simp only [Option.map_some', Option.some.injEq]
    apply substituteToken_kept
    intro hh
    simp [isContentIdent, hh.1, hh.2.1] at hc

theorem get_replaceExpr_same (body : List hclwrite.Node) (name : String)
    (tokens : List hclwrite.Token) (h : (hclwrite.Body.GetAttribute body name).isSome) :
    hclwrite.Body.GetAttribute (hclwrite.Body.replaceExpr name tokens body) name
      = some tokens := by
  induction body with
  | nil => simp [hclwrite.Body.GetAttribute] at h
  | cons node rest ih =>
    cases node with
    | attr n e =>
      by_cases hn : n = name
      · simp [hclwrite.Body.replaceExpr, hclwrite.Body.GetAttribute, hn]
      · simp only [hclwrite.Body.GetAttribute, if_neg hn] at h
        simp [hclwrite.Body.replaceExpr, hclwrite.Body.GetAttribute, hn, ih h]
    | block t l b =>
      simp only [hclwrite.Body.GetAttribute] at h
      simp [hclwrite.Body.replaceExpr, hclwrite.Body.GetAttribute, ih h]

theorem get_append_attribute (body : List hclwrite.Node) (n k : String)
    (e : List hclwrite.Token) :
    hclwrite.Body.GetAttribute (body ++ [.attr n e]) k
      = match hclwrite.Body.GetAttribute body k with
        | some x => some x
        | none => if n = k then some e else none := by
  induction body with
  | nil => simp [hclwrite.Body.GetAttribute]
  | cons node rest ih =>
    cases node with
    | attr n2 e2 =>
      by_cases hn : n2 = k
      · simp [hclwrite.Body.GetAttribute, hn]
      · simp [hclwrite.Body.GetAttribute, hn, ih]
    | block t l b => simp [hclwrite.Body.GetAttribute, ih]

theorem get_set_same (body : List hclwrite.Node) (name : String)
    (tokens : List hclwrite.Token) :
    hclwrite.Body.GetAttribute (hclwrite.Body.SetAttributeRaw body name tokens) name
      = some tokens := by
  unfold hclwrite.Body.SetAttributeRaw
  split
  · rename_i h
    exact get_replaceExpr_same body name tokens h
  · rename_i h
    rw [get_append_attribute]
    cases hg : hclwrite.Body.GetAttribute body name with
    | none => simp
    | some x => simp [hg] at h

/-! ## Attributes and blocks of a body after an edit -/

theorem get_replaceExpr_ne (body : List hclwrite.Node) (name k : String)
    (tokens : List hclwrite.Token) (hne : k ≠ name) :
    hclwrite.Body.GetAttribute (hclwrite.Body.replaceExpr name tokens body) k
      = hclwrite.Body.GetAttribute body k := by
  induction body with
  | nil => rfl
  | cons node rest ih =>
    cases node with
    | attr n e =>
      by_cases hn : n = name
      · subst hn
        have h2 : ¬ n = k := fun e => hne e.symm
        simp [hclwrite.Body.replaceExpr, hclwrite.Body.GetAttribute, h2]
      · by_cases hk : n = k
        · subst hk
          simp [hclwrite.Body.replaceExpr, hclwrite.Body.GetAttribute, hn]
        · simp [hclwrite.Body.replaceExpr, hclwrite.Body.GetAttribute, hn, hk, ih]
    | block t l b => simp [hclwrite.Body.replaceExpr, hclwrite.Body.GetAttribute, ih]

theorem get_set_ne (body : List hclwrite.Node) (name k : String)
    (tokens : List hclwrite.Token) (hne : k ≠ name) :
    hclwrite.Body.GetAttribute (hclwrite.Body.SetAttributeRaw body name tokens) k
      = hclwrite.Body.GetAttribute body k := by
  unfold hclwrite.Body.SetAttributeRaw
  split
  · exact get_replaceExpr_ne body name k tokens hne
  · rw [get_append_attribute]
    have h2 : ¬ name = k := fun e => hne e.symm
    cases hclwrite.Body.GetAttribute body k <;> simp [h2]

theorem get_remove_ne (body : List hclwrite.Node) (name k : String) (hne : k ≠ name) :
    hclwrite.Body.GetAttribute (hclwrite.Body.RemoveAttribute body name) k
      = hclwrite.Body.GetAttribute body k := by
  induction body with
  | nil => rfl
  | cons node rest ih =>
    cases node with
    | attr n e =>
      by_cases hn : n = name
      · subst hn
        have h2 : ¬ n = k := fun e => hne e.symm
        simp [hclwrite.Body.RemoveAttribute, hclwrite.Body.GetAttribute, h2]
      · by_cases hk : n = k
        · subst hk
          simp [hclwrite.Body.RemoveAttribute, hclwrite.Body.GetAttribute, hn]
        · simp [hclwrite.Body.RemoveAttribute, hclwrite.Body.GetAttribute, hn, hk, ih]
    | block t l b => simp [hclwrite.Body.RemoveAttribute, hclwrite.Body.GetAttribute, ih]

theorem get_none_of_not_mem (body : List hclwrite.Node) (k : String)
    (h : k ∉ (hclwrite.Body.attributes body).map Prod.fst) :
    hclwrite.Body.GetAttribute body k = none := by
  induction body with
  | nil => rfl
  | cons node rest ih =>
    cases node with
    | attr n e =>
      simp only [hclwrite.Body.attributes, List.map_cons, List.mem_cons, not_or] at h
      have h2 : ¬ n = k := fun e => h.1 e.symm
      simp [hclwrite.Body.GetAttribute, h2, ih h.2]
    | block t l b =>
      simp only [hclwrite.Body.attributes] at h
      simp [hclwrite.Body.GetAttribute, ih h]

theorem mem_names_of_get (body : List hclwrite.Node) (k : String)
    (h : (hclwrite.Body.GetAttribute body k).isSome) :
    k ∈ (hclwrite.Body.attributes body).map Prod.fst := by
  by_contra hn
  rw [get_none_of_not_mem body k hn] at h
  simp at h

theorem get_remove_same (body : List hclwrite.Node) (name : String)
    (h : uniqueAttributes body) :
    hclwrite.Body.GetAttribute (hclwrite.Body.RemoveAttribute body name) name = none := by
  induction body with
  | nil => rfl
  | cons node rest ih =>
    cases node with
    | attr n e =>
      have hn : n ∉ (hclwrite.Body.attributes rest).map Prod.fst ∧
          ((hclwrite.Body.attributes rest).map Prod.fst).Nodup := by
        simpa [uniqueAttributes, hclwrite.Body.attributes] using h
      by_cases h2 : n = name
      · subst h2
        simp only [hclwrite.Body.RemoveAttribute, if_true]
        exact get_none_of_not_mem rest n hn.1
      · simp [hclwrite.Body.RemoveAttribute, hclwrite.Body.GetAttribute, h2, ih hn.2]
    | block t l b =>
      have hu : uniqueAttributes rest := by
        simpa [uniqueAttributes, hclwrite.Body.attributes] using h
      simp [hclwrite.Body.RemoveAttribute, hclwrite.Body.GetAttribute, ih hu]

theorem names_replaceExpr (body : List hclwrite.Node) (name : String)
    (tokens : List hclwrite.Token) :
    (hclwrite.Body.attributes (hclwrite.Body.replaceExpr name tokens body)).map Prod.fst
      = (hclwrite.Body.attributes body).map Prod.fst := by
  induction body with
  | nil => rfl
  | cons node rest ih =>
    cases node with
    | attr n e =>
      by_cases hn : n = name
      · simp [hclwrite.Body.replaceExpr, hclwrite.Body.attributes, hn]
      · simp [hclwrite.Body.replaceExpr, hclwrite.Body.attributes, hn, ih]
    | block t l b => simp [hclwrite.Body.replaceExpr, hclwrite.Body.attributes, ih]

theorem attributes_append (body more : List hclwrite.Node) :
    hclwrite.Body.attributes (body ++ more)
      = hclwrite.Body.attributes body ++ hclwrite.Body.attributes more := by
  induction body with
  | nil => rfl
  | cons node rest ih =>
    cases node with
    | attr n e => simp [hclwrite.Body.attributes, ih]
    | block t l b => simp [hclwrite.Body.attributes, ih]

theorem get_isSome_of_mem (body : List hclwrite.Node) (k : String)
    (h : k ∈ (hclwrite.Body.attributes body).map Prod.fst) :
    (hclwrite.Body.GetAttribute body k).isSome := by
  induction body with
  | nil => simp [hclwrite.Body.attributes] at h
  | cons node rest ih =>
    cases node with
    | attr n e =>
      by_cases hn : n = k
      · simp [hclwrite.Body.GetAttribute, hn]
      · simp only [hclwrite.Body.attributes, List.map_cons, List.mem_cons] at h
        rcases h with e2 | e2
        · exact absurd e2.symm hn
        · simp only [hclwrite.Body.GetAttribute, if_neg hn]
          exact ih e2
    | block t l b =>
      simp only [hclwrite.Body.attributes] at h
      simp only [hclwrite.Body.GetAttribute]
      exact ih h

theorem unique_append_attribute (body : List hclwrite.Node) (name : String)
    (tokens : List hclwrite.Token) (h : uniqueAttributes body)
    (hnew : hclwrite.Body.GetAttribute body name = none) :
    uniqueAttributes (body ++ [.attr name tokens]) := by
  unfold uniqueAttributes at *
  rw [attributes_append, List.map_append, List.nodup_append]
  refine ⟨h, by simp [hclwrite.Body.attributes], ?_⟩
  intro a ha hb
  simp [hclwrite.Body.attributes] at hb
  subst hb
  have hsome := get_isSome_of_mem body a ha
  rw [hnew] at hsome
  simp at hsome

theorem unique_set (body : List hclwrite.Node) (name : String) (tokens : List hclwrite.Token)
    (h : uniqueAttributes body) :
    uniqueAttributes (hclwrite.Body.SetAttributeRaw body name tokens) := by
  unfold hclwrite.Body.SetAttributeRaw
  split
  · simpa [uniqueAttributes, names_replaceExpr] using h
  · rename_i hn
    apply unique_append_attribute body name tokens h
    cases hg : hclwrite.Body.GetAttribute body name with
    | none => rfl
    | some x => simp [hg] at hn

theorem names_remove_sublist (body : List hclwrite.Node) (name : String) :
    ((hclwrite.Body.attributes (hclwrite.Body.RemoveAttribute body name)).map Prod.fst).Sublist
      ((hclwrite.Body.attributes body).map Prod.fst) := by
  induction body with
  | nil => exact List.Sublist.slnil
  | cons node rest ih =>
    cases node with
    | attr n e =>
      by_cases hn : n = name
      · simp [hclwrite.Body.RemoveAttribute, hclwrite.Body.attributes, hn]
      · simp only [hclwrite.Body.RemoveAttribute, if_neg hn, hclwrite.Body.attributes,
          List.map_cons]
        exact ih.cons₂ n
    | block t l b =>
      simpa [hclwrite.Body.RemoveAttribute, hclwrite.Body.attributes] using ih

theorem unique_remove (body : List hclwrite.Node) (name : String) (h : uniqueAttributes body) :
    uniqueAttributes (hclwrite.Body.RemoveAttribute body name) :=
  List.Nodup.sublist (names_remove_sublist body name) h

theorem firstBlock_replaceExpr (body : List hclwrite.Node) (name t : String)
    (tokens : List hclwrite.Token) :
    hclwrite.Body.firstBlock (hclwrite.Body.replaceExpr name tokens body) t
      = hclwrite.Body.firstBlock body t := by
  induction body with
  | nil => rfl
  | cons node rest ih =>
    cases node with
    | attr n e =>
      by_cases hn : n = name
      · simp [hclwrite.Body.replaceExpr, hclwrite.Body.firstBlock, hn]
      · simp [hclwrite.Body.replaceExpr, hclwrite.Body.firstBlock, hn, ih]
    | block ty l b => simp [hclwrite.Body.replaceExpr, hclwrite.Body.firstBlock, ih]

theorem firstBlock_append_attribute (body : List hclwrite.Node) (name t : String)
    (tokens : List hclwrite.Token) :
    hclwrite.Body.firstBlock (body ++ [.attr name tokens]) t
      = hclwrite.Body.firstBlock body t := by
  induction body with
  | nil => rfl
  | cons node rest ih =>
    cases node with
    | attr n e => simp [hclwrite.Body.firstBlock, ih]
    | block ty l b => simp [hclwrite.Body.firstBlock, ih]

theorem firstBlock_set (body : List hclwrite.Node) (name t : String)
    (tokens : List hclwrite.Token) :
    hclwrite.Body.firstBlock (hclwrite.Body.SetAttributeRaw body name tokens) t
      = hclwrite.Body.firstBlock body t := by
  unfold hclwrite.Body.SetAttributeRaw
  split
  · exact firstBlock_replaceExpr body name t tokens
  · exact firstBlock_append_attribute body name t tokens

theorem firstBlock_remove (body : List hclwrite.Node) (name t : String) :
    hclwrite.Body.firstBlock (hclwrite.Body.RemoveAttribute body name) t
      = hclwrite.Body.firstBlock body t := by
  induction body with
  | nil => rfl
  | cons node rest ih =>
    cases node with
    | attr n e =>
      by_cases hn : n = name
      · simp [hclwrite.Body.RemoveAttribute, hclwrite.Body.firstBlock, hn]
      · simp [hclwrite.Body.RemoveAttribute, hclwrite.Body.firstBlock, hn, ih]
    | block ty l b => simp [hclwrite.Body.RemoveAttribute, hclwrite.Body.firstBlock, ih]

theorem get_removeBlocks (body : List hclwrite.Node) (t k : String) :
    hclwrite.Body.GetAttribute (hclwrite.Body.removeBlocks body t) k
      = hclwrite.Body.GetAttribute body k := by
  induction body with
  | nil => rfl
  | cons node rest ih =>
    cases node with
    | attr n e =>
      by_cases hn : n = k
      · simp [hclwrite.Body.removeBlocks, hclwrite.Body.GetAttribute, hn]
      · simp [hclwrite.Body.removeBlocks, hclwrite.Body.GetAttribute, hn, ih]
    | block ty l b =>
      by_cases ht : ty = t
      · simp [hclwrite.Body.removeBlocks, hclwrite.Body.GetAttribute, ht, ih]
      · simp [hclwrite.Body.removeBlocks, hclwrite.Body.GetAttribute, ht, ih]

theorem firstBlock_removeBlocks (body : List hclwrite.Node) (t : String) :
    hclwrite.Body.firstBlock (hclwrite.Body.removeBlocks body t) t = none := by
  induction body with
  | nil => rfl
  | cons node rest ih =>
    cases node with
    | attr n e => simp [hclwrite.Body.removeBlocks, hclwrite.Body.firstBlock, ih]
    | block ty l b =>
      by_cases ht : ty = t
      · simp [hclwrite.Body.removeBlocks, ht, ih]
      · simp [hclwrite.Body.removeBlocks, hclwrite.Body.firstBlock, ht, ih]

/-! ## `TransformConfig`, step by step -/

theorem attributesEditedOnly_refl (keys : List String) (b : List hclwrite.Node) :
    attributesEditedOnly keys b b :=
  ⟨fun _ _ => rfl, fun _ => rfl, fun h => h⟩

theorem attributesEditedOnly_trans (keys : List String) (a b c : List hclwrite.Node)
    (h1 : attributesEditedOnly keys a b) (h2 : attributesEditedOnly keys b c) :
    attributesEditedOnly keys a c :=
  ⟨fun k hk => (h2.1 k hk).trans (h1.1 k hk), fun t => (h2.2.1 t).trans (h1.2.1 t),
    fun h => h2.2.2 (h1.2.2 h)⟩

theorem attributesEditedOnly_mono (keys keys2 : List String) (a b : List hclwrite.Node)
    (h : attributesEditedOnly keys a b) (hsub : ∀ k, k ∈ keys → k ∈ keys2) :
    attributesEditedOnly keys2 a b :=
  ⟨fun k hk => h.1 k (fun hm => hk (hsub k hm)), h.2.1, h.2.2⟩

theorem attributesEditedOnly_set (keys : List String) (name : String)
    (tokens : List hclwrite.Token) (b : List hclwrite.Node) (hk : name ∈ keys) :
    attributesEditedOnly keys b (hclwrite.Body.SetAttributeRaw b name tokens) :=
  ⟨fun k h2 => get_set_ne b name k tokens (fun e => h2 (e ▸ hk)),
    fun t => firstBlock_set b name t tokens, unique_set b name tokens⟩

theorem attributesEditedOnly_remove (keys : List String) (name : String)
    (b : List hclwrite.Node) (hk : name ∈ keys) :
    attributesEditedOnly keys b (hclwrite.Body.RemoveAttribute b name) :=
  ⟨fun k h2 => get_remove_ne b name k (fun e => h2 (e ▸ hk)),
    fun t => firstBlock_remove b name t, unique_remove b name⟩

theorem ensure_eq_set (b : List hclwrite.Node) (name : String) (d : Int) :
    tfhcl.EnsureAttribute b name d
      = if (hclwrite.Body.GetAttribute b name).isSome then b
        else hclwrite.Body.SetAttributeRaw b name
          [⟨ hclsyntax.TokenNumberLit, formatInt d, 0⟩] := by
  unfold tfhcl.EnsureAttribute hclwrite.Body.SetAttributeRaw
  split <;> simp_all

theorem attributesEditedOnly_ensure (keys : List String) (name : String) (d : Int)
    (b : List hclwrite.Node) (hk : name ∈ keys) :
    attributesEditedOnly keys b (tfhcl.EnsureAttribute b name d) := by
  rw [ensure_eq_set]
  split
  · exact attributesEditedOnly_refl keys b
  · exact attributesEditedOnly_set keys name _ b hk

theorem attributesEditedOnly_removeAll (keys names : List String) (b : List hclwrite.Node)
    (hk : ∀ k, k ∈ names → k ∈ keys) :
    attributesEditedOnly keys b (tfhcl.RemoveAttributes b names) := by
  unfold tfhcl.RemoveAttributes
  induction names generalizing b with
  | nil => exact attributesEditedOnly_refl keys b
  | cons n rest ih =>
    rw [List.foldl_cons]
    exact attributesEditedOnly_trans keys _ _ _
      (attributesEditedOnly_remove keys n b (hk n (List.mem_cons_self _ _)))
      (ih _ (fun k hm => hk k (List.mem_cons_of_mem _ hm)))

theorem renameResourceType_body (block : hclwrite.Block) (a b : String) :
    (tfhcl.RenameResourceType block a b).body = block.body := by
  unfold tfhcl.RenameResourceType
  split
  · split <;> rfl
  · rfl

theorem value_step (b0 b1 : List hclwrite.Node) (recordType : String)
    (hv : hclwrite.Body.GetAttribute b1 "value" = hclwrite.Body.GetAttribute b0 "value")
    (hc : hclwrite.Body.GetAttribute b1 "content" = hclwrite.Body.GetAttribute b0 "content") :
    ∃ b2, dns_record.renameValueAttribute b1 recordType = b2 ∧
      attributesEditedOnly ["content", "value"] b1 b2 ∧
      (dns_record.complexDataTypes recordType = false →
        ∀ tokens, hclwrite.Body.GetAttribute b0 "value" = some tokens →
          hclwrite.Body.GetAttribute b2 "content" = some tokens ∧
          (uniqueAttributes b1 → hclwrite.Body.GetAttribute b2 "value" = none)) ∧
      (dns_record.complexDataTypes recordType = true →
        hclwrite.Body.GetAttribute b2 "value" = hclwrite.Body.GetAttribute b0 "value" ∧
        hclwrite.Body.GetAttribute b2 "content" = hclwrite.Body.GetAttribute b0 "content") := by
  refine ⟨_, rfl, ?_, ?_, ?_⟩
  · unfold dns_record.renameValueAttribute
    split
    · split
      · exact attributesEditedOnly_trans _ _ _ _ (attributesEditedOnly_set _ _ _ _ (by simp))
          (attributesEditedOnly_remove _ _ _ (by simp))
      · exact attributesEditedOnly_refl _ _
    · exact attributesEditedOnly_refl _ _
  · intro hcx tokens hval
    unfold dns_record.renameValueAttribute
    rw [hv, hval]
    simp only [hcx, Bool.false_eq_true, not_false_eq_true, if_true]
    refine ⟨?_, fun hu => get_remove_same _ _ (unique_set _ _ _ hu)⟩
    rw [get_remove_ne _ _ _ (by decide), get_set_same]
  · intro hcx
    unfold dns_record.renameValueAttribute
    simp only [hcx, not_true_eq_false, if_false]
    exact ⟨hv, hc⟩

theorem config_form (extractString : List hclwrite.Token → String) (block : hclwrite.Block) :
    ∃ b3, dns_record.TransformConfig extractString block
        = .ok ⟨[dns_record.processDataAttribute
            (dns_record.processDataBlocks
              { tfhcl.RenameResourceType block "cloudflare_record" "cloudflare_dns_record" with
                body := b3 }
              (dns_record.configRecordType extractString block.body))
            (dns_record.configRecordType extractString block.body)], false⟩ ∧
      attributesEditedOnly touchedBeforeBlocks block.body b3 ∧
      (dns_record.complexDataTypes (dns_record.configRecordType extractString block.body) = false →
        ∀ tokens, hclwrite.Body.GetAttribute block.body "value" = some tokens →
          hclwrite.Body.GetAttribute b3 "content" = some tokens ∧
          (uniqueAttributes block.body → hclwrite.Body.GetAttribute b3 "value" = none)) ∧
      (dns_record.complexDataTypes (dns_record.configRecordType extractString block.body) = true →
        hclwrite.Body.GetAttribute b3 "value" = hclwrite.Body.GetAttribute block.body "value" ∧
        hclwrite.Body.GetAttribute b3 "content"
          = hclwrite.Body.GetAttribute block.body "content") := by
  have f1 := attributesEditedOnly_ensure ["ttl"] "ttl" 1 block.body (by simp)
  have hty : dns_record.configRecordType extractString (tfhcl.EnsureAttribute block.body "ttl" 1)
      = dns_record.configRecordType extractString block.body := by
    unfold dns_record.configRecordType
    rw [f1.1 "type" (by decide)]
  obtain ⟨b2, e2, f2, v1, v2⟩ := value_step block.body (tfhcl.EnsureAttribute block.body "ttl" 1)
    (dns_record.configRecordType extractString block.body) (f1.1 _ (by decide)) (f1.1 _ (by decide))
  have f3 := attributesEditedOnly_removeAll ["allow_overwrite", "hostname"]
    ["allow_overwrite", "hostname"] b2 (fun _ h => h)
  refine ⟨tfhcl.RemoveAttributes b2 ["allow_overwrite", "hostname"], ?_, ?_, ?_, ?_⟩
  · unfold dns_record.TransformConfig
    simp only [renameResourceType_body]
    rw [hty, e2]
  · unfold touchedBeforeBlocks
    exact attributesEditedOnly_trans _ _ _ _
      (attributesEditedOnly_mono _ _ _ _ f1 (by simp))
      (attributesEditedOnly_trans _ _ _ _ (attributesEditedOnly_mono _ _ _ _ f2 (by simp))
        (attributesEditedOnly_mono _ _ _ _ f3 (by simp)))
  · intro hcx tokens hval
    obtain ⟨c1, c2⟩ := v1 hcx tokens hval
    exact ⟨by rw [f3.1 _ (by decide)]; exact c1,
      fun hu => by rw [f3.1 _ (by decide)]; exact c2 (f1.2.2 hu)⟩
  · intro hcx
    obtain ⟨c1, c2⟩ := v2 hcx
    exact ⟨by rw [f3.1 _ (by decide)]; exact c1, by rw [f3.1 _ (by decide)]; exact c2⟩

/-! ## The data blocks and the data attribute -/

theorem hoist_edited (b : List hclwrite.Node) (blockType attrName : String) :
    attributesEditedOnly [attrName] b (tfhcl.HoistAttributeFromBlock b blockType attrName) := by
  unfold tfhcl.HoistAttributeFromBlock
  split
  · split
    · exact attributesEditedOnly_set _ _ _ _ (by simp)
    · exact attributesEditedOnly_refl _ _
  · exact attributesEditedOnly_refl _ _

theorem hoist_step (b : List hclwrite.Node) (recordType : String) :
    attributesEditedOnly ["priority"] b
      (if recordType = "SRV" ∨ recordType = "MX" ∨ recordType = "URI" then
        tfhcl.HoistAttributeFromBlock b "data" "priority"
      else b) := by
  split
  · exact hoist_edited b "data" "priority"
  · exact attributesEditedOnly_refl _ _

theorem convert_get_ne (b : List hclwrite.Node) (blockType attrName k : String)
    (cb : List hclwrite.Node → List hclwrite.Node) (hne : k ≠ attrName) :
    hclwrite.Body.GetAttribute (tfhcl.ConvertBlocksToAttribute b blockType attrName cb) k
      = hclwrite.Body.GetAttribute b k := by
  unfold tfhcl.ConvertBlocksToAttribute
  split
  · rw [get_set_ne _ _ _ _ hne, get_removeBlocks]
  · rfl

theorem convert_found (b inner : List hclwrite.Node) (blockType attrName : String)
    (cb : List hclwrite.Node → List hclwrite.Node)
    (h : hclwrite.Body.firstBlock b blockType = some inner) :
    hclwrite.Body.GetAttribute (tfhcl.ConvertBlocksToAttribute b blockType attrName cb) attrName
        = some (tfhcl.objectTokens (cb inner)) ∧
      hclwrite.Body.firstBlock (tfhcl.ConvertBlocksToAttribute b blockType attrName cb) blockType
        = none := by
  unfold tfhcl.ConvertBlocksToAttribute
  rw [h]
  exact ⟨get_set_same _ _ _, by rw [firstBlock_set, firstBlock_removeBlocks]⟩

theorem dataAttribute_get_ne (block : hclwrite.Block) (recordType k : String)
    (hne : k ≠ "data") :
    hclwrite.Body.GetAttribute (dns_record.processDataAttribute block recordType).body k
      = hclwrite.Body.GetAttribute block.body k := by
  unfold dns_record.processDataAttribute
  split
  · split
    · exact get_set_ne _ _ _ _ hne
    · rfl
  · rfl

theorem dataAttribute_firstBlock (block : hclwrite.Block) (recordType t : String) :
    hclwrite.Body.firstBlock (dns_record.processDataAttribute block recordType).body t
      = hclwrite.Body.firstBlock block.body t := by
  unfold dns_record.processDataAttribute
  split
  · split
    · exact firstBlock_set _ _ _ _
    · rfl
  · rfl

theorem dataAttribute_labels (block : hclwrite.Block) (recordType : String) :
    (dns_record.processDataAttribute block recordType).labels = block.labels ∧
      (dns_record.processDataAttribute block recordType).typeName = block.typeName := by
  unfold dns_record.processDataAttribute
  split
  · split <;> exact ⟨rfl, rfl⟩
  · exact ⟨rfl, rfl⟩

theorem dataAttribute_found (block : hclwrite.Block) (recordType : String)
    (tokens : List hclwrite.Token)
    (h : hclwrite.Body.GetAttribute block.body "data" = some tokens) :
    hclwrite.Body.GetAttribute (dns_record.processDataAttribute block recordType).body "data"
      = some (if recordType = "CAA" then dns_record.substituteTokens tokens else tokens) := by
  unfold dns_record.processDataAttribute
  rw [h]
  by_cases hc : recordType = "CAA"
  · simp only [hc, if_true]
    exact get_set_same _ _ _
  · simp only [hc, if_false]
    exact h

theorem data_steps_frame (block : hclwrite.Block) (recordType k : String)
    (hp : k ≠ "priority") (hd : k ≠ "data") :
    hclwrite.Body.GetAttribute
        (dns_record.processDataAttribute (dns_record.processDataBlocks block recordType)
          recordType).body k
      = hclwrite.Body.GetAttribute block.body k := by
  rw [dataAttribute_get_ne _ _ _ hd]
  unfold dns_record.processDataBlocks
  simp only
  rw [convert_get_ne _ _ _ _ _ hd]
  exact (hoist_step block.body recordType).1 k (by simp [hp])

theorem data_steps_labels (block : hclwrite.Block) (recordType : String) :
    (dns_record.processDataAttribute (dns_record.processDataBlocks block recordType)
        recordType).labels = block.labels := by
  rw [(dataAttribute_labels _ _).1]
  rfl

theorem data_block_converted (block : hclwrite.Block) (recordType : String)
    (inner : List hclwrite.Node)
    (h : hclwrite.Body.firstBlock block.body "data" = some inner) :
    hclwrite.Body.firstBlock
        (dns_record.processDataAttribute (dns_record.processDataBlocks block recordType)
          recordType).body "data" = none ∧
      hclwrite.Body.GetAttribute
        (dns_record.processDataAttribute (dns_record.processDataBlocks block recordType)
          recordType).body "data"
        = some (if recordType = "CAA" then
            dns_record.substituteTokens
              (tfhcl.objectTokens (dns_record.dataBlockCallback recordType inner))
          else tfhcl.objectTokens (dns_record.dataBlockCallback recordType inner)) := by
  have hb : hclwrite.Body.firstBlock
      (if recordType = "SRV" ∨ recordType = "MX" ∨ recordType = "URI" then
        tfhcl.HoistAttributeFromBlock block.body "data" "priority"
      else block.body) "data" = some inner := by
    rw [(hoist_step block.body recordType).2.1]
    exact h
  obtain ⟨c1, c2⟩ := convert_found _ inner "data" "data"
    (dns_record.dataBlockCallback recordType) hb
  constructor
  · rw [dataAttribute_firstBlock]
    exact c2
  · exact dataAttribute_found _ recordType _ c1

/-! ## The renamed data block as an object literal -/

theorem map_renameEntry_id (entries : List (String × List hclwrite.Token))
    (h : "content" ∉ entries.map Prod.fst) : entries.map renameEntry = entries := by
  induction entries with
  | nil => rfl
  | cons e rest ih =>
    simp only [List.map_cons, List.mem_cons, not_or] at h
    have h1 : ¬ e.1 = "content" := fun x => h.1 x.symm
    simp [renameEntry, h1, ih h.2]

theorem attributes_rename (body : List hclwrite.Node) (h : uniqueAttributes body) :
    hclwrite.Body.attributes (tfhcl.RenameAttribute body "content" "value")
      = (hclwrite.Body.attributes body).map renameEntry := by
  induction body with
  | nil => rfl
  | cons node rest ih =>
    cases node with
    | attr n e =>
      have hn : n ∉ (hclwrite.Body.attributes rest).map Prod.fst ∧
          ((hclwrite.Body.attributes rest).map Prod.fst).Nodup := by
        simpa [uniqueAttributes, hclwrite.Body.attributes] using h
      by_cases hc : n = "content"
      · subst hc
        simp only [tfhcl.RenameAttribute, if_true, hclwrite.Body.attributes, List.map_cons]
        rw [map_renameEntry_id _ hn.1]
        rfl
      · simp only [tfhcl.RenameAttribute, if_neg hc, hclwrite.Body.attributes, List.map_cons]
        rw [ih hn.2]
        simp [renameEntry, hc]
    | block t l b =>
      have hu : uniqueAttributes rest := by
        simpa [uniqueAttributes, hclwrite.Body.attributes] using h
      simpa [tfhcl.RenameAttribute, hclwrite.Body.attributes] using ih hu

theorem literal_renamed_free (entries : List (String × List hclwrite.Token))
    (h : ∀ entry, entry ∈ entries → ∀ t, t ∈ entry.2 → isContentIdent t = false) :
    ∀ t, t ∈ tfhcl.literalTokens (entries.map renameEntry) → isContentIdent t = false := by
  intro t ht
  unfold tfhcl.literalTokens at ht
  simp only [List.mem_append, List.mem_cons, List.mem_singleton, List.not_mem_nil, or_false,
    List.mem_flatten, List.mem_map, exists_exists_and_eq_and] at ht
  rcases ht with (ht | ht) | ht
  · rcases ht with ht | ht <;> subst ht <;> decide
  · obtain ⟨e, he, hte⟩ := ht
    unfold tfhcl.entryTokens at hte
    simp only [List.mem_append, List.mem_cons, List.mem_singleton, List.not_mem_nil,
      or_false] at hte
    rcases hte with ((hte | hte) | hte) | hte
    · subst hte
      by_cases hc : e.1 = "content"
      · simp [isContentIdent, renameEntry, hc]
      · simp [isContentIdent, renameEntry, hc]
    · subst hte
      decide
    · exact h e he t hte
    · subst hte
      decide
  · subst ht
    decide

theorem caa_callback (inner : List hclwrite.Node) :
    dns_record.dataBlockCallback "CAA" inner = tfhcl.RenameAttribute inner "content" "value" := by
  simp [dns_record.dataBlockCallback]

theorem other_callback (recordType : String) (inner : List hclwrite.Node)
    (h : recordType ≠ "CAA") :
    dns_record.dataBlockCallback recordType inner
      = if recordType = "MX" ∨ recordType = "URI" then
          hclwrite.Body.RemoveAttribute inner "priority"
        else inner := by
  simp [dns_record.dataBlockCallback, h]

theorem renameResourceType_labels (block : hclwrite.Block) (rest : List String)
    (h : block.labels = "cloudflare_record" :: rest) :
    (tfhcl.RenameResourceType block "cloudflare_record" "cloudflare_dns_record").labels
      = "cloudflare_dns_record" :: rest := by
  unfold tfhcl.RenameResourceType
  rw [h]
  simp

/-! ## Simple record types, incomplete instances -/

/-- C21: for every instance whose attributes have a name, a type and a zone,
with pairwise different keys, whose record type is a simple type and which is
not an MX record with a data array, the DNS record migrator returns a JSON
object without `attributes.data`, whatever value the input had there. -/
theorem simple_type_drops_data (rt : GoRuntime) (ims ams : List (String × Json))
    (resourcePath resourceName : String)
    (hattrs : lookupMember "attributes" ims = some (.obj ams))
    (hname : (lookupMember "name" ams).isSome)
    (htype : (lookupMember "type" ams).isSome)
    (hzone : (lookupMember "zone_id" ams).isSome)
    (hkeys : uniqueKeys ams)
    (hsimple : dns_record.isSimpleRecordType (resultString rt (lookupMember "type" ams)) = true)
    (hmx : ¬ (resultString rt (lookupMember "type" ams) = "MX" ∧
      gjsonIsArray (lookupMember "data" ams) = true)) :
    ∃ out, dns_record.TransformState rt (some (.obj ims)) resourcePath resourceName
        = .ok (.json out) ∧
      gjsonGetPath (some out) ["attributes", "data"] = none := by
  have hs := isSome_of_lookup _ _ _ hattrs
  have hget := get_attributes ims ams hattrs
  obtain ⟨a6, hfin, f6, _⟩ := single_instance_form rt ims ams _ hs hget
  have h7 := simple_data_form rt ims ams a6 (some (.obj ims)) _ hs hget hsimple hmx
  have hdata6 : lookupMember "data" a6 = lookupMember "data" ams :=
    f6.1 _ (by unfold touchedBeforeData; decide)
  cases hd : lookupMember "data" ams with
  | none =>
    rw [hd] at h7
    obtain ⟨a8, e8, f8, _⟩ := hfin a6 h7
    obtain ⟨out, eo, _, hat⟩ := dns_output_form rt ims ams a8 resourcePath resourceName hattrs
      hname htype hzone e8
    refine ⟨.obj out, eo, ?_⟩
    rw [getPath_out out _ _ hat, f8.1 _ (by decide), hdata6, hd]
  | some d =>
    rw [hd] at h7
    obtain ⟨a8, e8, f8, _⟩ := hfin _ h7
    obtain ⟨out, eo, _, hat⟩ := dns_output_form rt ims ams a8 resourcePath resourceName hattrs
      hname htype hzone e8
    refine ⟨.obj out, eo, ?_⟩
    rw [getPath_out out _ _ hat, f8.1 _ (by decide)]
    exact lookup_erase_same "data" a6 (f6.2 hkeys)

theorem simple_type_drops_data_witness :
    ∃ out, dns_record.TransformState exampleRuntime
          (some (.obj (dnsMembers (addressAttributes ++ [("data", .arr [])])))) "" ""
        = .ok (.json out) ∧
      gjsonGetPath (some out) ["attributes", "data"] = none :=
  simple_type_drops_data exampleRuntime (dnsMembers (addressAttributes ++ [("data", .arr [])]))
    (addressAttributes ++ [("data", .arr [])]) "" "" (by decide) (by decide) (by decide)
    (by decide) (by decide) (by decide) (by decide)

/-- C22: for every instance that is a JSON object whose `attributes` member lacks
a name, a type or a zone, the DNS record migrator returns the instance with
`schema_version` set to `0` and nothing else changed: the `attributes` member
and every other member but `schema_version` are those of the input. -/
theorem incomplete_instance_untouched (rt : GoRuntime) (ims : List (String × Json))
    (attrs : Json) (resourcePath resourceName : String)
    (hattrs : lookupMember "attributes" ims = some attrs)
    (hmissing : gjsonGet (some attrs) "name" = none ∨ gjsonGet (some attrs) "type" = none ∨
      gjsonGet (some attrs) "zone_id" = none) :
    ∃ out, dns_record.TransformState rt (some (.obj ims)) resourcePath resourceName
        = .ok (.json (.obj out)) ∧
      out = setMember "schema_version" (.num "0") ims ∧
      lookupMember "attributes" out = some attrs ∧
      lookupMember "schema_version" out = some (.num "0") ∧
      ∀ k, k ≠ "schema_version" → lookupMember k out = lookupMember k ims :=
  ⟨_, incomplete_form rt ims attrs resourcePath resourceName hattrs hmissing, rfl,
    by rw [lookup_setMember_ne _ _ _ _ (by decide), hattrs],
    lookup_setMember_same _ _ _,
    fun k hk => lookup_setMember_ne k _ _ _ hk⟩

theorem incomplete_instance_untouched_witness :
    ∃ out, dns_record.TransformState exampleRuntime
          (some (.obj (dnsMembers [("name", .str "example.com"), ("value", .str "192.0.2.1")])))
          "" ""
        = .ok (.json (.obj out)) ∧
      out = setMember "schema_version" (.num "0")
        (dnsMembers [("name", .str "example.com"), ("value", .str "192.0.2.1")]) ∧
      lookupMember "attributes" out
        = some (.obj [("name", .str "example.com"), ("value", .str "192.0.2.1")]) ∧
      lookupMember "schema_version" out = some (.num "0") ∧
      ∀ k, k ≠ "schema_version" → lookupMember k out
        = lookupMember k (dnsMembers [("name", .str "example.com"), ("value", .str "192.0.2.1")]) :=
  incomplete_instance_untouched exampleRuntime
    (dnsMembers [("name", .str "example.com"), ("value", .str "192.0.2.1")])
    (.obj [("name", .str "example.com"), ("value", .str "192.0.2.1")]) "" "" (by decide)
    (Or.inr (Or.inl (by decide)))

/-! ## The rule settings of the gateway policy -/

/-- C28 (failing input): for an instance whose `attributes.rule_settings` is the
empty array the gateway policy migrator returns the instance with
`schema_version` set to `0` and `rule_settings` still the empty array. -/
theorem empty_rule_settings_stay_array (rt : GoRuntime) (resourcePath resourceName : String) :
    zero_trust_gateway_policy.TransformState rt (some (.obj emptySettingsMembers)) resourcePath
        resourceName
      = .ok (.json (.obj
          [("attributes", .obj [("name", .str "policy"), ("rule_settings", .arr [])]),
           ("schema_version", .num "0")])) ∧
    gjsonGetPath
        (some (.obj [("attributes", .obj [("name", .str "policy"), ("rule_settings", .arr [])]),
          ("schema_version", .num "0")]))
        ["attributes", "rule_settings"] = some (.arr []) := by
  constructor
  · simp [zero_trust_gateway_policy.TransformState, emptySettingsMembers, stringText,
      gjsonExists, gjsonGet, Json.child, lookupMember,
      zero_trust_gateway_policy.transformRuleSettings, gjsonIsArray, gjsonArray,
      text_set_schema, setMember, replaceMember]
  · decide

/-- C29 (counterexample): in rule settings with a `block_page_reason` of `a` and
a `block_reason` of `b`, the key `block_reason`, which is none of the ten nested
structures and is not `block_page_reason`, is changed: the result holds `a`
there. -/
theorem block_reason_overwritten :
    lookupMember "block_reason" reasonSettings = some (.str "b") ∧
    "block_reason" ∉ zero_trust_gateway_policy.nestedStructures ∧
    zero_trust_gateway_policy.transformRuleSettingsObject exampleRuntime
        (some (.obj reasonSettings))
      = .json (.obj [("block_reason", .str "a")]) := by
  refine ⟨by decide, by decide, ?_⟩
  simp [zero_trust_gateway_policy.transformRuleSettingsObject, reasonSettings, stringText,
    gjsonExists, gjsonGet, Json.child, lookupMember, jsonOfValue, text_set_single,
    text_delete_single, setMember, replaceMember, eraseMember,
    zero_trust_gateway_policy.nestedStructures, zero_trust_gateway_policy.transformNested]

/-- C29 (amended): for every rule settings object with pairwise different keys in
which no nested structure is an array that starts with a string or `null`,
`transformRuleSettingsObject` returns a JSON object in which, for each of the
ten nested structures, the key is absent when its value was the empty array,
holds the transformed form of the first element alone when its value was a
non-empty array (the first element itself for the six structures without a
special rule, when that is an object), and holds what it held when its value
was no array or it was absent; and every key other than these ten and
`block_page_reason` is looked up as before, except `block_reason` when the
settings have a `block_page_reason`. -/
theorem nested_structures_unwrapped (rt : GoRuntime) (ms : List (String × Json))
    (hkeys : uniqueKeys ms)
    (hclean : zero_trust_gateway_policy.nestedStructures.all (cleanNested (some (.obj ms)))
      = true) :
    ∃ out, zero_trust_gateway_policy.transformRuleSettingsObject rt (some (.obj ms))
        = .json (.obj out) ∧
      (∀ name, name ∈ zero_trust_gateway_policy.nestedStructures →
        (lookupMember name ms = some (.arr []) → lookupMember name out = none) ∧
        (∀ first rest, lookupMember name ms = some (.arr (first :: rest)) →
          ∃ v, nestedForm rt name (some first) = .json v ∧ lookupMember name out = some v) ∧
        (∀ fs rest, name ∈ plainStructures →
          lookupMember name ms = some (.arr (.obj fs :: rest)) →
          lookupMember name out = some (.obj fs)) ∧
        (gjsonIsArray (lookupMember name ms) = false →
          lookupMember name out = lookupMember name ms)) ∧
      (∀ k, k ∉ zero_trust_gateway_policy.nestedStructures → k ≠ "block_page_reason" →
        (k ≠ "block_reason" ∨ lookupMember "block_page_reason" ms = none) →
        lookupMember k out = lookupMember k ms) := by
  obtain ⟨cur, out, e, f1, _, r2, f2, q⟩ := settings_object_form rt ms hclean
  refine ⟨out, e, ?_, ?_⟩
  · intro name hmem
    obtain ⟨q1, q2, q3⟩ := q name hmem
    refine ⟨fun h => q1 h hkeys, ?_, ?_, q3⟩
    · intro first rest h
      have hraw : rawJson first = true := by
        have hc := List.all_eq_true.1 hclean name hmem
        unfold cleanNested at hc
        rw [get_member, h] at hc
        exact hc
      obtain ⟨v, hv⟩ := (isJson_iff _).1 (nestedForm_isJson rt name first hraw)
      exact ⟨v, hv, q2 first rest v h hv⟩
    · intro fs rest hplain h
      apply q2 (.obj fs) rest (.obj fs) h
      have h1 : name ≠ "notification_settings" := fun e => by subst e; exact absurd hplain (by decide)
      have h2 : name ≠ "l4override" := fun e => by subst e; exact absurd hplain (by decide)
      have h3 : name ≠ "dns_resolvers" := fun e => by subst e; exact absurd hplain (by decide)
      have h4 : name ≠ "biso_admin_controls" := fun e => by subst e; exact absurd hplain (by decide)
      simp [nestedForm, h1, h2, h3, h4, stringText]
  · intro k hk h1 h2
    rw [f2.1 k hk]
    rcases h2 with h2 | h2
    · apply f1.1 k
      simp [h1, h2]
    · rw [r2 h2]

theorem nested_structures_unwrapped_witness :
    ∃ out, zero_trust_gateway_policy.transformRuleSettingsObject exampleRuntime
          (some (.obj nestedSettings)) = .json (.obj out) ∧
      (∀ name, name ∈ zero_trust_gateway_policy.nestedStructures →
        (lookupMember name nestedSettings = some (.arr []) → lookupMember name out = none) ∧
        (∀ first rest, lookupMember name nestedSettings = some (.arr (first :: rest)) →
          ∃ v, nestedForm exampleRuntime name (some first) = .json v ∧
            lookupMember name out = some v) ∧
        (∀ fs rest, name ∈ plainStructures →
          lookupMember name nestedSettings = some (.arr (.obj fs :: rest)) →
          lookupMember name out = some (.obj fs)) ∧
        (gjsonIsArray (lookupMember name nestedSettings) = false →
          lookupMember name out = lookupMember name nestedSettings)) ∧
      (∀ k, k ∉ zero_trust_gateway_policy.nestedStructures → k ≠ "block_page_reason" →
        (k ≠ "block_reason" ∨ lookupMember "block_page_reason" nestedSettings = none) →
        lookupMember k out = lookupMember k nestedSettings) :=
  nested_structures_unwrapped exampleRuntime nestedSettings (by decide) (by decide)

/-- C30: for every rule settings object with pairwise different keys in which no
nested structure is an array that starts with a string or `null`,
`transformRuleSettingsObject` returns a JSON object; when the settings have a
`block_page_reason` with value `v`, the result has no `block_page_reason` and
its `block_reason` is `v` as `sjson.Set` writes it (a string as it is), and when
they have none, `block_reason` is looked up as before. -/
theorem block_page_reason_renamed (rt : GoRuntime) (ms : List (String × Json))
    (hkeys : uniqueKeys ms)
    (hclean : zero_trust_gateway_policy.nestedStructures.all (cleanNested (some (.obj ms)))
      = true) :
    ∃ out, zero_trust_gateway_policy.transformRuleSettingsObject rt (some (.obj ms))
        = .json (.obj out) ∧
      (∀ v, lookupMember "block_page_reason" ms = some v →
        lookupMember "block_page_reason" out = none ∧
        lookupMember "block_reason" out = some (jsonOfValue rt (some v))) ∧
      (lookupMember "block_page_reason" ms = none →
        lookupMember "block_reason" out = lookupMember "block_reason" ms) ∧
      (∀ s, jsonOfValue rt (some (.str s)) = .str s) := by
  obtain ⟨cur, out, e, _, r1, r2, f2, _⟩ := settings_object_form rt ms hclean
  refine ⟨out, e, ?_, ?_, fun _ => rfl⟩
  · intro v hv
    obtain ⟨hb, hp⟩ := r1 v hv
    exact ⟨by rw [f2.1 _ (by decide)]; exact hp hkeys, by rw [f2.1 _ (by decide)]; exact hb⟩
  · intro hn
    rw [f2.1 _ (by decide), r2 hn]

theorem block_page_reason_renamed_witness :
    ∃ out, zero_trust_gateway_policy.transformRuleSettingsObject exampleRuntime
          (some (.obj nestedSettings)) = .json (.obj out) ∧
      (∀ v, lookupMember "block_page_reason" nestedSettings = some v →
        lookupMember "block_page_reason" out = none ∧
        lookupMember "block_reason" out = some (jsonOfValue exampleRuntime (some v))) ∧
      (lookupMember "block_page_reason" nestedSettings = none →
        lookupMember "block_reason" out = lookupMember "block_reason" nestedSettings) ∧
      (∀ s, jsonOfValue exampleRuntime (some (.str s)) = .str s) :=
  block_page_reason_renamed exampleRuntime nestedSettings (by decide) (by decide)

/-! ## The configuration transform of the DNS record migrator -/

/-- C23: for a block with a `data` attribute and the record type `CAA`,
`processDataAttribute` sets the expression of `data` to a token list of the same
length in which every token is the original token at its position, unless that
token is an identifier `content` followed by an assignment token (directly, or
after a token whose bytes are a single space); in particular an identifier
`content` that is not so followed is carried over. -/
theorem data_attribute_tokens_kept (block : hclwrite.Block) (tokens : List hclwrite.Token)
    (h : hclwrite.Body.GetAttribute block.body "data" = some tokens) :
    ∃ newTokens,
      hclwrite.Body.GetAttribute (dns_record.processDataAttribute block "CAA").body "data"
        = some newTokens ∧
      newTokens.length = tokens.length ∧
      (∀ i token, tokens.get? i = some token →
        ¬ (token.tokenType = hclsyntax.TokenIdent ∧ token.Bytes = "content" ∧
          dns_record.followedByEqual tokens i = true) →
        newTokens.get? i = some token) ∧
      (∀ i token, tokens.get? i = some token →
        token.tokenType = hclsyntax.TokenIdent → token.Bytes = "content" →
        dns_record.followedByEqual tokens i = false → newTokens.get? i = some token) := by
  refine ⟨dns_record.substituteTokens tokens, ?_, length_substituteTokens tokens, ?_, ?_⟩
  · rw [dataAttribute_found block "CAA" tokens h]
    rfl
  · intro i token hg hn
    rw [get?_substituteTokens, hg]
    simp only [Option.map_some', Option.some.injEq]
    exact substituteToken_kept tokens i token hn
  · intro i token hg _ _ hf
    rw [get?_substituteTokens, hg]
    simp only [Option.map_some', Option.some.injEq]
    exact substituteToken_kept tokens i token (fun hh => by simp [hf] at hh)

theorem data_attribute_tokens_kept_witness :
    ∃ newTokens,
      hclwrite.Body.GetAttribute
          (dns_record.processDataAttribute
            ⟨"resource", ["cloudflare_record", "caa"], [.attr "data" dataObjectTokens]⟩
            "CAA").body "data"
        = some newTokens ∧
      newTokens.length = dataObjectTokens.length ∧
      (∀ i token, dataObjectTokens.get? i = some token →
        ¬ (token.tokenType = hclsyntax.TokenIdent ∧ token.Bytes = "content" ∧
          dns_record.followedByEqual dataObjectTokens i = true) →
        newTokens.get? i = some token) ∧
      (∀ i token, dataObjectTokens.get? i = some token →
        token.tokenType = hclsyntax.TokenIdent → token.Bytes = "content" →
        dns_record.followedByEqual dataObjectTokens i = false →
        newTokens.get? i = some token) :=
  data_attribute_tokens_kept
    ⟨"resource", ["cloudflare_record", "caa"], [.attr "data" dataObjectTokens]⟩
    dataObjectTokens rfl

/-- C24 (counterexample): in the tokens of an object written on several lines,
the identifier `content` comes with four spaces before it; the token the loop
of `processDataAttribute` puts in its place is the identifier `value` with no
space before it, so the leading-space count is not the original one. -/
theorem renamed_token_loses_spaces :
    dataObjectTokens.get? 8 = some ⟨ hclsyntax.TokenIdent, "content", 4⟩ ∧
    (dns_record.substituteTokens dataObjectTokens).get? 8
      = some ⟨ hclsyntax.TokenIdent, "value", 0⟩ := by
  constructor
  · rfl
  · rw [get?_substituteTokens]
    rfl

/-- C24 (amended): for a block with a `data` attribute and the record type
`CAA`, at every position where the expression holds an identifier `content`
followed by an assignment token (directly, or after a token whose bytes are a
single space), the expression `processDataAttribute` sets holds a token built
anew: its type is that of the original (an identifier), its bytes are `value`
and its leading-space count is 0, whatever the count of the original was.  So it
is the original token with only the bytes changed exactly when the original had
no space before it. -/
theorem renamed_token_is_fresh (block : hclwrite.Block) (tokens : List hclwrite.Token)
    (i : Nat) (token : hclwrite.Token)
    (h : hclwrite.Body.GetAttribute block.body "data" = some tokens)
    (hg : tokens.get? i = some token)
    (hident : token.tokenType = hclsyntax.TokenIdent) (hbytes : token.Bytes = "content")
    (hf : dns_record.followedByEqual tokens i = true) :
    ∃ newTokens newToken,
      hclwrite.Body.GetAttribute (dns_record.processDataAttribute block "CAA").body "data"
        = some newTokens ∧
      newTokens.get? i = some newToken ∧
      newToken.tokenType = token.tokenType ∧
      newToken.Bytes = "value" ∧
      newToken.SpacesBefore = 0 ∧
      (newToken = { token with Bytes := "value" } ↔ token.SpacesBefore = 0) := by
  have hs : dns_record.substituteToken tokens i token
      = ⟨ hclsyntax.TokenIdent, "value", 0⟩ := by
    unfold dns_record.substituteToken
    simp only [hident, hbytes, hf, and_self, if_true]
  refine ⟨dns_record.substituteTokens tokens, ⟨ hclsyntax.TokenIdent, "value", 0⟩, ?_, ?_,
    hident.symm, rfl, rfl, ?_⟩
  · rw [dataAttribute_found block "CAA" tokens h]
    rfl
  · rw [get?_substituteTokens, hg]
    simp only [Option.map_some', Option.some.injEq]
    exact hs
  · cases token with
    | mk ty bytes spaces =>
      simp only at hident
      subst hident
      constructor
      · intro he
        injection he with _ _ h3
        exact h3.symm
      · intro h0
        simp only at h0
        subst h0
        rfl

/-- C24 (amended), on the tokens of the object written on several lines: the
identifier `content` at position 8, with four spaces before it, is followed by
an assignment token. -/
theorem renamed_token_is_fresh_witness :
    ∃ newTokens newToken,
      hclwrite.Body.GetAttribute
          (dns_record.processDataAttribute
            ⟨"resource", ["cloudflare_record", "caa"], [.attr "data" dataObjectTokens]⟩
            "CAA").body "data"
        = some newTokens ∧
      newTokens.get? 8 = some newToken ∧
      newToken.tokenType = hclsyntax.TokenIdent ∧
      newToken.Bytes = "value" ∧
      newToken.SpacesBefore = 0 ∧
      (newToken = ⟨ hclsyntax.TokenIdent, "value", 4⟩ ↔ (4 : Int) = 0) :=
  renamed_token_is_fresh
    ⟨"resource", ["cloudflare_record", "caa"], [.attr "data" dataObjectTokens]⟩
    dataObjectTokens 8 ⟨ hclsyntax.TokenIdent, "content", 4⟩ rfl rfl rfl rfl rfl

/-- C25 (counterexample): in a CAA block whose data block holds
`tag = { content = 1 }`, the identifier `content` inside the value expression of
`tag` is followed by an assignment token; after `TransformConfig` the expression
of `tag` in the `data` attribute holds `value` in its place, so an inner value
expression is changed. -/
theorem nested_content_key_renamed :
    hclwrite.Body.GetAttribute nestedContentBody "tag"
      = some [⟨ hclsyntax.TokenOBrace, "\x7b", 1⟩, ⟨ hclsyntax.TokenIdent, "content", 1⟩,
          ⟨ hclsyntax.TokenEqual, "=", 1⟩, ⟨ hclsyntax.TokenNumberLit, "1", 1⟩,
          ⟨ hclsyntax.TokenCBrace, "\x7d", 1⟩] ∧
    (resultBlock (dns_record.TransformConfig exampleExtract nestedContentBlock)).map
        (fun out => hclwrite.Body.GetAttribute out.body "data")
      = some (some (tfhcl.literalTokens [("tag",
          [⟨ hclsyntax.TokenOBrace, "\x7b", 1⟩, ⟨ hclsyntax.TokenIdent, "value", 0⟩,
           ⟨ hclsyntax.TokenEqual, "=", 1⟩, ⟨ hclsyntax.TokenNumberLit, "1", 1⟩,
           ⟨ hclsyntax.TokenCBrace, "\x7d", 1⟩])])) := by
  constructor
  · rfl
  · rfl

/-- C26 (counterexample): the MX block with a nested data block comes out of
`TransformConfig` without a nested `data` block and with an attribute `data`
whose expression is an object literal: the block form is not kept. -/
theorem mx_data_block_converted :
    hclwrite.Body.firstBlock mxBlock.body "data" = some mxDataBody ∧
    dns_record.configRecordType exampleExtract mxBlock.body = "MX" ∧
    (resultBlock (dns_record.TransformConfig exampleExtract mxBlock)).map
        (fun out => hclwrite.Body.firstBlock out.body "data") = some none ∧
    (resultBlock (dns_record.TransformConfig exampleExtract mxBlock)).map
        (fun out => hclwrite.Body.GetAttribute out.body "data")
      = some (some (tfhcl.literalTokens [("target", quotedTokens "mail.example.com")])) := by
  refine ⟨rfl, rfl, ?_, ?_⟩
  · have h : (resultBlock (dns_record.TransformConfig exampleExtract mxBlock)).map
        (fun out => (hclwrite.Body.firstBlock out.body "data").isNone) = some true := by decide
    revert h
    cases resultBlock (dns_record.TransformConfig exampleExtract mxBlock) with
    | none => simp
    | some out => cases hclwrite.Body.firstBlock out.body "data" <;> simp
  · rfl

/-- C26 (amended): for every block whose record type is found not to be `CAA`
and which has a nested `data` block, `TransformConfig` returns the block without
a nested `data` block and with an attribute `data` whose expression is the
object literal of the attributes of the first such block, names and
expressions as they were; for the record types `MX` and `URI` the attribute
`priority` is first removed from them. -/
theorem data_block_becomes_attribute (extractString : List hclwrite.Token → String)
    (block : hclwrite.Block) (inner : List hclwrite.Node)
    (hnot : dns_record.configRecordType extractString block.body ≠ "CAA")
    (hblock : hclwrite.Body.firstBlock block.body "data" = some inner) :
    ∃ out, dns_record.TransformConfig extractString block = .ok ⟨[out], false⟩ ∧
      hclwrite.Body.firstBlock out.body "data" = none ∧
      hclwrite.Body.GetAttribute out.body "data"
        = some (tfhcl.literalTokens (hclwrite.Body.attributes
            (if dns_record.configRecordType extractString block.body = "MX" ∨
                dns_record.configRecordType extractString block.body = "URI" then
              hclwrite.Body.RemoveAttribute inner "priority"
            else inner))) := by
  obtain ⟨b3, e, f, _⟩ := config_form extractString block
  have hb : hclwrite.Body.firstBlock b3 "data" = some inner := (f.2.1 "data").trans hblock
  obtain ⟨c1, c2⟩ := data_block_converted
    { tfhcl.RenameResourceType block "cloudflare_record" "cloudflare_dns_record" with body := b3 }
    (dns_record.configRecordType extractString block.body) inner hb
  refine ⟨_, e, c1, ?_⟩
  rw [c2, if_neg hnot, other_callback _ _ hnot]
  rfl

theorem data_block_becomes_attribute_witness :
    ∃ out, dns_record.TransformConfig exampleExtract mxBlock = .ok ⟨[out], false⟩ ∧
      hclwrite.Body.firstBlock out.body "data" = none ∧
      hclwrite.Body.GetAttribute out.body "data"
        = some (tfhcl.literalTokens (hclwrite.Body.attributes
            (if dns_record.configRecordType exampleExtract mxBlock.body = "MX" ∨
                dns_record.configRecordType exampleExtract mxBlock.body = "URI" then
              hclwrite.Body.RemoveAttribute mxDataBody "priority"
            else mxDataBody))) :=
  data_block_becomes_attribute exampleExtract mxBlock mxDataBody (by decide) rfl

/-- C27: `TransformConfig` returns one block, and with the record type it finds
(what the extraction gives for the `type` attribute, the empty string without
one): when that is none of the thirteen data-using types and the block has an
attribute `value`, the returned body has an attribute `content` with exactly
the expression tokens of that `value`, and, the attribute names of the block
being pairwise different, no attribute `value`; when it is one of the thirteen,
the attribute `value` is found as before.  A block without a `type` attribute
has the empty record type, which is none of the thirteen. -/
theorem value_attribute_renamed (extractString : List hclwrite.Token → String)
    (block : hclwrite.Block) :
    ∃ out, dns_record.TransformConfig extractString block = .ok ⟨[out], false⟩ ∧
      (dns_record.complexDataTypes (dns_record.configRecordType extractString block.body)
          = false →
        ∀ tokens, hclwrite.Body.GetAttribute block.body "value" = some tokens →
          hclwrite.Body.GetAttribute out.body "content" = some tokens ∧
          (uniqueAttributes block.body → hclwrite.Body.GetAttribute out.body "value" = none)) ∧
      (dns_record.complexDataTypes (dns_record.configRecordType extractString block.body)
          = true →
        hclwrite.Body.GetAttribute out.body "value"
          = hclwrite.Body.GetAttribute block.body "value") ∧
      (hclwrite.Body.GetAttribute block.body "type" = none →
        dns_record.configRecordType extractString block.body = "" ∧
        dns_record.complexDataTypes "" = false) := by
  obtain ⟨b3, e, _, v1, v2⟩ := config_form extractString block
  refine ⟨_, e, ?_, ?_, ?_⟩
  · intro hcx tokens hval
    obtain ⟨c1, c2⟩ := v1 hcx tokens hval
    rw [data_steps_frame _ _ _ (by decide) (by decide),
      data_steps_frame _ _ _ (by decide) (by decide)]
    exact ⟨c1, c2⟩
  · intro hcx
    rw [data_steps_frame _ _ _ (by decide) (by decide)]
    exact (v2 hcx).1
  · intro hnone
    refine ⟨?_, by decide⟩
    unfold dns_record.configRecordType
    rw [hnone]

theorem value_attribute_renamed_witness :
    ∃ out, dns_record.TransformConfig exampleExtract addressBlock = .ok ⟨[out], false⟩ ∧
      (dns_record.complexDataTypes (dns_record.configRecordType exampleExtract addressBlock.body)
          = false →
        ∀ tokens, hclwrite.Body.GetAttribute addressBlock.body "value" = some tokens →
          hclwrite.Body.GetAttribute out.body "content" = some tokens ∧
          (uniqueAttributes addressBlock.body →
            hclwrite.Body.GetAttribute out.body "value" = none)) ∧
      (dns_record.complexDataTypes (dns_record.configRecordType exampleExtract addressBlock.body)
          = true →
        hclwrite.Body.GetAttribute out.body "value"
          = hclwrite.Body.GetAttribute addressBlock.body "value") ∧
      (hclwrite.Body.GetAttribute addressBlock.body "type" = none →
        dns_record.configRecordType exampleExtract addressBlock.body = "" ∧
        dns_record.complexDataTypes "" = false) :=
  value_attribute_renamed exampleExtract addressBlock

/-! ## The diagnostics of the loop, step by step -/

theorem instanceStep_grows (migrator : Migrator) (rt rn : String) (key : Int) (st : LoopState)
    (inst : Int × Json) :
    st.diagnostics <+: (instanceStep migrator rt rn key st inst).diagnostics := by
  unfold instanceStep
  simp only []
  cases hT : migrator.TransformState inst.2 (pathString (instancePath key inst.1)) rn with
  | error err => exact List.prefix_append _ _
  | ok o =>
    cases o with
    | none => exact List.prefix_refl _
    | some t =>
      simp only []
      cases hS : sjsonSetRaw st.modifiedState (instancePath key inst.1) t with
      | error err => exact List.prefix_append _ _
      | ok x2 => exact List.prefix_refl _

theorem foldl_instanceStep_grows (migrator : Migrator) (rt rn : String) (key : Int)
    (insts : List (Int × Json)) :
    ∀ st : LoopState,
    st.diagnostics <+: (insts.foldl (instanceStep migrator rt rn key) st).diagnostics := by
  induction insts with
  | nil => intro st; exact List.prefix_refl _
  | cons inst rest ih =>
    intro st
    rw [List.foldl_cons]
    exact (instanceStep_grows migrator rt rn key st inst).trans (ih _)

theorem renameStep_diagnostics (migrator : Migrator) (rt : String) (key : Int) (st : LoopState) :
    (renameStep migrator rt key st).diagnostics = st.diagnostics := by
  unfold renameStep
  split
  · simp only []
    split
    · split <;> rfl
    · rfl
  · rfl

theorem resourceStep_grows (provider : MigrationProvider) (src tgt : String) (st : LoopState)
    (entry : Int × Json) :
    st.diagnostics <+: (resourceStep provider src tgt st entry).diagnostics := by
  unfold resourceStep
  by_cases hm : gjsonString (gjsonGet (some entry.2) "mode") = "data"
  · simp only [hm, if_true]
    exact List.prefix_refl _
  · by_cases ht : gjsonString (gjsonGet (some entry.2) "type") = ""
    · simp only [hm, ht, if_true, if_false]
      exact List.prefix_refl _
    · cases hg : provider.GetMigrator (gjsonString (gjsonGet (some entry.2) "type")) src tgt with
      | none =>
        simp only [hm, ht, hg, if_false]
        exact List.prefix_append _ _
      | some migrator =>
        by_cases hx : gjsonExists (gjsonGet (some entry.2) "instances") = true
        · simp only [hm, ht, hg, hx, if_false, Bool.not_true, Bool.false_eq_true]
          have h := foldl_instanceStep_grows migrator
            (gjsonString (gjsonGet (some entry.2) "type"))
            (gjsonString (gjsonGet (some entry.2) "name")) entry.1
            (gjsonForEach (gjsonGet (some entry.2) "instances"))
            (renameStep migrator (gjsonString (gjsonGet (some entry.2) "type")) entry.1 st)
          rw [renameStep_diagnostics] at h
          exact h
        · simp only [hm, ht, hg, hx, if_false, Bool.not_false, if_true]
          exact List.prefix_refl _

theorem foldl_resourceStep_grows (provider : MigrationProvider) (src tgt : String)
    (entries : List (Int × Json)) :
    ∀ st : LoopState,
    st.diagnostics <+: (entries.foldl (resourceStep provider src tgt) st).diagnostics := by
  induction entries with
  | nil => intro st; exact List.prefix_refl _
  | cons entry rest ih =>
    intro st
    rw [List.foldl_cons]
    exact (resourceStep_grows provider src tgt st entry).trans (ih _)

/-- The context `Handle` ends with has the diagnostics it started with as a
prefix of its own. -/
theorem Handle_grows (provider : MigrationProvider) (ctx : Context) :
    ctx.Diagnostics <+: (StateTransformHandler.Handle ⟨provider, none⟩ ctx).1.Diagnostics := by
  unfold StateTransformHandler.Handle
  cases hc : ctx.Content with
  | raw bytes =>
    by_cases hb : bytes.length = 0
    · simp only [hb, if_true]
      exact List.prefix_refl _
    · simp only [hb, if_false]
      exact List.prefix_refl _
  | json doc =>
    by_cases hx : gjsonExists (gjsonGet (some doc) "resources") = true
    · simp only [hx, Bool.not_true, Bool.false_eq_true, if_false, StateTransformHandler.Next]
      exact foldl_resourceStep_grows provider ctx.SourceVersion ctx.TargetVersion
        (gjsonForEach (gjsonGet (some doc) "resources"))
        { modifiedState := doc, transformedCount := 0, datasourceIndices := [],
          diagnostics := ctx.Diagnostics }
    · simp only [hx, Bool.not_false, if_true, StateTransformHandler.Next]
      exact List.prefix_refl _

/-- Either `Handle` returns an error with the context it was given, whatever
the next handler is, or it hands to the next handler the context it ends with
as the last handler. -/
theorem Handle_out (provider : MigrationProvider) (ctx : Context) :
    (∃ err, ∀ next, StateTransformHandler.Handle ⟨provider, next⟩ ctx = (ctx, some err)) ∨
    (∀ next, StateTransformHandler.Handle ⟨provider, next⟩ ctx
      = StateTransformHandler.Next ⟨provider, next⟩
          (StateTransformHandler.Handle ⟨provider, none⟩ ctx).1) := by
  unfold StateTransformHandler.Handle
  cases hc : ctx.Content with
  | raw bytes =>
    left
    by_cases hb : bytes.length = 0
    · exact ⟨"state content is empty", fun next => by simp only [hb, if_true]⟩
    · exact ⟨"invalid JSON in state file", fun next => by simp only [hb, if_false]⟩
  | json doc =>
    right
    intro next
    by_cases hx : gjsonExists (gjsonGet (some doc) "resources") = true
    · simp only [hx, Bool.not_true, Bool.false_eq_true, if_false, StateTransformHandler.Next]
    · simp only [hx, Bool.not_false, if_true, StateTransformHandler.Next]

/-! ## The place of each diagnostic -/

theorem entryInstanceStep_appends (migrator : Migrator) (rt rn : String) (key : Int)
    (acc : EntryAcc) (inst : Int × Json) :
    (entryInstanceStep migrator rt rn key acc inst).diags = acc.diags ∨
    ∃ d, (entryInstanceStep migrator rt rn key acc inst).diags = acc.diags ++ [d] := by
  unfold entryInstanceStep
  cases hT : migrator.TransformState inst.2 (pathString (instancePath key inst.1)) rn with
  | error err => exact Or.inr ⟨_, rfl⟩
  | ok o =>
    cases o with
    | none => exact Or.inl rfl
    | some t =>
      simp only []
      cases hS : sjsonSetRaw acc.entry ["instances", formatInt inst.1] t with
      | error err => exact Or.inr ⟨_, rfl⟩
      | ok x2 => exact Or.inl rfl

theorem placedInstanceDiags_snd (migrator : Migrator) (rt rn : String) (key : Int) :
    ∀ (insts : List (Int × Json)) (acc : EntryAcc),
    (insts.foldl (entryInstanceStep migrator rt rn key) acc).diags
      = acc.diags ++ (placedInstanceDiags migrator rt rn key acc insts).map Prod.snd := by
  intro insts
  induction insts with
  | nil => intro acc; simp [placedInstanceDiags]
  | cons inst rest ih =>
    intro acc
    rw [List.foldl_cons, ih, placedInstanceDiags]
    rcases entryInstanceStep_appends migrator rt rn key acc inst with h | ⟨d, h⟩
    · rw [h]
      simp
    · rw [h]
      simp

theorem placedInstanceDiags_order (migrator : Migrator) (rt rn : String) (key : Int) :
    ∀ (xs : List Json) (start : Nat) (acc : EntryAcc),
    (∀ p, p ∈ placedInstanceDiags migrator rt rn key acc (indexed start xs) →
      (start : Int) ≤ p.1) ∧
    ((placedInstanceDiags migrator rt rn key acc (indexed start xs)).map Prod.fst).Pairwise
      (fun i j => i < j) := by
  intro xs
  induction xs with
  | nil => intro start acc; simp [indexed, placedInstanceDiags]
  | cons x xs ih =>
    intro start acc
    obtain ⟨h1, h2⟩ := ih (start + 1)
      (entryInstanceStep migrator rt rn key acc ((start : Int), x))
    have hlow : ∀ p, p ∈ placedInstanceDiags migrator rt rn key
        (entryInstanceStep migrator rt rn key acc ((start : Int), x)) (indexed (start + 1) xs) →
        (start : Int) < p.1 := by
      intro p hp
      have := h1 p hp
      push_cast at this
      omega
    rw [indexed_cons, placedInstanceDiags]
    rcases entryInstanceStep_appends migrator rt rn key acc ((start : Int), x) with h | ⟨d, h⟩
    · rw [h]
      simp only [List.drop_length, List.map_nil, List.nil_append]
      exact ⟨fun p hp => le_of_lt (hlow p hp), h2⟩
    · rw [h]
      simp only [List.drop_left, List.map_cons, List.map_nil, List.singleton_append,
        List.mem_cons, List.pairwise_cons, List.mem_map]
      refine ⟨?_, ?_, h2⟩
      · rintro p (rfl | hp)
        · exact le_refl _
        · exact le_of_lt (hlow p hp)
      · rintro j ⟨p, hp, rfl⟩
        exact hlow p hp

/-! ## The diagnostics of an entry and of the list, with their places -/

theorem placedEntryDiags_snd (provider : MigrationProvider) (src tgt : String) (key : Int)
    (e : Json) :
    (placedEntryDiags provider src tgt key e).map Prod.snd
      = (entryResult provider src tgt key e).diags := by
  unfold placedEntryDiags entryResult
  by_cases hd : isDatasource e = true
  · simp [hd]
  · by_cases ht : gjsonString (gjsonGet (some e) "type") = ""
    · simp [hd, ht]
    · cases hg : provider.GetMigrator (gjsonString (gjsonGet (some e) "type")) src tgt with
      | none => simp [hd, ht, hg]
      | some migrator =>
        by_cases hx : gjsonExists (gjsonGet (some e) "instances") = true
        · simp only [hd, ht, hg, hx, if_false, Bool.not_true, Bool.false_eq_true]
          rw [placedInstanceDiags_snd, List.map_map]
          rfl
        · simp [hd, ht, hg, hx]

theorem placedEntryDiags_key (provider : MigrationProvider) (src tgt : String) (key : Int)
    (e : Json) : ∀ p, p ∈ placedEntryDiags provider src tgt key e → p.1.1 = key := by
  intro p hp
  unfold placedEntryDiags at hp
  by_cases hd : isDatasource e = true
  · simp [hd] at hp
  · by_cases ht : gjsonString (gjsonGet (some e) "type") = ""
    · simp [hd, ht] at hp
    · cases hg : provider.GetMigrator (gjsonString (gjsonGet (some e) "type")) src tgt with
      | none =>
        simp only [hd, ht, hg, if_false, Bool.false_eq_true, List.mem_singleton] at hp
        rw [hp]
      | some migrator =>
        by_cases hx : gjsonExists (gjsonGet (some e) "instances") = true
        · simp only [hd, ht, hg, hx, if_false, Bool.not_true, Bool.false_eq_true,
            List.mem_map] at hp
          obtain ⟨q, _, rfl⟩ := hp
          rfl
        · simp [hd, ht, hg, hx] at hp

theorem placedEntryDiags_order (provider : MigrationProvider) (src tgt : String) (key : Int)
    (e : Json)
    (harr : (e.child "instances").all (fun v => gjsonIsArray (some v)) = true) :
    ((placedEntryDiags provider src tgt key e).map Prod.fst).Pairwise placedBefore := by
  unfold placedEntryDiags
  by_cases hd : isDatasource e = true
  · simp [hd]
  · by_cases ht : gjsonString (gjsonGet (some e) "type") = ""
    · simp [hd, ht]
    · cases hg : provider.GetMigrator (gjsonString (gjsonGet (some e) "type")) src tgt with
      | none => simp [hd, ht, hg]
      | some migrator =>
        by_cases hx : gjsonExists (gjsonGet (some e) "instances") = true
        · simp only [hd, ht, hg, hx, if_false, Bool.not_true, Bool.false_eq_true]
          cases hi : e.child "instances" with
          | none =>
            have hg2 : gjsonGet (some e) "instances" = none := hi
            rw [hg2] at hx
            simp [gjsonExists] at hx
          | some v =>
            have hg2 : gjsonGet (some e) "instances" = some v := hi
            have hv : gjsonIsArray (some v) = true := by
              rw [hi] at harr
              exact harr
            match v, hv, hg2 with
            | .arr xs, _, hg2 =>
              rw [hg2]
              simp only [gjsonForEach, List.map_map]
              have h := (placedInstanceDiags_order migrator
                (gjsonString (gjsonGet (some e) "type"))
                (gjsonString (gjsonGet (some e) "name")) key xs 0
                ⟨entryRename migrator (gjsonString (gjsonGet (some e) "type")) e, 0, []⟩).2
              rw [List.pairwise_map] at h ⊢
              refine h.imp ?_
              intro a b hab
              exact Or.inr ⟨rfl, a.1, b.1, rfl, rfl, hab⟩
        · simp [hd, ht, hg, hx]

theorem placedDiags_cons (provider : MigrationProvider) (src tgt : String) (start : Nat)
    (e : Json) (es : List Json) :
    placedDiags provider src tgt start (e :: es)
      = placedEntryDiags provider src tgt (start : Int) e ++
        placedDiags provider src tgt (start + 1) es := by
  simp [placedDiags, indexed]

theorem placedDiags_snd (provider : MigrationProvider) (src tgt : String) :
    ∀ (es : List Json) (start : Nat),
    (placedDiags provider src tgt start es).map Prod.snd
      = ((entryResults provider src tgt start es).map (fun r => r.diags)).flatten := by
  intro es
  induction es with
  | nil => intro start; simp [placedDiags, entryResults, indexed]
  | cons e es ih =>
    intro start
    rw [placedDiags_cons, List.map_append, ih, placedEntryDiags_snd, entryResults_cons]
    simp

theorem placedDiags_order (provider : MigrationProvider) (src tgt : String) :
    ∀ (es : List Json) (start : Nat), instanceArrays es →
    (∀ p, p ∈ placedDiags provider src tgt start es → (start : Int) ≤ p.1.1) ∧
    ((placedDiags provider src tgt start es).map Prod.fst).Pairwise placedBefore := by
  intro es
  induction es with
  | nil => intro start _; simp [placedDiags, indexed]
  | cons e es ih =>
    intro start harr
    have harr2 : instanceArrays es := fun x hx => harr x (List.mem_cons_of_mem _ hx)
    obtain ⟨h1, h2⟩ := ih (start + 1) harr2
    have hkey := placedEntryDiags_key provider src tgt (start : Int) e
    have hhead := placedEntryDiags_order provider src tgt (start : Int) e
      (harr e (List.mem_cons_self _ _))
    rw [placedDiags_cons]
    refine ⟨?_, ?_⟩
    · intro p hp
      rcases List.mem_append.1 hp with hp | hp
      · rw [hkey p hp]
      · have := h1 p hp
        push_cast at this
        omega
    · rw [List.map_append, List.pairwise_append]
      refine ⟨hhead, h2, ?_⟩
      intro a ha b hb
      obtain ⟨p, hp, rfl⟩ := List.mem_map.1 ha
      obtain ⟨q, hq, rfl⟩ := List.mem_map.1 hb
      left
      rw [hkey p hp]
      have := h1 q hq
      push_cast at this
      omega

/-! ## The resolver ports -/

theorem portFix_port (rt : GoRuntime) (es : List (String × Json)) (p : Json)
    (h : lookupMember "port" es = some p) :
    portFix rt (.obj es) = .obj (replaceMember "port" (state.ConvertToFloat64 rt (some p)) es) := by
  simp only [portFix, h]

theorem portFix_none (rt : GoRuntime) (x : Json) (h : gjsonGet (some x) "port" = none) :
    portFix rt x = x := by
  cases x with
  | obj es =>
    have h2 : lookupMember "port" es = none := h
    simp only [portFix, h2]
  | null => rfl
  | bool b => rfl
  | num n => rfl
  | str s => rfl
  | arr xs => rfl

theorem port_is_member (x p : Json) (h : gjsonGet (some x) "port" = some p) :
    ∃ es, x = .obj es ∧ lookupMember "port" es = some p := by
  cases x with
  | obj es => exact ⟨es, rfl, h⟩
  | null => simp [gjsonGet, Json.child] at h
  | bool b => simp [gjsonGet, Json.child] at h
  | num n => simp [gjsonGet, Json.child] at h
  | str s => simp [gjsonGet, Json.child] at h
  | arr xs =>
    have hp : parseUint "port" = none := by decide
    simp [gjsonGet, Json.child, hp] at h

theorem portFix_frame (rt : GoRuntime) (x : Json) (k : String) (hk : k ≠ "port") :
    gjsonGet (some (portFix rt x)) k = gjsonGet (some x) k := by
  cases hp : gjsonGet (some x) "port" with
  | none => rw [portFix_none rt x hp]
  | some p =>
    obtain ⟨es, rfl, h⟩ := port_is_member x p hp
    rw [portFix_port rt es p h]
    exact lookup_replace_ne k "port" _ es hk

theorem set_resolver_port (c es : List (String × Json)) (family : String)
    (pre suf : List Json) (v p : Json) (hp : lookupMember "port" es = some p)
    (hl : lookupMember family c = some (.arr (pre ++ .obj es :: suf))) :
    (Text.json (.obj c)).set [family, formatInt (pre.length : Int), "port"] v
      = .json (.obj (replaceMember family
          (.arr ((pre ++ [.obj (replaceMember "port" v es)]) ++ suf)) c)) := by
  have h1 : (Json.obj c).child family = some (.arr (pre ++ .obj es :: suf)) := hl
  have h2 : (Json.arr (pre ++ .obj es :: suf)).child (Nat.repr pre.length) = some (.obj es) := by
    rw [child_arr_repr, get?_append_length]
  have h3 : (Json.obj es).child "port" = some p := hp
  simp only [Text.set, sjsonSetOr, formatInt_natCast]
  rw [setRaw_found_more _ _ _ _ _ _ h1, setRaw_found_more _ _ _ _ _ _ h2]
  simp only [sjsonSetRaw, h3, Json.replaceChild, parseUint_repr, set_append_length]

theorem resolverPorts_fold (rt : GoRuntime) (family : String) :
    ∀ (suf pre : List Json) (c : List (String × Json)),
    lookupMember family c = some (.arr (pre ++ suf)) →
    (indexed pre.length suf).foldl
        (fun r kv =>
          if gjsonExists (gjsonGet (some kv.2) "port") then
            r.set [family, formatInt kv.1, "port"]
              (state.ConvertToFloat64 rt (gjsonGet (some kv.2) "port"))
          else r)
        (Text.json (.obj c))
      = .json (.obj (replaceMember family (.arr (pre ++ suf.map (portFix rt))) c)) := by
  intro suf
  induction suf with
  | nil =>
    intro pre c hl
    simp only [indexed, List.foldl_nil, List.map_nil]
    rw [replace_lookup_self _ _ _ hl]
  | cons x suf ih =>
    intro pre c hl
    rw [indexed_cons, List.foldl_cons]
    cases hp : gjsonGet (some x) "port" with
    | none =>
      have hl2 : lookupMember family c = some (.arr ((pre ++ [x]) ++ suf)) := by
        rw [hl]; simp
      have h := ih (pre ++ [x]) c hl2
      simp only [List.length_append, List.length_singleton] at h
      have hn : gjsonExists (none : Option Json) = false := rfl
      simp only [hp, hn, Bool.false_eq_true, if_false]
      rw [h, List.map_cons, portFix_none rt x hp]
      simp
    | some p =>
      obtain ⟨es, rfl, hm⟩ := port_is_member x p hp
      have hs : (lookupMember family c).isSome := by rw [hl]; rfl
      have hl2 : lookupMember family (replaceMember family
          (.arr ((pre ++ [.obj (replaceMember "port" (state.ConvertToFloat64 rt (some p)) es)])
            ++ suf)) c)
          = some (.arr ((pre ++ [.obj (replaceMember "port"
              (state.ConvertToFloat64 rt (some p)) es)]) ++ suf)) :=
        lookup_replace_same _ _ _ hs
      have h := ih _ _ hl2
      simp only [List.length_append, List.length_singleton] at h
      have hn : gjsonExists (some p) = true := rfl
      simp only [hp, hn, if_true]
      rw [set_resolver_port c es family pre suf _ p hm hl, h, replace_replace_same,
        List.map_cons, portFix_port rt es p hm]
      simp

theorem resolverPorts_step (rt : GoRuntime) (family : String) (c ds : List (String × Json))
    (hc : lookupMember family c = lookupMember family ds) :
    ∃ c2, zero_trust_gateway_policy.resolverPorts rt (.json (.obj c)) (some (.obj ds)) family
        = .json (.obj c2) ∧
      (∀ xs, lookupMember family ds = some (.arr xs) →
        lookupMember family c2 = some (.arr (xs.map (portFix rt)))) ∧
      (gjsonIsArray (lookupMember family ds) = false → c2 = c) ∧
      (∀ k, k ≠ family → lookupMember k c2 = lookupMember k c) ∧
      c2.map Prod.fst = c.map Prod.fst := by
  by_cases harr : gjsonIsArray (lookupMember family ds) = true
  · match hl : lookupMember family ds, harr with
    | some (.arr xs), _ =>
      have hl2 : lookupMember family c = some (.arr ([] ++ xs)) := by rw [hc, hl]; rfl
      have h := resolverPorts_fold rt family xs [] c hl2
      refine ⟨replaceMember family (.arr (xs.map (portFix rt))) c, ?_, ?_, ?_, ?_, ?_⟩
      · unfold zero_trust_gateway_policy.resolverPorts
        simp only [get_member, hl, gjsonExists, gjsonIsArray, gjsonArray, Option.isSome_some,
          and_self, if_true]
        exact h
      · intro ys hy
        injection hy with hy
        injection hy with hy
        subst hy
        exact lookup_replace_same _ _ _ (by rw [hc, hl]; rfl)
      · intro hn
        simp [gjsonIsArray] at hn
      · intro k hk
        exact lookup_replace_ne k family _ c hk
      · exact keys_replaceMember _ _ _
  · have hf : gjsonIsArray (lookupMember family ds) = false := by
      cases h : gjsonIsArray (lookupMember family ds) with
      | true => exact absurd h harr
      | false => rfl
    refine ⟨c, ?_, ?_, fun _ => rfl, fun _ _ => rfl, rfl⟩
    · unfold zero_trust_gateway_policy.resolverPorts
      simp only [get_member, hf, Bool.false_eq_true, and_false, if_false]
    · intro xs hx
      rw [hx] at hf
      simp [gjsonIsArray] at hf

theorem resolvers_form (rt : GoRuntime) (ds : List (String × Json)) :
    ∃ ds2, nestedForm rt "dns_resolvers" (some (.obj ds)) = .json (.obj ds2) ∧
      (∀ family, family = "ipv4" ∨ family = "ipv6" →
        (∀ xs, lookupMember family ds = some (.arr xs) →
          lookupMember family ds2 = some (.arr (xs.map (portFix rt)))) ∧
        (gjsonIsArray (lookupMember family ds) = false →
          lookupMember family ds2 = lookupMember family ds)) ∧
      (∀ k, k ≠ "ipv4" → k ≠ "ipv6" → lookupMember k ds2 = lookupMember k ds) ∧
      ds2.map Prod.fst = ds.map Prod.fst := by
  obtain ⟨c1, e1, a1, b1, f1, k1⟩ := resolverPorts_step rt "ipv4" ds ds rfl
  obtain ⟨c2, e2, a2, b2, f2, k2⟩ := resolverPorts_step rt "ipv6" c1 ds
    (f1 "ipv6" (by decide))
  refine ⟨c2, ?_, ?_, ?_, ?_⟩
  · unfold nestedForm
    simp only [show ¬ ("dns_resolvers" = "notification_settings") by decide,
      show ¬ ("dns_resolvers" = "l4override") by decide, if_false, if_true, stringText]
    rw [e1, e2]
  · intro family hfam
    rcases hfam with rfl | rfl
    · refine ⟨fun xs hx => ?_, fun hn => ?_⟩
      · rw [f2 "ipv4" (by decide)]
        exact a1 xs hx
      · rw [f2 "ipv4" (by decide), b1 hn]
    · refine ⟨fun xs hx => a2 xs hx, fun hn => ?_⟩
      rw [b2 hn]
      exact f1 "ipv6" (by decide)
  · intro k h4 h6
    rw [f2 k h6, f1 k h4]
  · rw [k2, k1]

theorem override_form (rt : GoRuntime) (ls : List (String × Json)) :
    ∃ ls2, nestedForm rt "l4override" (some (.obj ls)) = .json (.obj ls2) ∧
      (∀ p, lookupMember "port" ls = some p →
        lookupMember "port" ls2 = some (state.ConvertToFloat64 rt (some p))) ∧
      (lookupMember "port" ls = none → ls2 = ls) ∧
      (∀ k, k ≠ "port" → lookupMember k ls2 = lookupMember k ls) ∧
      ls2.map Prod.fst = ls.map Prod.fst := by
  cases hp : lookupMember "port" ls with
  | none =>
    refine ⟨ls, ?_, fun p h => absurd h (by simp), fun _ => rfl, fun _ _ => rfl, rfl⟩
    unfold nestedForm
    simp [get_member, hp, gjsonExists, stringText]
  | some p =>
    refine ⟨replaceMember "port" (state.ConvertToFloat64 rt (some p)) ls, ?_, ?_, ?_, ?_, ?_⟩
    · unfold nestedForm
      simp [get_member, hp, gjsonExists, stringText, text_set_single, setMember]
    · intro q hq
      injection hq with hq
      subst hq
      exact lookup_replace_same _ _ _ (by rw [hp]; rfl)
    · intro hn
      simp at hn
    · intro k hk
      exact lookup_replace_ne k "port" _ ls hk
    · exact keys_replaceMember _ _ _

theorem notification_form (rt : GoRuntime) (fs : List (String × Json)) (m : Json)
    (hm : lookupMember "message" fs = some m) :
    nestedForm rt "notification_settings" (some (.obj fs))
      = .json (.obj (eraseMember "message" (setMember "msg" (jsonOfValue rt (some m)) fs))) := by
  unfold nestedForm
  simp [get_member, hm, gjsonExists, stringText, text_set_single, text_delete_single]

/-! ## A second pass of the gateway policy migrator -/

theorem convert_idem (rt : GoRuntime) (hrt : rt.Sound) (v : Option Json) :
    state.ConvertToFloat64 rt (some (state.ConvertToFloat64 rt v)) = state.ConvertToFloat64 rt v := by
  match v with
  | none => rfl
  | some .null => rfl
  | some (.bool b) => rfl
  | some (.arr xs) => rfl
  | some (.obj ms) => rfl
  | some (.num raw) =>
    simp only [state.ConvertToFloat64, hrt.float_idem]
  | some (.str s) =>
    by_cases hp : (rt.parseFloat s).2 = true
    · simp only [state.ConvertToFloat64, hp, if_true, hrt.parse_canonical s hp]
    · simp only [state.ConvertToFloat64, hp, if_false, Bool.false_eq_true]

theorem setMember_self (k : String) (v : Json) (ms : List (String × Json))
    (h : lookupMember k ms = some v) : setMember k v ms = ms := by
  unfold setMember
  rw [h]
  simp only [Option.isSome_some, if_true]
  exact replace_lookup_self k v ms h

theorem resolverPorts_isObject (rt : GoRuntime) (t : Text) (dnsResolvers : Option Json)
    (family : String) (h : t.isObject = true) :
    (zero_trust_gateway_policy.resolverPorts rt t dnsResolvers family).isObject = true := by
  unfold zero_trust_gateway_policy.resolverPorts
  simp only
  split
  · apply foldl_isObject _ _ _ t h
    intro t2 kv h2
    show (if gjsonExists (gjsonGet (some kv.2) "port") = true then _ else t2).isObject = true
    split
    · exact set_isObject _ _ _ h2
    · exact h2
  · exact h

theorem nestedForm_isObject (rt : GoRuntime) (structName : String)
    (es : List (String × Json)) :
    (nestedForm rt structName (some (.obj es))).isObject = true := by
  have hf : (stringText rt (some (.obj es))).isObject = true := rfl
  unfold nestedForm
  split
  · split
    · exact delete_isObject _ _ (set_isObject _ _ _ hf)
    · exact hf
  · split
    · split
      · exact set_isObject _ _ _ hf
      · exact hf
    · split
      · exact resolverPorts_isObject _ _ _ _ (resolverPorts_isObject _ _ _ _ hf)
      · split
        · apply foldl_isObject _ _ _ _ hf
          intro t2 name h2
          exact delete_isObject _ _ h2
        · exact hf

theorem legacy_clean (settings : Option Json) (names : List String)
    (h : names.all (legacyNested settings) = true) :
    names.all (cleanNested settings) = true := by
  rw [List.all_eq_true] at h ⊢
  intro name hname
  have hl := h name hname
  unfold legacyNested at hl
  unfold cleanNested
  split
  · rename_i first rest heq
    rw [heq] at hl
    simp only at hl
    match first, hl with
    | .obj _, _ => rfl
  · rfl

theorem foldl_nested_other (rt : GoRuntime) (o : List (String × Json)) (names : List String)
    (h : ∀ name, name ∈ names → gjsonIsArray (lookupMember name o) = false) (t : Text) :
    names.foldl (zero_trust_gateway_policy.transformNested rt (some (.obj o))) t = t := by
  induction names with
  | nil => rfl
  | cons n rest ih =>
    rw [List.foldl_cons, transformNested_other rt o t n (h n (List.mem_cons_self _ _))]
    exact ih (fun name hm => h name (List.mem_cons_of_mem _ hm))

/-- Settings without a block page reason and without a nested structure in an
array are returned as they are. -/
theorem settings_fixed (rt : GoRuntime) (o : List (String × Json))
    (hb : lookupMember "block_page_reason" o = none)
    (hn : ∀ name, name ∈ zero_trust_gateway_policy.nestedStructures →
      gjsonIsArray (lookupMember name o) = false) :
    zero_trust_gateway_policy.transformRuleSettingsObject rt (some (.obj o)) = .json (.obj o) := by
  unfold zero_trust_gateway_policy.transformRuleSettingsObject
  simp only [get_member, hb, gjsonExists, Option.isSome_none, Bool.false_eq_true, if_false,
    stringText]
  exact foldl_nested_other rt o _ hn _

/-- What the first pass makes of legacy settings is returned by a second pass
as it is. -/
theorem first_pass_settings (rt : GoRuntime) (fs : List (String × Json))
    (hu : uniqueKeys fs)
    (hlegacy : zero_trust_gateway_policy.nestedStructures.all (legacyNested (some (.obj fs)))
      = true) :
    ∃ o, zero_trust_gateway_policy.transformRuleSettingsObject rt (some (.obj fs))
        = .json (.obj o) ∧
      zero_trust_gateway_policy.transformRuleSettingsObject rt (some (.obj o))
        = .json (.obj o) := by
  obtain ⟨cur, o, ho, f1, r1, r2, f2, q⟩ := settings_object_form rt fs
    (legacy_clean _ _ hlegacy)
  refine ⟨o, ho, settings_fixed rt o ?_ ?_⟩
  · rw [f2.1 "block_page_reason" (by decide)]
    cases hb : lookupMember "block_page_reason" fs with
    | none => rw [r2 hb, hb]
    | some v => exact (r1 v hb).2 hu
  · intro name hname
    obtain ⟨q1, q2, q3⟩ := q name hname
    have hl := (List.all_eq_true.1 hlegacy) name hname
    unfold legacyNested at hl
    rw [get_member] at hl
    cases hx : lookupMember name fs with
    | none =>
      rw [q3 (by rw [hx]; rfl), hx]
      rfl
    | some x =>
      match x, hx with
      | .arr [], hx =>
        rw [q1 hx hu]
        rfl
      | .arr (.obj es :: rest), hx =>
        obtain ⟨v, hv⟩ := (isObject_iff _).1 (nestedForm_isObject rt name es)
        rw [q2 _ _ _ hx hv]
        rfl
      | .arr (.null :: rest), hx => rw [hx] at hl; simp [gjsonIsObject] at hl
      | .arr (.bool _ :: rest), hx => rw [hx] at hl; simp [gjsonIsObject] at hl
      | .arr (.num _ :: rest), hx => rw [hx] at hl; simp [gjsonIsObject] at hl
      | .arr (.str _ :: rest), hx => rw [hx] at hl; simp [gjsonIsObject] at hl
      | .arr (.arr _ :: rest), hx => rw [hx] at hl; simp [gjsonIsObject] at hl
      | .null, hx => rw [q3 (by rw [hx]; rfl), hx]; rfl
      | .bool _, hx => rw [q3 (by rw [hx]; rfl), hx]; rfl
      | .num _, hx => rw [q3 (by rw [hx]; rfl), hx]; rfl
      | .str _, hx => rw [q3 (by rw [hx]; rfl), hx]; rfl
      | .obj _, hx => rw [q3 (by rw [hx]; rfl), hx]; rfl

/-! ## One pass of the gateway policy migrator, in full -/

theorem optional_convert (rt : GoRuntime) (ims a ams0 : List (String × Json)) (k : String)
    (hs : (lookupMember "attributes" ims).isSome) :
    ∃ a2, (if gjsonExists (gjsonGet (some (.obj ams0)) k) = true then
          (Text.json (withAttributes ims a)).set ["attributes", k]
            (state.ConvertToFloat64 rt (gjsonGet (some (.obj ams0)) k))
        else .json (withAttributes ims a)) = .json (withAttributes ims a2) ∧
      (∀ p, lookupMember k ams0 = some p →
        a2 = setMember k (state.ConvertToFloat64 rt (some p)) a) ∧
      (lookupMember k ams0 = none → a2 = a) := by
  rw [get_member]
  cases h : lookupMember k ams0 with
  | none => exact ⟨a, by simp [gjsonExists], fun p hp => absurd hp (by simp), fun _ => rfl⟩
  | some p =>
    refine ⟨setMember k (state.ConvertToFloat64 rt (some p)) a, ?_, ?_,
      fun hn => absurd hn (by simp)⟩
    · simp [gjsonExists, text_set_attr ims a k _ hs]
    · intro q hq
      injection hq with hq
      rw [hq]

/-- The result of `TransformState` for an instance whose rule settings are an
object or an array starting with an object, from the attributes after the
conversion of `precedence` and `version` and the settings object as
transformed. -/
theorem gateway_pass (rt : GoRuntime) (ims ams fs o : List (String × Json)) (settings : Json)
    (resourcePath resourceName : String)
    (hattrs : lookupMember "attributes" ims = some (.obj ams))
    (hrule : lookupMember "rule_settings" ams = some settings)
    (hform : settings = .obj fs ∨ ∃ rest, settings = .arr (.obj fs :: rest))
    (ho : zero_trust_gateway_policy.transformRuleSettingsObject rt (some (.obj fs))
      = .json (.obj o)) :
    ∃ a1 a2, zero_trust_gateway_policy.TransformState rt (some (.obj ims)) resourcePath
          resourceName
        = .ok (.json (.obj (setMember "schema_version" (.num "0")
            (replaceMember "attributes" (.obj (setMember "rule_settings" (.obj o) a2)) ims)))) ∧
      (∀ p, lookupMember "precedence" ams = some p →
        a1 = setMember "precedence" (state.ConvertToFloat64 rt (some p)) ams) ∧
      (lookupMember "precedence" ams = none → a1 = ams) ∧
      (∀ p, lookupMember "version" ams = some p →
        a2 = setMember "version" (state.ConvertToFloat64 rt (some p)) a1) ∧
      (lookupMember "version" ams = none → a2 = a1) := by
  have hs := isSome_of_lookup _ _ _ hattrs
  obtain ⟨a1, e1, p1, p2⟩ := optional_convert rt ims ams ams "precedence" hs
  obtain ⟨a2, e2, v1, v2⟩ := optional_convert rt ims a1 ams "version" hs
  refine ⟨a1, a2, ?_, p1, p2, v1, v2⟩
  unfold zero_trust_gateway_policy.TransformState
  simp only [stringText, get_member, hattrs, gjsonExists, Option.isSome_some,
    not_true_eq_false, if_false]
  rw [← withAttributes_self ims ams hattrs]
  simp only [gjsonExists, get_member] at e1 e2
  rw [e1, e2, hrule]
  rcases hform with rfl | ⟨rest, rfl⟩
  · simp only [Option.isSome_some, if_true, zero_trust_gateway_policy.transformRuleSettings,
      gjsonIsArray, gjsonIsObject, Bool.false_eq_true, if_false, ho, Text.splice,
      text_set_attr ims a2 _ _ hs, text_set_top]
  · simp only [Option.isSome_some, if_true, zero_trust_gateway_policy.transformRuleSettings,
      gjsonIsArray, gjsonArray, ho, Text.splice, text_set_attr ims a2 _ _ hs, text_set_top]

/-- A second pass over the result of a first pass returns it unchanged. -/
theorem gateway_second_pass (rt : GoRuntime) (hrt : rt.Sound)
    (ims ams a1 a2 o : List (String × Json)) (resourcePath resourceName : String)
    (hattrs : lookupMember "attributes" ims = some (.obj ams))
    (p1 : ∀ p, lookupMember "precedence" ams = some p →
      a1 = setMember "precedence" (state.ConvertToFloat64 rt (some p)) ams)
    (p2 : lookupMember "precedence" ams = none → a1 = ams)
    (v1 : ∀ p, lookupMember "version" ams = some p →
      a2 = setMember "version" (state.ConvertToFloat64 rt (some p)) a1)
    (v2 : lookupMember "version" ams = none → a2 = a1)
    (ho : zero_trust_gateway_policy.transformRuleSettingsObject rt (some (.obj o))
      = .json (.obj o)) :
    zero_trust_gateway_policy.TransformState rt
        (some (.obj (setMember "schema_version" (.num "0")
          (replaceMember "attributes" (.obj (setMember "rule_settings" (.obj o) a2)) ims))))
        resourcePath resourceName
      = .ok (.json (.obj (setMember "schema_version" (.num "0")
          (replaceMember "attributes" (.obj (setMember "rule_settings" (.obj o) a2)) ims)))) := by
  have hs := isSome_of_lookup _ _ _ hattrs
  have hat := lookup_attributes_top ims (setMember "rule_settings" (.obj o) a2)
    "schema_version" (.num "0") hs (by decide)
  have hrs : lookupMember "rule_settings" (setMember "rule_settings" (.obj o) a2)
      = some (.obj o) := lookup_setMember_same _ _ _
  obtain ⟨b1, b2, e, q1, q2, w1, w2⟩ := gateway_pass rt _ _ o o (.obj o) resourcePath
    resourceName hat hrs (Or.inl rfl) ho
  have hprec : lookupMember "precedence" (setMember "rule_settings" (.obj o) a2)
      = lookupMember "precedence" a1 := by
    rw [lookup_setMember_ne _ _ _ _ (by decide)]
    cases hv : lookupMember "version" ams with
    | none => rw [v2 hv]
    | some v => rw [v1 v hv, lookup_setMember_ne _ _ _ _ (by decide)]
  have hver : lookupMember "version" (setMember "rule_settings" (.obj o) a2)
      = lookupMember "version" a2 := lookup_setMember_ne _ _ _ _ (by decide)
  have hb1 : b1 = setMember "rule_settings" (.obj o) a2 := by
    cases hq : lookupMember "precedence" (setMember "rule_settings" (.obj o) a2) with
    | none => exact q2 hq
    | some q =>
      rw [q1 q hq]
      apply setMember_self
      rw [hq]
      rw [hprec] at hq
      cases hp : lookupMember "precedence" ams with
      | none =>
        rw [p2 hp, hp] at hq
        exact absurd hq (by simp)
      | some p =>
        rw [p1 p hp, lookup_setMember_same] at hq
        injection hq with hq
        rw [← hq, convert_idem rt hrt]
  have hb2 : b2 = b1 := by
    cases hq : lookupMember "version" (setMember "rule_settings" (.obj o) a2) with
    | none => exact w2 hq
    | some q =>
      rw [w1 q hq, hb1]
      apply setMember_self
      rw [hq]
      rw [hver] at hq
      cases hp : lookupMember "version" ams with
      | none =>
        rw [v2 hp] at hq
        have h2 : lookupMember "version" a1 = lookupMember "version" ams := by
          cases hpr : lookupMember "precedence" ams with
          | none => rw [p2 hpr]
          | some p => rw [p1 p hpr, lookup_setMember_ne _ _ _ _ (by decide)]
        rw [h2, hp] at hq
        exact absurd hq (by simp)
      | some p =>
        rw [v1 p hp, lookup_setMember_same] at hq
        injection hq with hq
        rw [← hq, convert_idem rt hrt]
  rw [e, hb2, hb1, setMember_self _ _ _ hrs, replace_lookup_self _ _ _ hat,
    setMember_self _ _ _ (lookup_setMember_same _ _ _)]

/-! ## The token loop over an object literal -/

theorem followedByEqual_shift (pre l : List hclwrite.Token) (i : Nat) :
    dns_record.followedByEqual (pre ++ l) (pre.length + i) = dns_record.followedByEqual l i := by
  have h1 : (pre ++ l).get? (pre.length + i + 1) = l.get? (i + 1) := by
    rw [List.get?_eq_getElem?, List.get?_eq_getElem?, List.getElem?_append_right (by omega)]
    congr 1
    omega
  have h2 : (pre ++ l).get? (pre.length + i + 2) = l.get? (i + 2) := by
    rw [List.get?_eq_getElem?, List.get?_eq_getElem?, List.getElem?_append_right (by omega)]
    congr 1
    omega
  unfold dns_record.followedByEqual
  rw [h1, h2]

theorem substituteToken_shift (pre l : List hclwrite.Token) (i : Nat) (token : hclwrite.Token) :
    dns_record.substituteToken (pre ++ l) (pre.length + i) token
      = dns_record.substituteToken l i token := by
  unfold dns_record.substituteToken
  rw [followedByEqual_shift]

theorem map_enumFrom_from (l pre : List hclwrite.Token) :
    ((l.enumFrom pre.length).map
        (fun it => dns_record.substituteToken (pre ++ l) it.1 it.2))
      = dns_record.substituteFrom l := by
  induction l generalizing pre with
  | nil => rfl
  | cons t rest ih =>
    simp only [List.enumFrom, List.map_cons, dns_record.substituteFrom]
    congr 1
    · exact substituteToken_shift pre (t :: rest) 0 t
    · have h := ih (pre ++ [t])
      simp only [List.length_append, List.length_singleton, List.append_assoc,
        List.singleton_append] at h
      exact h

/-- The loop of `processDataAttribute` gives the tokens of its reading from the
tokens still to come. -/
theorem substituteTokens_from (tokens : List hclwrite.Token) :
    dns_record.substituteTokens tokens = dns_record.substituteFrom tokens := by
  have h := map_enumFrom_from tokens []
  simpa [dns_record.substituteTokens, List.enum] using h

theorem followedByEqual_newline (token : hclwrite.Token) (a b : List hclwrite.Token) :
    dns_record.followedByEqual (token :: (a ++ ⟨ hclsyntax.TokenNewline, "\n", 0⟩ :: b)) 0
      = dns_record.followedByEqual (token :: a) 0 := by
  cases a with
  | nil => simp [dns_record.followedByEqual, hclsyntax.TokenNewline, hclsyntax.TokenEqual]
  | cons x a2 =>
    cases a2 with
    | nil => simp [dns_record.followedByEqual, hclsyntax.TokenNewline, hclsyntax.TokenEqual]
    | cons y a3 => simp [dns_record.followedByEqual]

/-- A newline token stops the look-ahead of the loop: the tokens before it and
the tokens after it are gone through apart. -/
theorem substituteFrom_newline (a b : List hclwrite.Token) :
    dns_record.substituteFrom (a ++ ⟨ hclsyntax.TokenNewline, "\n", 0⟩ :: b)
      = dns_record.substituteFrom a ++
          ⟨ hclsyntax.TokenNewline, "\n", 0⟩ :: dns_record.substituteFrom b := by
  induction a with
  | nil =>
    simp [dns_record.substituteFrom, dns_record.substituteToken, hclsyntax.TokenNewline,
      hclsyntax.TokenIdent]
  | cons t a2 ih =>
    have hf := followedByEqual_newline t a2 b
    rw [List.cons_append, dns_record.substituteFrom, ih]
    simp only [List.cons_append, dns_record.substituteFrom]
    congr 1
    unfold dns_record.substituteToken
    rw [hf]

theorem substituteFrom_entry (entry : String × List hclwrite.Token)
    (rest : List hclwrite.Token) :
    dns_record.substituteFrom (tfhcl.entryTokens entry ++ rest)
      = tfhcl.entryTokens (convertedEntry entry) ++ dns_record.substituteFrom rest := by
  have h := substituteFrom_newline entry.2 rest
  have e1 : tfhcl.entryTokens entry ++ rest
      = ⟨ hclsyntax.TokenIdent, entry.1, 0⟩ :: ⟨ hclsyntax.TokenEqual, "=", 0⟩ ::
          (entry.2 ++ ⟨ hclsyntax.TokenNewline, "\n", 0⟩ :: rest) := by
    simp [tfhcl.entryTokens]
  have e2 : tfhcl.entryTokens (convertedEntry entry) ++ dns_record.substituteFrom rest
      = ⟨ hclsyntax.TokenIdent, if entry.1 = "content" then "value" else entry.1, 0⟩ ::
          ⟨ hclsyntax.TokenEqual, "=", 0⟩ ::
          (dns_record.substituteFrom entry.2 ++
            ⟨ hclsyntax.TokenNewline, "\n", 0⟩ :: dns_record.substituteFrom rest) := by
    simp [tfhcl.entryTokens, convertedEntry, substituteTokens_from]
  rw [e1, e2, dns_record.substituteFrom, dns_record.substituteFrom, h]
  congr 1
  · by_cases hc : entry.1 = "content"
    · simp [dns_record.substituteToken, dns_record.followedByEqual, hc]
    · simp [dns_record.substituteToken, hc]

theorem substituteFrom_entries (entries : List (String × List hclwrite.Token))
    (rest : List hclwrite.Token) :
    dns_record.substituteFrom ((entries.map tfhcl.entryTokens).flatten ++ rest)
      = ((entries.map convertedEntry).map tfhcl.entryTokens).flatten ++
          dns_record.substituteFrom rest := by
  induction entries with
  | nil => rfl
  | cons e es ih =>
    simp only [List.map_cons, List.flatten_cons, List.append_assoc]
    rw [substituteFrom_entry, ih]

/-- The loop of `processDataAttribute` over an object literal renames the keys
`content` and goes through each expression by itself. -/
theorem substituteTokens_literal (entries : List (String × List hclwrite.Token)) :
    dns_record.substituteTokens (tfhcl.literalTokens entries)
      = tfhcl.literalTokens (entries.map convertedEntry) := by
  rw [substituteTokens_from]
  unfold tfhcl.literalTokens
  have h := substituteFrom_newline [⟨ hclsyntax.TokenOBrace, "\x7b", 0⟩]
    ((entries.map tfhcl.entryTokens).flatten ++ [⟨ hclsyntax.TokenCBrace, "\x7d", 0⟩])
  simp only [List.cons_append, List.nil_append, List.append_assoc] at h ⊢
  rw [h, substituteFrom_entries]
  simp [dns_record.substituteFrom, dns_record.substituteToken, hclsyntax.TokenOBrace,
    hclsyntax.TokenCBrace, hclsyntax.TokenIdent]

theorem convertedEntry_idem_key (entry : String × List hclwrite.Token) :
    convertedEntry (renameEntry entry) = convertedEntry entry := by
  unfold convertedEntry renameEntry
  by_cases hc : entry.1 = "content"
  · simp [hc]
  · simp [hc]

theorem attributes_rename_converted (body : List hclwrite.Node) :
    (hclwrite.Body.attributes (tfhcl.RenameAttribute body "content" "value")).map convertedEntry
      = (hclwrite.Body.attributes body).map convertedEntry := by
  induction body with
  | nil => rfl
  | cons node rest ih =>
    cases node with
    | attr n e =>
      by_cases hc : n = "content"
      · subst hc
        simp [tfhcl.RenameAttribute, hclwrite.Body.attributes, convertedEntry]
      · simp [tfhcl.RenameAttribute, hclwrite.Body.attributes, hc, ih]
    | block t l b => simpa [tfhcl.RenameAttribute, hclwrite.Body.attributes] using ih

/-- An expression without an identifier `content` before an assignment token
comes out of the loop as it was. -/
theorem substituteTokens_same (tokens : List hclwrite.Token)
    (h : ∀ i token, tokens.get? i = some token → token.tokenType = hclsyntax.TokenIdent →
      token.Bytes = "content" → dns_record.followedByEqual tokens i = false) :
    dns_record.substituteTokens tokens = tokens := by
  apply List.ext_get?
  intro i
  rw [get?_substituteTokens]
  cases hg : tokens.get? i with
  | none => rfl
  | some t =>
    simp only [Option.map_some', Option.some.injEq]
    apply substituteToken_kept
    intro hh
    rw [h i t hg hh.1 hh.2.1] at hh
    exact absurd hh.2.2 (by decide)

/-- C34: for every context, `Handle` either returns an error with the context
as it was or hands on the context it ends with, and the diagnostics of that
context have the diagnostics on entry as a prefix.  For a document whose
`resources` member is the array `es`, the diagnostics added are those of
`placedDiags`, each appended at the entry and instance it is placed at, in that
order; when the `instances` member of every entry that has one is an array, the
places are in strictly ascending order of entry position and, within an entry,
of instance position. -/
theorem diagnostics_append_only (provider : MigrationProvider) (ctx : Context) :
    ((∃ err, ∀ next, StateTransformHandler.Handle ⟨provider, next⟩ ctx = (ctx, some err)) ∨
      (∀ next, StateTransformHandler.Handle ⟨provider, next⟩ ctx
        = StateTransformHandler.Next ⟨provider, next⟩
            (StateTransformHandler.Handle ⟨provider, none⟩ ctx).1)) ∧
    ctx.Diagnostics <+: (StateTransformHandler.Handle ⟨provider, none⟩ ctx).1.Diagnostics ∧
    ∀ ms es, ctx.Content = .json (.obj ms) → lookupMember "resources" ms = some (.arr es) →
      (StateTransformHandler.Handle ⟨provider, none⟩ ctx).1.Diagnostics
        = ctx.Diagnostics ++
          (placedDiags provider ctx.SourceVersion ctx.TargetVersion 0 es).map Prod.snd ∧
      (instanceArrays es →
        ((placedDiags provider ctx.SourceVersion ctx.TargetVersion 0 es).map
          Prod.fst).Pairwise placedBefore) := by
  refine ⟨Handle_out provider ctx, Handle_grows provider ctx, ?_⟩
  intro ms es hc hr
  refine ⟨?_, fun harr => (placedDiags_order provider _ _ es 0 harr).2⟩
  rw [handle_last provider ctx ms es hc hr, placedDiags_snd]
  rfl

/-- C34, on the example document: the failing instance 1 of entry 1 and the
entry 2 without migrator give the two diagnostics, in this order. -/
theorem diagnostics_append_only_witness :
    exampleCtx.Diagnostics
      <+: (StateTransformHandler.Handle ⟨exampleProvider, none⟩ exampleCtx).1.Diagnostics ∧
    (StateTransformHandler.Handle ⟨exampleProvider, none⟩ exampleCtx).1.Diagnostics
      = exampleCtx.Diagnostics ++
        (placedDiags exampleProvider "v4" "v5" 0 exampleEntries).map Prod.snd ∧
    ((placedDiags exampleProvider "v4" "v5" 0 exampleEntries).map Prod.fst).Pairwise
      placedBefore ∧
    placedDiags exampleProvider "v4" "v5" 0 exampleEntries
      = [((1, some 1), ⟨.error, "Failed to transform resource: cloudflare_record",
            "instance is not an object"⟩),
         ((2, none), ⟨.warning, "Failed to transform resource: other_type",
            "No migrator found for state resource: other_type (vv4 -> vv5)"⟩)] :=
  ⟨(diagnostics_append_only exampleProvider exampleCtx).2.1,
    ((diagnostics_append_only exampleProvider exampleCtx).2.2 exampleMembers exampleEntries
      rfl rfl).1,
    ((diagnostics_append_only exampleProvider exampleCtx).2.2 exampleMembers exampleEntries
      rfl rfl).2 (by decide),
    by decide⟩

/-- C35: for an entry whose mode is `data`, whatever its type and whatever the
registry holds, the callback of the loop only records the position of the entry:
the result is the same for every registry (no lookup or call can show in it),
the diagnostics, the document and the counter are as before, and no diagnostic
is placed at the entry. -/
theorem datasource_not_dispatched (provider : MigrationProvider) (src tgt : String)
    (st : LoopState) (key : Int) (e : Json)
    (hmode : gjsonString (gjsonGet (some e) "mode") = "data") :
    resourceStep provider src tgt st (key, e)
      = { st with datasourceIndices := st.datasourceIndices ++ [key] } ∧
    (∀ provider2 : MigrationProvider,
      resourceStep provider2 src tgt st (key, e) = resourceStep provider src tgt st (key, e)) ∧
    (resourceStep provider src tgt st (key, e)).diagnostics = st.diagnostics ∧
    (resourceStep provider src tgt st (key, e)).modifiedState = st.modifiedState ∧
    (resourceStep provider src tgt st (key, e)).transformedCount = st.transformedCount ∧
    placedEntryDiags provider src tgt key e = [] := by
  have h : ∀ p : MigrationProvider, resourceStep p src tgt st (key, e)
      = { st with datasourceIndices := st.datasourceIndices ++ [key] } := by
    intro p
    unfold resourceStep
    simp only [hmode, if_true]
  refine ⟨h provider, fun p2 => by rw [h p2, h provider], by rw [h provider],
    by rw [h provider], by rw [h provider], ?_⟩
  unfold placedEntryDiags isDatasource
  simp [hmode]

/-- C35, on entry 0 of the example document, a data-mode entry of a type
without migrator. -/
theorem datasource_not_dispatched_witness :
    exampleProvider.GetMigrator "cloudflare_zone" "v4" "v5" = none ∧
    ∀ st : LoopState,
      resourceStep exampleProvider "v4" "v5" st
          (0, .obj [("mode", .str "data"), ("type", .str "cloudflare_zone"), ("name", .str "z"),
            ("instances", .arr [.obj [("attributes", .obj [])]])])
        = { st with datasourceIndices := st.datasourceIndices ++ [0] } :=
  ⟨rfl, fun st => (datasource_not_dispatched exampleProvider "v4" "v5" st 0
    (.obj [("mode", .str "data"), ("type", .str "cloudflare_zone"), ("name", .str "z"),
      ("instances", .arr [.obj [("attributes", .obj [])]])]) rfl).1⟩

/-- C36, the code at the state of the test `State without instances`: the
document has a resource list with one entry, `Handle` returns no error, and the
context it ends with holds two different documents: `Content` has the entry
with the type `cloudflare_record`, the scratch copy `StateJSON` has it with the
type `cloudflare_dns_record`. -/
theorem content_and_scratch_differ :
    resourceList renameOnlyCtx.Content = some [renameOnlyEntry] ∧
    (StateTransformHandler.Handle ⟨exampleProvider, none⟩ renameOnlyCtx).2 = none ∧
    (StateTransformHandler.Handle ⟨exampleProvider, none⟩ renameOnlyCtx).1.Content
      ≠ (StateTransformHandler.Handle ⟨exampleProvider, none⟩ renameOnlyCtx).1.StateJSON ∧
    resourceList (StateTransformHandler.Handle ⟨exampleProvider, none⟩ renameOnlyCtx).1.Content
      = some [.obj [("mode", .str "managed"), ("type", .str "cloudflare_record"),
          ("name", .str "empty"), ("instances", .arr [])]] ∧
    resourceList (StateTransformHandler.Handle ⟨exampleProvider, none⟩ renameOnlyCtx).1.StateJSON
      = some [.obj [("mode", .str "managed"), ("type", .str "cloudflare_dns_record"),
          ("name", .str "empty"), ("instances", .arr [])]] := by
  refine ⟨by decide, by decide, by decide, by decide, by decide⟩

/-- C37: for a document whose `resources` member is the array `es`, the context
`Handle` hands on holds, in `Content` and in `StateJSON`, the members of the
input document in their order with only the value of the first `resources`
member replaced, so every member with another key is found with its value as
before; the resource list put there consists of the entries of `es` that are
not data-mode entries, in their order, each one unchanged except possibly for
the values of its `type` and `instances` members. -/
theorem handle_frame (provider : MigrationProvider) (ctx : Context)
    (ms : List (String × Json)) (es : List Json)
    (hc : ctx.Content = .json (.obj ms)) (hr : lookupMember "resources" ms = some (.arr es)) :
    ∃ (out : Context) (kept scratch : List Json),
      (∀ next, StateTransformHandler.Handle ⟨provider, next⟩ ctx
        = StateTransformHandler.Next ⟨provider, next⟩ out) ∧
      out.Content = .json (.obj (replaceMember "resources" (.arr kept) ms)) ∧
      out.StateJSON = .json (.obj (replaceMember "resources" (.arr scratch) ms)) ∧
      (∀ k, k ≠ "resources" →
        lookupMember k (replaceMember "resources" (.arr kept) ms) = lookupMember k ms ∧
        lookupMember k (replaceMember "resources" (.arr scratch) ms) = lookupMember k ms) ∧
      (replaceMember "resources" (.arr kept) ms).map Prod.fst = ms.map Prod.fst ∧
      (replaceMember "resources" (.arr scratch) ms).map Prod.fst = ms.map Prod.fst ∧
      List.Forall₂ sameFrame (es.filter (fun e => !isDatasource e)) kept ∧
      List.Forall₂ sameFrame (es.filter (fun e => !isDatasource e)) scratch := by
  have hf := forall₂_entryResults provider ctx.SourceVersion ctx.TargetVersion es 0
  have hframe : ∀ list : List Json, ∀ k, k ≠ "resources" →
      lookupMember k (replaceMember "resources" (.arr list) ms) = lookupMember k ms :=
    fun list k hk => lookup_replace_ne k "resources" _ ms hk
  rcases handedOver_content provider ctx ms es hc hr with hcase | hcase
  · exact ⟨handedOver provider ctx ms es, _, _,
      fun next => Handle_resources provider next ctx ms es hc hr, hcase,
      handedOver_stateJSON provider ctx ms es, fun k hk => ⟨hframe _ k hk, hframe _ k hk⟩,
      keys_replaceMember _ _ _, keys_replaceMember _ _ _,
      forall₂_keepManaged es _ hf, forall₂_keepManaged es _ hf⟩
  · refine ⟨handedOver provider ctx ms es, _, _,
      fun next => Handle_resources provider next ctx ms es hc hr, hcase,
      handedOver_stateJSON provider ctx ms es, fun k hk => ⟨hframe _ k hk, hframe _ k hk⟩,
      keys_replaceMember _ _ _, keys_replaceMember _ _ _, ?_, forall₂_keepManaged es _ hf⟩
    exact forall₂_keepManaged es es (forall₂_sameFrame_self es)

/-- C37, on the example document. -/
theorem handle_frame_witness :
    ∃ (out : Context) (kept scratch : List Json),
      (∀ next, StateTransformHandler.Handle ⟨exampleProvider, next⟩ exampleCtx
        = StateTransformHandler.Next ⟨exampleProvider, next⟩ out) ∧
      out.Content = .json (.obj (replaceMember "resources" (.arr kept) exampleMembers)) ∧
      out.StateJSON = .json (.obj (replaceMember "resources" (.arr scratch) exampleMembers)) ∧
      (∀ k, k ≠ "resources" →
        lookupMember k (replaceMember "resources" (.arr kept) exampleMembers)
          = lookupMember k exampleMembers ∧
        lookupMember k (replaceMember "resources" (.arr scratch) exampleMembers)
          = lookupMember k exampleMembers) ∧
      (replaceMember "resources" (.arr kept) exampleMembers).map Prod.fst
        = exampleMembers.map Prod.fst ∧
      (replaceMember "resources" (.arr scratch) exampleMembers).map Prod.fst
        = exampleMembers.map Prod.fst ∧
      List.Forall₂ sameFrame (exampleEntries.filter (fun e => !isDatasource e)) kept ∧
      List.Forall₂ sameFrame (exampleEntries.filter (fun e => !isDatasource e)) scratch :=
  handle_frame exampleProvider exampleCtx exampleMembers exampleEntries rfl rfl

/-- C31 (counterexample): in rule settings whose `notification_settings` is an
object, not a list, and holds a message, the loop of
`transformRuleSettingsObject` skips the structure: the settings come back as
they were, with the `message` member and without a `msg` member. -/
theorem object_notification_keeps_message :
    gjsonGetPath (some (.obj objectNotificationSettings)) ["notification_settings", "message"]
      = some (.str "blocked by policy") ∧
    zero_trust_gateway_policy.transformRuleSettingsObject exampleRuntime
        (some (.obj objectNotificationSettings))
      = .json (.obj objectNotificationSettings) ∧
    gjsonGetPath (some (.obj objectNotificationSettings)) ["notification_settings", "msg"]
      = none := by
  refine ⟨by decide, by decide, by decide⟩

/-- C31 (amended): for every rule settings object whose nested structures that
are non-empty arrays start with a value other than a string or `null`,
`transformRuleSettingsObject` returns an object such that: when
`notification_settings` was an array starting with an object that has a member
`message` with the value `m`, the `notification_settings` of the result is an
object with `msg` holding `m` as `sjson.Set` writes it (a string as it is), with
no `message` when the keys of the object were pairwise different, and with every
member other than `msg` and `message` found as before; when
`notification_settings` was not an array (an object already, or absent), it is
found in the result as it was, a `message` in it included. -/
theorem notification_message_renamed (rt : GoRuntime) (ms : List (String × Json))
    (hclean : zero_trust_gateway_policy.nestedStructures.all (cleanNested (some (.obj ms)))
      = true) :
    ∃ out, zero_trust_gateway_policy.transformRuleSettingsObject rt (some (.obj ms))
        = .json (.obj out) ∧
      (∀ fs rest m, lookupMember "notification_settings" ms = some (.arr (.obj fs :: rest)) →
        lookupMember "message" fs = some m →
        ∃ ns, lookupMember "notification_settings" out = some (.obj ns) ∧
          lookupMember "msg" ns = some (jsonOfValue rt (some m)) ∧
          (∀ s, m = .str s → lookupMember "msg" ns = some (.str s)) ∧
          (uniqueKeys fs → lookupMember "message" ns = none) ∧
          (∀ k, k ≠ "msg" → k ≠ "message" → lookupMember k ns = lookupMember k fs)) ∧
      (gjsonIsArray (lookupMember "notification_settings" ms) = false →
        lookupMember "notification_settings" out
          = lookupMember "notification_settings" ms) := by
  obtain ⟨_, out, ho, _, _, _, _, q⟩ := settings_object_form rt ms hclean
  obtain ⟨_, q2, q3⟩ := q "notification_settings" (by decide)
  refine ⟨out, ho, ?_, q3⟩
  intro fs rest m hn hm
  have hmsg : lookupMember "msg"
      (eraseMember "message" (setMember "msg" (jsonOfValue rt (some m)) fs))
      = some (jsonOfValue rt (some m)) := by
    rw [lookup_erase_ne _ _ _ (by decide), lookup_setMember_same]
  refine ⟨_, q2 _ _ _ hn (notification_form rt fs m hm), hmsg, ?_, ?_, ?_⟩
  · intro s hs
    rw [hmsg, hs]
    rfl
  · intro hu
    exact lookup_erase_same _ _ (uniqueKeys_setMember _ _ _ hu)
  · intro k h1 h2
    rw [lookup_erase_ne _ _ _ h2, lookup_setMember_ne _ _ _ _ h1]

/-- C31 (amended), on rule settings whose notification settings are a list of
one object with the message `blocked by policy`. -/
theorem notification_message_renamed_witness :
    ∃ out ns, zero_trust_gateway_policy.transformRuleSettingsObject exampleRuntime
          (some (.obj resolverSettings)) = .json (.obj out) ∧
      lookupMember "notification_settings" out = some (.obj ns) ∧
      lookupMember "msg" ns = some (.str "blocked by policy") ∧
      lookupMember "message" ns = none ∧
      lookupMember "enabled" ns = some (.bool true) ∧
      lookupMember "support_url" ns = some (.str "https://example.com") := by
  obtain ⟨out, h1, h2, _⟩ := notification_message_renamed exampleRuntime resolverSettings
    (by decide)
  obtain ⟨ns, a1, _, a3, a4, a5⟩ := h2 [("enabled", .bool true),
    ("message", .str "blocked by policy"), ("support_url", .str "https://example.com")] []
    (.str "blocked by policy") rfl rfl
  refine ⟨out, ns, h1, a1, a3 _ rfl, a4 (by decide), ?_, ?_⟩
  · rw [a5 "enabled" (by decide) (by decide)]
    rfl
  · rw [a5 "support_url" (by decide) (by decide)]
    rfl

/-- C32 (counterexample): in an instance whose rule settings hold an
`l4override` that is an object, not a list, with the port `"8080"` as a string,
the loop of `transformRuleSettingsObject` skips the structure: the port of the
result is still the string `"8080"`, not its conversion, the number 8080. -/
theorem object_override_keeps_port :
    (returnedJson (zero_trust_gateway_policy.TransformState exampleRuntime
        (some (.obj objectOverrideMembers)) "" "")).bind
        (fun j => gjsonGetPath (some j) ["attributes", "rule_settings", "l4override", "port"])
      = some (.str "8080") ∧
    state.ConvertToFloat64 exampleRuntime (some (.str "8080")) = .num "8080" := by
  refine ⟨by decide, by decide⟩

/-- C32 (amended): for every gateway policy instance whose `rule_settings` is
an object, or an array starting with an object (its nested structures that are
non-empty arrays starting with a value other than a string or `null`),
`TransformState` returns an object whose `attributes.rule_settings` is an object
`o` such that: when `l4override` was an array starting with an object,
`o.l4override` is that object with the value of `port` replaced by its
conversion and every other member and the order of the keys as before; when
`dns_resolvers` was an array starting with an object, `o.dns_resolvers` is that
object with each of the lists `ipv4` and `ipv6` replaced by the list of its
elements in their order, each with the value of its `port`, if it has one,
replaced by its conversion and every other member as before, with an `ipv4` or
`ipv6` that is not an array and every other member of `dns_resolvers` as
before; and an `l4override` or `dns_resolvers` that was not an array (an object
already, or absent) is found in `o` as it was, its ports not converted.  The
conversion (`state.ConvertToFloat64`) reads a number as `float64`, turns a
string that parses as a number into that number and leaves `null` as it is. -/
theorem ports_normalised (rt : GoRuntime) (ims ams fs : List (String × Json))
    (settings : Json) (resourcePath resourceName : String)
    (hattrs : lookupMember "attributes" ims = some (.obj ams))
    (hrule : lookupMember "rule_settings" ams = some settings)
    (hform : settings = .obj fs ∨ ∃ rest, settings = .arr (.obj fs :: rest))
    (hclean : zero_trust_gateway_policy.nestedStructures.all (cleanNested (some (.obj fs)))
      = true) :
    ∃ out o, zero_trust_gateway_policy.TransformState rt (some (.obj ims)) resourcePath
          resourceName = .ok (.json (.obj out)) ∧
      gjsonGetPath (some (.obj out)) ["attributes", "rule_settings"] = some (.obj o) ∧
      (∀ ls more, lookupMember "l4override" fs = some (.arr (.obj ls :: more)) →
        ∃ ls2, lookupMember "l4override" o = some (.obj ls2) ∧
          (∀ p, lookupMember "port" ls = some p →
            lookupMember "port" ls2 = some (state.ConvertToFloat64 rt (some p))) ∧
          (∀ k, k ≠ "port" → lookupMember k ls2 = lookupMember k ls) ∧
          ls2.map Prod.fst = ls.map Prod.fst) ∧
      (∀ ds more, lookupMember "dns_resolvers" fs = some (.arr (.obj ds :: more)) →
        ∃ ds2, lookupMember "dns_resolvers" o = some (.obj ds2) ∧
          (∀ family, family = "ipv4" ∨ family = "ipv6" →
            (∀ xs, lookupMember family ds = some (.arr xs) →
              lookupMember family ds2 = some (.arr (xs.map (portFix rt)))) ∧
            (gjsonIsArray (lookupMember family ds) = false →
              lookupMember family ds2 = lookupMember family ds)) ∧
          (∀ k, k ≠ "ipv4" → k ≠ "ipv6" → lookupMember k ds2 = lookupMember k ds) ∧
          ds2.map Prod.fst = ds.map Prod.fst) ∧
      (∀ name, name = "l4override" ∨ name = "dns_resolvers" →
        gjsonIsArray (lookupMember name fs) = false →
        lookupMember name o = lookupMember name fs) ∧
      (∀ x k, k ≠ "port" → gjsonGet (some (portFix rt x)) k = gjsonGet (some x) k) ∧
      (∀ x p, gjsonGet (some x) "port" = some p →
        gjsonGet (some (portFix rt x)) "port" = some (state.ConvertToFloat64 rt (some p))) ∧
      (∀ x, gjsonGet (some x) "port" = none → portFix rt x = x) ∧
      (∀ raw, state.ConvertToFloat64 rt (some (.num raw)) = .num (rt.floatOf raw)) ∧
      (∀ s, (rt.parseFloat s).2 = true →
        state.ConvertToFloat64 rt (some (.str s)) = .num (rt.parseFloat s).1) ∧
      state.ConvertToFloat64 rt (some .null) = .null := by
  have hs := isSome_of_lookup _ _ _ hattrs
  obtain ⟨_, o, ho, _, _, _, _, q⟩ := settings_object_form rt fs hclean
  obtain ⟨a1, a2, e, _⟩ := gateway_pass rt ims ams fs o settings resourcePath resourceName
    hattrs hrule hform ho
  refine ⟨_, o, e, ?_, ?_, ?_, ?_, portFix_frame rt, ?_, portFix_none rt, fun _ => rfl, ?_, rfl⟩
  · rw [getPath_out _ _ _ (lookup_attributes_top ims _ _ _ hs (by decide)),
      lookup_setMember_same]
  · intro ls more hl
    obtain ⟨ls2, e2, a, _, f, ks⟩ := override_form rt ls
    exact ⟨ls2, (q "l4override" (by decide)).2.1 _ _ _ hl e2, a, f, ks⟩
  · intro ds more hd
    obtain ⟨ds2, e2, a, f, ks⟩ := resolvers_form rt ds
    exact ⟨ds2, (q "dns_resolvers" (by decide)).2.1 _ _ _ hd e2, a, f, ks⟩
  · intro name hname hna
    rcases hname with rfl | rfl
    · exact (q "l4override" (by decide)).2.2 hna
    · exact (q "dns_resolvers" (by decide)).2.2 hna
  · intro x p hx
    obtain ⟨es, rfl, h⟩ := port_is_member x p hx
    rw [portFix_port rt es p h]
    exact lookup_replace_same _ _ _ (by rw [h]; rfl)
  · intro s hs2
    simp only [state.ConvertToFloat64, hs2, if_true]

/-- C32 (amended), on an instance whose rule settings are an object, with an
override on port 8080 in a list and, in a list, resolvers: two `ipv4`
resolvers, the first with the port `"5353"` and the second without a port, and
one `ipv6` resolver with the port 53. -/
theorem ports_normalised_witness :
    ∃ out o, zero_trust_gateway_policy.TransformState exampleRuntime
          (some (.obj objectRuleMembers)) "" "" = .ok (.json (.obj out)) ∧
      gjsonGetPath (some (.obj out)) ["attributes", "rule_settings"] = some (.obj o) ∧
      (∃ ls2, lookupMember "l4override" o = some (.obj ls2) ∧
        lookupMember "port" ls2 = some (.num "8080") ∧
        lookupMember "ip" ls2 = some (.str "192.0.2.1")) ∧
      (∃ ds2, lookupMember "dns_resolvers" o = some (.obj ds2) ∧
        lookupMember "ipv4" ds2
          = some (.arr [.obj [("ip", .str "192.0.2.53"), ("port", .num "5353")],
              .obj [("ip", .str "192.0.2.54")]]) ∧
        lookupMember "ipv6" ds2
          = some (.arr [.obj [("ip", .str "2001:db8::53"), ("port", .num "53")]]) ∧
        lookupMember "note" ds2 = some (.str "internal")) := by
  obtain ⟨out, o, h1, h2, h3, h4, _⟩ := ports_normalised exampleRuntime objectRuleMembers
    [("name", .str "policy"), ("rule_settings", .obj resolverSettings)] resolverSettings
    (.obj resolverSettings) "" "" rfl rfl (Or.inl rfl) (by decide)
  obtain ⟨ls2, a1, a2, a3, _⟩ := h3 _ _ rfl
  obtain ⟨ds2, b1, b2, b3, _⟩ := h4 _ _ rfl
  refine ⟨out, o, h1, h2, ⟨ls2, a1, ?_, ?_⟩, ⟨ds2, b1, ?_, ?_, ?_⟩⟩
  · rw [a2 _ rfl]
    decide
  · rw [a3 "ip" (by decide)]
    rfl
  · rw [(b2 "ipv4" (Or.inl rfl)).1 _ rfl]
    decide
  · rw [(b2 "ipv6" (Or.inr rfl)).1 _ rfl]
    decide
  · rw [b3 "note" (by decide) (by decide)]
    rfl

/-- C39: under the facts about the runtime (printing a `float64` and reading it
back gives the same `float64`), for every gateway policy instance whose
`rule_settings` is an object, or an array starting with an object, with pairwise
different keys, each of whose nested structures is absent, not an array, an
empty array or an array starting with an object: `TransformState` returns a
JSON text, and `TransformState` applied to that text, with any path and name,
returns the same text. -/
theorem gateway_transform_idempotent (rt : GoRuntime) (hrt : rt.Sound)
    (ims ams fs : List (String × Json)) (settings : Json) (resourcePath resourceName : String)
    (hattrs : lookupMember "attributes" ims = some (.obj ams))
    (hrule : lookupMember "rule_settings" ams = some settings)
    (hform : settings = .obj fs ∨ ∃ rest, settings = .arr (.obj fs :: rest))
    (hu : uniqueKeys fs)
    (hlegacy : zero_trust_gateway_policy.nestedStructures.all (legacyNested (some (.obj fs)))
      = true) :
    ∃ out, zero_trust_gateway_policy.TransformState rt (some (.obj ims)) resourcePath
          resourceName = .ok (.json out) ∧
      ∀ path2 name2,
        zero_trust_gateway_policy.TransformState rt (some out) path2 name2 = .ok (.json out) := by
  obtain ⟨o, ho, hfix⟩ := first_pass_settings rt fs hu hlegacy
  obtain ⟨a1, a2, e, p1, p2, v1, v2⟩ := gateway_pass rt ims ams fs o settings resourcePath
    resourceName hattrs hrule hform ho
  exact ⟨_, e, fun path2 name2 =>
    gateway_second_pass rt hrt ims ams a1 a2 o path2 name2 hattrs p1 p2 v1 v2 hfix⟩

/-- C39, on the example policy, whose rule settings are a list of one object
with a block page reason, an override in a list and an empty `egress` list. -/
theorem gateway_transform_idempotent_witness :
    ∃ out, zero_trust_gateway_policy.TransformState exampleRuntime (some (.obj policyMembers))
          "" "" = .ok (.json out) ∧
      ∀ path2 name2,
        zero_trust_gateway_policy.TransformState exampleRuntime (some out) path2 name2
          = .ok (.json out) :=
  gateway_transform_idempotent exampleRuntime exampleRuntime_sound policyMembers
    [("precedence", .num "100"),
      ("rule_settings", .arr [.obj [("block_page_reason", .str "blocked"),
        ("l4override", .arr [.obj [("ip", .str "192.0.2.1"), ("port", .num "8080")]]),
        ("egress", .arr [])]])]
    [("block_page_reason", .str "blocked"),
      ("l4override", .arr [.obj [("ip", .str "192.0.2.1"), ("port", .num "8080")]]),
      ("egress", .arr [])]
    (.arr [.obj [("block_page_reason", .str "blocked"),
        ("l4override", .arr [.obj [("ip", .str "192.0.2.1"), ("port", .num "8080")]]),
        ("egress", .arr [])]])
    "" "" rfl rfl (Or.inr ⟨[], rfl⟩) (by decide) (by decide)

/-- C40: for every runtime, instance value (also a missing one), path and
resource name, `TransformState` of the DNS record migrator and `TransformState`
of the gateway policy migrator return a text with a nil error; and for a
migrator whose `TransformState` returns no error on an instance, the callback of
the instance loop leaves the loop state as it was, or patches the document and
counts the instance, or appends the diagnostic of a failed document update:
the diagnostic of a failed transform is not appended. -/
theorem transform_state_never_fails (rt : GoRuntime) (stateJSON : Option Json)
    (resourcePath resourceName : String) :
    (∃ t, dns_record.TransformState rt stateJSON resourcePath resourceName = .ok t) ∧
    (∃ t, zero_trust_gateway_policy.TransformState rt stateJSON resourcePath resourceName
      = .ok t) ∧
    ∀ (migrator : Migrator) (resourceType name : String) (key : Int) (st : LoopState)
      (inst : Int × Json) (o : Option Json),
      migrator.TransformState inst.2 (pathString (instancePath key inst.1)) name = .ok o →
      instanceStep migrator resourceType name key st inst = st ∨
      (∃ t newState, o = some t ∧
        sjsonSetRaw st.modifiedState (instancePath key inst.1) t = .ok newState ∧
        instanceStep migrator resourceType name key st inst
          = { st with modifiedState := newState,
                      transformedCount := st.transformedCount + 1 }) ∨
      (∃ t err, o = some t ∧
        sjsonSetRaw st.modifiedState (instancePath key inst.1) t = .error err ∧
        instanceStep migrator resourceType name key st inst
          = { st with diagnostics := st.diagnostics ++
                [⟨.error, "Failed to update state JSON for resource: " ++ resourceType,
                  err⟩] }) := by
  refine ⟨?_, ?_, ?_⟩
  · unfold dns_record.TransformState
    simp only
    split
    · exact ⟨_, rfl⟩
    · split
      · exact ⟨_, rfl⟩
      · exact ⟨_, rfl⟩
  · unfold zero_trust_gateway_policy.TransformState
    simp only
    split
    · exact ⟨_, rfl⟩
    · exact ⟨_, rfl⟩
  · intro migrator resourceType name key st inst o hok
    unfold instanceStep
    simp only [hok]
    cases o with
    | none => exact Or.inl rfl
    | some t =>
      simp only
      cases hS : sjsonSetRaw st.modifiedState (instancePath key inst.1) t with
      | error err => exact Or.inr (Or.inr ⟨t, err, rfl, hS, rfl⟩)
      | ok newState => exact Or.inr (Or.inl ⟨t, newState, rfl, hS, rfl⟩)

/-- C40, on the instance without attributes and, for the instance loop, on the
example migrator at an object instance. -/
theorem transform_state_never_fails_witness :
    (∃ t, dns_record.TransformState exampleRuntime (some bareInstance) "" "" = .ok t) ∧
    (∃ t, zero_trust_gateway_policy.TransformState exampleRuntime (some bareInstance) "" ""
      = .ok t) ∧
    ∀ st : LoopState,
      instanceStep exampleMigrator "cloudflare_record" "a" 1 st (0, .obj []) = st ∨
      (∃ t newState, some (Json.obj [("schema_version", .num "0")]) = some t ∧
        sjsonSetRaw st.modifiedState (instancePath 1 0) t = .ok newState ∧
        instanceStep exampleMigrator "cloudflare_record" "a" 1 st (0, .obj [])
          = { st with modifiedState := newState,
                      transformedCount := st.transformedCount + 1 }) ∨
      (∃ t err, some (Json.obj [("schema_version", .num "0")]) = some t ∧
        sjsonSetRaw st.modifiedState (instancePath 1 0) t = .error err ∧
        instanceStep exampleMigrator "cloudflare_record" "a" 1 st (0, .obj [])
          = { st with diagnostics := st.diagnostics ++
                [⟨.error, "Failed to update state JSON for resource: cloudflare_record",
                  err⟩] }) :=
  ⟨(transform_state_never_fails exampleRuntime (some bareInstance) "" "").1,
    (transform_state_never_fails exampleRuntime (some bareInstance) "" "").2.1,
    fun st => (transform_state_never_fails exampleRuntime (some bareInstance) "" "").2.2
      exampleMigrator "cloudflare_record" "a" 1 st (0, .obj [])
      (some (.obj [("schema_version", .num "0")])) rfl⟩

/-- C33 (failing input): an SRV instance whose `attributes.priority` is `null`
and whose data array holds the priority 10.  The priority is present in the
original, and the DNS record migrator returns the instance with
`attributes.priority` set to `0`: the original value `null` is not kept, and
the priority 10 of the data is not put at root level. -/
theorem null_root_priority_becomes_zero :
    lookupMember "priority" nullPriorityAttributes = some .null ∧
    gjsonGetPath (some (.obj (dnsMembers nullPriorityAttributes)))
      ["attributes", "data", "0", "priority"] = some (.num "10") ∧
    returnedJson (dns_record.TransformState exampleRuntime
        (some (.obj (dnsMembers nullPriorityAttributes))) "" "")
      = some (.obj [("attributes", .obj [("name", .str "example.com"), ("type", .str "SRV"),
          ("zone_id", .str "abc123"), ("priority", .num "0"),
          ("data", .obj [("priority", .num "10"), ("weight", .num "60"), ("port", .num "5060"),
            ("target", .str "sip.example.com")]),
          ("created_on", .str "2024-01-01T00:00:00Z"),
          ("modified_on", .str "2024-01-01T00:00:00Z"), ("ttl", .num "1")]),
        ("schema_version", .num "0")]) ∧
    resultFloat exampleRuntime (some .null) = "0" := by
  refine ⟨by decide, by decide, by decide, rfl⟩

/-- C38 (failing input): an A record with the content `198.51.100.7` and the
value `192.0.2.1`.  `A` is none of the data-using types for either transform.
`TransformConfig` returns the block with the expression of `value` under
`content` and no `value`; `TransformState` returns the instance with the
original content under `content` and no `value`: the two disagree on which of
the two survives. -/
theorem value_and_content_disagree :
    dns_record.complexDataTypes "A" = false ∧ dns_record.usesDataField "A" = false ∧
    (resultBlock (dns_record.TransformConfig exampleExtract bothBlock)).map
        (fun out => (hclwrite.Body.GetAttribute out.body "content",
          hclwrite.Body.GetAttribute out.body "value"))
      = some (some (quotedTokens "192.0.2.1"), none) ∧
    (returnedJson (dns_record.TransformState exampleRuntime
        (some (.obj (dnsMembers bothAttributes))) "" "")).map
        (fun out => (gjsonGetPath (some out) ["attributes", "content"],
          gjsonGetPath (some out) ["attributes", "value"]))
      = some (some (.str "198.51.100.7"), none) := by
  refine ⟨by decide, by decide, by decide, by decide⟩

/-- C25 (amended): for every block with the type label `cloudflare_record` whose
record type is found to be `CAA` and which has a nested `data` block,
`TransformConfig` returns the block with the type label `cloudflare_dns_record`,
without a nested `data` block, and with an attribute `data` whose expression is
the object literal of the entries of the first `data` block, in their order:
each key `content` renamed to `value`, every other key as it was, and each
expression as the loop of `processDataAttribute` leaves it.  That is the
expression itself, token for token, unless it holds an identifier `content`
followed by an assignment token; in any case it has as many tokens as before,
and each token that is not such an identifier is in its place. -/
theorem caa_block_converted (extractString : List hclwrite.Token → String)
    (block : hclwrite.Block) (rest : List String) (inner : List hclwrite.Node)
    (hlabels : block.labels = "cloudflare_record" :: rest)
    (hcaa : dns_record.configRecordType extractString block.body = "CAA")
    (hblock : hclwrite.Body.firstBlock block.body "data" = some inner) :
    ∃ out, dns_record.TransformConfig extractString block = .ok ⟨[out], false⟩ ∧
      out.labels = "cloudflare_dns_record" :: rest ∧
      hclwrite.Body.firstBlock out.body "data" = none ∧
      hclwrite.Body.GetAttribute out.body "data"
        = some (tfhcl.literalTokens ((hclwrite.Body.attributes inner).map convertedEntry)) ∧
      (∀ entry : String × List hclwrite.Token,
        (convertedEntry entry).1 = (if entry.1 = "content" then "value" else entry.1) ∧
        ((∀ i token, entry.2.get? i = some token → token.tokenType = hclsyntax.TokenIdent →
            token.Bytes = "content" → dns_record.followedByEqual entry.2 i = false) →
          (convertedEntry entry).2 = entry.2) ∧
        (convertedEntry entry).2.length = entry.2.length ∧
        (∀ i token, entry.2.get? i = some token →
          ¬ (token.tokenType = hclsyntax.TokenIdent ∧ token.Bytes = "content" ∧
            dns_record.followedByEqual entry.2 i = true) →
          (convertedEntry entry).2.get? i = some token)) := by
  obtain ⟨b3, e, f, _⟩ := config_form extractString block
  have hb : hclwrite.Body.firstBlock b3 "data" = some inner := (f.2.1 "data").trans hblock
  obtain ⟨c1, c2⟩ := data_block_converted
    { tfhcl.RenameResourceType block "cloudflare_record" "cloudflare_dns_record" with body := b3 }
    (dns_record.configRecordType extractString block.body) inner hb
  refine ⟨_, e, ?_, c1, ?_, ?_⟩
  · rw [data_steps_labels]
    exact renameResourceType_labels block rest hlabels
  · rw [c2, hcaa]
    simp only [if_true, caa_callback, tfhcl.objectTokens]
    rw [substituteTokens_literal, attributes_rename_converted]
  · intro entry
    refine ⟨rfl, fun h => substituteTokens_same entry.2 h, length_substituteTokens entry.2, ?_⟩
    intro i token hg hn
    show (dns_record.substituteTokens entry.2).get? i = some token
    rw [get?_substituteTokens, hg]
    simp only [Option.map_some', Option.some.injEq]
    exact substituteToken_kept entry.2 i token hn

/-- C25 (amended), on a CAA block whose data block holds the flags `0`, the tag
`local.content` and a `content`: the key `content` is renamed, the reference
`local.content` is as it was. -/
theorem caa_block_converted_witness :
    ∃ out, dns_record.TransformConfig exampleExtract localContentBlock = .ok ⟨[out], false⟩ ∧
      out.labels = "cloudflare_dns_record" :: ["caa_local"] ∧
      hclwrite.Body.firstBlock out.body "data" = none ∧
      hclwrite.Body.GetAttribute out.body "data"
        = some (tfhcl.literalTokens [("flags", numberTokens "0"),
            ("tag", [⟨ hclsyntax.TokenIdent, "local", 1⟩, ⟨ hclsyntax.TokenDot, ".", 0⟩,
              ⟨ hclsyntax.TokenIdent, "content", 0⟩]),
            ("value", quotedTokens "letsencrypt.org")]) := by
  obtain ⟨out, h1, h2, h3, h4, _⟩ := caa_block_converted exampleExtract localContentBlock
    ["caa_local"] localContentBody rfl rfl rfl
  exact ⟨out, h1, h2, h3, h4.trans (by decide)⟩

end TfMigrate
